import Mathlib

/-! # Pixel adventure: a shallow embedding of the gameplay core

The JavaScript classes `Player`, `Enemy`, `EnemyManager`, `CombatSystem`,
`InventorySystem`, `QuestSystem` and the event wiring of `GameScene` are
embedded as functions on an explicit `World` state.

Conventions of the embedding

* Game numbers are integers (`Int`); `Math.floor (n * 1.2)` is `n * 6 / 5`,
  `Math.floor (n * 0.8)` is `n * 4 / 5`, `Math.floor (n * 1.5)` is `n * 3 / 2`,
  `Math.ceil (n * 1.2)` is `-(-(n * 6) / 5)` (`/` on `Int` rounds down for a
  positive divisor).  For integers in the safe
  range the floating point products round to the same integers.  The health of
  an enemy is a rational number: the area attack deals `strength * 0.8`, which
  is not a whole number for most strengths.  Arithmetic on rationals and on
  draws of `Math.random ()` is exact; the rounding of floating point numbers
  (`12 * 0.8` is `9.600000000000001`, a draw within `2^-53` of 1) is not part of
  the embedding.
* An uncaught exception ends the call it is thrown in and every call that is
  waiting for it.  The one exception of the embedding is the `TypeError` of
  `Enemy.die` on a destroyed enemy (`this.scene` is `undefined` after
  `destroy ()`); the world counts the exceptions thrown in `typeErrors`, and a
  caller that sees the count changed skips its remaining statements.
* An absent numeric field (`undefined`) is `0`: the source only ever tests such
  fields for truthiness (`item.quantity || 1`, `if (rewards.xp)`,
  `item && item.defense`), where `undefined` and `0` behave alike.
* Objects the source refers to by reference are referred to by position: a quest
  by its index in `activeQuests`, an enemy by its index in the list of all
  enemies, an item by its inventory slot.  Item objects are values; the one
  place where two references to one item object are live, an inventory slot and
  an equipment slot after `equipItem`, is recorded in `World.shared`, and
  `removeItem`, the only function that writes to such an object, updates both.
  (`addItem` stores copies and writes only to objects of type `'consumable'`,
  which `equipItem` never hands to the player.)
* A lookup `table[key] || fallback` in the tables keyed by the fixed names of
  the program (enemy archetypes, weapon ranges, loot tables) is embedded for
  keys that do not name a property every JavaScript object inherits, such as
  `'constructor'` or `'toString'`; for those names the source reads the
  inherited property and does not fall back.  The lookup of the reward item
  templates, whose key is data of a quest, is embedded for every key.
* A slot index is a natural number; an index past the end of the array reads
  `undefined`, as a negative index does in the source.
* `emit` calls its listeners before it returns; the listeners `GameScene`
  registers are part of the embedding, and every emitted event is appended to
  the log of the world.
* `Math.random ()` and `Date.now ()` are global sources: the world carries the
  sequence of values they will return and a read position.  A value of
  `Math.random ()` is a fraction of natural numbers.
* Distances are computed by the engine (`Phaser.Math.Distance.Between`); the
  functions that use one take it as an argument.
* Rendering, tweens, tints, timers, `console.log` and `window.uiManager` calls
  have no effect on the simulation state and are left out.
* A function that may run the level-up loop takes a `fuel : Nat` and returns
  `none` when the fuel is exhausted; `Settles` says that it returns one and the
  same state from some amount of fuel on.
-/

namespace PixelGame

/-! ## Data model -/

/-- A fraction `num / den` of natural numbers: a value of `Math.random ()`,
a drop chance, a rarity multiplier or an attack speed. -/
structure Frac where
  num : Nat
  den : Nat
  deriving DecidableEq, Repr

/-- The comparison `a < b` of two fractions with positive denominators. -/
def Frac.lt (a b : Frac) : Bool := decide (a.num * b.den < b.num * a.den)

/-- A draw of `Math.random ()` lies in `[0, 1)`. -/
def Frac.isDraw (r : Frac) : Prop := r.num < r.den

instance (r : Frac) : Decidable r.isDraw := by
  unfold Frac.isDraw; infer_instance

/-- A JavaScript value used as quest target or event value: a string such as
`'goblin'` or `'any'`, or a number such as the level `2`. -/
inductive Value where
  | str (s : String)
  | num (n : Int)
  deriving DecidableEq, Repr

/-- A JavaScript number as a comparison sees it: `NaN`, an infinity or a finite
value. -/
inductive JsNumber where
  | nan
  | negInfinity
  | posInfinity
  | finite (q : ℚ)
  deriving DecidableEq

/-- The characters `StringToNumber` strips from both ends of a string: the white
space and line terminator characters of ECMAScript. -/
def JsNumber.isWhiteSpace (c : Char) : Bool :=
  let n := c.toNat
  n = 0x09 || n = 0x0A || n = 0x0B || n = 0x0C || n = 0x0D || n = 0x20 || n = 0xA0 ||
    n = 0x1680 || (0x2000 ≤ n && n ≤ 0x200A) || n = 0x2028 || n = 0x2029 || n = 0x202F ||
    n = 0x205F || n = 0x3000 || n = 0xFEFF

/-- The value of a digit character in a base up to 16, if it is one. -/
def JsNumber.digitValue (base : Nat) (c : Char) : Option Nat :=
  let n := c.toNat
  let d : Option Nat :=
    if 48 ≤ n ∧ n ≤ 57 then some (n - 48)
    else if 97 ≤ n ∧ n ≤ 102 then some (n - 87)
    else if 65 ≤ n ∧ n ≤ 70 then some (n - 55)
    else none
  match d with
  | some v => if v < base then some v else none
  | none => none

/-- The value of a possibly empty run of digits (`0` for the empty run); `none`
when a character is not a digit of the base. -/
def JsNumber.digitsValue (base : Nat) (cs : List Char) : Option Nat :=
  cs.foldl
    (fun acc c =>
      match acc, JsNumber.digitValue base c with
      | some v, some d => some (v * base + d)
      | _, _ => none)
    (some 0)

/-- The value of a non-empty run of digits. -/
def JsNumber.digits1Value (base : Nat) (cs : List Char) : Option Nat :=
  if cs = [] then none else JsNumber.digitsValue base cs

/-- An optional sign followed by the rest: the sign (`true` for `-`) and the
rest. -/
def JsNumber.splitSign : List Char → Bool × List Char
  | c :: rest => if c.toNat = 45 then (true, rest) else if c.toNat = 43 then (false, rest)
    else (false, c :: rest)
  | [] => (false, [])

/-- The value of `StrUnsignedDecimalLiteral` other than `Infinity`:
`digits . digits? exponent?`, `. digits exponent?` or `digits exponent?`. -/
def JsNumber.unsignedDecimal (cs : List Char) : Option ℚ :=
  let isExponentMark : Char → Bool := fun c => c.toNat = 101 || c.toNat = 69
  let mantissa := cs.takeWhile (fun c => !isExponentMark c)
  let afterMantissa := cs.dropWhile (fun c => !isExponentMark c)
  let exponent : Option Int :=
    match afterMantissa with
    | [] => some 0
    | _ :: signed =>
      match JsNumber.digits1Value 10 (JsNumber.splitSign signed).2 with
      | some v => some (if (JsNumber.splitSign signed).1 then -(v : Int) else (v : Int))
      | none => none
  let whole := mantissa.takeWhile (fun c => c.toNat ≠ 46)
  let afterWhole := mantissa.dropWhile (fun c => c.toNat ≠ 46)
  let fraction : List Char := afterWhole.drop 1
  let digits : Option (Nat × Nat) :=
    match afterWhole with
    | [] =>
      match JsNumber.digits1Value 10 whole with
      | some v => some (v, 0)
      | none => none
    | _ :: _ =>
      if whole = [] ∧ fraction = [] then none
      else
        match JsNumber.digitsValue 10 whole, JsNumber.digitsValue 10 fraction with
        | some v, some f => some (v * 10 ^ fraction.length + f, fraction.length)
        | _, _ => none
  match digits, exponent with
  | some (v, scale), some e =>
    some ((v : ℚ) * (10 : ℚ) ^ e.toNat / ((10 : ℚ) ^ scale * (10 : ℚ) ^ (-e).toNat))
  | _, _ => none

/-- The conversion `StringToNumber` of ECMAScript: white space is stripped, the
empty string is 0, then a decimal literal with optional sign, fraction and
exponent, `Infinity` with optional sign, or a binary, octal or hexadecimal
integer literal; any other string is `NaN`.  The value of a literal is taken
exactly. -/
def JsNumber.ofString (s : String) : JsNumber :=
  let cs := ((s.toList.dropWhile JsNumber.isWhiteSpace).reverse.dropWhile
    JsNumber.isWhiteSpace).reverse
  let radix : Option (Nat × List Char) :=
    match cs with
    | zero :: mark :: rest =>
      if zero.toNat = 48 then
        if mark.toNat = 120 ∨ mark.toNat = 88 then some (16, rest)
        else if mark.toNat = 111 ∨ mark.toNat = 79 then some (8, rest)
        else if mark.toNat = 98 ∨ mark.toNat = 66 then some (2, rest)
        else none
      else none
    | _ => none
  if cs = [] then JsNumber.finite 0
  else
    match radix with
    | some (base, digits) =>
      match JsNumber.digits1Value base digits with
      | some v => JsNumber.finite (v : ℚ)
      | none => JsNumber.nan
    | none =>
      let negative := (JsNumber.splitSign cs).1
      let unsigned := (JsNumber.splitSign cs).2
      if unsigned = "Infinity".toList then
        if negative then JsNumber.negInfinity else JsNumber.posInfinity
      else
        match JsNumber.unsignedDecimal unsigned with
        | some q => JsNumber.finite (if negative then -q else q)
        | none => JsNumber.nan

/-- The comparison `a >= b` of two numbers: false when either is `NaN`. -/
def JsNumber.ge : JsNumber → JsNumber → Bool
  | .nan, _ => false
  | _, .nan => false
  | _, .negInfinity => true
  | .posInfinity, _ => true
  | .negInfinity, _ => false
  | _, .posInfinity => false
  | .finite a, .finite b => decide (b ≤ a)

/-- The UTF-16 code units of a string, which the comparison of two strings goes
by. -/
def JsNumber.codeUnits (s : String) : List Nat :=
  s.toList.flatMap fun c =>
    if c.toNat < 0x10000 then [c.toNat]
    else [0xD800 + (c.toNat - 0x10000) / 0x400, 0xDC00 + (c.toNat - 0x10000) % 0x400]

/-- The comparison `a < b` of two strings: lexicographic on the code units. -/
def JsNumber.unitsLt : List Nat → List Nat → Bool
  | _, [] => false
  | [], _ :: _ => true
  | x :: xs, y :: ys => decide (x < y) || (decide (x = y) && JsNumber.unitsLt xs ys)

/-- The JavaScript comparison `value >= target`.  Numbers compare as numbers and
strings as strings; in a mixed comparison the string is converted to a number
by `StringToNumber`. -/
def Value.ge : Value → Value → Bool
  | .num a, .num b => decide (b ≤ a)
  | .str a, .str b => !JsNumber.unitsLt (JsNumber.codeUnits a) (JsNumber.codeUnits b)
  | .num a, .str b => JsNumber.ge (JsNumber.finite (a : ℚ)) (JsNumber.ofString b)
  | .str a, .num b => JsNumber.ge (JsNumber.ofString a) (JsNumber.finite (b : ℚ))

/-- An item record.  `id` is absent on the starting equipment; `damage`,
`defense`, `value` and `quantity` are `0` when the field is absent.  The display
name is left out. -/
structure Item where
  id : Option String
  type : String
  rarity : Option String := none
  damage : Int := 0
  attackSpeed : Option Frac := none
  defense : Int := 0
  effect : Option String := none
  value : Int := 0
  quantity : Int := 0
  deriving DecidableEq, Repr

/-- The four equipment slots of the player (`null` is `none`). -/
structure Equipment where
  weapon : Option Item
  armor : Option Item
  helmet : Option Item
  boots : Option Item
  deriving DecidableEq, Repr

/-- The field `this.stats` of the player. -/
structure Stats where
  level : Int
  hp : Int
  maxHp : Int
  mp : Int
  maxMp : Int
  xp : Int
  xpToNext : Int
  strength : Int
  dexterity : Int
  intelligence : Int
  defense : Int
  deriving DecidableEq, Repr

/-- The simulation state of the player object; `velocityX` is the horizontal
velocity of its physics body. -/
structure Player where
  stats : Stats
  invulnerable : Bool
  invulnerabilityTime : Int
  x : ℚ
  y : ℚ
  facingRight : Bool
  equipment : Equipment
  velocityX : ℚ := 0
  deriving DecidableEq, Repr

/-- The field `this.stats` of an enemy, copied from its archetype. -/
structure EnemyStats where
  hp : ℚ
  maxHp : ℚ
  damage : Int
  speed : Int
  xpReward : Int
  goldReward : Int
  deriving DecidableEq, Repr

/-- The three values `this.state` of an enemy takes. -/
inductive AIState where
  | patrol
  | chase
  | attack
  deriving DecidableEq, Repr

/-- The simulation state of an enemy object.  `inGroup` is membership of the
group `enemyManager.enemies`; `active` is the flag of the game object and
`hasScene` says that its field `this.scene` is set: `destroy ()` clears
both. -/
structure Enemy where
  enemyType : String
  stats : EnemyStats
  state : AIState
  patrolDirection : Int
  patrolDistance : ℚ
  originalX : ℚ
  detectionRange : ℚ
  attackRange : ℚ
  attackCooldown : Int
  lastAttackTime : Int
  speed : Int
  facingRight : Bool
  x : ℚ
  y : ℚ
  velocityX : ℚ
  active : Bool
  inGroup : Bool
  hasScene : Bool := true
  deriving DecidableEq, Repr

/-- The reward bundle of a quest (an absent `xp` or `gold` is `0`, an absent
`items` is the empty list). -/
structure Rewards where
  xp : Int := 0
  gold : Int := 0
  items : List String := []
  deriving DecidableEq, Repr

/-- The argument of `addQuest` (title, objective, progress, rewards; the
description is display text and left out). -/
structure QuestData where
  title : String
  type : String
  target : Value
  required : Int
  current : Int
  rewards : Rewards
  deriving DecidableEq, Repr

/-- A quest object as stored by the quest system. -/
structure Quest where
  id : Nat
  title : String
  type : String
  target : Value
  required : Int
  current : Int
  rewards : Rewards
  isActive : Bool
  isCompleted : Bool
  deriving DecidableEq, Repr

/-- The state of the quest system. -/
structure QuestSystem where
  activeQuests : List Quest
  completedQuests : List Quest
  questId : Nat
  deriving DecidableEq, Repr

/-- The state of the inventory system: the slot array (`null` is `none`), the
capacity and the gold total. -/
structure InventorySystem where
  inventory : List (Option Item)
  maxSlots : Nat
  gold : Int
  deriving DecidableEq, Repr

/-- The state of the enemy manager: every enemy object ever spawned, in spawn
order; an enemy is referred to by its position in this list. -/
structure EnemyManager where
  enemies : List Enemy
  deriving DecidableEq, Repr

/-- What the simulation emits, in order: the four events of the source
(`levelUp`, `takeDamage`, `enemyKilled`, `questCompleted`, each with its
payload) and, as a call record, each `giveRewards` call of `completeQuest` with
the id of the quest being completed. -/
inductive Event where
  | levelUp (level : Int)
  | takeDamage (amount : Int)
  | enemyKilled (enemy : Nat)
  | questCompleted (quest : Nat)
  | giveRewards (quest : Nat)
  deriving DecidableEq, Repr

/-- The whole simulation state (the `GameScene` with its systems).  An entry
`(key, slotIndex)` of `shared` says that the item object in the equipment slot
`key` of the player is the very object in the inventory slot `slotIndex`, as it
is after `equipItem` of an item that stays in its slot.  `typeErrors` counts the
uncaught `TypeError` exceptions thrown so far. -/
structure World where
  player : Player
  enemyManager : EnemyManager
  inventorySystem : InventorySystem
  questSystem : QuestSystem
  log : List Event
  random : Nat → Frac
  randomPos : Nat
  clock : Nat → Int
  clockPos : Nat
  shared : List (String × Nat) := []
  typeErrors : Nat := 0

/-- One call of `Math.random ()`. -/
def World.nextRandom (w : World) : Frac × World :=
  (w.random w.randomPos, { w with randomPos := w.randomPos + 1 })

/-- One call of `Date.now ()`. -/
def World.dateNow (w : World) : Int × World :=
  (w.clock w.clockPos, { w with clockPos := w.clockPos + 1 })

/-- Appends an emitted event to the log. -/
def World.emit (w : World) (e : Event) : World :=
  { w with log := w.log ++ [e] }

/-- An uncaught `TypeError` is thrown: the state is as it is at the throw, with
one more exception counted. -/
def World.throwTypeError (w : World) : World :=
  { w with typeErrors := w.typeErrors + 1 }

/-! ## Player -/

/-- Embeds `Player.die`: full health and the respawn position. -/
def Player.die (w : World) : World :=
  { w with player := { w.player with
      stats := { w.player.stats with hp := w.player.stats.maxHp }, x := 400, y := 300 } }

/-- Embeds `Player.takeDamage (damage)`.  The listener of the `takeDamage` event only
flashes the screen. -/
def Player.takeDamage (w : World) (damage : Int) : World :=
  if w.player.invulnerable then w
  else
    let actualDamage := max 1 (damage - w.player.stats.defense)
    let w1 : World := { w with player := { w.player with
      stats := { w.player.stats with hp := max 0 (w.player.stats.hp - actualDamage) },
      invulnerable := true, invulnerabilityTime := 1000 } }
    let w2 := w1.emit (Event.takeDamage actualDamage)
    if w2.player.stats.hp ≤ 0 then Player.die w2 else w2

/-- Embeds `Player.heal (amount)`. -/
def Player.heal (w : World) (amount : Int) : World :=
  { w with player := { w.player with
      stats := { w.player.stats with hp := min w.player.stats.maxHp (w.player.stats.hp + amount) } } }

/-- Embeds `Player.restoreMana (amount)`. -/
def Player.restoreMana (w : World) (amount : Int) : World :=
  { w with player := { w.player with
      stats := { w.player.stats with mp := min w.player.stats.maxMp (w.player.stats.mp + amount) } } }

/-- The assignments of `Player.levelUp` to `this.stats`. -/
def Player.levelUpStats (s : Stats) : Stats :=
  { level := s.level + 1
    xp := s.xp - s.xpToNext
    xpToNext := s.xpToNext * 6 / 5
    maxHp := s.maxHp + 10
    maxMp := s.maxMp + 5
    hp := s.maxHp + 10
    mp := s.maxMp + 5
    strength := s.strength + 2
    dexterity := s.dexterity + 1
    intelligence := s.intelligence + 1
    defense := s.defense + 1 }

/-- The state changes of `Player.levelUp` up to the listener call: the new
stats and the `levelUp` event with the new level. -/
def World.levelUpStep (w : World) : World :=
  let w1 : World := { w with player := { w.player with stats := Player.levelUpStats w.player.stats } }
  w1.emit (Event.levelUp w1.player.stats.level)

/-- Embeds `Player.levelUp`: the stat changes, then `emit ('levelUp', level)`, which
runs the listener `onLevelUp` before returning. -/
def Player.levelUp (onLevelUp : Int → World → Option World) (w : World) : Option World :=
  onLevelUp w.levelUpStep.player.stats.level w.levelUpStep

/-- The loop `while (xp >= xpToNext) levelUp ()` of `Player.gainXP`; the fuel
bounds the number of iterations. -/
def Player.gainXPLoop (onLevelUp : Int → World → Option World) : Nat → World → Option World
  | 0, w => if w.player.stats.xpToNext ≤ w.player.stats.xp then none else some w
  | k + 1, w =>
    if w.player.stats.xpToNext ≤ w.player.stats.xp then
      (Player.levelUp onLevelUp w).bind (Player.gainXPLoop onLevelUp k)
    else some w

/-- The statement `this.stats.xp += amount`. -/
def World.addXP (w : World) (amount : Int) : World :=
  { w with player := { w.player with
      stats := { w.player.stats with xp := w.player.stats.xp + amount } } }

/-- Embeds `Player.gainXP (amount)` with a given listener of the `levelUp` event and a
given bound on the loop iterations. -/
def Player.gainXPWith (onLevelUp : Int → World → Option World) (iterations : Nat)
    (amount : Int) (w : World) : Option World :=
  Player.gainXPLoop onLevelUp iterations (w.addXP amount)

/-- The value `this.equipment[key]` for a key. -/
def Equipment.get (e : Equipment) (key : String) : Option Item :=
  if key = "weapon" then e.weapon
  else if key = "armor" then e.armor
  else if key = "helmet" then e.helmet
  else if key = "boots" then e.boots
  else none

/-- The assignment `this.equipment[key] = item` for one of the four slot keys. -/
def Equipment.set (e : Equipment) (key : String) (item : Item) : Equipment :=
  if key = "weapon" then { e with weapon := some item }
  else if key = "armor" then { e with armor := some item }
  else if key = "helmet" then { e with helmet := some item }
  else if key = "boots" then { e with boots := some item }
  else e

/-- The defense an equipment slot contributes in `updateStats`. -/
def Equipment.slotDefense : Option Item → Int
  | some item => item.defense
  | none => 0

/-- Embeds `Player.updateStats`: base defense 5 plus the defense of every equipped
item. -/
def Player.updateStats (p : Player) : Player :=
  let totalDefense : Int :=
    5 + Equipment.slotDefense p.equipment.weapon + Equipment.slotDefense p.equipment.armor
      + Equipment.slotDefense p.equipment.helmet + Equipment.slotDefense p.equipment.boots
  { p with stats := { p.stats with defense := totalDefense } }

/-- Embeds `Player.equipItem (item)`: the assignment happens only when the slot
`this.equipment[item.type]` currently holds an item. -/
def Player.equipItem (p : Player) (item : Item) : Player :=
  match p.equipment.get item.type with
  | some _ => Player.updateStats { p with equipment := p.equipment.set item.type item }
  | none => p

/-! ## InventorySystem -/

/-- The expression `item.quantity || 1`. -/
def Item.quantityOrOne (item : Item) : Int :=
  if item.quantity = 0 then 1 else item.quantity

/-- The test of `addItem` for a slot the item stacks onto: the slot holds an
item with the same id whose type is `'consumable'`. -/
def InventorySystem.stacksOnto (item : Item) : Option Item → Bool
  | some invItem => decide (invItem.id = item.id) && decide (invItem.type = "consumable")
  | none => false

/-- The test `slot === null`. -/
def InventorySystem.isEmptySlot : Option Item → Bool
  | some _ => false
  | none => true

/-- The statement `existingItem.quantity += n` on a slot. -/
def InventorySystem.addQuantity (n : Int) : Option Item → Option Item
  | some invItem => some { invItem with quantity := invItem.quantity + n }
  | none => none

/-- Embeds `InventorySystem.addItem (item)`: the return value and the new state. -/
def InventorySystem.addItem (inv : InventorySystem) (item : Item) : Bool × InventorySystem :=
  match inv.inventory.findIdx? (InventorySystem.stacksOnto item) with
  | some i =>
    (true, { inv with inventory :=
      inv.inventory.modify (InventorySystem.addQuantity item.quantityOrOne) i })
  | none =>
    match inv.inventory.findIdx? InventorySystem.isEmptySlot with
    | some emptySlot =>
      (true, { inv with inventory :=
        inv.inventory.set emptySlot (some { item with quantity := item.quantityOrOne }) })
    | none =>
      if inv.inventory.length < inv.maxSlots then
        (true, { inv with inventory :=
          inv.inventory ++ [some { item with quantity := item.quantityOrOne }] })
      else (false, inv)

/-- The value `this.inventory[slotIndex]`, with `undefined` and `null` both
`none`. -/
def InventorySystem.slot (inv : InventorySystem) (slotIndex : Nat) : Option Item :=
  (inv.inventory[slotIndex]?).join

/-- A write to the item object of the inventory slot `slotIndex`, seen through
the equipment: every equipment slot that shares the object holds the new value
`item`.  (The slot array itself is updated by the caller.) -/
def World.writeShared (w : World) (slotIndex : Nat) (item : Item) : World :=
  let equipment : Equipment :=
    w.shared.foldl
      (fun (equipment : Equipment) (entry : String × Nat) =>
        if entry.2 = slotIndex then equipment.set entry.1 item else equipment)
      w.player.equipment
  { w with player := { w.player with equipment := equipment } }

/-- Embeds `InventorySystem.removeItem (slotIndex, quantity)`: the returned item object
(after the decrement) and the new state.  The decrement is a write to the item
object; a slot that is cleared no longer shares its object with the equipment. -/
def InventorySystem.removeItem (w : World) (slotIndex : Nat) (quantity : Int) :
    Option Item × World :=
  match w.inventorySystem.slot slotIndex with
  | some item0 =>
    let item : Item := { item0 with quantity := item0.quantity - quantity }
    let w1 := w.writeShared slotIndex item
    if item.quantity ≤ 0 then
      (some item, { w1 with
        inventorySystem := { w1.inventorySystem with
          inventory := w1.inventorySystem.inventory.set slotIndex none }
        shared := w1.shared.filter fun entry => decide (entry.2 ≠ slotIndex) })
    else
      (some item, { w1 with
        inventorySystem := { w1.inventorySystem with
          inventory := w1.inventorySystem.inventory.set slotIndex (some item) } })
  | none => (none, w)

/-- Embeds `InventorySystem.useItem (slotIndex)`. -/
def InventorySystem.useItem (w : World) (slotIndex : Nat) : Bool × World :=
  match w.inventorySystem.slot slotIndex with
  | none => (false, w)
  | some item =>
    if item.type ≠ "consumable" then (false, w)
    else
      let w1 :=
        if item.effect = some "heal" then Player.heal w item.value
        else if item.effect = some "mana" then Player.restoreMana w item.value
        else w
      (true, (InventorySystem.removeItem w1 slotIndex 1).2)

/-- The test `['weapon', 'armor', 'helmet', 'boots'].includes (type)`. -/
def InventorySystem.isEquippable (type : String) : Bool :=
  ["weapon", "armor", "helmet", "boots"].contains type

/-- Embeds `InventorySystem.equipItem (slotIndex)`.  The item object of the slot is the
object handed to `Player.equipItem`: when the player assigns it, the equipment
slot shares the object with the inventory slot from then on (and no longer
shares the object it held before), so the decrement of `removeItem` is seen
through the equipment slot as well. -/
def InventorySystem.equipItem (w : World) (slotIndex : Nat) : Bool × World :=
  match w.inventorySystem.slot slotIndex with
  | none => (false, w)
  | some item =>
    if !InventorySystem.isEquippable item.type then (false, w)
    else
      let w1 : World :=
        match w.player.equipment.get item.type with
        | some currentEquipped =>
          { w with inventorySystem := (w.inventorySystem.addItem currentEquipped).2 }
        | none => w
      let w2 : World := { w1 with
        player := Player.equipItem w1.player item
        shared :=
          if (w1.player.equipment.get item.type).isSome then
            (item.type, slotIndex) :: w1.shared.filter fun entry => decide (entry.1 ≠ item.type)
          else w1.shared }
      (true, (InventorySystem.removeItem w2 slotIndex 1).2)

/-- One entry of a loot table. -/
structure LootData where
  type : String
  subtype : Option String := none
  rarity : Option String := none
  chance : Frac := { num := 1, den := 1 }
  deriving DecidableEq, Repr

/-- Embeds `InventorySystem.generateLootTable (enemyType)`. -/
def InventorySystem.generateLootTable (enemyType : String) : List LootData :=
  let baseLoot : List LootData :=
    [ { type := "gold", chance := { num := 1, den := 1 } },
      { type := "health-potion", chance := { num := 3, den := 10 } },
      { type := "mana-potion", chance := { num := 2, den := 10 } } ]
  let rareLoot : List LootData :=
    if enemyType = "goblin" then
      [ { type := "weapon", subtype := some "sword", rarity := some "common",
          chance := { num := 10, den := 100 } } ]
    else if enemyType = "wolf" then
      [ { type := "armor", subtype := some "leather", rarity := some "common",
          chance := { num := 15, den := 100 } } ]
    else if enemyType = "skeleton" then
      [ { type := "weapon", subtype := some "sword", rarity := some "rare",
          chance := { num := 5, den := 100 } },
        { type := "helmet", subtype := some "bone", rarity := some "uncommon",
          chance := { num := 8, den := 100 } } ]
    else []
  baseLoot ++ rareLoot

/-- The table `rarityMultipliers` (1, 1.2, 1.5, 2, 3); `none` for a key that is
not in the table. -/
def InventorySystem.rarityMultiplier (rarity : String) : Option Frac :=
  if rarity = "common" then some { num := 1, den := 1 }
  else if rarity = "uncommon" then some { num := 6, den := 5 }
  else if rarity = "rare" then some { num := 3, den := 2 }
  else if rarity = "epic" then some { num := 2, den := 1 }
  else if rarity = "legendary" then some { num := 3, den := 1 }
  else none

/-- The value `Math.floor (base * multiplier)`; with no multiplier the product
is `NaN`, which is recorded as an absent stat. -/
def InventorySystem.scaled (base : Nat) : Option Frac → Int
  | some m => ((base * m.num / m.den : Nat) : Int)
  | none => 0

/-- The list `rarities` of `generateItem`. -/
def InventorySystem.rarities : List String :=
  ["common", "uncommon", "rare", "epic", "legendary"]

/-- Embeds `Phaser.Utils.Array.GetRandom (rarities)` for a draw `r` of `Math.random ()`:
the element at index `Math.floor (r * length)`. -/
def InventorySystem.getRandomRarity (r : Frac) : String :=
  InventorySystem.rarities.getD (r.num * InventorySystem.rarities.length / r.den) "common"

/-- Embeds `InventorySystem.generateItem (lootData)`: a random rarity is drawn when the
entry has none; weapon and armor entries give a scaled stat, every other entry
goes to the default branch and gives a consumable. -/
def InventorySystem.generateItem (w : World) (lootData : LootData) : Item × World :=
  let drawn : String × World :=
    match lootData.rarity with
    | some rarity => (rarity, w)
    | none => (InventorySystem.getRandomRarity w.nextRandom.1, w.nextRandom.2)
  let rarity := drawn.1
  let multiplier := InventorySystem.rarityMultiplier rarity
  let item : Item :=
    if lootData.type = "weapon" then
      { id := some (rarity ++ "-" ++ lootData.subtype.getD "undefined")
        type := "weapon"
        rarity := some rarity
        damage := InventorySystem.scaled 15 multiplier
        attackSpeed := some { num := 1, den := 1 } }
    else if lootData.type = "armor" then
      { id := some (rarity ++ "-" ++ lootData.subtype.getD "undefined")
        type := "armor"
        rarity := some rarity
        defense := InventorySystem.scaled 5 multiplier }
    else
      { id := some lootData.type
        type := "consumable"
        rarity := some "common"
        effect := some (if lootData.type = "health-potion" then "heal" else "mana")
        value := if lootData.type = "health-potion" then 30 else 20
        quantity := 1 }
  (item, drawn.2)

/-- The body of the loop of `handleEnemyLoot` for one table entry. -/
def InventorySystem.rollLoot (w : World) (loot : LootData) : World :=
  let w1 := w.nextRandom.2
  if w.nextRandom.1.lt loot.chance then
    let generated := InventorySystem.generateItem w1 loot
    { generated.2 with inventorySystem := (generated.2.inventorySystem.addItem generated.1).2 }
  else w1

/-- Embeds `InventorySystem.handleEnemyLoot (enemy)`. -/
def InventorySystem.handleEnemyLoot (w : World) (enemy : Enemy) : World :=
  let w1 := (InventorySystem.generateLootTable enemy.enemyType).foldl InventorySystem.rollLoot w
  { w1 with inventorySystem := { w1.inventorySystem with
      gold := w1.inventorySystem.gold + enemy.stats.goldReward } }

/-! ## QuestSystem

The quest system calls `this.scene.player.gainXP`; the functions below take it
as the argument `gainXP`, and `Player.gainXP` further down closes the cycle
`gainXP → levelUp → checkQuestProgress → completeQuest → giveRewards → gainXP`. -/

/-- Embeds `QuestSystem.addQuest (questData)`. -/
def QuestSystem.addQuest (w : World) (questData : QuestData) : World :=
  let quest : Quest :=
    { id := w.questSystem.questId
      title := questData.title
      type := questData.type
      target := questData.target
      required := questData.required
      current := questData.current
      rewards := questData.rewards
      isActive := true
      isCompleted := false }
  { w with questSystem := { w.questSystem with
      questId := w.questSystem.questId + 1
      activeQuests := w.questSystem.activeQuests ++ [quest] } }

/-- The names of the properties the object `itemTemplates` inherits from
`Object.prototype`. -/
def QuestSystem.inheritedKeys : List String :=
  ["constructor", "__defineGetter__", "__defineSetter__", "hasOwnProperty",
   "__lookupGetter__", "__lookupSetter__", "isPrototypeOf", "propertyIsEnumerable",
   "toString", "valueOf", "__proto__", "toLocaleString"]

/-- An inherited member of `itemTemplates` (a function, or `Object.prototype` for
`'__proto__'`) as the inventory sees it: it has no `id`, no `type` and no
`quantity`, and the copy `{...item}` that `addItem` stores has no other
property.  The absent `type` is the empty string, which differs from every
type name the source compares a type with. -/
def QuestSystem.inheritedMember : Item := { id := none, type := "" }

/-- Embeds `QuestSystem.createRewardItem (itemId)`, that is
`itemTemplates[itemId] || itemTemplates['health-potion']`: the template of the
id, the inherited member for the name of an inherited property (it is truthy,
so there is no fallback), and the health potion template for every other
id. -/
def QuestSystem.createRewardItem (itemId : String) : Item :=
  if itemId = "uncommon-sword" then
    { id := some "uncommon-sword"
      type := "weapon"
      rarity := some "uncommon"
      damage := 20
      attackSpeed := some { num := 11, den := 10 } }
  else if itemId ∈ QuestSystem.inheritedKeys then QuestSystem.inheritedMember
  else
    { id := some "health-potion"
      type := "consumable"
      rarity := some "common"
      effect := some "heal"
      value := 30 }

/-- The gold and item part of `giveRewards`: `gold += rewards.gold`, then one
`addItem (createRewardItem (itemId))` for each listed id. -/
def QuestSystem.giveGoldAndItems (rewards : Rewards) (w : World) : World :=
  let w1 : World :=
    if rewards.gold ≠ 0 then
      { w with inventorySystem := { w.inventorySystem with
          gold := w.inventorySystem.gold + rewards.gold } }
    else w
  rewards.items.foldl
    (fun (acc : World) (itemId : String) =>
      { acc with inventorySystem :=
          (acc.inventorySystem.addItem (QuestSystem.createRewardItem itemId)).2 })
    w1

/-- Embeds `QuestSystem.giveRewards (rewards)`. -/
def QuestSystem.giveRewards (gainXP : Int → World → Option World) (rewards : Rewards)
    (w : World) : Option World :=
  (if rewards.xp ≠ 0 then gainXP rewards.xp w else some w).bind fun w1 =>
    some (QuestSystem.giveGoldAndItems rewards w1)

/-- The follow-up quest of First Blood. -/
def QuestSystem.veteranFighter : QuestData :=
  { title := "Veteran Fighter", type := "kill", target := Value.str "any",
    required := 10, current := 1, rewards := { xp := 300, gold := 150 } }

/-- The follow-up quest of Goblin Hunter. -/
def QuestSystem.wolfPack : QuestData :=
  { title := "Wolf Pack", type := "kill", target := Value.str "wolf",
    required := 3, current := 0,
    rewards := { xp := 400, gold := 200, items := ["rare-armor"] } }

/-- Embeds `QuestSystem.checkForFollowUpQuests (completedQuest)`. -/
def QuestSystem.checkForFollowUpQuests (w : World) (completedQuest : Quest) : World :=
  let w1 :=
    if completedQuest.title = "First Blood" then QuestSystem.addQuest w QuestSystem.veteranFighter
    else w
  if completedQuest.title = "Goblin Hunter" then QuestSystem.addQuest w1 QuestSystem.wolfPack
  else w1

/-- The statement `this.activeQuests.splice (activeIndex, 1)` of `completeQuest`
for `activeIndex = findIndex (q => q.id === id)`, skipped when no quest has the
id. -/
def QuestSystem.removeActive (active : List Quest) (id : Nat) : List Quest :=
  match active.findIdx? (fun q => decide (q.id = id)) with
  | some activeIndex => active.eraseIdx activeIndex
  | none => active

/-- The quest object with the two flags `completeQuest` sets. -/
def Quest.markCompleted (quest : Quest) : Quest :=
  { quest with isCompleted := true, isActive := false }

/-- The first statements of `completeQuest (quest)` for the quest object at
position `k` of `activeQuests`: the flags, the push onto `completedQuests` and
the removal from `activeQuests`. -/
def QuestSystem.moveToCompleted (w : World) (k : Nat) (quest : Quest) : World :=
  { w with questSystem := { w.questSystem with
      completedQuests := w.questSystem.completedQuests ++ [quest.markCompleted]
      activeQuests :=
        QuestSystem.removeActive (w.questSystem.activeQuests.set k quest.markCompleted)
          quest.id } }

/-- Embeds `QuestSystem.completeQuest (quest)` for the quest object at position `k` of
`activeQuests` (the position `checkQuestProgress` is visiting). -/
def QuestSystem.completeQuest (gainXP : Int → World → Option World) (k : Nat) (w : World) :
    Option World :=
  match w.questSystem.activeQuests[k]? with
  | none => some w
  | some quest =>
    (QuestSystem.giveRewards gainXP quest.rewards
        ((QuestSystem.moveToCompleted w k quest).emit (Event.giveRewards quest.id))).bind
      fun w2 =>
        some (QuestSystem.checkForFollowUpQuests (w2.emit (Event.questCompleted quest.id))
          quest.markCompleted)

/-- An assignment to a field of the quest object at position `k` of
`activeQuests`: the object there is replaced by its new value. -/
def World.setActiveQuest (w : World) (k : Nat) (quest : Quest) : World :=
  { w with questSystem := { w.questSystem with
      activeQuests := w.questSystem.activeQuests.set k quest } }

/-- The callback of the `forEach` of `checkQuestProgress`, applied at index `k`
of `activeQuests`; an index past the end of the array is skipped. -/
def QuestSystem.visitQuest (gainXP : Int → World → Option World) (type : String)
    (value : Value) (k : Nat) (w : World) : Option World :=
  match w.questSystem.activeQuests[k]? with
  | none => some w
  | some quest =>
    if quest.type = type ∧ quest.isCompleted = false then
      if quest.target = value ∨ quest.target = Value.str "any" then
        let quest1 : Quest := { quest with current := min (quest.current + 1) quest.required }
        let w1 := w.setActiveQuest k quest1
        if quest1.required ≤ quest1.current then QuestSystem.completeQuest gainXP k w1
        else some w1
      else if type = "level" ∧ value.ge quest.target = true then
        QuestSystem.completeQuest gainXP k
          (w.setActiveQuest k { quest with current := quest.required })
      else some w
    else some w

/-- The iteration of `this.activeQuests.forEach`: the indices `k, k + 1, ...`
are visited in order, `remaining` of them, each reading the array as it is at
that moment. -/
def QuestSystem.forEachActive (gainXP : Int → World → Option World) (type : String)
    (value : Value) : Nat → Nat → World → Option World
  | _, 0, w => some w
  | k, remaining + 1, w =>
    (QuestSystem.visitQuest gainXP type value k w).bind
      (QuestSystem.forEachActive gainXP type value (k + 1) remaining)

/-- Embeds `QuestSystem.checkQuestProgress (type, value)`: `forEach` visits the indices
below the length the array has when the call starts. -/
def QuestSystem.checkQuestProgress (gainXP : Int → World → Option World) (type : String)
    (value : Value) (w : World) : Option World :=
  QuestSystem.forEachActive gainXP type value 0 w.questSystem.activeQuests.length w

/-- Embeds `QuestSystem.startInitialQuests`. -/
def QuestSystem.startInitialQuests (w : World) : World :=
  let w1 := QuestSystem.addQuest w
    { title := "First Blood", type := "kill", target := Value.str "any",
      required := 1, current := 0,
      rewards := { xp := 50, gold := 25, items := ["health-potion"] } }
  let w2 := QuestSystem.addQuest w1
    { title := "Level Up", type := "level", target := Value.num 2,
      required := 1, current := 0, rewards := { xp := 100, gold := 50 } }
  QuestSystem.addQuest w2
    { title := "Goblin Hunter", type := "kill", target := Value.str "goblin",
      required := 5, current := 0,
      rewards := { xp := 200, gold := 100, items := ["uncommon-sword"] } }

/-! ## The event wiring of GameScene -/

/-- Embeds `Player.gainXP (amount)` in the scene: the listener of `levelUp` set up by
`GameScene.setupGameEvents` calls `questSystem.checkQuestProgress ('level',
newLevel)`, which may call `gainXP` again.  The fuel bounds both the iterations
of the loop and the depth of these nested calls. -/
def Player.gainXP : Nat → Int → World → Option World
  | 0, _, _ => none
  | fuel + 1, amount, w =>
    Player.gainXPWith
      (fun newLevel w1 =>
        QuestSystem.checkQuestProgress (Player.gainXP fuel) "level" (Value.num newLevel) w1)
      (fuel + 1) amount w

/-- The listener of `levelUp` in the scene. -/
def GameScene.onLevelUp (fuel : Nat) (newLevel : Int) (w : World) : Option World :=
  QuestSystem.checkQuestProgress (Player.gainXP fuel) "level" (Value.num newLevel) w

/-- The listener of `enemyKilled` in the scene: the quest check, then the
loot. -/
def GameScene.onEnemyKilled (fuel : Nat) (enemy : Enemy) (w : World) : Option World :=
  (QuestSystem.checkQuestProgress (Player.gainXP fuel) "kill" (Value.str enemy.enemyType) w).bind
    fun w1 => some (InventorySystem.handleEnemyLoot w1 enemy)

/-! ## Enemy and EnemyManager -/

/-- Embeds `Enemy.getEnemyStats (type)`: the archetype table, with the goblin as the
default. -/
def Enemy.getEnemyStats (type : String) : EnemyStats :=
  if type = "wolf" then
    { hp := 45, maxHp := 45, damage := 12, speed := 120, xpReward := 25, goldReward := 8 }
  else if type = "skeleton" then
    { hp := 60, maxHp := 60, damage := 15, speed := 60, xpReward := 35, goldReward := 12 }
  else
    { hp := 30, maxHp := 30, damage := 8, speed := 80, xpReward := 15, goldReward := 5 }

/-- The enemy object built by `new Enemy (scene, x, y, enemyType)` once it is
added to the group; `patrolDirection` is the random choice of the constructor. -/
def Enemy.create (x y : ℚ) (enemyType : String) (patrolDirection : Int) : Enemy :=
  { enemyType := enemyType
    stats := Enemy.getEnemyStats enemyType
    state := AIState.patrol
    patrolDirection := patrolDirection
    patrolDistance := 150
    originalX := x
    detectionRange := 120
    attackRange := 35
    attackCooldown := 0
    lastAttackTime := 0
    speed := (Enemy.getEnemyStats enemyType).speed
    facingRight := true
    x := x
    y := y
    velocityX := 0
    active := true
    inGroup := true }

/-- Replaces the enemy object at position `i`. -/
def World.setEnemy (w : World) (i : Nat) (e : Enemy) : World :=
  { w with enemyManager := { w.enemyManager with enemies := w.enemyManager.enemies.set i e } }

/-- Embeds `EnemyManager.removeEnemy (enemy)`: the enemy leaves the group and is
destroyed. -/
def EnemyManager.removeEnemy (w : World) (i : Nat) : World :=
  match w.enemyManager.enemies[i]? with
  | none => w
  | some e => w.setEnemy i { e with inGroup := false, active := false, hasScene := false }

/-- The positions of the enemies `EnemyManager.getEnemiesInRange` returns for a
query point, `distance i` being the distance of enemy `i` from that point. -/
def EnemyManager.getEnemiesInRange (w : World) (distance : Nat → ℚ) (range : ℚ) : List Nat :=
  (List.range w.enemyManager.enemies.length).filter fun i =>
    match w.enemyManager.enemies[i]? with
    | some e => e.inGroup && decide (distance i ≤ range) && e.active
    | none => false

/-- Embeds `Enemy.die` of the enemy at position `i`: the XP award, the `enemyKilled`
event with its scene listener, and the removal from the manager.  On a
destroyed enemy the first statement, `this.scene.player.gainXP (...)`, throws a
`TypeError` and nothing else happens. -/
def Enemy.die (fuel : Nat) (i : Nat) (w : World) : Option World :=
  match w.enemyManager.enemies[i]? with
  | none => some w
  | some e =>
    if e.hasScene then
      (Player.gainXP fuel e.stats.xpReward w).bind fun w1 =>
        (GameScene.onEnemyKilled fuel e (w1.emit (Event.enemyKilled i))).bind fun w2 =>
          some (EnemyManager.removeEnemy w2 i)
    else some w.throwTypeError

/-- Embeds `Enemy.takeDamage (damage)` of the enemy at position `i`. -/
def Enemy.takeDamage (fuel : Nat) (i : Nat) (damage : ℚ) (w : World) : Option World :=
  match w.enemyManager.enemies[i]? with
  | none => some w
  | some e =>
    let e1 : Enemy := { e with stats := { e.stats with hp := max 0 (e.stats.hp - damage) } }
    let w1 := w.setEnemy i e1
    if e1.stats.hp ≤ 0 then Enemy.die fuel i w1 else some w1

/-- Embeds `Enemy.patrol`. -/
def Enemy.patrol (e : Enemy) : Enemy :=
  let distanceFromOrigin := |e.x - e.originalX|
  let patrolDirection :=
    if e.patrolDistance ≤ distanceFromOrigin then e.patrolDirection * -1 else e.patrolDirection
  { e with
    patrolDirection := patrolDirection
    velocityX := (e.speed : ℚ) * (1 / 2) * (patrolDirection : ℚ)
    facingRight := decide (0 < patrolDirection) }

/-- Embeds `Enemy.chasePlayer (player)`. -/
def Enemy.chasePlayer (e : Enemy) (player : Player) : Enemy :=
  let direction : Int := if e.x < player.x then 1 else -1
  { e with
    velocityX := (e.speed : ℚ) * (direction : ℚ)
    facingRight := decide (0 < direction) }

/-- Embeds `Enemy.canAttack` for a reading `now` of `Date.now ()`. -/
def Enemy.canAttack (e : Enemy) (now : Int) : Bool :=
  decide (1500 ≤ now - e.lastAttackTime)

/-- Embeds `Enemy.attackPlayer (player)` of the enemy at position `i`. -/
def Enemy.attackPlayer (w : World) (i : Nat) : World :=
  match w.enemyManager.enemies[i]? with
  | none => w
  | some e =>
    if e.canAttack w.dateNow.1 then
      let w1 := Player.takeDamage w.dateNow.2 e.stats.damage
      w1.dateNow.2.setEnemy i { e with lastAttackTime := w1.dateNow.1 }
    else w.dateNow.2

/-- Embeds `Enemy.attack (player)` of the enemy at position `i`. -/
def Enemy.attack (w : World) (i : Nat) : World :=
  match w.enemyManager.enemies[i]? with
  | none => w
  | some e =>
    Enemy.attackPlayer (w.dateNow.2.setEnemy i { e with lastAttackTime := w.dateNow.1 }) i

/-- Embeds `Enemy.updateAI (delta)` of the enemy at position `i`, where
`distanceToPlayer` is the distance between the enemy and the player. -/
def Enemy.updateAI (w : World) (i : Nat) (distanceToPlayer : ℚ) : World :=
  match w.enemyManager.enemies[i]? with
  | none => w
  | some e =>
    match e.state with
    | AIState.patrol =>
      let e1 := e.patrol
      if distanceToPlayer ≤ e1.detectionRange then w.setEnemy i { e1 with state := AIState.chase }
      else w.setEnemy i e1
    | AIState.chase =>
      let e1 := e.chasePlayer w.player
      if e1.detectionRange * (3 / 2) < distanceToPlayer then
        w.setEnemy i { e1 with state := AIState.patrol }
      else if distanceToPlayer ≤ e1.attackRange then
        w.setEnemy i { e1 with state := AIState.attack }
      else w.setEnemy i e1
    | AIState.attack =>
      let e1 : Enemy := { e with velocityX := 0 }
      let w1 := w.setEnemy i e1
      if e1.attackRange < distanceToPlayer then w1.setEnemy i { e1 with state := AIState.chase }
      else if e1.canAttack w1.dateNow.1 then Enemy.attack w1.dateNow.2 i
      else w1.dateNow.2

/-! ## CombatSystem -/

/-- Embeds `CombatSystem.getWeaponRange (weaponType)`. -/
def CombatSystem.getWeaponRange (weaponType : String) : Int :=
  if weaponType = "sword" then 50
  else if weaponType = "axe" then 45
  else if weaponType = "spear" then 70
  else if weaponType = "bow" then 200
  else if weaponType = "staff" then 180
  else 50

/-- Embeds `Phaser.Math.Between (min, max)` for a draw `r` of `Math.random ()`:
`Math.floor (r * (max - min + 1) + min)`. -/
def CombatSystem.between (min max : Int) (r : Frac) : Int :=
  min + (r.num : Int) * (max - min + 1) / (r.den : Int)

/-- The value `CombatSystem.calculateDamage (baseDamage)` returns when the draw
of `Phaser.Math.Between` is `r1` and the draw of the critical hit test is `r2`. -/
def CombatSystem.rollDamage (baseDamage : Int) (r1 r2 : Frac) : Int :=
  let minDamage := baseDamage * 4 / 5
  let maxDamage := -(-(baseDamage * 6) / 5)
  let damage := CombatSystem.between minDamage maxDamage r1
  if r2.lt { num := 1, den := 10 } then damage * 3 / 2 else damage

/-- Embeds `CombatSystem.calculateDamage (baseDamage)`: two calls of `Math.random ()`. -/
def CombatSystem.calculateDamage (w : World) (baseDamage : Int) : Int × World :=
  (CombatSystem.rollDamage baseDamage w.nextRandom.1 w.nextRandom.2.nextRandom.1,
    w.nextRandom.2.nextRandom.2)

/-- Embeds `CombatSystem.applyKnockback (target, source)`: skipped when the target has
no body any more (it was destroyed). -/
def CombatSystem.applyKnockback (w : World) (i : Nat) : World :=
  match w.enemyManager.enemies[i]? with
  | none => w
  | some e =>
    if e.active then
      let direction : Int := if w.player.x < e.x then 1 else -1
      w.setEnemy i { e with velocityX := (direction : ℚ) * 100 }
    else w

/-- The body of the loop over the targets of `playerAttack`; the knockback is
skipped when `takeDamage` threw. -/
def CombatSystem.hitTarget (fuel : Nat) (baseDamage : Int) (w : World) (i : Nat) :
    Option World :=
  let rolled := CombatSystem.calculateDamage w baseDamage
  (Enemy.takeDamage fuel i (rolled.1 : ℚ) rolled.2).bind fun w1 =>
    if w1.typeErrors = rolled.2.typeErrors then some (CombatSystem.applyKnockback w1 i)
    else some w1

/-- The loop `targets.forEach` of `playerAttack`; it ends at a target whose turn
threw. -/
def CombatSystem.hitTargets (fuel : Nat) (baseDamage : Int) : List Nat → World → Option World
  | [], w => some w
  | i :: rest, w =>
    (CombatSystem.hitTarget fuel baseDamage w i).bind fun w1 =>
      if w1.typeErrors = w.typeErrors then CombatSystem.hitTargets fuel baseDamage rest w1
      else some w1

/-- Embeds `CombatSystem.playerAttack (player)`, where `distance i` is the distance of
enemy `i` from the player.  The source reads `weapon.type` and `weapon.damage`
of the equipped weapon; with an empty weapon slot it throws, which the
embedding renders as no change. -/
def CombatSystem.playerAttack (fuel : Nat) (distance : Nat → ℚ) (w : World) : Option World :=
  match w.player.equipment.weapon with
  | none => some w
  | some weapon =>
    let attackRange := CombatSystem.getWeaponRange weapon.type
    let targets := EnemyManager.getEnemiesInRange w distance (attackRange : ℚ)
    let baseDamage := weapon.damage + w.player.stats.strength
    CombatSystem.hitTargets fuel baseDamage targets w

/-! ## InputManager: the mana abilities -/

/-- Embeds `InputManager.dashAttack (player)` up to the end of the call: the velocity
of the dash.  The damage to the enemies in the path is dealt by a timer 200 ms
later, after the call has returned. -/
def InputManager.dashAttack (w : World) : World :=
  let direction : Int := if w.player.facingRight then 1 else -1
  { w with player := { w.player with velocityX := 300 * (direction : ℚ) } }

/-- Embeds `InputManager.healAbility (player)`. -/
def InputManager.healAbility (w : World) : World := Player.heal w 20

/-- The loop `enemies.forEach` of `areaAttack`: each enemy takes
`player.stats.strength * 0.8`, read when its turn comes; the loop ends at an
enemy whose turn threw. -/
def InputManager.areaHits (fuel : Nat) : List Nat → World → Option World
  | [], w => some w
  | i :: rest, w =>
    (Enemy.takeDamage fuel i ((w.player.stats.strength : ℚ) * (4 / 5)) w).bind fun w1 =>
      if w1.typeErrors = w.typeErrors then InputManager.areaHits fuel rest w1 else some w1

/-- Embeds `InputManager.areaAttack (player)`, where `distance i` is the distance of
enemy `i` from the player. -/
def InputManager.areaAttack (fuel : Nat) (distance : Nat → ℚ) (w : World) : Option World :=
  InputManager.areaHits fuel (EnemyManager.getEnemiesInRange w distance 100) w

/-- The statement `player.stats.mp -= manaCost` of `useAbility`. -/
def InputManager.payMana (w : World) : World :=
  { w with player := { w.player with
      stats := { w.player.stats with mp := w.player.stats.mp - 10 } } }

/-- Embeds `InputManager.useAbility (abilityIndex)`. -/
def InputManager.useAbility (fuel : Nat) (distance : Nat → ℚ) (abilityIndex : Int)
    (w : World) : Option World :=
  if w.player.stats.mp < 10 then some w
  else if abilityIndex = 1 then some (InputManager.dashAttack (InputManager.payMana w))
  else if abilityIndex = 2 then some (InputManager.healAbility (InputManager.payMana w))
  else if abilityIndex = 3 then InputManager.areaAttack fuel distance (InputManager.payMana w)
  else some (InputManager.payMana w)

/-! ## Initial state -/

/-- The player built by the constructor of `Player`. -/
def Player.initial : Player :=
  { stats :=
      { level := 1, hp := 100, maxHp := 100, mp := 50, maxMp := 50, xp := 0, xpToNext := 100,
        strength := 10, dexterity := 10, intelligence := 10, defense := 5 }
    invulnerable := false
    invulnerabilityTime := 0
    x := 400
    y := 300
    facingRight := true
    equipment :=
      { weapon := some { id := none, type := "sword", damage := 15,
                         attackSpeed := some { num := 1, den := 1 } }
        armor := some { id := none, type := "basic", defense := 5 }
        helmet := none
        boots := none } }

/-- The inventory built by the constructor of `InventorySystem`: 48 slots, 100
gold, three health potions and two mana potions. -/
def InventorySystem.initial : InventorySystem :=
  let empty : InventorySystem := { inventory := [], maxSlots := 48, gold := 100 }
  let withHealth := (empty.addItem
    { id := some "health-potion", type := "consumable", rarity := some "common",
      effect := some "heal", value := 30, quantity := 3 }).2
  (withHealth.addItem
    { id := some "mana-potion", type := "consumable", rarity := some "common",
      effect := some "mana", value := 20, quantity := 2 }).2

/-- The scene after `GameScene.create`, before any enemy is spawned, for given
sources of random numbers and clock readings. -/
def World.initial (random : Nat → Frac) (clock : Nat → Int) : World :=
  QuestSystem.startInitialQuests
    { player := Player.initial
      enemyManager := { enemies := [] }
      inventorySystem := InventorySystem.initial
      questSystem := { activeQuests := [], completedQuests := [], questId := 0 }
      log := []
      random := random
      randomPos := 0
      clock := clock
      clockPos := 0 }

/-! ## Specification-side definitions -/

/-- The transition table of the enemy AI as the specification words it: the next
state for a current state and a distance `d` to the player. -/
def aiTransitionTable (state : AIState) (d detectionRange attackRange : ℚ) : AIState :=
  match state with
  | AIState.patrol => if d ≤ detectionRange then AIState.chase else AIState.patrol
  | AIState.chase =>
    if (3 / 2 : ℚ) * detectionRange < d then AIState.patrol
    else if d ≤ attackRange then AIState.attack
    else AIState.chase
  | AIState.attack => if attackRange < d then AIState.chase else AIState.attack

/-- An invariant rule for the cycle `gainXP → levelUp → checkQuestProgress →
completeQuest → giveRewards → gainXP`.  `I pending w` is the invariant, indexed
by the ids of the quests whose `completeQuest` call is in progress (innermost
first); `A amount` is the condition on the amounts handed to `gainXP`.  The
fields are the proof obligations for the state changes of the cycle. -/
structure QuestRule (I : List Nat → World → Prop) (A : Int → Prop) : Prop where
  addXP : ∀ p a w, A a → I p w → I p (w.addXP a)
  levelUp : ∀ p w, I p w → w.player.stats.xpToNext ≤ w.player.stats.xp → I p w.levelUpStep
  progress : ∀ p w k quest, I p w → w.questSystem.activeQuests[k]? = some quest →
    quest.isCompleted = false →
    I p (w.setActiveQuest k { quest with current := min (quest.current + 1) quest.required })
  force : ∀ p w k quest, I p w → w.questSystem.activeQuests[k]? = some quest →
    quest.isCompleted = false →
    I p (w.setActiveQuest k { quest with current := quest.required })
  complete : ∀ p w k quest, I p w → w.questSystem.activeQuests[k]? = some quest →
    quest.isCompleted = false → quest.required ≤ quest.current →
    I (quest.id :: p) ((QuestSystem.moveToCompleted w k quest).emit (Event.giveRewards quest.id)) ∧
      (quest.rewards.xp ≠ 0 → A quest.rewards.xp)
  rewards : ∀ p w rewards, I p w → I p (QuestSystem.giveGoldAndItems rewards w)
  finish : ∀ p w quest, I (quest.id :: p) w →
    I p (QuestSystem.checkForFollowUpQuests (w.emit (Event.questCompleted quest.id)) quest)

/-- A function `gainXP` keeps the invariant of a rule. -/
def KeepsRule (I : List Nat → World → Prop) (A : Int → Prop)
    (gainXP : Int → World → Option World) : Prop :=
  ∀ p a w w1, A a → I p w → gainXP a w = some w1 → I p w1

/-! ## Quest bookkeeping -/

/-- The ids of the active quests, in list order. -/
def World.activeIds (w : World) : List Nat := w.questSystem.activeQuests.map Quest.id

/-- The ids of the completed quests, in completion order. -/
def World.completedIds (w : World) : List Nat := w.questSystem.completedQuests.map Quest.id

/-- The quest id of a `questCompleted` event. -/
def Event.completedId : Event → Option Nat
  | Event.questCompleted quest => some quest
  | _ => none

/-- The quest id of a recorded `giveRewards` call. -/
def Event.rewardedId : Event → Option Nat
  | Event.giveRewards quest => some quest
  | _ => none

/-- The quest ids of the `questCompleted` events emitted so far. -/
def World.completedEmits (w : World) : List Nat := w.log.filterMap Event.completedId

/-- The quest ids of the `giveRewards` calls made so far. -/
def World.rewardCalls (w : World) : List Nat := w.log.filterMap Event.rewardedId

/-- The consistency of the quest books while the `completeQuest` calls of the
quests `pending` are in progress: no id occurs twice among the active and the
completed quests, every id is below the counter `questId`, the completed quests
are exactly those whose rewards were given, and exactly those for which
`questCompleted` was emitted or is pending. -/
def QuestsConsistent (pending : List Nat) (w : World) : Prop :=
  (w.activeIds ++ w.completedIds).Nodup ∧
  (∀ id ∈ w.activeIds ++ w.completedIds, id < w.questSystem.questId) ∧
  (w.completedEmits ++ pending).Perm w.completedIds ∧
  w.rewardCalls.Perm w.completedIds

/-! ## Event sequences and properties of runs -/

/-- An event the scene reacts to: an `enemyKilled` emission for an enemy, a
`levelUp` emission with the new level, a call of `gainXP`, or a direct call of
`checkQuestProgress`. -/
inductive GameEvent where
  | enemyKilled (enemy : Enemy)
  | levelUp (newLevel : Int)
  | gainXP (amount : Int)
  | questEvent (type : String) (value : Value)

/-- The reaction of the scene to one event. -/
def GameScene.handle (fuel : Nat) : GameEvent → World → Option World
  | GameEvent.enemyKilled enemy, w => GameScene.onEnemyKilled fuel enemy w
  | GameEvent.levelUp newLevel, w => GameScene.onLevelUp fuel newLevel w
  | GameEvent.gainXP amount, w => Player.gainXP fuel amount w
  | GameEvent.questEvent type value, w =>
    QuestSystem.checkQuestProgress (Player.gainXP fuel) type value w

/-- The reaction of the scene to a sequence of events, one after the other. -/
def GameScene.handleAll (fuel : Nat) : List GameEvent → World → Option World
  | [], w => some w
  | event :: rest, w => (GameScene.handle fuel event w).bind (GameScene.handleAll fuel rest)

/-- A sequence of `takeDamage` calls on the enemy at position `i`, one for each
damage value of the list.  Each is a call of its own: a call that throws ends,
and the next one is made all the same. -/
def Enemy.takeDamageAll (fuel : Nat) (i : Nat) : List ℚ → World → Option World
  | [], w => some w
  | damage :: rest, w =>
    (Enemy.takeDamage fuel i damage w).bind (Enemy.takeDamageAll fuel i rest)

/-- Whether a sequence of hits brings the health `hp` of an enemy to 0. -/
def Enemy.reachesZero (hp : ℚ) : List ℚ → Bool
  | [] => false
  | damage :: rest =>
    if hp - damage ≤ 0 then true else Enemy.reachesZero (hp - damage) rest

/-- The number of hits of a sequence, made on a destroyed enemy with health
`hp`, that leave the health at 0: the calls in which `die` is entered and
throws. -/
def Enemy.throwingHits (hp : ℚ) : List ℚ → Nat
  | [] => 0
  | damage :: rest =>
    (if hp - damage ≤ 0 then 1 else 0) + Enemy.throwingHits (max 0 (hp - damage)) rest

/-- The number of hits of a sequence, made on a live enemy with health `hp`, that
throw: the hits after the one that kills it which leave the health at 0. -/
def Enemy.expectedThrows (hp : ℚ) : List ℚ → Nat
  | [] => 0
  | damage :: rest =>
    if hp - damage ≤ 0 then Enemy.throwingHits 0 rest
    else Enemy.expectedThrows (hp - damage) rest

/-- The bound `0 ≤ hp ≤ maxHp` for the player. -/
def World.playerHpBounded (w : World) : Prop :=
  0 ≤ w.player.stats.hp ∧ w.player.stats.hp ≤ w.player.stats.maxHp

instance (w : World) : Decidable w.playerHpBounded := by
  unfold World.playerHpBounded; infer_instance

/-- The bound `0 ≤ hp ≤ maxHp` for an enemy. -/
def Enemy.hpBounded (e : Enemy) : Prop :=
  0 ≤ e.stats.hp ∧ e.stats.hp ≤ e.stats.maxHp

instance (e : Enemy) : Decidable e.hpBounded := by
  unfold Enemy.hpBounded; infer_instance

/-- The bound `0 ≤ xp < xpToNext` on the experience of the player. -/
def World.xpBounded (w : World) : Prop :=
  0 ≤ w.player.stats.xp ∧ w.player.stats.xp < w.player.stats.xpToNext

instance (w : World) : Decidable w.xpBounded := by
  unfold World.xpBounded; infer_instance

/-- Every active quest rewards a non-negative amount of XP, as all quests of the
source do. -/
def World.rewardsNonneg (w : World) : Prop :=
  ∀ q ∈ w.questSystem.activeQuests, 0 ≤ q.rewards.xp

instance (w : World) : Decidable w.rewardsNonneg := by
  unfold World.rewardsNonneg; infer_instance

/-! ## Termination of the XP and quest cycle -/

/-- The number of active quests of type `'level'` that are not flagged completed:
the quests a `levelUp` event can still complete. -/
def World.openLevelQuests (w : World) : Nat :=
  w.questSystem.activeQuests.countP (fun q => decide (q.type = "level") && !q.isCompleted)

/-- A fuelled computation settles: from some amount of fuel on it returns one
and the same state, and that state satisfies `post`. -/
def Settles (run : Nat → Option World) (post : World → Prop) : Prop :=
  ∃ N w1, post w1 ∧ ∀ fuel, N ≤ fuel → run fuel = some w1

/-- The relation between the states before and after a scan of the level quests:
the threshold stays positive, and either an open level quest was completed or
the experience is unchanged. -/
def LevelScanPost (w w1 : World) : Prop :=
  1 ≤ w1.player.stats.xpToNext ∧
  (w1.openLevelQuests < w.openLevelQuests ∨
    (w1.openLevelQuests = w.openLevelQuests ∧ w1.player.stats.xp = w.player.stats.xp))

/-- The state after a terminated `gainXP`: no more open level quests than
before, and a positive threshold. -/
def GainPost (w w1 : World) : Prop :=
  w1.openLevelQuests ≤ w.openLevelQuests ∧ 1 ≤ w1.player.stats.xpToNext

/-- The call `Player.gainXP` settles from every state with fewer than `m` open level
quests and a positive threshold. -/
def GainSettlesBelow (m : Nat) : Prop :=
  ∀ (w : World) (amount : Int), w.openLevelQuests < m → 1 ≤ w.player.stats.xpToNext →
    Settles (fun fuel => Player.gainXP fuel amount w) (GainPost w)

/-- The threshold `xpToNext` of the player is at least 1, as in every state the
game reaches; with a threshold of 0 or less the loop of `gainXP` does not end. -/
def World.thresholdPositive (w : World) : Prop := 1 ≤ w.player.stats.xpToNext

instance (w : World) : Decidable w.thresholdPositive := by
  unfold World.thresholdPositive; infer_instance

/-- What "completed at most once" says of the state `w1` reached from `w`: the
quest books are consistent, `questCompleted` was emitted at most once and
`giveRewards` called at most once for every quest id, and the quests completed
in `w` are still completed and not active. -/
def CompletedOnce (w w1 : World) : Prop :=
  QuestsConsistent [] w1 ∧
  (∀ id, w1.log.count (Event.questCompleted id) ≤ 1) ∧
  (∀ id, w1.log.count (Event.giveRewards id) ≤ 1) ∧
  (∀ id ∈ w.completedIds, id ∈ w1.completedIds ∧ id ∉ w1.activeIds)

/-- The effect of one hit on the enemy at position `i`, which is `e` before: the
health is `max (0, hp - damage)`, within the bound, and the player is within the
bound. -/
def HitKeepsBound (i : Nat) (e : Enemy) (damage : ℚ) (w1 : World) : Prop :=
  w1.playerHpBounded ∧
  ∃ e1, w1.enemyManager.enemies[i]? = some e1 ∧ e1.hpBounded ∧
    e1.stats.hp = max 0 (e.stats.hp - damage) ∧ e1.stats.maxHp = e.stats.maxHp

/-! ## Inventory calls and the inventory invariant -/

/-- A call of one of the four inventory operations. -/
inductive InventoryCall where
  | addItem (item : Item)
  | removeItem (slotIndex : Nat) (quantity : Int)
  | useItem (slotIndex : Nat)
  | equipItem (slotIndex : Nat)

/-- The state after one inventory call. -/
def InventorySystem.call (w : World) : InventoryCall → World
  | InventoryCall.addItem item => { w with inventorySystem := (w.inventorySystem.addItem item).2 }
  | InventoryCall.removeItem slotIndex quantity =>
    (InventorySystem.removeItem w slotIndex quantity).2
  | InventoryCall.useItem slotIndex => (InventorySystem.useItem w slotIndex).2
  | InventoryCall.equipItem slotIndex => (InventorySystem.equipItem w slotIndex).2

/-- The state after a sequence of inventory calls, one after the other. -/
def InventorySystem.callAll (w : World) (calls : List InventoryCall) : World :=
  calls.foldl InventorySystem.call w

/-- A call with a non-negative quantity: the quantity of the item handed to
`addItem` (absent is 0), the quantity handed to `removeItem`. -/
def InventoryCall.nonneg : InventoryCall → Prop
  | InventoryCall.addItem item => 0 ≤ item.quantity
  | InventoryCall.removeItem _ quantity => 0 ≤ quantity
  | InventoryCall.useItem _ => True
  | InventoryCall.equipItem _ => True

instance (call : InventoryCall) : Decidable call.nonneg := by
  cases call <;> unfold InventoryCall.nonneg <;> infer_instance

/-- The inventory has at most `maxSlots` slots. -/
def World.withinCapacity (w : World) : Prop :=
  w.inventorySystem.inventory.length ≤ w.inventorySystem.maxSlots

instance (w : World) : Decidable w.withinCapacity := by
  unfold World.withinCapacity; infer_instance

/-- The number of occupied inventory slots. -/
def World.occupiedSlots (w : World) : Nat :=
  w.inventorySystem.inventory.countP Option.isSome

/-- Every item present in an inventory slot has quantity at least 1. -/
def World.quantitiesPositive (w : World) : Prop :=
  ∀ slot ∈ w.inventorySystem.inventory, ∀ item, slot = some item → 1 ≤ item.quantity

instance (w : World) : Decidable w.quantitiesPositive := by
  unfold World.quantitiesPositive; infer_instance

/-- The items in the equipment slots of the player. -/
def Equipment.items (e : Equipment) : List Item :=
  [e.weapon, e.armor, e.helmet, e.boots].filterMap id

/-- No equipped item has a negative quantity. -/
def World.equippedNonneg (w : World) : Prop :=
  ∀ item ∈ w.player.equipment.items, 0 ≤ item.quantity

instance (w : World) : Decidable w.equippedNonneg := by
  unfold World.equippedNonneg; infer_instance

/-- The inventory invariant, with the bound on the equipped items it rests on:
at most `maxSlots` slots, every item in a slot with quantity at least 1, no
equipped item with a negative quantity. -/
def World.inventoryInvariant (w : World) : Prop :=
  w.withinCapacity ∧ w.quantitiesPositive ∧ w.equippedNonneg

instance (w : World) : Decidable w.inventoryInvariant := by
  unfold World.inventoryInvariant; infer_instance

/-- A call that is non-negative and, for `removeItem`, takes no more than the
slot holds in the state `w`. -/
def InventoryCall.withinStock (w : World) : InventoryCall → Prop
  | InventoryCall.addItem item => 0 ≤ item.quantity
  | InventoryCall.removeItem slotIndex quantity =>
    0 ≤ quantity ∧ ∀ item, w.inventorySystem.slot slotIndex = some item → quantity ≤ item.quantity
  | InventoryCall.useItem _ => True
  | InventoryCall.equipItem _ => True

/-- Every call of the sequence is within stock in the state it is made in. -/
def InventorySystem.callsWithinStock : World → List InventoryCall → Prop
  | _, [] => True
  | w, call :: rest =>
    call.withinStock w ∧ InventorySystem.callsWithinStock (InventorySystem.call w call) rest

/-! ## The accounts of experience, levels and gold -/

/-- The thresholds of `count` successive level-ups that start with the threshold
`t`: `t`, `Math.floor (1.2 * t)`, `Math.floor (1.2 * Math.floor (1.2 * t))`,
and so on. -/
def Player.thresholds (t : Int) : Nat → List Int
  | 0 => []
  | count + 1 => t :: Player.thresholds (t * 6 / 5) count

/-- The threshold `xpToNext` after `count` level-ups that start with the
threshold `t`. -/
def Player.thresholdAfter (t : Int) : Nat → Int
  | 0 => t
  | count + 1 => Player.thresholdAfter (t * 6 / 5) count

/-- The level carried by a `levelUp` event. -/
def Event.levelUpValue : Event → Option Int
  | Event.levelUp level => some level
  | _ => none

/-- The levels carried by the `levelUp` events emitted so far, in order. -/
def World.levelUps (w : World) : List Int := w.log.filterMap Event.levelUpValue

/-- The levels `level + 1, ..., level + count`. -/
def Player.levelsAfter (level : Int) (count : Nat) : List Int :=
  (List.range count).map fun (k : Nat) => level + 1 + (k : Int)

/-- The XP rewards of the completed quests, summed. -/
def World.rewardXP (w : World) : Int :=
  (w.questSystem.completedQuests.map fun q => q.rewards.xp).sum

/-- The gold rewards of the completed quests, summed. -/
def World.rewardGold (w : World) : Int :=
  (w.questSystem.completedQuests.map fun q => q.rewards.gold).sum

/-- The accounts of a run from `w` to `w1` during which `amount` XP and `gold`
gold came in from outside the quest rewards: for the number `count` of levels
gained, the level rose by `count`, one `levelUp` event was emitted for each
level gained, with the new level, the threshold is the one after `count`
level-ups, the XP that came in (the amount and the XP rewards of the quests
completed during the run) is the XP left plus the thresholds consumed, and the
gold that came in (the gold and the gold rewards of those quests) was added to
the gold total. -/
def Ledger (amount gold : Int) (w w1 : World) : Prop :=
  ∃ count : Nat,
    w1.player.stats.level = w.player.stats.level + (count : Int) ∧
    w1.levelUps = w.levelUps ++ Player.levelsAfter w.player.stats.level count ∧
    w1.player.stats.xpToNext = Player.thresholdAfter w.player.stats.xpToNext count ∧
    w1.player.stats.xp + (Player.thresholds w.player.stats.xpToNext count).sum
      = w.player.stats.xp + amount + (w1.rewardXP - w.rewardXP) ∧
    w1.inventorySystem.gold = w.inventorySystem.gold + gold + (w1.rewardGold - w.rewardGold)

/-- Two states with the same accounts: level, experience and threshold, `levelUp`
events, completed quests and gold total. -/
def SameAccounts (w w1 : World) : Prop :=
  w1.player.stats.level = w.player.stats.level ∧
  w1.player.stats.xp = w.player.stats.xp ∧
  w1.player.stats.xpToNext = w.player.stats.xpToNext ∧
  w1.levelUps = w.levelUps ∧
  w1.questSystem.completedQuests = w.questSystem.completedQuests ∧
  w1.inventorySystem.gold = w.inventorySystem.gold

/-- A function `gainXP` keeps the accounts: a call with `amount` brings in that
amount of XP and no gold. -/
def KeepsLedger (gainXP : Int → World → Option World) : Prop :=
  ∀ amount w w1, gainXP amount w = some w1 → Ledger amount 0 w w1

/-! ## Properties of quests and kills -/

/-- The enemy of an `enemyKilled` event. -/
def Event.killedEnemy : Event → Option Nat
  | Event.enemyKilled enemy => some enemy
  | _ => none

/-- The enemies of the `enemyKilled` events emitted so far, in order. -/
def World.killEvents (w : World) : List Nat := w.log.filterMap Event.killedEnemy

/-- What one lethal hit on the enemy at position `i`, which is `e` before, does:
the enemy is left with health 0 and out of the group, the one `enemyKilled`
event emitted is the one for it, and the accounts show its XP reward and its
gold reward coming in once. -/
def LethalHitEffects (i : Nat) (e : Enemy) (w w1 : World) : Prop :=
  (∃ e1, w1.enemyManager.enemies[i]? = some e1 ∧ e1.stats.hp = 0 ∧ e1.inGroup = false) ∧
  w1.killEvents = w.killEvents ++ [i] ∧
  Ledger e.stats.xpReward e.stats.goldReward w w1

/-- What a sequence of hits on the enemy at position `i` of `w`, which is the
live enemy `e` there, does: if the hits bring its health to 0 the death
transition ran once (one `enemyKilled` event, for it; its XP reward and its
gold reward in the accounts once; the enemy destroyed, out of the group and not
returned by `getEnemiesInRange`), otherwise it did not run; and the calls that
threw are the later hits that left the health at 0. -/
def DiesOnce (i : Nat) (e : Enemy) (damages : List ℚ) (w w1 : World) : Prop :=
  w1.killEvents
    = w.killEvents ++ (if Enemy.reachesZero e.stats.hp damages then [i] else []) ∧
  w1.log.count (Event.enemyKilled i)
    = w.log.count (Event.enemyKilled i)
      + (if Enemy.reachesZero e.stats.hp damages then 1 else 0) ∧
  Ledger (if Enemy.reachesZero e.stats.hp damages then e.stats.xpReward else 0)
    (if Enemy.reachesZero e.stats.hp damages then e.stats.goldReward else 0) w w1 ∧
  w1.typeErrors = w.typeErrors + Enemy.expectedThrows e.stats.hp damages ∧
  (∃ e1, w1.enemyManager.enemies[i]? = some e1 ∧
    e1.hasScene = !Enemy.reachesZero e.stats.hp damages ∧
    (Enemy.reachesZero e.stats.hp damages = true → e1.inGroup = false ∧ e1.active = false)) ∧
  (Enemy.reachesZero e.stats.hp damages = true →
    ∀ distance range, i ∉ EnemyManager.getEnemiesInRange w1 distance range)

/-- The progress of a quest is within its bounds. -/
def Quest.progressBounded (q : Quest) : Prop := 0 ≤ q.current ∧ q.current ≤ q.required

instance (q : Quest) : Decidable q.progressBounded := by
  unfold Quest.progressBounded; infer_instance

/-- Every quest, active or completed, has `0 ≤ current ≤ required`. -/
def World.questsBounded (w : World) : Prop :=
  ∀ q ∈ w.questSystem.activeQuests ++ w.questSystem.completedQuests, q.progressBounded

instance (w : World) : Decidable w.questsBounded := by
  unfold World.questsBounded; infer_instance

/-- The state `w1` reached from `w` keeps the quests of `w`, active or completed,
and every quest has its progress within bounds. -/
def QuestsKeptBounded (w w1 : World) : Prop :=
  w1.questsBounded ∧
  ∀ id ∈ w.activeIds ++ w.completedIds, id ∈ w1.activeIds ++ w1.completedIds

/-- The levels gained on the way from `w` to `w1` and the `levelUp` events
emitted on it: the level rose by some `count ≥ 0`, and the events emitted are
`count` in number, the `k`-th carrying the level of `w` plus `k`. -/
def LevelsLogged (w w1 : World) : Prop :=
  ∃ count : Nat, w1.player.stats.level = w.player.stats.level + (count : Int) ∧
    w1.levelUps = w.levelUps ++ Player.levelsAfter w.player.stats.level count

/-- No XP is lost on the way from `w` to `w1` when `amount` XP came in: for the
number `count` of levels gained, the XP of `w` plus the amount plus the XP
rewards of the quests completed on the way is the XP of `w1` plus the thresholds
consumed, and the threshold of `w1` is the next one. -/
def XPConserved (amount : Int) (w w1 : World) : Prop :=
  ∃ count : Nat, w1.player.stats.level = w.player.stats.level + (count : Int) ∧
    w1.player.stats.xpToNext = Player.thresholdAfter w.player.stats.xpToNext count ∧
    w1.player.stats.xp + (Player.thresholds w.player.stats.xpToNext count).sum
      = w.player.stats.xp + amount + (w1.rewardXP - w.rewardXP)

/-- The bound `0 ≤ mp ≤ maxMp` on the mana of the player. -/
def World.manaBounded (w : World) : Prop :=
  0 ≤ w.player.stats.mp ∧ w.player.stats.mp ≤ w.player.stats.maxMp

instance (w : World) : Decidable w.manaBounded := by
  unfold World.manaBounded; infer_instance

/-- The mana after an ability that was paid for in `w`: exactly 10 less than
before, unless the ability killed an enemy whose XP made the player level up,
which restores the mana to its maximum. -/
def ManaPaid (w w1 : World) : Prop :=
  (w1.player.stats.level = w.player.stats.level ∧
    w1.player.stats.mp = w.player.stats.mp - 10) ∨
  (w.player.stats.level < w1.player.stats.level ∧ w1.player.stats.mp = w1.player.stats.maxMp)

/-- The state after `count` calls of `updateAI` for the enemy at position `i`,
the player being at distance `d` at each call. -/
def Enemy.updateAIs (i : Nat) (d : ℚ) : Nat → World → World
  | 0, w => w
  | count + 1, w => Enemy.updateAIs i d count (Enemy.updateAI w i d)

/-- The AI state of the enemy at position `i`. -/
def World.aiState (w : World) (i : Nat) : Option AIState :=
  (w.enemyManager.enemies[i]?).map fun e => e.state

/-- The transition table applied `count` times at the same distance. -/
def aiTransitions (d detectionRange attackRange : ℚ) : Nat → AIState → AIState
  | 0, state => state
  | count + 1, state =>
    aiTransitions d detectionRange attackRange count
      (aiTransitionTable state d detectionRange attackRange)

/-! ## The guaranteed loot entry -/

/-- The item `generateItem` makes of the loot entry `{type: 'gold', chance: 1.0}`. -/
def goldLootItem : Item :=
  { id := some "gold", type := "consumable", rarity := some "common", effect := some "mana",
    value := 20, quantity := 1 }

/-- The guaranteed entry of every loot table. -/
def goldLootEntry : LootData := { type := "gold", chance := { num := 1, den := 1 } }

/-- The helmet entry of the loot table of the skeleton. -/
def helmetLootEntry : LootData :=
  { type := "helmet", subtype := some "bone", rarity := some "uncommon",
    chance := { num := 8, den := 100 } }

/-- An inventory slot holds a consumable item with id `'gold'`. -/
def InventorySystem.holdsGoldItem (inv : InventorySystem) : Prop :=
  ∃ item, some item ∈ inv.inventory ∧ item.id = some "gold" ∧ item.type = "consumable"

/-- The relation between the states before and after the listener of `levelUp`:
either the stats of the player are untouched, or a nested `gainXP` ran, which
leaves `xp < xpToNext`. -/
def ExitOrSame (w w1 : World) : Prop :=
  w1.player.stats = w.player.stats ∨ w1.player.stats.xp < w1.player.stats.xpToNext

/-! ## Concrete scenes -/

/-- The initial scene with one goblin ten units from the player. -/
def goblinScene : World :=
  { World.initial (fun _ => { num := 1, den := 2 }) (fun _ => 0) with
    enemyManager := { enemies := [Enemy.create 410 300 "goblin" 1] } }

/-- A goblin in the attack state next to the player. -/
def attackingGoblin : Enemy :=
  { Enemy.create 410 300 "goblin" 1 with state := AIState.attack }

/-- The initial scene with one goblin in the attack state, ten units from the
player; the clock reads 10000 ms and advances by one millisecond a reading. -/
def attackScene : World :=
  { World.initial (fun _ => { num := 1, den := 2 }) (fun k => 10000 + (k : Int)) with
    enemyManager := { enemies := [attackingGoblin] } }

/-- The initial scene with one goblin ten units from a player whose weapon has
damage 0 and whose strength is 1; the first draw of `Math.random ()` is 0 and
the later ones are 1/2. -/
def weakAttackScene : World :=
  let w := World.initial (fun k => if k = 0 then { num := 0, den := 1 } else { num := 1, den := 2 })
    (fun _ => 0)
  { w with
    player := { w.player with
      stats := { w.player.stats with strength := 1 }
      equipment := { w.player.equipment with
        weapon := some { id := none, type := "sword", damage := 0,
                         attackSpeed := some { num := 1, den := 1 } } } }
    enemyManager := { enemies := [Enemy.create 410 300 "goblin" 1] } }

/-- A helmet item as `addItem` stores it. -/
def boneHelmet : Item :=
  { id := some "uncommon-bone", type := "helmet", rarity := some "uncommon", defense := 6,
    quantity := 1 }

/-- The initial scene after `addItem` of a helmet: it is in slot 2, behind the
two starting potions. -/
def helmetScene : World :=
  let w := World.initial (fun _ => { num := 1, den := 2 }) (fun _ => 0)
  { w with inventorySystem := (w.inventorySystem.addItem { boneHelmet with quantity := 0 }).2 }

/-- The reward sword of the Goblin Hunter quest as `addItem` stores it. -/
def sharpSword : Item :=
  { (QuestSystem.createRewardItem "uncommon-sword") with quantity := 1 }

/-- The initial scene with all 48 inventory slots holding a sword. -/
def fullInventoryScene : World :=
  let w := World.initial (fun _ => { num := 1, den := 2 }) (fun _ => 0)
  { w with inventorySystem := { w.inventorySystem with
      inventory := List.replicate 48 (some sharpSword) } }

/-- The scene after four goblin kills: Goblin Hunter at 4 of 5 and Veteran
Fighter at 5 of 10 are the active quests. -/
def twoKillQuestsScene : World :=
  { World.initial (fun _ => { num := 1, den := 2 }) (fun _ => 0) with
    questSystem :=
      { activeQuests :=
          [ { id := 2, title := "Goblin Hunter", type := "kill", target := Value.str "goblin",
              required := 5, current := 4,
              rewards := { xp := 200, gold := 100, items := ["uncommon-sword"] },
              isActive := true, isCompleted := false },
            { id := 3, title := "Veteran Fighter", type := "kill", target := Value.str "any",
              required := 10, current := 5, rewards := { xp := 300, gold := 150 },
              isActive := true, isCompleted := false } ]
        completedQuests := []
        questId := 4 } }

/-- The initial scene with Goblin Hunter at 4 of 5 as the only active quest. -/
def loneQuestScene : World :=
  { World.initial (fun _ => { num := 1, den := 2 }) (fun _ => 0) with
    questSystem :=
      { activeQuests :=
          [ { id := 0, title := "Goblin Hunter", type := "kill", target := Value.str "goblin",
              required := 5, current := 4,
              rewards := { xp := 200, gold := 100, items := ["uncommon-sword"] },
              isActive := true, isCompleted := false } ]
        completedQuests := []
        questId := 1 } }

/-- A stack of two reward swords, as handed to `addItem`. -/
def twoSwords : Item :=
  { (QuestSystem.createRewardItem "uncommon-sword") with quantity := 2 }

/-- A second weapon, as handed to `addItem`. -/
def rareSword : Item :=
  { id := some "rare-sword", type := "weapon", rarity := some "rare", damage := 22,
    attackSpeed := some { num := 1, den := 1 }, quantity := 1 }

/-- Five inventory calls with non-negative quantities: a stack of two swords is
added and equipped, three are removed from its slot, a second weapon is added
and equipped. -/
def overdrawnCalls : List InventoryCall :=
  [InventoryCall.addItem twoSwords, InventoryCall.equipItem 2, InventoryCall.removeItem 2 3,
   InventoryCall.addItem rareSword, InventoryCall.equipItem 2]

/-- A full inventory: a stack of three health potions and 47 swords. -/
def fullWithPotion : InventorySystem :=
  { inventory :=
      some { id := some "health-potion", type := "consumable", rarity := some "common",
             effect := some "heal", value := 30, quantity := 3 }
        :: List.replicate 47 (some sharpSword)
    maxSlots := 48
    gold := 100 }

/-- The initial scene with one active level quest that asks for level 3 and has
a required count of 2. -/
def slowLevelQuestScene : World :=
  { World.initial (fun _ => { num := 1, den := 2 }) (fun _ => 0) with
    questSystem :=
      { activeQuests :=
          [ { id := 0, title := "Seasoned", type := "level", target := Value.num 3,
              required := 2, current := 0, rewards := { gold := 50 },
              isActive := true, isCompleted := false } ]
        completedQuests := []
        questId := 1 } }

/-- The initial scene with Wolf Pack at 2 of 3 as the only active quest. -/
def wolfPackScene : World :=
  { World.initial (fun _ => { num := 1, den := 2 }) (fun _ => 0) with
    questSystem :=
      { activeQuests :=
          [ { id := 0, title := "Wolf Pack", type := "kill", target := Value.str "wolf",
              required := 3, current := 2,
              rewards := { xp := 400, gold := 200, items := ["rare-armor"] },
              isActive := true, isCompleted := false } ]
        completedQuests := []
        questId := 1 } }

/-- The initial scene with two skeletons ten units from the player; the second
draw of `Math.random ()` is 0 and all others are 1/2. -/
def twoSkeletonsScene : World :=
  { World.initial (fun k => if k = 1 then { num := 0, den := 1 } else { num := 1, den := 2 })
      (fun _ => 0) with
    enemyManager :=
      { enemies := [Enemy.create 410 300 "skeleton" 1, Enemy.create 390 300 "skeleton" 1] } }

/-- The initial scene with a wolf and three goblins ten units from the
player. -/
def fourEnemiesScene : World :=
  { World.initial (fun _ => { num := 1, den := 2 }) (fun _ => 0) with
    enemyManager :=
      { enemies := [Enemy.create 410 300 "wolf" 1, Enemy.create 410 300 "goblin" 1,
          Enemy.create 410 300 "goblin" 1, Enemy.create 410 300 "goblin" 1] } }

/-- The scene of `fourEnemiesScene` after the wolf and the first goblin were
killed (hits of 45 and 30) and the second goblin was hit for 25: the player has
`xp = 90` of `xpToNext = 100`, First Blood is completed, Level Up is open. -/
def afterTwoKills (fuel : Nat) : Option World :=
  ((Enemy.takeDamage fuel 0 45 fourEnemiesScene).bind (Enemy.takeDamage fuel 1 30)).bind
    (Enemy.takeDamage fuel 2 25)

/-- The state `afterTwoKills` returns: level 1, `xp = 90` of `xpToNext = 100`,
mana 50, the quests Level Up, Goblin Hunter and Veteran Fighter active, a goblin
with 5 health and one with 30 health alive. -/
def twoKillsScene : World := (afterTwoKills 3).getD fourEnemiesScene

/-- The scene of `wolfPackScene` with all 48 inventory slots holding a sword. -/
def fullWolfPackScene : World :=
  { wolfPackScene with inventorySystem := fullInventoryScene.inventorySystem }

/-! ## Supporting lemmas -/

/-! ### Basic facts about the state accessors -/

@[simp] theorem World.setEnemy_enemies (w : World) (i : Nat) (e : Enemy) :
    (w.setEnemy i e).enemyManager.enemies = w.enemyManager.enemies.set i e := rfl

@[simp] theorem World.setEnemy_player (w : World) (i : Nat) (e : Enemy) :
    (w.setEnemy i e).player = w.player := rfl

@[simp] theorem World.setEnemy_log (w : World) (i : Nat) (e : Enemy) :
    (w.setEnemy i e).log = w.log := rfl

@[simp] theorem World.dateNow_enemies (w : World) :
    w.dateNow.2.enemyManager = w.enemyManager := rfl

@[simp] theorem World.dateNow_player (w : World) : w.dateNow.2.player = w.player := rfl

@[simp] theorem World.dateNow_log (w : World) : w.dateNow.2.log = w.log := rfl

theorem Player.takeDamage_enemyManager (w : World) (damage : Int) :
    (Player.takeDamage w damage).enemyManager = w.enemyManager := by
  unfold Player.takeDamage
  split
  · rfl
  · simp only [World.emit, Player.die]
    split <;> rfl

theorem Enemy.attackPlayer_state (w : World) (i : Nat) (e : Enemy)
    (h : w.enemyManager.enemies[i]? = some e) :
    ∃ e1, (Enemy.attackPlayer w i).enemyManager.enemies[i]? = some e1 ∧ e1.state = e.state := by
  have hi : i < w.enemyManager.enemies.length := by
    rcases List.getElem?_eq_some_iff.mp h with ⟨hi, _⟩
    exact hi
  unfold Enemy.attackPlayer
  rw [h]
  simp only
  split
  · refine ⟨{ e with lastAttackTime := (Player.takeDamage w.dateNow.2 e.stats.damage).dateNow.1 }, ?_, rfl⟩
    simp [Player.takeDamage_enemyManager, hi]
  · exact ⟨e, by simpa using h, rfl⟩

theorem Enemy.attack_state (w : World) (i : Nat) (e : Enemy)
    (h : w.enemyManager.enemies[i]? = some e) :
    ∃ e1, (Enemy.attack w i).enemyManager.enemies[i]? = some e1 ∧ e1.state = e.state := by
  have hi : i < w.enemyManager.enemies.length := by
    rcases List.getElem?_eq_some_iff.mp h with ⟨hi, _⟩
    exact hi
  unfold Enemy.attack
  rw [h]
  simp only
  have := Enemy.attackPlayer_state
    (w.dateNow.2.setEnemy i { e with lastAttackTime := w.dateNow.1 }) i
    { e with lastAttackTime := w.dateNow.1 } (by simp [hi])
  simpa using this

theorem Enemy.updateAI_state (w : World) (i : Nat) (e : Enemy) (d : ℚ)
    (h : w.enemyManager.enemies[i]? = some e) :
    ∃ e1, (Enemy.updateAI w i d).enemyManager.enemies[i]? = some e1 ∧
      e1.state = aiTransitionTable e.state d e.detectionRange e.attackRange := by
  have hi : i < w.enemyManager.enemies.length := by
    rcases List.getElem?_eq_some_iff.mp h with ⟨hi, _⟩
    exact hi
  unfold Enemy.updateAI
  rw [h]
  cases hs : e.state with
  | patrol =>
    simp only [hs, aiTransitionTable, Enemy.patrol]
    split <;> simp [hi]
  | chase =>
    simp only [hs, aiTransitionTable, Enemy.chasePlayer]
    have hc : e.detectionRange * (3 / 2) = 3 / 2 * e.detectionRange := mul_comm _ _
    rw [hc]
    split
    · simp [hi]
    · split <;> simp [hi, hs]
  | attack =>
    simp only [hs, aiTransitionTable]
    split
    · simp [hi]
    · split
      · have := Enemy.attack_state (w.setEnemy i { e with velocityX := 0 }).dateNow.2 i
          { e with velocityX := 0 } (by simp [hi])
        simpa [hs] using this
      · simp [hi, hs]

theorem Player.takeDamage_invulnerable (w : World) (damage : Int)
    (h : w.player.invulnerable = true) : Player.takeDamage w damage = w := by
  simp [Player.takeDamage, h]

theorem Player.takeDamage_vulnerable (w : World) (damage : Int)
    (h : w.player.invulnerable = false) :
    Player.takeDamage w damage =
      if max 0 (w.player.stats.hp - max 1 (damage - w.player.stats.defense)) ≤ 0 then
        { w with
          player := { w.player with
            stats := { w.player.stats with hp := w.player.stats.maxHp }
            invulnerable := true, invulnerabilityTime := 1000, x := 400, y := 300 }
          log := w.log ++ [Event.takeDamage (max 1 (damage - w.player.stats.defense))] }
      else
        { w with
          player := { w.player with
            stats := { w.player.stats with
              hp := max 0 (w.player.stats.hp - max 1 (damage - w.player.stats.defense)) }
            invulnerable := true, invulnerabilityTime := 1000 }
          log := w.log ++ [Event.takeDamage (max 1 (damage - w.player.stats.defense))] } := by
  unfold Player.takeDamage
  rw [if_neg (by simp [h])]
  simp only [World.emit, Player.die]

/-! ### The invariant rule of the XP and quest cycle -/

section Rule

variable {I : List Nat → World → Prop} {A : Int → Prop}

theorem QuestSystem.giveRewards_rule (hr : QuestRule I A) {gainXP : Int → World → Option World}
    (hg : KeepsRule I A gainXP) (p : List Nat) (rewards : Rewards) (w w1 : World)
    (ha : rewards.xp ≠ 0 → A rewards.xp) (hI : I p w)
    (h : QuestSystem.giveRewards gainXP rewards w = some w1) : I p w1 := by
  unfold QuestSystem.giveRewards at h
  by_cases hx : rewards.xp ≠ 0
  · rw [if_pos hx] at h
    cases hgx : gainXP rewards.xp w with
    | none => rw [hgx] at h; simp at h
    | some w2 =>
      rw [hgx] at h
      simp only [Option.some_bind, Option.some.injEq] at h
      rw [← h]
      exact hr.rewards p w2 rewards (hg p _ w w2 (ha hx) hI hgx)
  · rw [if_neg hx] at h
    simp only [Option.some_bind, Option.some.injEq] at h
    rw [← h]
    exact hr.rewards p w rewards hI

theorem QuestSystem.completeQuest_rule (hr : QuestRule I A) {gainXP : Int → World → Option World}
    (hg : KeepsRule I A gainXP) (p : List Nat) (k : Nat) (quest : Quest) (w w1 : World)
    (hq : w.questSystem.activeQuests[k]? = some quest) (hc : quest.isCompleted = false)
    (hreq : quest.required ≤ quest.current) (hI : I p w)
    (h : QuestSystem.completeQuest gainXP k w = some w1) : I p w1 := by
  unfold QuestSystem.completeQuest at h
  rw [hq] at h
  simp only at h
  have hstep := hr.complete p w k quest hI hq hc hreq
  cases hgr : QuestSystem.giveRewards gainXP quest.rewards
      ((QuestSystem.moveToCompleted w k quest).emit (Event.giveRewards quest.id)) with
  | none => rw [hgr] at h; simp at h
  | some w2 =>
    rw [hgr] at h
    simp only [Option.some_bind, Option.some.injEq] at h
    rw [← h]
    have h2 := QuestSystem.giveRewards_rule hr hg (quest.id :: p) quest.rewards _ w2 hstep.2
      hstep.1 hgr
    exact hr.finish p w2 quest.markCompleted h2

theorem World.setActiveQuest_get (w : World) (k : Nat) (quest quest1 : Quest)
    (hq : w.questSystem.activeQuests[k]? = some quest) :
    (w.setActiveQuest k quest1).questSystem.activeQuests[k]? = some quest1 := by
  have hk : k < w.questSystem.activeQuests.length := by
    rcases List.getElem?_eq_some_iff.mp hq with ⟨hk, _⟩
    exact hk
  simp [World.setActiveQuest, hk]

theorem QuestSystem.visitQuest_rule (hr : QuestRule I A) {gainXP : Int → World → Option World}
    (hg : KeepsRule I A gainXP) (p : List Nat) (type : String) (value : Value) (k : Nat)
    (w w1 : World) (hI : I p w)
    (h : QuestSystem.visitQuest gainXP type value k w = some w1) : I p w1 := by
  unfold QuestSystem.visitQuest at h
  cases hq : w.questSystem.activeQuests[k]? with
  | none =>
    rw [hq] at h
    simp only [Option.some.injEq] at h
    rw [← h]; exact hI
  | some quest =>
    rw [hq] at h
    simp only at h
    split at h
    · rename_i hm
      split at h
      · split at h
        · rename_i hreq
          exact QuestSystem.completeQuest_rule hr hg p k
            { quest with current := min (quest.current + 1) quest.required } _ w1
            (World.setActiveQuest_get w k quest _ hq) hm.2 hreq
            (hr.progress p w k quest hI hq hm.2) h
        · simp only [Option.some.injEq] at h
          rw [← h]
          exact hr.progress p w k quest hI hq hm.2
      · split at h
        · exact QuestSystem.completeQuest_rule hr hg p k
            { quest with current := quest.required } _ w1
            (World.setActiveQuest_get w k quest _ hq) hm.2 (le_refl _)
            (hr.force p w k quest hI hq hm.2) h
        · simp only [Option.some.injEq] at h
          rw [← h]; exact hI
    · simp only [Option.some.injEq] at h
      rw [← h]; exact hI

theorem QuestSystem.forEachActive_rule (hr : QuestRule I A)
    {gainXP : Int → World → Option World} (hg : KeepsRule I A gainXP) (p : List Nat)
    (type : String) (value : Value) (remaining : Nat) :
    ∀ (k : Nat) (w w1 : World), I p w →
      QuestSystem.forEachActive gainXP type value k remaining w = some w1 → I p w1 := by
  induction remaining with
  | zero =>
    intro k w w1 hI h
    simp only [QuestSystem.forEachActive, Option.some.injEq] at h
    rw [← h]; exact hI
  | succ r ih =>
    intro k w w1 hI h
    simp only [QuestSystem.forEachActive] at h
    cases hv : QuestSystem.visitQuest gainXP type value k w with
    | none => rw [hv] at h; simp at h
    | some w2 =>
      rw [hv] at h
      simp only [Option.some_bind] at h
      exact ih (k + 1) w2 w1 (QuestSystem.visitQuest_rule hr hg p type value k w w2 hI hv) h

theorem QuestSystem.checkQuestProgress_rule (hr : QuestRule I A)
    {gainXP : Int → World → Option World} (hg : KeepsRule I A gainXP) (p : List Nat)
    (type : String) (value : Value) (w w1 : World) (hI : I p w)
    (h : QuestSystem.checkQuestProgress gainXP type value w = some w1) : I p w1 :=
  QuestSystem.forEachActive_rule hr hg p type value _ 0 w w1 hI h

theorem Player.gainXPLoop_rule (hr : QuestRule I A)
    {onLevelUp : Int → World → Option World} (p : List Nat)
    (hl : ∀ n w w1, I p w → onLevelUp n w = some w1 → I p w1) (k : Nat) :
    ∀ (w w1 : World), I p w → Player.gainXPLoop onLevelUp k w = some w1 → I p w1 := by
  induction k with
  | zero =>
    intro w w1 hI h
    simp only [Player.gainXPLoop] at h
    split at h
    · simp at h
    · simp only [Option.some.injEq] at h
      rw [← h]; exact hI
  | succ k ih =>
    intro w w1 hI h
    simp only [Player.gainXPLoop] at h
    split at h
    · rename_i hx
      cases hv : Player.levelUp onLevelUp w with
      | none => rw [hv] at h; simp at h
      | some w2 =>
        rw [hv] at h
        simp only [Option.some_bind] at h
        exact ih w2 w1 (hl _ _ w2 (hr.levelUp p w hI hx) hv) h
    · simp only [Option.some.injEq] at h
      rw [← h]; exact hI

theorem Player.gainXP_rule (hr : QuestRule I A) (fuel : Nat) :
    KeepsRule I A (Player.gainXP fuel) := by
  induction fuel with
  | zero =>
    intro p a w w1 _ _ h
    simp [Player.gainXP] at h
  | succ fuel ih =>
    intro p a w w1 ha hI h
    simp only [Player.gainXP, Player.gainXPWith] at h
    exact Player.gainXPLoop_rule hr p
      (fun n w2 w3 hI2 h2 => QuestSystem.checkQuestProgress_rule hr ih p "level" _ w2 w3 hI2 h2)
      _ _ w1 (hr.addXP p a w ha hI) h

end Rule

/-! ### The consistency of the quest books -/

theorem QuestSystem.removeActive_eq_eraseP (active : List Quest) (id : Nat) :
    QuestSystem.removeActive active id = active.eraseP (fun q => decide (q.id = id)) := by
  induction active with
  | nil => rfl
  | cons x xs ih =>
    unfold QuestSystem.removeActive at ih ⊢
    rw [List.findIdx?_cons]
    by_cases hx : x.id = id
    · simp [hx]
    · simp only [hx, decide_False, Bool.false_eq_true, ↓reduceIte, zero_add, not_false_eq_true,
        List.eraseP_cons_of_neg]
      rw [List.findIdx?_succ]
      cases hf : List.findIdx? (fun q => decide (q.id = id)) xs with
      | none =>
        rw [hf] at ih
        simp only [Option.map_none']
        rw [← ih]
      | some j =>
        rw [hf] at ih
        simp only [Option.map_some', List.eraseIdx_cons_succ]
        rw [← ih]

theorem QuestSystem.removeActive_ids (active : List Quest) (id : Nat) :
    (QuestSystem.removeActive active id).map Quest.id = (active.map Quest.id).erase id := by
  rw [QuestSystem.removeActive_eq_eraseP, List.erase_eq_eraseP, List.eraseP_map]
  congr 1
  apply congrArg (fun p => List.eraseP p active)
  funext q
  by_cases h : q.id = id
  · simp [h]
  · have h2 : ¬ id = q.id := fun h3 => h h3.symm
    simp [h, h2]

theorem List.map_id_set_same (l : List Quest) (k : Nat) (quest quest1 : Quest)
    (hq : l[k]? = some quest) (hid : quest1.id = quest.id) :
    (l.set k quest1).map Quest.id = l.map Quest.id := by
  rw [List.map_set, hid]
  apply List.ext_getElem?
  intro j
  rw [List.getElem?_set]
  split
  · rename_i hjk
    subst hjk
    split
    · simp [hq]
    · rename_i hlen
      simp only [List.length_map, not_lt] at hlen
      rw [List.getElem?_eq_none (by simpa using hlen)]
  · rfl

theorem QuestSystem.giveGoldAndItems_eq (rewards : Rewards) (w : World) :
    ∃ inv, QuestSystem.giveGoldAndItems rewards w = { w with inventorySystem := inv } := by
  unfold QuestSystem.giveGoldAndItems
  have key : ∀ (items : List String) (w0 : World) (inv0 : InventorySystem),
      ∃ inv, items.foldl
        (fun (acc : World) (itemId : String) =>
          { acc with inventorySystem :=
              (acc.inventorySystem.addItem (QuestSystem.createRewardItem itemId)).2 })
        { w0 with inventorySystem := inv0 } = { w0 with inventorySystem := inv } := by
    intro items
    induction items with
    | nil => intro w0 inv0; exact ⟨inv0, rfl⟩
    | cons x xs ih =>
      intro w0 inv0
      simp only [List.foldl_cons]
      exact ih w0 _
  split
  · exact key rewards.items w _
  · exact key rewards.items w w.inventorySystem

theorem QuestSystem.addQuest_consistent (p : List Nat) (w : World) (d : QuestData)
    (h : QuestsConsistent p w) : QuestsConsistent p (QuestSystem.addQuest w d) := by
  obtain ⟨hnd, hlt, hperm, hrew⟩ := h
  refine ⟨?_, ?_, hperm, hrew⟩
  · simp only [World.activeIds, World.completedIds, QuestSystem.addQuest, List.map_append,
      List.map_cons, List.map_nil] at hnd hlt ⊢
    have hfresh : w.questSystem.questId ∉
        List.map Quest.id w.questSystem.activeQuests
          ++ List.map Quest.id w.questSystem.completedQuests := by
      intro hmem
      exact lt_irrefl _ (hlt _ hmem)
    have hperm2 : (List.map Quest.id w.questSystem.activeQuests ++ [w.questSystem.questId]
        ++ List.map Quest.id w.questSystem.completedQuests).Perm
        (w.questSystem.questId :: (List.map Quest.id w.questSystem.activeQuests
          ++ List.map Quest.id w.questSystem.completedQuests)) := by
      rw [List.append_assoc]
      exact List.perm_middle
    exact hperm2.nodup_iff.mpr (List.nodup_cons.mpr ⟨hfresh, hnd⟩)
  · intro id hid
    simp only [World.activeIds, World.completedIds, QuestSystem.addQuest, List.map_append,
      List.map_cons, List.map_nil, List.mem_append, List.mem_singleton] at hid hlt ⊢
    rcases hid with (hid | hid) | hid
    · exact Nat.lt_succ_of_lt (hlt id (Or.inl hid))
    · rw [hid]; exact Nat.lt_succ_self _
    · exact Nat.lt_succ_of_lt (hlt id (Or.inr hid))

theorem QuestSystem.followUp_consistent (p : List Nat) (w : World) (quest : Quest)
    (h : QuestsConsistent p w) :
    QuestsConsistent p (QuestSystem.checkForFollowUpQuests w quest) := by
  unfold QuestSystem.checkForFollowUpQuests
  simp only
  split <;> split <;>
    first
      | exact h
      | exact QuestSystem.addQuest_consistent p _ _ h
      | exact QuestSystem.addQuest_consistent p _ _ (QuestSystem.addQuest_consistent p _ _ h)

theorem questsConsistent_rule : QuestRule QuestsConsistent (fun _ => True) where
  addXP := by
    intro p a w _ h
    exact h
  levelUp := by
    intro p w h _
    obtain ⟨hnd, hlt, hperm, hrew⟩ := h
    refine ⟨hnd, hlt, ?_, ?_⟩
    · simpa [World.completedEmits, World.completedIds, World.levelUpStep, World.emit,
        Event.completedId] using hperm
    · simpa [World.rewardCalls, World.completedIds, World.levelUpStep, World.emit,
        Event.rewardedId] using hrew
  progress := by
    intro p w k quest h hq _
    obtain ⟨hnd, hlt, hperm, hrew⟩ := h
    have hids : (w.setActiveQuest k
        { quest with current := min (quest.current + 1) quest.required }).activeIds
        = w.activeIds := List.map_id_set_same _ k quest _ hq rfl
    refine ⟨?_, ?_, hperm, hrew⟩
    · rw [hids]; exact hnd
    · rw [hids]; exact hlt
  force := by
    intro p w k quest h hq _
    obtain ⟨hnd, hlt, hperm, hrew⟩ := h
    have hids : (w.setActiveQuest k { quest with current := quest.required }).activeIds
        = w.activeIds := List.map_id_set_same _ k quest _ hq rfl
    refine ⟨?_, ?_, hperm, hrew⟩
    · rw [hids]; exact hnd
    · rw [hids]; exact hlt
  complete := by
    intro p w k quest h hq _ _
    refine ⟨?_, fun _ => trivial⟩
    obtain ⟨hnd, hlt, hperm, hrew⟩ := h
    have hmem : quest.id ∈ w.activeIds := by
      rcases List.getElem?_eq_some_iff.mp hq with ⟨hk, hget⟩
      exact List.mem_map.mpr ⟨quest, hget ▸ List.getElem_mem hk, rfl⟩
    have hact : ((QuestSystem.moveToCompleted w k quest).emit
        (Event.giveRewards quest.id)).activeIds = w.activeIds.erase quest.id := by
      simp only [World.activeIds, World.emit, QuestSystem.moveToCompleted]
      rw [QuestSystem.removeActive_ids,
        List.map_id_set_same _ k quest quest.markCompleted hq rfl]
    have hcomp : ((QuestSystem.moveToCompleted w k quest).emit
        (Event.giveRewards quest.id)).completedIds = w.completedIds ++ [quest.id] := by
      simp [World.completedIds, World.emit, QuestSystem.moveToCompleted, Quest.markCompleted]
    have hemits : ((QuestSystem.moveToCompleted w k quest).emit
        (Event.giveRewards quest.id)).completedEmits = w.completedEmits := by
      simp [World.completedEmits, World.emit, QuestSystem.moveToCompleted, Event.completedId]
    have hcalls : ((QuestSystem.moveToCompleted w k quest).emit
        (Event.giveRewards quest.id)).rewardCalls = w.rewardCalls ++ [quest.id] := by
      simp [World.rewardCalls, World.emit, QuestSystem.moveToCompleted, Event.rewardedId]
    have hpermIds : (w.activeIds.erase quest.id ++ (w.completedIds ++ [quest.id])).Perm
        (w.activeIds ++ w.completedIds) := by
      have h1 : (w.activeIds.erase quest.id ++ (w.completedIds ++ [quest.id])).Perm
          (quest.id :: (w.activeIds.erase quest.id ++ w.completedIds)) := by
        rw [← List.append_assoc]
        exact List.perm_append_singleton _ _
      have h2 : (quest.id :: (w.activeIds.erase quest.id ++ w.completedIds)).Perm
          (w.activeIds ++ w.completedIds) := by
        have := (List.perm_cons_erase hmem).symm
        exact List.Perm.append_right w.completedIds this
      exact h1.trans h2
    refine ⟨?_, ?_, ?_, ?_⟩
    · rw [hact, hcomp]
      exact hpermIds.nodup_iff.mpr hnd
    · intro id hid
      rw [hact, hcomp] at hid
      exact hlt id (hpermIds.subset hid)
    · rw [hemits, hcomp]
      have h1 : (w.completedEmits ++ quest.id :: p).Perm (quest.id :: (w.completedEmits ++ p)) :=
        List.perm_middle
      have h2 : (quest.id :: (w.completedEmits ++ p)).Perm (quest.id :: w.completedIds) :=
        List.Perm.cons _ hperm
      exact (h1.trans h2).trans (List.perm_append_singleton _ _).symm
    · rw [hcalls, hcomp]
      exact List.Perm.append_right _ hrew
  rewards := by
    intro p w rewards h
    obtain ⟨inv, hinv⟩ := QuestSystem.giveGoldAndItems_eq rewards w
    rw [hinv]
    exact h
  finish := by
    intro p w quest h
    apply QuestSystem.followUp_consistent
    obtain ⟨hnd, hlt, hperm, hrew⟩ := h
    refine ⟨hnd, hlt, ?_, ?_⟩
    · have hemits : (w.emit (Event.questCompleted quest.id)).completedEmits
          = w.completedEmits ++ [quest.id] := by
        simp [World.completedEmits, World.emit, Event.completedId]
      rw [hemits]
      have h1 : (w.completedEmits ++ [quest.id] ++ p).Perm (w.completedEmits ++ quest.id :: p) := by
        rw [List.append_assoc]; rfl
      exact h1.trans hperm
    · have hcalls : (w.emit (Event.questCompleted quest.id)).rewardCalls = w.rewardCalls := by
        simp [World.rewardCalls, World.emit, Event.rewardedId]
      rw [hcalls]
      exact hrew

theorem InventorySystem.generateItem_world (w : World) (loot : LootData) :
    ∃ pos, (InventorySystem.generateItem w loot).2 = { w with randomPos := pos } := by
  unfold InventorySystem.generateItem
  cases loot.rarity with
  | some r => exact ⟨w.randomPos, rfl⟩
  | none => exact ⟨w.randomPos + 1, rfl⟩

theorem InventorySystem.rollLoot_world (w : World) (loot : LootData) :
    ∃ inv pos, InventorySystem.rollLoot w loot
      = { w with inventorySystem := inv, randomPos := pos } := by
  unfold InventorySystem.rollLoot
  simp only
  split
  · obtain ⟨pos, hpos⟩ := InventorySystem.generateItem_world w.nextRandom.2 loot
    rw [hpos]
    exact ⟨_, pos, rfl⟩
  · exact ⟨w.inventorySystem, w.randomPos + 1, rfl⟩

theorem InventorySystem.handleEnemyLoot_world (w : World) (enemy : Enemy) :
    ∃ inv pos, InventorySystem.handleEnemyLoot w enemy
      = { w with inventorySystem := inv, randomPos := pos } := by
  unfold InventorySystem.handleEnemyLoot
  have key : ∀ (table : List LootData) (w0 : World) (inv0 : InventorySystem) (pos0 : Nat),
      ∃ inv pos, table.foldl InventorySystem.rollLoot
        { w0 with inventorySystem := inv0, randomPos := pos0 }
          = { w0 with inventorySystem := inv, randomPos := pos } := by
    intro table
    induction table with
    | nil => intro w0 inv0 pos0; exact ⟨inv0, pos0, rfl⟩
    | cons x xs ih =>
      intro w0 inv0 pos0
      simp only [List.foldl_cons]
      obtain ⟨inv1, pos1, h1⟩ := InventorySystem.rollLoot_world
        { w0 with inventorySystem := inv0, randomPos := pos0 } x
      rw [h1]
      exact ih w0 inv1 pos1
  obtain ⟨inv, pos, h⟩ := key (InventorySystem.generateLootTable enemy.enemyType) w
    w.inventorySystem w.randomPos
  have hw : ({ w with inventorySystem := w.inventorySystem, randomPos := w.randomPos } : World)
      = w := rfl
  rw [hw] at h
  simp only [h]
  exact ⟨_, pos, rfl⟩

theorem GameScene.handle_consistent (fuel : Nat) (event : GameEvent) (w w1 : World)
    (hI : QuestsConsistent [] w) (h : GameScene.handle fuel event w = some w1) :
    QuestsConsistent [] w1 := by
  have hg := Player.gainXP_rule questsConsistent_rule fuel
  cases event with
  | enemyKilled enemy =>
    simp only [GameScene.handle, GameScene.onEnemyKilled] at h
    cases hc : QuestSystem.checkQuestProgress (Player.gainXP fuel) "kill"
        (Value.str enemy.enemyType) w with
    | none => rw [hc] at h; simp at h
    | some w2 =>
      rw [hc] at h
      simp only [Option.some_bind, Option.some.injEq] at h
      have h2 := QuestSystem.checkQuestProgress_rule questsConsistent_rule hg [] _ _ w w2 hI hc
      obtain ⟨inv, pos, hl⟩ := InventorySystem.handleEnemyLoot_world w2 enemy
      rw [← h, hl]
      exact h2
  | levelUp newLevel =>
    exact QuestSystem.checkQuestProgress_rule questsConsistent_rule hg [] _ _ w w1 hI h
  | gainXP amount =>
    exact hg [] amount w w1 trivial hI h
  | questEvent type value =>
    exact QuestSystem.checkQuestProgress_rule questsConsistent_rule hg [] _ _ w w1 hI h

theorem QuestSystem.followUp_completedIds (w : World) (quest : Quest) :
    (QuestSystem.checkForFollowUpQuests w quest).completedIds = w.completedIds := by
  unfold QuestSystem.checkForFollowUpQuests
  simp only
  split <;> split <;> rfl

theorem completedKept_rule (S : List Nat) :
    QuestRule (fun _ w => ∀ id ∈ S, id ∈ w.completedIds) (fun _ => True) where
  addXP := fun _ _ _ _ h => h
  levelUp := fun _ _ h _ => h
  progress := fun _ _ _ _ h _ _ => h
  force := fun _ _ _ _ h _ _ => h
  complete := by
    intro p w k quest h _ _ _
    refine ⟨fun id hid => ?_, fun _ => trivial⟩
    have := h id hid
    simp only [World.completedIds, World.emit, QuestSystem.moveToCompleted, List.map_append,
      List.mem_append] at this ⊢
    exact Or.inl this
  rewards := by
    intro p w rewards h
    obtain ⟨inv, hinv⟩ := QuestSystem.giveGoldAndItems_eq rewards w
    rw [hinv]
    exact h
  finish := by
    intro p w quest h id hid
    rw [QuestSystem.followUp_completedIds]
    exact h id hid

theorem GameScene.handle_completedKept (S : List Nat) (fuel : Nat) (event : GameEvent)
    (w w1 : World) (hI : ∀ id ∈ S, id ∈ w.completedIds)
    (h : GameScene.handle fuel event w = some w1) : ∀ id ∈ S, id ∈ w1.completedIds := by
  have hg := Player.gainXP_rule (completedKept_rule S) fuel
  cases event with
  | enemyKilled enemy =>
    simp only [GameScene.handle, GameScene.onEnemyKilled] at h
    cases hc : QuestSystem.checkQuestProgress (Player.gainXP fuel) "kill"
        (Value.str enemy.enemyType) w with
    | none => rw [hc] at h; simp at h
    | some w2 =>
      rw [hc] at h
      simp only [Option.some_bind, Option.some.injEq] at h
      have h2 := QuestSystem.checkQuestProgress_rule (completedKept_rule S) hg [] _ _ w w2 hI hc
      obtain ⟨inv, pos, hl⟩ := InventorySystem.handleEnemyLoot_world w2 enemy
      rw [← h, hl]
      exact h2
  | levelUp newLevel =>
    exact QuestSystem.checkQuestProgress_rule (completedKept_rule S) hg [] _ _ w w1 hI h
  | gainXP amount =>
    exact hg [] amount w w1 trivial hI h
  | questEvent type value =>
    exact QuestSystem.checkQuestProgress_rule (completedKept_rule S) hg [] _ _ w w1 hI h

theorem GameScene.handleAll_consistent (fuel : Nat) (events : List GameEvent) :
    ∀ (w w1 : World), QuestsConsistent [] w → GameScene.handleAll fuel events w = some w1 →
      QuestsConsistent [] w1 ∧ ∀ id ∈ w.completedIds, id ∈ w1.completedIds := by
  induction events with
  | nil =>
    intro w w1 hI h
    simp only [GameScene.handleAll, Option.some.injEq] at h
    rw [← h]
    exact ⟨hI, fun _ hid => hid⟩
  | cons e rest ih =>
    intro w w1 hI h
    simp only [GameScene.handleAll] at h
    cases he : GameScene.handle fuel e w with
    | none => rw [he] at h; simp at h
    | some w2 =>
      rw [he] at h
      simp only [Option.some_bind] at h
      obtain ⟨h3, h4⟩ := ih w2 w1 (GameScene.handle_consistent fuel e w w2 hI he) h
      refine ⟨h3, fun id hid => h4 id ?_⟩
      exact GameScene.handle_completedKept w.completedIds fuel e w w2 (fun _ h => h) he id hid

theorem World.count_questCompleted (w : World) (id : Nat) :
    w.log.count (Event.questCompleted id) = w.completedEmits.count id := by
  unfold World.completedEmits
  induction w.log with
  | nil => rfl
  | cons e es ih =>
    cases e <;> simp [List.count_cons, List.filterMap_cons, Event.completedId, ih]

theorem World.count_giveRewards (w : World) (id : Nat) :
    w.log.count (Event.giveRewards id) = w.rewardCalls.count id := by
  unfold World.rewardCalls
  induction w.log with
  | nil => rfl
  | cons e es ih =>
    cases e <;> simp [List.count_cons, List.filterMap_cons, Event.rewardedId, ih]

theorem QuestsConsistent.once (w : World) (h : QuestsConsistent [] w) :
    (∀ id, w.log.count (Event.questCompleted id) ≤ 1) ∧
    (∀ id, w.log.count (Event.giveRewards id) ≤ 1) ∧
    (∀ id ∈ w.completedIds, id ∉ w.activeIds) ∧
    (∀ id ∈ w.completedIds,
      w.log.count (Event.questCompleted id) = 1 ∧ w.log.count (Event.giveRewards id) = 1) := by
  obtain ⟨hnd, _, hperm, hrew⟩ := h
  rw [List.append_nil] at hperm
  have hcnd : w.completedIds.Nodup := (List.nodup_append.mp hnd).2.1
  have hdisj := (List.nodup_append.mp hnd).2.2
  refine ⟨?_, ?_, ?_, ?_⟩
  · intro id
    rw [World.count_questCompleted, hperm.count_eq]
    exact List.nodup_iff_count_le_one.mp hcnd id
  · intro id
    rw [World.count_giveRewards, hrew.count_eq]
    exact List.nodup_iff_count_le_one.mp hcnd id
  · intro id hc ha
    exact hdisj ha hc
  · intro id hc
    rw [World.count_questCompleted, hperm.count_eq, World.count_giveRewards, hrew.count_eq]
    exact ⟨List.count_eq_one_of_mem hcnd hc, List.count_eq_one_of_mem hcnd hc⟩

theorem World.initial_consistent (random : Nat → Frac) (clock : Nat → Int) :
    QuestsConsistent [] (World.initial random clock) := by
  have h1 : (World.initial random clock).activeIds = [0, 1, 2] := rfl
  have h2 : (World.initial random clock).completedIds = [] := rfl
  have h3 : (World.initial random clock).questSystem.questId = 3 := rfl
  refine ⟨?_, ?_, ?_, ?_⟩
  · rw [h1, h2]; decide
  · rw [h1, h2, h3]; decide
  · exact List.Perm.refl _
  · exact List.Perm.refl _

/-! ### Enemy damage and death -/

theorem killCount_rule (em : EnemyManager) (i n : Nat) :
    QuestRule (fun _ w => w.enemyManager = em ∧ w.log.count (Event.enemyKilled i) = n)
      (fun _ => True) where
  addXP := fun _ _ _ _ h => h
  levelUp := by
    intro p w h _
    refine ⟨h.1, ?_⟩
    simp only [World.levelUpStep, World.emit, List.count_append]
    rw [h.2]
    simp [List.count_cons]
  progress := fun _ _ _ _ h _ _ => h
  force := fun _ _ _ _ h _ _ => h
  complete := by
    intro p w k quest h _ _ _
    refine ⟨⟨h.1, ?_⟩, fun _ => trivial⟩
    simp only [QuestSystem.moveToCompleted, World.emit, List.count_append]
    rw [h.2]
    simp [List.count_cons]
  rewards := by
    intro p w rewards h
    obtain ⟨inv, hinv⟩ := QuestSystem.giveGoldAndItems_eq rewards w
    rw [hinv]
    exact h
  finish := by
    intro p w quest h
    have hf : ∀ w0 : World,
        (QuestSystem.checkForFollowUpQuests w0 quest).enemyManager = w0.enemyManager ∧
        (QuestSystem.checkForFollowUpQuests w0 quest).log = w0.log := by
      intro w0
      unfold QuestSystem.checkForFollowUpQuests
      simp only
      split <;> split <;> exact ⟨rfl, rfl⟩
    rw [(hf _).1, (hf _).2]
    refine ⟨h.1, ?_⟩
    simp only [World.emit, List.count_append]
    rw [h.2]
    simp [List.count_cons]

theorem Enemy.die_effect (fuel i : Nat) (e : Enemy) (w w1 : World)
    (he : w.enemyManager.enemies[i]? = some e) (hs : e.hasScene = true)
    (h : Enemy.die fuel i w = some w1) :
    w1.enemyManager.enemies
      = w.enemyManager.enemies.set i
          { e with inGroup := false, active := false, hasScene := false } ∧
    w1.log.count (Event.enemyKilled i) = w.log.count (Event.enemyKilled i) + 1 := by
  have hi : i < w.enemyManager.enemies.length := by
    rcases List.getElem?_eq_some_iff.mp he with ⟨hi, _⟩
    exact hi
  unfold Enemy.die at h
  rw [he] at h
  simp only at h
  rw [if_pos hs] at h
  cases hg : Player.gainXP fuel e.stats.xpReward w with
  | none => rw [hg] at h; simp at h
  | some w2 =>
    rw [hg] at h
    simp only [Option.some_bind] at h
    have h2 := Player.gainXP_rule (killCount_rule w.enemyManager i _) fuel [] _ w w2 trivial
      ⟨rfl, rfl⟩ hg
    unfold GameScene.onEnemyKilled at h
    cases hc : QuestSystem.checkQuestProgress (Player.gainXP fuel) "kill" (Value.str e.enemyType)
        (w2.emit (Event.enemyKilled i)) with
    | none => rw [hc] at h; simp at h
    | some w3 =>
      rw [hc] at h
      simp only [Option.some_bind, Option.some.injEq] at h
      have hI : (w2.emit (Event.enemyKilled i)).enemyManager = w.enemyManager ∧
          (w2.emit (Event.enemyKilled i)).log.count (Event.enemyKilled i)
            = w.log.count (Event.enemyKilled i) + 1 := by
        refine ⟨h2.1, ?_⟩
        simp only [World.emit, List.count_append, h2.2]
        simp [List.count_cons]
      have h3 := QuestSystem.checkQuestProgress_rule
        (killCount_rule w.enemyManager i (w.log.count (Event.enemyKilled i) + 1))
        (Player.gainXP_rule
          (killCount_rule w.enemyManager i (w.log.count (Event.enemyKilled i) + 1)) fuel)
        [] _ _ _ w3 hI hc
      obtain ⟨inv, pos, hl⟩ := InventorySystem.handleEnemyLoot_world w3 e
      rw [hl] at h
      rw [← h]
      unfold EnemyManager.removeEnemy
      simp only [h3.1, he]
      exact ⟨rfl, h3.2⟩

/-- A hit that leaves the enemy health above 0 only sets the health. -/
theorem Enemy.takeDamage_survives (fuel i : Nat) (e : Enemy) (damage : ℚ) (w : World)
    (he : w.enemyManager.enemies[i]? = some e) (hd : ¬ e.stats.hp - damage ≤ 0) :
    Enemy.takeDamage fuel i damage w
      = some (w.setEnemy i
          { e with stats := { e.stats with hp := max 0 (e.stats.hp - damage) } }) := by
  have hmax : ¬ max 0 (e.stats.hp - damage) ≤ 0 := by
    rw [not_le] at hd ⊢
    exact lt_max_of_lt_right hd
  unfold Enemy.takeDamage
  rw [he]
  simp only
  rw [if_neg hmax]

/-- A hit that leaves the health of a destroyed enemy at 0 sets the health and
throws. -/
theorem Enemy.takeDamage_throws (fuel i : Nat) (e : Enemy) (damage : ℚ) (w : World)
    (he : w.enemyManager.enemies[i]? = some e) (hd : e.stats.hp - damage ≤ 0)
    (hs : e.hasScene = false) :
    Enemy.takeDamage fuel i damage w
      = some (w.setEnemy i
          { e with stats := { e.stats with hp := max 0 (e.stats.hp - damage) } }).throwTypeError
    := by
  have hi : i < w.enemyManager.enemies.length := by
    rcases List.getElem?_eq_some_iff.mp he with ⟨hi, _⟩
    exact hi
  have hmax : max 0 (e.stats.hp - damage) ≤ 0 := max_le (le_refl _) hd
  unfold Enemy.takeDamage
  rw [he]
  simp only
  rw [if_pos hmax]
  unfold Enemy.die
  have hget : (w.setEnemy i
      { e with stats := { e.stats with hp := max 0 (e.stats.hp - damage) } }).enemyManager.enemies[i]?
      = some { e with stats := { e.stats with hp := max 0 (e.stats.hp - damage) } } := by
    simp [World.setEnemy, hi]
  rw [hget]
  simp only
  rw [if_neg (by rw [hs]; decide)]

/-- A hit that leaves the health of a live enemy at 0 sets the health and runs
`die`. -/
theorem Enemy.takeDamage_dies (fuel i : Nat) (e : Enemy) (damage : ℚ) (w : World)
    (he : w.enemyManager.enemies[i]? = some e) (hd : e.stats.hp - damage ≤ 0) :
    Enemy.takeDamage fuel i damage w
      = Enemy.die fuel i (w.setEnemy i { e with stats := { e.stats with hp := 0 } }) ∧
    (w.setEnemy i { e with stats := { e.stats with hp := 0 } }).enemyManager.enemies[i]?
      = some { e with stats := { e.stats with hp := 0 } } := by
  have hi : i < w.enemyManager.enemies.length := by
    rcases List.getElem?_eq_some_iff.mp he with ⟨hi, _⟩
    exact hi
  have hmax : max 0 (e.stats.hp - damage) = 0 := max_eq_left hd
  refine ⟨?_, by simp [World.setEnemy, hi]⟩
  unfold Enemy.takeDamage
  rw [he]
  simp only [hmax, le_refl, if_true]

theorem Enemy.takeDamage_effect (fuel i : Nat) (e : Enemy) (damage : ℚ) (w w1 : World)
    (he : w.enemyManager.enemies[i]? = some e)
    (h : Enemy.takeDamage fuel i damage w = some w1) :
    ∃ e1, w1.enemyManager.enemies[i]? = some e1 ∧
      e1.stats = { e.stats with hp := max 0 (e.stats.hp - damage) } ∧
      e1.inGroup = (e.inGroup && !(decide (e.stats.hp - damage ≤ 0) && e.hasScene)) ∧
      e1.hasScene = (e.hasScene && !decide (e.stats.hp - damage ≤ 0)) ∧
      w1.log.count (Event.enemyKilled i)
        = w.log.count (Event.enemyKilled i)
          + (if e.stats.hp - damage ≤ 0 ∧ e.hasScene = true then 1 else 0) := by
  have hi : i < w.enemyManager.enemies.length := by
    rcases List.getElem?_eq_some_iff.mp he with ⟨hi, _⟩
    exact hi
  by_cases hd : e.stats.hp - damage ≤ 0
  · have hmax : max 0 (e.stats.hp - damage) = 0 := max_eq_left hd
    cases hs : e.hasScene with
    | true =>
      obtain ⟨hdie, hget⟩ := Enemy.takeDamage_dies fuel i e damage w he hd
      rw [hdie] at h
      obtain ⟨h1, h2⟩ := Enemy.die_effect fuel i
        { e with stats := { e.stats with hp := 0 } } _ w1 hget hs h
      refine ⟨{ e with stats := { e.stats with hp := 0 },
                       inGroup := false, active := false, hasScene := false }, ?_, ?_, ?_, ?_, ?_⟩
      · rw [h1]; simp [World.setEnemy, hi]
      · rw [hmax]
      · simp [hd]
      · simp [hd]
      · rw [h2, if_pos ⟨hd, rfl⟩]; rfl
    | false =>
      rw [Enemy.takeDamage_throws fuel i e damage w he hd hs] at h
      simp only [Option.some.injEq] at h
      rw [← h]
      refine ⟨{ e with stats := { e.stats with hp := max 0 (e.stats.hp - damage) } },
        by simp [World.setEnemy, World.throwTypeError, hi], rfl, ?_, ?_, ?_⟩
      · simp
      · simp [hs]
      · simp [World.setEnemy, World.throwTypeError]
  · rw [Enemy.takeDamage_survives fuel i e damage w he hd] at h
    simp only [Option.some.injEq] at h
    rw [← h]
    refine ⟨{ e with stats := { e.stats with hp := max 0 (e.stats.hp - damage) } },
      by simp [World.setEnemy, hi], rfl, ?_, ?_, ?_⟩
    · simp [hd]
    · simp [hd]
    · simp [World.setEnemy, hd]

theorem EnemyManager.not_inRange_of_removed (w : World) (i : Nat) (e : Enemy)
    (he : w.enemyManager.enemies[i]? = some e) (hg : e.inGroup = false)
    (distance : Nat → ℚ) (range : ℚ) : i ∉ EnemyManager.getEnemiesInRange w distance range := by
  unfold EnemyManager.getEnemiesInRange
  simp [he, hg]

/-! ### The health bound -/

theorem QuestSystem.followUp_player (w : World) (quest : Quest) :
    (QuestSystem.checkForFollowUpQuests w quest).player = w.player := by
  unfold QuestSystem.checkForFollowUpQuests
  simp only
  split <;> split <;> rfl

theorem World.levelUpStep_hpBounded (w : World) (h : w.playerHpBounded) :
    w.levelUpStep.playerHpBounded := by
  obtain ⟨h1, h2⟩ := h
  refine ⟨?_, ?_⟩
  · show 0 ≤ w.player.stats.maxHp + 10
    omega
  · exact le_refl _

theorem playerHp_rule : QuestRule (fun _ w => w.playerHpBounded) (fun _ => True) where
  addXP := fun _ _ _ _ h => h
  levelUp := fun _ w h _ => World.levelUpStep_hpBounded w h
  progress := fun _ _ _ _ h _ _ => h
  force := fun _ _ _ _ h _ _ => h
  complete := fun _ _ _ _ h _ _ _ => ⟨h, fun _ => trivial⟩
  rewards := by
    intro p w rewards h
    obtain ⟨inv, hinv⟩ := QuestSystem.giveGoldAndItems_eq rewards w
    rw [hinv]
    exact h
  finish := by
    intro p w quest h
    unfold World.playerHpBounded
    rw [QuestSystem.followUp_player]
    exact h

theorem Player.takeDamage_hpBounded (w : World) (damage : Int) (h : w.playerHpBounded) :
    (Player.takeDamage w damage).playerHpBounded := by
  obtain ⟨h1, h2⟩ := h
  by_cases hinv : w.player.invulnerable = true
  · rw [Player.takeDamage_invulnerable w damage hinv]
    exact ⟨h1, h2⟩
  · rw [Player.takeDamage_vulnerable w damage (by simpa using hinv)]
    have ha : 1 ≤ max 1 (damage - w.player.stats.defense) := le_max_left _ _
    split
    · exact ⟨le_trans h1 h2, le_refl _⟩
    · refine ⟨le_max_left _ _, ?_⟩
      show max 0 (w.player.stats.hp - max 1 (damage - w.player.stats.defense))
        ≤ w.player.stats.maxHp
      apply max_le (le_trans h1 h2)
      omega

theorem Player.heal_hpBounded (w : World) (amount : Int) (ha : 0 ≤ amount)
    (h : w.playerHpBounded) : (Player.heal w amount).playerHpBounded := by
  obtain ⟨h1, h2⟩ := h
  refine ⟨?_, ?_⟩
  · show 0 ≤ min w.player.stats.maxHp (w.player.stats.hp + amount)
    apply le_min (le_trans h1 h2)
    omega
  · exact min_le_left _ _

theorem Enemy.die_hpBounded (fuel i : Nat) (w w1 : World) (hw : w.playerHpBounded)
    (h : Enemy.die fuel i w = some w1) : w1.playerHpBounded := by
  unfold Enemy.die at h
  cases he : w.enemyManager.enemies[i]? with
  | none =>
    rw [he] at h
    simp only [Option.some.injEq] at h
    rw [← h]; exact hw
  | some e =>
    rw [he] at h
    simp only at h
    by_cases hs : e.hasScene = true
    swap
    · rw [if_neg hs] at h
      simp only [Option.some.injEq] at h
      rw [← h]; exact hw
    rw [if_pos hs] at h
    cases hg : Player.gainXP fuel e.stats.xpReward w with
    | none => rw [hg] at h; simp at h
    | some w2 =>
      rw [hg] at h
      simp only [Option.some_bind] at h
      have h2 := Player.gainXP_rule playerHp_rule fuel [] _ w w2 trivial hw hg
      unfold GameScene.onEnemyKilled at h
      cases hc : QuestSystem.checkQuestProgress (Player.gainXP fuel) "kill"
          (Value.str e.enemyType) (w2.emit (Event.enemyKilled i)) with
      | none => rw [hc] at h; simp at h
      | some w3 =>
        rw [hc] at h
        simp only [Option.some_bind, Option.some.injEq] at h
        have h3 := QuestSystem.checkQuestProgress_rule playerHp_rule
          (Player.gainXP_rule playerHp_rule fuel) [] _ _ (w2.emit (Event.enemyKilled i)) w3 h2 hc
        obtain ⟨inv, pos, hl⟩ := InventorySystem.handleEnemyLoot_world w3 e
        rw [hl] at h
        rw [← h]
        unfold EnemyManager.removeEnemy
        split
        · exact h3
        · exact h3

theorem Enemy.takeDamage_playerHpBounded (fuel i : Nat) (damage : ℚ) (w w1 : World)
    (hw : w.playerHpBounded) (h : Enemy.takeDamage fuel i damage w = some w1) :
    w1.playerHpBounded := by
  unfold Enemy.takeDamage at h
  cases he : w.enemyManager.enemies[i]? with
  | none =>
    rw [he] at h
    simp only [Option.some.injEq] at h
    rw [← h]; exact hw
  | some e =>
    rw [he] at h
    simp only at h
    split at h
    · exact Enemy.die_hpBounded fuel i (w.setEnemy i _) w1 hw h
    · simp only [Option.some.injEq] at h
      rw [← h]; exact hw

/-! ### The experience bound -/

theorem QuestSystem.followUp_rewardsNonneg (w : World) (quest : Quest)
    (h : w.rewardsNonneg) : (QuestSystem.checkForFollowUpQuests w quest).rewardsNonneg := by
  have hadd : ∀ (w0 : World) (d : QuestData), 0 ≤ d.rewards.xp → w0.rewardsNonneg →
      (QuestSystem.addQuest w0 d).rewardsNonneg := by
    intro w0 d hd h0 q hq
    simp only [QuestSystem.addQuest, List.mem_append, List.mem_singleton] at hq
    rcases hq with hq | hq
    · exact h0 q hq
    · rw [hq]; exact hd
  unfold QuestSystem.checkForFollowUpQuests
  simp only
  split <;> split
  · exact hadd _ _ (by decide) (hadd _ _ (by decide) h)
  · exact hadd _ _ (by decide) h
  · exact hadd _ _ (by decide) h
  · exact h

theorem xp_rule :
    QuestRule (fun _ w => 0 ≤ w.player.stats.xp ∧ 1 ≤ w.player.stats.xpToNext ∧ w.rewardsNonneg)
      (fun a => 0 ≤ a) where
  addXP := by
    intro p a w ha h
    refine ⟨?_, h.2.1, h.2.2⟩
    show 0 ≤ w.player.stats.xp + a
    have := h.1
    omega
  levelUp := by
    intro p w h hx
    refine ⟨?_, ?_, h.2.2⟩
    · show 0 ≤ w.player.stats.xp - w.player.stats.xpToNext
      omega
    · show 1 ≤ w.player.stats.xpToNext * 6 / 5
      have := h.2.1
      omega
  progress := by
    intro p w k quest h hq _
    refine ⟨h.1, h.2.1, ?_⟩
    intro q hmem
    rcases List.mem_or_eq_of_mem_set hmem with hq1 | hq1
    · exact h.2.2 q hq1
    · rw [hq1]
      exact h.2.2 quest (List.getElem?_mem hq)
  force := by
    intro p w k quest h hq _
    refine ⟨h.1, h.2.1, ?_⟩
    intro q hmem
    rcases List.mem_or_eq_of_mem_set hmem with hq1 | hq1
    · exact h.2.2 q hq1
    · rw [hq1]
      exact h.2.2 quest (List.getElem?_mem hq)
  complete := by
    intro p w k quest h hq _ _
    have hquest : 0 ≤ quest.rewards.xp := h.2.2 quest (List.getElem?_mem hq)
    refine ⟨⟨h.1, h.2.1, ?_⟩, fun _ => hquest⟩
    intro q hmem
    simp only [World.emit, QuestSystem.moveToCompleted] at hmem
    rw [QuestSystem.removeActive_eq_eraseP] at hmem
    rcases List.mem_or_eq_of_mem_set (List.mem_of_mem_eraseP hmem) with hq1 | hq1
    · exact h.2.2 q hq1
    · rw [hq1]
      exact hquest
  rewards := by
    intro p w rewards h
    obtain ⟨inv, hinv⟩ := QuestSystem.giveGoldAndItems_eq rewards w
    rw [hinv]
    exact h
  finish := by
    intro p w quest h
    refine ⟨?_, ?_, QuestSystem.followUp_rewardsNonneg _ quest h.2.2⟩
    · rw [QuestSystem.followUp_player]; exact h.1
    · rw [QuestSystem.followUp_player]; exact h.2.1

theorem Player.gainXPLoop_exit (onLevelUp : Int → World → Option World) (k : Nat) :
    ∀ (w w1 : World), Player.gainXPLoop onLevelUp k w = some w1 →
      w1.player.stats.xp < w1.player.stats.xpToNext := by
  induction k with
  | zero =>
    intro w w1 h
    simp only [Player.gainXPLoop] at h
    split at h
    · simp at h
    · rename_i hx
      simp only [Option.some.injEq] at h
      rw [← h]; omega
  | succ k ih =>
    intro w w1 h
    simp only [Player.gainXPLoop] at h
    split at h
    · cases hv : Player.levelUp onLevelUp w with
      | none => rw [hv] at h; simp at h
      | some w2 =>
        rw [hv] at h
        simp only [Option.some_bind] at h
        exact ih w2 w1 h
    · rename_i hx
      simp only [Option.some.injEq] at h
      rw [← h]; omega

theorem Player.gainXP_exit (fuel : Nat) (amount : Int) (w w1 : World)
    (h : Player.gainXP fuel amount w = some w1) :
    w1.player.stats.xp < w1.player.stats.xpToNext := by
  cases fuel with
  | zero => simp [Player.gainXP] at h
  | succ fuel =>
    simp only [Player.gainXP, Player.gainXPWith] at h
    exact Player.gainXPLoop_exit _ _ _ w1 h

/-- The loop of `gainXP` with no listener attached terminates within `xp`
iterations. -/
theorem Player.gainXPLoop_alone (k : Nat) :
    ∀ (w : World), 1 ≤ w.player.stats.xpToNext → 0 ≤ w.player.stats.xp →
      w.player.stats.xp ≤ (k : Int) →
      ∃ w1, Player.gainXPLoop (fun _ w0 => some w0) k w = some w1 ∧ w1.xpBounded := by
  induction k with
  | zero =>
    intro w h1 h0 hk
    refine ⟨w, ?_, h0, by simp at hk; omega⟩
    simp only [Player.gainXPLoop]
    rw [if_neg (by simp at hk; omega)]
  | succ k ih =>
    intro w h1 h0 hk
    simp only [Player.gainXPLoop]
    split
    · rename_i hx
      simp only [Player.levelUp, Option.some_bind]
      apply ih
      · show 1 ≤ w.player.stats.xpToNext * 6 / 5
        omega
      · show 0 ≤ w.player.stats.xp - w.player.stats.xpToNext
        omega
      · show w.player.stats.xp - w.player.stats.xpToNext ≤ (k : Int)
        push_cast at hk
        omega
    · rename_i hx
      exact ⟨w, rfl, h0, by omega⟩

/-! ### Termination of the XP and quest cycle -/

theorem Settles.pure (w : World) (post : World → Prop) (h : post w) :
    Settles (fun _ => some w) post :=
  ⟨0, w, h, fun _ _ => rfl⟩

theorem Settles.bind {run : Nat → Option World} {next : Nat → World → Option World}
    {mid post : World → Prop} (h1 : Settles run mid)
    (h2 : ∀ w1, mid w1 → Settles (fun fuel => next fuel w1) post) :
    Settles (fun fuel => (run fuel).bind (next fuel)) post := by
  obtain ⟨N1, w1, hm, hr⟩ := h1
  obtain ⟨N2, w2, hp, hn⟩ := h2 w1 hm
  refine ⟨max N1 N2, w2, hp, fun fuel hf => ?_⟩
  simp only [hr fuel (le_trans (le_max_left _ _) hf), Option.some_bind,
    hn fuel (le_trans (le_max_right _ _) hf)]

theorem Settles.weaken {run : Nat → Option World} {post post1 : World → Prop}
    (h : Settles run post) (himp : ∀ w, post w → post1 w) : Settles run post1 := by
  obtain ⟨N, w1, hp, hr⟩ := h
  exact ⟨N, w1, himp w1 hp, hr⟩

theorem LevelScanPost.refl (w : World) (h : 1 ≤ w.player.stats.xpToNext) : LevelScanPost w w :=
  ⟨h, Or.inr ⟨rfl, rfl⟩⟩

theorem LevelScanPost.trans {w w1 w2 : World} (h1 : LevelScanPost w w1)
    (h2 : LevelScanPost w1 w2) : LevelScanPost w w2 := by
  refine ⟨h2.1, ?_⟩
  rcases h1.2 with h1 | ⟨h1, h1x⟩ <;> rcases h2.2 with h2 | ⟨h2, h2x⟩
  · left; omega
  · left; omega
  · left; omega
  · right; exact ⟨by omega, by omega⟩

theorem List.countP_set_same {α : Type} (p : α → Bool) (l : List α) (k : Nat) (a b : α)
    (h : l[k]? = some a) (hp : p b = p a) : (l.set k b).countP p = l.countP p := by
  induction l generalizing k with
  | nil => simp
  | cons x xs ih =>
    cases k with
    | zero =>
      simp only [List.getElem?_cons_zero, Option.some.injEq] at h
      simp [List.countP_cons, hp, h]
    | succ k =>
      simp only [List.getElem?_cons_succ] at h
      simp [List.countP_cons, ih k h]

theorem List.countP_set_drop {α : Type} (p : α → Bool) (l : List α) (k : Nat) (a b : α)
    (h : l[k]? = some a) (hpa : p a = true) (hpb : p b = false) :
    (l.set k b).countP p + 1 = l.countP p := by
  induction l generalizing k with
  | nil => simp at h
  | cons x xs ih =>
    cases k with
    | zero =>
      simp only [List.getElem?_cons_zero, Option.some.injEq] at h
      simp [List.countP_cons, hpb, h, hpa]
    | succ k =>
      simp only [List.getElem?_cons_succ] at h
      have := ih k h
      simp only [List.set_cons_succ, List.countP_cons]
      omega

theorem World.openLevelQuests_setActiveQuest (w : World) (k : Nat) (quest : Quest) (c : Int)
    (hq : w.questSystem.activeQuests[k]? = some quest) :
    (w.setActiveQuest k { quest with current := c }).openLevelQuests = w.openLevelQuests :=
  List.countP_set_same _ _ k quest _ hq rfl

theorem QuestSystem.moveToCompleted_openLevelQuests (w : World) (k : Nat) (quest : Quest)
    (hq : w.questSystem.activeQuests[k]? = some quest) (ht : quest.type = "level")
    (hc : quest.isCompleted = false) :
    (QuestSystem.moveToCompleted w k quest).openLevelQuests + 1 ≤ w.openLevelQuests := by
  have h1 := List.countP_set_drop
    (fun q : Quest => decide (q.type = "level") && !q.isCompleted)
    w.questSystem.activeQuests k quest quest.markCompleted hq
    (by simp [ht, hc]) (by simp [Quest.markCompleted])
  have h2 : (QuestSystem.moveToCompleted w k quest).openLevelQuests
      ≤ (w.questSystem.activeQuests.set k quest.markCompleted).countP
          (fun q : Quest => decide (q.type = "level") && !q.isCompleted) := by
    simp only [World.openLevelQuests, QuestSystem.moveToCompleted]
    rw [QuestSystem.removeActive_eq_eraseP]
    exact List.Sublist.countP_le _ (List.eraseP_sublist _)
  have h3 : w.openLevelQuests = w.questSystem.activeQuests.countP
      (fun q : Quest => decide (q.type = "level") && !q.isCompleted) := rfl
  omega

theorem QuestSystem.followUp_openLevelQuests (w : World) (quest : Quest) :
    (QuestSystem.checkForFollowUpQuests w quest).openLevelQuests = w.openLevelQuests := by
  have hadd : ∀ (w0 : World) (d : QuestData), d.type ≠ "level" →
      (QuestSystem.addQuest w0 d).openLevelQuests = w0.openLevelQuests := by
    intro w0 d hd
    simp [World.openLevelQuests, QuestSystem.addQuest, List.countP_append, List.countP_cons, hd]
  unfold QuestSystem.checkForFollowUpQuests
  simp only
  split <;> split
  · rw [hadd _ _ (by decide), hadd _ _ (by decide)]
  · rw [hadd _ _ (by decide)]
  · rw [hadd _ _ (by decide)]
  · rfl

theorem QuestSystem.completeQuest_settles (m : Nat) (hH : GainSettlesBelow m) (w : World)
    (k : Nat) (quest : Quest) (hq : w.questSystem.activeQuests[k]? = some quest)
    (ht : quest.type = "level") (hc : quest.isCompleted = false)
    (hm : w.openLevelQuests ≤ m) (hx : 1 ≤ w.player.stats.xpToNext) :
    Settles (fun fuel => QuestSystem.completeQuest (Player.gainXP fuel) k w)
      (fun w1 => 1 ≤ w1.player.stats.xpToNext ∧ w1.openLevelQuests < w.openLevelQuests) := by
  have hdrop := QuestSystem.moveToCompleted_openLevelQuests w k quest hq ht hc
  have hfinish : ∀ w3 : World,
      (QuestSystem.checkForFollowUpQuests
        ((QuestSystem.giveGoldAndItems quest.rewards w3).emit (Event.questCompleted quest.id))
        quest.markCompleted).openLevelQuests = w3.openLevelQuests ∧
      (QuestSystem.checkForFollowUpQuests
        ((QuestSystem.giveGoldAndItems quest.rewards w3).emit (Event.questCompleted quest.id))
        quest.markCompleted).player = w3.player := by
    intro w3
    obtain ⟨inv, hinv⟩ := QuestSystem.giveGoldAndItems_eq quest.rewards w3
    rw [QuestSystem.followUp_openLevelQuests, QuestSystem.followUp_player, hinv]
    exact ⟨rfl, rfl⟩
  by_cases hxp : quest.rewards.xp ≠ 0
  · obtain ⟨N, w3, hpost, hrun⟩ := hH
      ((QuestSystem.moveToCompleted w k quest).emit (Event.giveRewards quest.id))
      quest.rewards.xp
      (by
        show (QuestSystem.moveToCompleted w k quest).openLevelQuests < m
        omega)
      hx
    refine ⟨N, QuestSystem.checkForFollowUpQuests
        ((QuestSystem.giveGoldAndItems quest.rewards w3).emit (Event.questCompleted quest.id))
        quest.markCompleted, ?_, fun fuel hf => ?_⟩
    rotate_left
    · unfold QuestSystem.completeQuest
      rw [hq]
      simp only [QuestSystem.giveRewards, if_pos hxp, hrun fuel hf, Option.some_bind]
    · beta_reduce
      rw [(hfinish w3).1, (hfinish w3).2]
      refine ⟨hpost.2, ?_⟩
      have : w3.openLevelQuests ≤ (QuestSystem.moveToCompleted w k quest).openLevelQuests :=
        hpost.1
      omega
  · refine ⟨0, QuestSystem.checkForFollowUpQuests
        ((QuestSystem.giveGoldAndItems quest.rewards
          ((QuestSystem.moveToCompleted w k quest).emit (Event.giveRewards quest.id))).emit
            (Event.questCompleted quest.id))
        quest.markCompleted, ?_, fun fuel _ => ?_⟩
    rotate_left
    · unfold QuestSystem.completeQuest
      rw [hq]
      simp only [QuestSystem.giveRewards, if_neg hxp, Option.some_bind]
    · beta_reduce
      rw [(hfinish _).1, (hfinish _).2]
      refine ⟨hx, ?_⟩
      show (QuestSystem.moveToCompleted w k quest).openLevelQuests < w.openLevelQuests
      omega

theorem QuestSystem.visitQuest_settles (m : Nat) (hH : GainSettlesBelow m) (w : World)
    (value : Value) (k : Nat) (hm : w.openLevelQuests ≤ m) (hx : 1 ≤ w.player.stats.xpToNext) :
    Settles (fun fuel => QuestSystem.visitQuest (Player.gainXP fuel) "level" value k w)
      (LevelScanPost w) := by
  unfold QuestSystem.visitQuest
  cases hq : w.questSystem.activeQuests[k]? with
  | none => exact Settles.pure w _ (LevelScanPost.refl w hx)
  | some quest =>
    simp only
    by_cases hmatch : quest.type = "level" ∧ quest.isCompleted = false
    · simp only [if_pos hmatch]
      by_cases htarget : quest.target = value ∨ quest.target = Value.str "any"
      · simp only [if_pos htarget]
        by_cases hreq : quest.required ≤ min (quest.current + 1) quest.required
        · simp only [if_pos hreq]
          have hset := World.openLevelQuests_setActiveQuest w k quest
            (min (quest.current + 1) quest.required) hq
          have := QuestSystem.completeQuest_settles m hH
            (w.setActiveQuest k { quest with current := min (quest.current + 1) quest.required })
            k { quest with current := min (quest.current + 1) quest.required }
            (World.setActiveQuest_get w k quest _ hq) hmatch.1 hmatch.2 (by omega) hx
          exact this.weaken (fun w1 h1 => ⟨h1.1, Or.inl (by omega)⟩)
        · simp only [if_neg hreq]
          exact Settles.pure _ _
            ⟨hx, Or.inr ⟨World.openLevelQuests_setActiveQuest w k quest _ hq, rfl⟩⟩
      · simp only [if_neg htarget]
        by_cases hge : value.ge quest.target = true
        · simp only [true_and, if_pos hge]
          have hset := World.openLevelQuests_setActiveQuest w k quest quest.required hq
          have := QuestSystem.completeQuest_settles m hH
            (w.setActiveQuest k { quest with current := quest.required })
            k { quest with current := quest.required }
            (World.setActiveQuest_get w k quest _ hq) hmatch.1 hmatch.2 (by omega) hx
          exact this.weaken (fun w1 h1 => ⟨h1.1, Or.inl (by omega)⟩)
        · simp only [true_and, if_neg hge]
          exact Settles.pure w _ (LevelScanPost.refl w hx)
    · simp only [if_neg hmatch]
      exact Settles.pure w _ (LevelScanPost.refl w hx)

theorem QuestSystem.forEachActive_settles (m : Nat) (hH : GainSettlesBelow m) (value : Value)
    (remaining : Nat) :
    ∀ (k : Nat) (w : World), w.openLevelQuests ≤ m → 1 ≤ w.player.stats.xpToNext →
      Settles (fun fuel => QuestSystem.forEachActive (Player.gainXP fuel) "level" value k
        remaining w) (LevelScanPost w) := by
  induction remaining with
  | zero =>
    intro k w _ hx
    exact Settles.pure w _ (LevelScanPost.refl w hx)
  | succ r ih =>
    intro k w hm hx
    simp only [QuestSystem.forEachActive]
    apply Settles.bind (QuestSystem.visitQuest_settles m hH w value k hm hx)
    intro w1 h1
    have hm1 : w1.openLevelQuests ≤ m := by
      rcases h1.2 with h | ⟨h, _⟩ <;> omega
    exact (ih (k + 1) w1 hm1 h1.1).weaken (fun w2 h2 => LevelScanPost.trans h1 h2)

/-- The loop of `gainXP` in the scene settles. -/
theorem Player.gainXPLoop_settles (m : Nat) (hH : GainSettlesBelow m) :
    ∀ (a b : Nat) (w : World), w.openLevelQuests = a → w.player.stats.xp.toNat = b →
      a ≤ m → 1 ≤ w.player.stats.xpToNext →
      ∃ N K w1, GainPost w w1 ∧ ∀ fuel k, N ≤ fuel → K ≤ k →
        Player.gainXPLoop (GameScene.onLevelUp fuel) k w = some w1 := by
  intro a
  induction a using Nat.strong_induction_on with
  | _ a iha =>
    intro b
    induction b using Nat.strong_induction_on with
    | _ b ihb =>
      intro w ha hb hm hx
      by_cases hexit : w.player.stats.xpToNext ≤ w.player.stats.xp
      · -- one more level-up, then the scan of the listener
        obtain ⟨N1, w2, hpost, hrun⟩ := QuestSystem.forEachActive_settles m hH
          (Value.num w.levelUpStep.player.stats.level)
          w.levelUpStep.questSystem.activeQuests.length 0 w.levelUpStep
          (by show w.openLevelQuests ≤ m; omega)
          (by show 1 ≤ w.player.stats.xpToNext * 6 / 5; omega)
        have hstep : ∀ fuel, N1 ≤ fuel →
            Player.levelUp (GameScene.onLevelUp fuel) w = some w2 := by
          intro fuel hf
          exact hrun fuel hf
        have hrest : ∃ N K w1, GainPost w2 w1 ∧ ∀ fuel k, N ≤ fuel → K ≤ k →
            Player.gainXPLoop (GameScene.onLevelUp fuel) k w2 = some w1 := by
          rcases hpost.2 with hlt | ⟨heq, hxp⟩
          · exact iha w2.openLevelQuests
              (by
                have : w.levelUpStep.openLevelQuests = w.openLevelQuests := rfl
                omega)
              _ w2 rfl rfl
              (by
                have : w.levelUpStep.openLevelQuests = w.openLevelQuests := rfl
                omega)
              hpost.1
          · have hxp2 : w2.player.stats.xp = w.player.stats.xp - w.player.stats.xpToNext := hxp
            have heq2 : w2.openLevelQuests = w.openLevelQuests := heq
            exact ihb w2.player.stats.xp.toNat (by omega) w2 (by omega) rfl (by omega) hpost.1
        obtain ⟨N2, K2, w1, hpost2, hrun2⟩ := hrest
        refine ⟨max N1 N2, K2 + 1, w1, ?_, fun fuel k hf hk => ?_⟩
        · have h1 : w2.openLevelQuests ≤ w.openLevelQuests := by
            have : w.levelUpStep.openLevelQuests = w.openLevelQuests := rfl
            rcases hpost.2 with h | ⟨h, _⟩ <;> omega
          exact ⟨le_trans hpost2.1 h1, hpost2.2⟩
        · obtain ⟨k1, hk1⟩ : ∃ k1, k = k1 + 1 := ⟨k - 1, by omega⟩
          rw [hk1]
          simp only [Player.gainXPLoop, if_pos hexit,
            hstep fuel (le_trans (le_max_left _ _) hf), Option.some_bind]
          exact hrun2 fuel k1 (le_trans (le_max_right _ _) hf) (by omega)
      · refine ⟨0, 0, w, ⟨le_refl _, hx⟩, fun fuel k _ _ => ?_⟩
        cases k with
        | zero => simp only [Player.gainXPLoop, if_neg hexit]
        | succ k => simp only [Player.gainXPLoop, if_neg hexit]

theorem Player.gainXP_settlesBelow (m : Nat) : GainSettlesBelow m := by
  induction m with
  | zero => intro w _ h; exact absurd h (Nat.not_lt_zero _)
  | succ m ih =>
    intro w amount hlt hx
    obtain ⟨N, K, w1, hpost, hrun⟩ := Player.gainXPLoop_settles m ih _ _ (w.addXP amount) rfl rfl
      (by
        show w.openLevelQuests ≤ m
        omega)
      hx
    refine ⟨max N K + 1, w1, hpost, fun fuel hf => ?_⟩
    obtain ⟨f, hfeq⟩ : ∃ f, fuel = f + 1 := ⟨fuel - 1, by omega⟩
    rw [hfeq]
    have hN : N ≤ f := by have := le_max_left N K; omega
    have hK : K ≤ f + 1 := by have := le_max_right N K; omega
    exact hrun f (f + 1) hN hK

/-- The call `Player.gainXP` terminates in the scene whenever the threshold is positive:
from some amount of fuel on it returns one and the same state. -/
theorem Player.gainXP_total (w : World) (amount : Int) (hx : 1 ≤ w.player.stats.xpToNext) :
    ∃ N w1, ∀ fuel, N ≤ fuel → Player.gainXP fuel amount w = some w1 := by
  obtain ⟨N, w1, _, hrun⟩ := Player.gainXP_settlesBelow (w.openLevelQuests + 1) w amount
    (Nat.lt_succ_self _) hx
  exact ⟨N, w1, hrun⟩

/-! ### Combat -/

theorem CombatSystem.between_ge (min max : Int) (r : Frac) (hmax : min ≤ max) :
    min ≤ CombatSystem.between min max r := by
  unfold CombatSystem.between
  have h1 : (0 : Int) ≤ (r.num : Int) * (max - min + 1) :=
    mul_nonneg (Int.ofNat_nonneg _) (by omega)
  have h2 : (0 : Int) ≤ (r.num : Int) * (max - min + 1) / (r.den : Int) :=
    Int.ediv_nonneg h1 (Int.ofNat_nonneg _)
  omega

theorem CombatSystem.rollDamage_ge (baseDamage : Int) (r1 r2 : Frac) (h : 0 ≤ baseDamage) :
    baseDamage * 4 / 5 ≤ CombatSystem.rollDamage baseDamage r1 r2 := by
  unfold CombatSystem.rollDamage
  simp only
  have hb := CombatSystem.between_ge (baseDamage * 4 / 5) (-(-(baseDamage * 6) / 5)) r1
    (by omega)
  split
  · omega
  · exact hb

theorem Enemy.updateAI_attack_blocked (w : World) (i : Nat) (e : Enemy) (d : ℚ)
    (he : w.enemyManager.enemies[i]? = some e) (hs : e.state = AIState.attack)
    (hd : d ≤ e.attackRange)
    (hclock : w.clock (w.clockPos + 2) - w.clock (w.clockPos + 1) < 1500) :
    (Enemy.updateAI w i d).player = w.player ∧ (Enemy.updateAI w i d).log = w.log := by
  have hi : i < w.enemyManager.enemies.length := by
    rcases List.getElem?_eq_some_iff.mp he with ⟨hi, _⟩
    exact hi
  unfold Enemy.updateAI
  rw [he]
  simp only [hs]
  rw [if_neg (not_lt.mpr hd)]
  split
  · unfold Enemy.attack
    simp only [World.dateNow, World.setEnemy, List.getElem?_set, hi, if_true]
    unfold Enemy.attackPlayer
    simp only [World.dateNow, World.setEnemy, List.getElem?_set, hi, if_true, List.length_set,
      Enemy.canAttack]
    rw [if_neg (by simpa using hclock)]
    exact ⟨rfl, rfl⟩
  · exact ⟨rfl, rfl⟩

theorem CombatSystem.hitTarget_effect (fuel : Nat) (baseDamage : Int) (w w1 : World) (i : Nat)
    (e : Enemy) (he : w.enemyManager.enemies[i]? = some e)
    (h : CombatSystem.hitTarget fuel baseDamage w i = some w1) :
    ∃ e1, w1.enemyManager.enemies[i]? = some e1 ∧
      e1.stats.hp
        = max 0 (e.stats.hp - ((CombatSystem.calculateDamage w baseDamage).1 : ℚ)) := by
  unfold CombatSystem.hitTarget at h
  simp only at h
  cases ht : Enemy.takeDamage fuel i ((CombatSystem.calculateDamage w baseDamage).1 : ℚ)
      (CombatSystem.calculateDamage w baseDamage).2 with
  | none => rw [ht] at h; simp at h
  | some w2 =>
    rw [ht] at h
    simp only [Option.some_bind] at h
    obtain ⟨e1, he1, hs, _, _⟩ := Enemy.takeDamage_effect fuel i e
      ((CombatSystem.calculateDamage w baseDamage).1 : ℚ)
      (CombatSystem.calculateDamage w baseDamage).2 w2 he ht
    have hi : i < w2.enemyManager.enemies.length := by
      rcases List.getElem?_eq_some_iff.mp he1 with ⟨hi, _⟩
      exact hi
    split at h
    · simp only [Option.some.injEq] at h
      rw [← h]
      unfold CombatSystem.applyKnockback
      rw [he1]
      simp only
      split
      · refine ⟨{ e1 with
            velocityX := (((if w2.player.x < e1.x then 1 else -1 : Int)) : ℚ) * 100 }, ?_, ?_⟩
        · simp only [World.setEnemy, List.getElem?_set, hi, if_true]
        · show e1.stats.hp = _
          rw [hs]
      · exact ⟨e1, he1, by rw [hs]⟩
    · simp only [Option.some.injEq] at h
      rw [← h]
      exact ⟨e1, he1, by rw [hs]⟩

theorem Settles.strengthen {run : Nat → Option World} {post post1 : World → Prop}
    (h : Settles run post) (hp : ∀ fuel w1, run fuel = some w1 → post1 w1) :
    Settles run post1 := by
  obtain ⟨N, w1, _, hr⟩ := h
  exact ⟨N, w1, hp N w1 (hr N (le_refl _)), hr⟩

theorem Player.gainXP_settles (w : World) (amount : Int) (hx : w.thresholdPositive) :
    Settles (fun fuel => Player.gainXP fuel amount w) World.thresholdPositive :=
  (Player.gainXP_settlesBelow (w.openLevelQuests + 1) w amount (Nat.lt_succ_self _) hx).weaken
    (fun _ h => h.2)

theorem QuestSystem.completeQuest_total (w : World) (k : Nat) (hx : w.thresholdPositive) :
    Settles (fun fuel => QuestSystem.completeQuest (Player.gainXP fuel) k w)
      World.thresholdPositive := by
  unfold QuestSystem.completeQuest
  cases hq : w.questSystem.activeQuests[k]? with
  | none => exact Settles.pure w _ hx
  | some quest =>
    simp only
    refine @Settles.bind _ _ World.thresholdPositive _ ?_ ?_
    · unfold QuestSystem.giveRewards
      by_cases hxp : quest.rewards.xp ≠ 0
      · simp only [if_pos hxp]
        apply Settles.bind (Player.gainXP_settles
          ((QuestSystem.moveToCompleted w k quest).emit (Event.giveRewards quest.id))
          quest.rewards.xp hx)
        intro w3 h3
        refine Settles.pure _ _ ?_
        obtain ⟨inv, hinv⟩ := QuestSystem.giveGoldAndItems_eq quest.rewards w3
        rw [hinv]
        exact h3
      · simp only [if_neg hxp, Option.some_bind]
        refine Settles.pure _ _ ?_
        obtain ⟨inv, hinv⟩ := QuestSystem.giveGoldAndItems_eq quest.rewards
          ((QuestSystem.moveToCompleted w k quest).emit (Event.giveRewards quest.id))
        rw [hinv]
        exact hx
    · intro w2 h2
      refine Settles.pure _ _ ?_
      unfold World.thresholdPositive
      rw [QuestSystem.followUp_player]
      exact h2

theorem QuestSystem.visitQuest_total (w : World) (type : String) (value : Value) (k : Nat)
    (hx : w.thresholdPositive) :
    Settles (fun fuel => QuestSystem.visitQuest (Player.gainXP fuel) type value k w)
      World.thresholdPositive := by
  unfold QuestSystem.visitQuest
  cases hq : w.questSystem.activeQuests[k]? with
  | none => exact Settles.pure w _ hx
  | some quest =>
    simp only
    split
    · split
      · split
        · exact QuestSystem.completeQuest_total _ k hx
        · exact Settles.pure _ _ hx
      · split
        · exact QuestSystem.completeQuest_total _ k hx
        · exact Settles.pure w _ hx
    · exact Settles.pure w _ hx

theorem QuestSystem.forEachActive_total (type : String) (value : Value) (remaining : Nat) :
    ∀ (k : Nat) (w : World), w.thresholdPositive →
      Settles (fun fuel => QuestSystem.forEachActive (Player.gainXP fuel) type value k
        remaining w) World.thresholdPositive := by
  induction remaining with
  | zero =>
    intro k w hx
    exact Settles.pure w _ hx
  | succ r ih =>
    intro k w hx
    simp only [QuestSystem.forEachActive]
    exact Settles.bind (QuestSystem.visitQuest_total w type value k hx)
      (fun w1 h1 => ih (k + 1) w1 h1)

theorem QuestSystem.checkQuestProgress_total (type : String) (value : Value) (w : World)
    (hx : w.thresholdPositive) :
    Settles (fun fuel => QuestSystem.checkQuestProgress (Player.gainXP fuel) type value w)
      World.thresholdPositive :=
  QuestSystem.forEachActive_total type value _ 0 w hx

theorem GameScene.onEnemyKilled_total (enemy : Enemy) (w : World) (hx : w.thresholdPositive) :
    Settles (fun fuel => GameScene.onEnemyKilled fuel enemy w) World.thresholdPositive := by
  unfold GameScene.onEnemyKilled
  apply Settles.bind (QuestSystem.checkQuestProgress_total "kill" _ w hx)
  intro w1 h1
  refine Settles.pure _ _ ?_
  obtain ⟨inv, pos, hl⟩ := InventorySystem.handleEnemyLoot_world w1 enemy
  rw [hl]
  exact h1

theorem Enemy.die_total (i : Nat) (w : World) (hx : w.thresholdPositive) :
    Settles (fun fuel => Enemy.die fuel i w) World.thresholdPositive := by
  unfold Enemy.die
  cases he : w.enemyManager.enemies[i]? with
  | none => exact Settles.pure w _ hx
  | some e =>
    simp only
    by_cases hs : e.hasScene = true
    swap
    · simp only [if_neg hs]
      exact Settles.pure _ _ hx
    simp only [if_pos hs]
    apply Settles.bind (Player.gainXP_settles w e.stats.xpReward hx)
    intro w1 h1
    apply Settles.bind (GameScene.onEnemyKilled_total e (w1.emit (Event.enemyKilled i)) h1)
    intro w2 h2
    refine Settles.pure _ _ ?_
    unfold EnemyManager.removeEnemy
    split
    · exact h2
    · exact h2

theorem Enemy.takeDamage_total (i : Nat) (damage : ℚ) (w : World)
    (hx : w.thresholdPositive) :
    Settles (fun fuel => Enemy.takeDamage fuel i damage w) World.thresholdPositive := by
  unfold Enemy.takeDamage
  cases he : w.enemyManager.enemies[i]? with
  | none => exact Settles.pure w _ hx
  | some e =>
    simp only
    split
    · exact Enemy.die_total i _ hx
    · exact Settles.pure _ _ hx

theorem Enemy.takeDamageAll_total (i : Nat) (damages : List ℚ) :
    ∀ (w : World), w.thresholdPositive →
      Settles (fun fuel => Enemy.takeDamageAll fuel i damages w) World.thresholdPositive := by
  induction damages with
  | nil => intro w hx; exact Settles.pure w _ hx
  | cons d rest ih =>
    intro w hx
    simp only [Enemy.takeDamageAll]
    exact Settles.bind (Enemy.takeDamage_total i d w hx) (fun w1 h1 => ih w1 h1)

theorem GameScene.handle_total (event : GameEvent) (w : World) (hx : w.thresholdPositive) :
    Settles (fun fuel => GameScene.handle fuel event w) World.thresholdPositive := by
  cases event with
  | enemyKilled enemy => exact GameScene.onEnemyKilled_total enemy w hx
  | levelUp newLevel => exact QuestSystem.checkQuestProgress_total "level" _ w hx
  | gainXP amount => exact Player.gainXP_settles w amount hx
  | questEvent type value => exact QuestSystem.checkQuestProgress_total type value w hx

theorem GameScene.handleAll_total (events : List GameEvent) :
    ∀ (w : World), w.thresholdPositive →
      Settles (fun fuel => GameScene.handleAll fuel events w) World.thresholdPositive := by
  induction events with
  | nil => intro w hx; exact Settles.pure w _ hx
  | cons e rest ih =>
    intro w hx
    simp only [GameScene.handleAll]
    exact Settles.bind (GameScene.handle_total e w hx) (fun w1 h1 => ih w1 h1)

theorem CombatSystem.hitTarget_total (baseDamage : Int) (w : World) (i : Nat)
    (hx : w.thresholdPositive) :
    Settles (fun fuel => CombatSystem.hitTarget fuel baseDamage w i) World.thresholdPositive := by
  unfold CombatSystem.hitTarget
  simp only
  apply Settles.bind (Enemy.takeDamage_total i _ (CombatSystem.calculateDamage w baseDamage).2 hx)
  intro w1 h1
  by_cases hc : w1.typeErrors = (CombatSystem.calculateDamage w baseDamage).2.typeErrors
  · simp only [if_pos hc]
    refine Settles.pure _ _ ?_
    unfold CombatSystem.applyKnockback
    split
    · exact h1
    · split
      · exact h1
      · exact h1
  · simp only [if_neg hc]
    exact Settles.pure _ _ h1

theorem CombatSystem.hitTargets_total (baseDamage : Int) (targets : List Nat) :
    ∀ (w : World), w.thresholdPositive →
      Settles (fun fuel => CombatSystem.hitTargets fuel baseDamage targets w)
        World.thresholdPositive := by
  induction targets with
  | nil => intro w hx; exact Settles.pure w _ hx
  | cons i rest ih =>
    intro w hx
    simp only [CombatSystem.hitTargets]
    refine Settles.bind (CombatSystem.hitTarget_total baseDamage w i hx) (fun w1 h1 => ?_)
    by_cases hc : w1.typeErrors = w.typeErrors
    · simp only [if_pos hc]
      exact ih w1 h1
    · simp only [if_neg hc]
      exact Settles.pure _ _ h1

theorem CombatSystem.playerAttack_total (distance : Nat → ℚ) (w : World)
    (hx : w.thresholdPositive) :
    Settles (fun fuel => CombatSystem.playerAttack fuel distance w) World.thresholdPositive := by
  unfold CombatSystem.playerAttack
  cases hw : w.player.equipment.weapon with
  | none => exact Settles.pure w _ hx
  | some weapon => exact CombatSystem.hitTargets_total _ _ w hx

/-! ### The inventory -/

theorem InventorySystem.addItem_maxSlots (inv : InventorySystem) (item : Item) :
    (inv.addItem item).2.maxSlots = inv.maxSlots := by
  unfold InventorySystem.addItem
  split
  · rfl
  · split
    · rfl
    · split <;> rfl

theorem InventorySystem.addItem_gold (inv : InventorySystem) (item : Item) :
    (inv.addItem item).2.gold = inv.gold := by
  unfold InventorySystem.addItem
  split
  · rfl
  · split
    · rfl
    · split <;> rfl

theorem InventorySystem.addItem_length (inv : InventorySystem) (item : Item)
    (h : inv.inventory.length ≤ inv.maxSlots) :
    (inv.addItem item).2.inventory.length ≤ inv.maxSlots := by
  unfold InventorySystem.addItem
  split
  · simpa using h
  · split
    · simpa using h
    · split
      · simp only [List.length_append, List.length_singleton]; omega
      · exact h

theorem Item.quantityOrOne_pos (item : Item) (h : 0 ≤ item.quantity) :
    1 ≤ item.quantityOrOne := by
  unfold Item.quantityOrOne
  split <;> omega

/-- The slots of a list after `modify` are old slots or the modified one. -/
theorem List.mem_modify_cases {α : Type} (f : α → α) (l : List α) (i : Nat) (x : α)
    (h : x ∈ l.modify f i) : x ∈ l ∨ ∃ a ∈ l, x = f a := by
  induction l generalizing i with
  | nil => simp at h
  | cons a l ih =>
    cases i with
    | zero =>
      simp only [List.modify_zero_cons, List.mem_cons] at h
      rcases h with h | h
      · exact Or.inr ⟨a, List.mem_cons_self _ _, h⟩
      · exact Or.inl (List.mem_cons_of_mem _ h)
    | succ i =>
      simp only [List.modify_succ_cons, List.mem_cons] at h
      rcases h with h | h
      · exact Or.inl (h ▸ List.mem_cons_self _ _)
      · rcases ih i h with h1 | ⟨b, hb, hx⟩
        · exact Or.inl (List.mem_cons_of_mem _ h1)
        · exact Or.inr ⟨b, List.mem_cons_of_mem _ hb, hx⟩

/-- The quantities stay positive under `addItem` of an item whose quantity is
not negative. -/
theorem InventorySystem.addItem_quantities (inv : InventorySystem) (item : Item)
    (hq : 0 ≤ item.quantity)
    (h : ∀ slot ∈ inv.inventory, ∀ x, slot = some x → 1 ≤ x.quantity) :
    ∀ slot ∈ (inv.addItem item).2.inventory, ∀ x, slot = some x → 1 ≤ x.quantity := by
  have hpos := Item.quantityOrOne_pos item hq
  unfold InventorySystem.addItem
  split
  · intro slot hslot x hx
    rcases List.mem_modify_cases _ _ _ _ hslot with h1 | ⟨a, ha, hfa⟩
    · exact h slot h1 x hx
    · cases a with
      | none =>
        rw [hx] at hfa
        simp [InventorySystem.addQuantity] at hfa
      | some y =>
        have hy := h _ ha y rfl
        rw [hx] at hfa
        simp only [InventorySystem.addQuantity, Option.some.injEq] at hfa
        rw [hfa]
        show 1 ≤ y.quantity + item.quantityOrOne
        omega
  · split
    · intro slot hslot x hx
      rcases List.mem_or_eq_of_mem_set hslot with h1 | h1
      · exact h slot h1 x hx
      · rw [hx] at h1
        simp only [Option.some.injEq] at h1
        rw [h1]
        exact hpos
    · split
      · intro slot hslot x hx
        rcases List.mem_append.mp hslot with h1 | h1
        · exact h slot h1 x hx
        · simp only [List.mem_singleton] at h1
          rw [hx] at h1
          simp only [Option.some.injEq] at h1
          rw [h1]
          exact hpos
      · exact h

theorem Equipment.mem_items (e : Equipment) (x : Item) :
    x ∈ e.items ↔
      e.weapon = some x ∨ e.armor = some x ∨ e.helmet = some x ∨ e.boots = some x := by
  simp only [Equipment.items, List.mem_filterMap, List.mem_cons, List.mem_singleton,
    List.not_mem_nil, or_false, id_eq, exists_eq_right]
  constructor <;> intro h <;>
    exact h.imp Eq.symm (Or.imp Eq.symm (Or.imp Eq.symm Eq.symm))

theorem Equipment.get_mem_items (e : Equipment) (key : String) (x : Item)
    (h : e.get key = some x) : x ∈ e.items := by
  rw [Equipment.mem_items]
  unfold Equipment.get at h
  split at h
  · exact Or.inl h
  · split at h
    · exact Or.inr (Or.inl h)
    · split at h
      · exact Or.inr (Or.inr (Or.inl h))
      · split at h
        · exact Or.inr (Or.inr (Or.inr h))
        · exact absurd h (by simp)

theorem Equipment.set_nonneg (e : Equipment) (key : String) (item : Item)
    (hq : 0 ≤ item.quantity) (h : ∀ x ∈ e.items, 0 ≤ x.quantity) :
    ∀ x ∈ (e.set key item).items, 0 ≤ x.quantity := by
  intro x hx
  rw [Equipment.mem_items] at hx
  have h0 : ∀ y, (e.weapon = some y ∨ e.armor = some y ∨ e.helmet = some y ∨ e.boots = some y) →
      0 ≤ y.quantity := fun y hy => h y ((Equipment.mem_items e y).mpr hy)
  unfold Equipment.set at hx
  split at hx
  · rcases hx with hx | hx | hx | hx
    · simp only [Option.some.injEq] at hx; rw [← hx]; exact hq
    · exact h0 x (Or.inr (Or.inl hx))
    · exact h0 x (Or.inr (Or.inr (Or.inl hx)))
    · exact h0 x (Or.inr (Or.inr (Or.inr hx)))
  · split at hx
    · rcases hx with hx | hx | hx | hx
      · exact h0 x (Or.inl hx)
      · simp only [Option.some.injEq] at hx; rw [← hx]; exact hq
      · exact h0 x (Or.inr (Or.inr (Or.inl hx)))
      · exact h0 x (Or.inr (Or.inr (Or.inr hx)))
    · split at hx
      · rcases hx with hx | hx | hx | hx
        · exact h0 x (Or.inl hx)
        · exact h0 x (Or.inr (Or.inl hx))
        · simp only [Option.some.injEq] at hx; rw [← hx]; exact hq
        · exact h0 x (Or.inr (Or.inr (Or.inr hx)))
      · split at hx
        · rcases hx with hx | hx | hx | hx
          · exact h0 x (Or.inl hx)
          · exact h0 x (Or.inr (Or.inl hx))
          · exact h0 x (Or.inr (Or.inr (Or.inl hx)))
          · simp only [Option.some.injEq] at hx; rw [← hx]; exact hq
        · exact h0 x hx

theorem InventorySystem.slot_mem (inv : InventorySystem) (k : Nat) (item : Item)
    (h : inv.slot k = some item) : some item ∈ inv.inventory := by
  unfold InventorySystem.slot at h
  cases hk : inv.inventory[k]? with
  | none => rw [hk] at h; simp at h
  | some slot =>
    rw [hk] at h
    have hslot : slot = some item := by simpa [Option.join] using h
    rw [hslot] at hk
    exact List.getElem?_mem hk

theorem World.writeShared_equippedNonneg (w : World) (k : Nat) (item : Item)
    (hq : 0 ≤ item.quantity) (h : w.equippedNonneg) : (w.writeShared k item).equippedNonneg := by
  have key : ∀ (shared : List (String × Nat)) (e : Equipment),
      (∀ x ∈ e.items, 0 ≤ x.quantity) →
      ∀ x ∈ (shared.foldl
        (fun (equipment : Equipment) (entry : String × Nat) =>
          if entry.2 = k then equipment.set entry.1 item else equipment) e).items,
        0 ≤ x.quantity := by
    intro shared
    induction shared with
    | nil => intro e he; exact he
    | cons entry rest ih =>
      intro e he
      simp only [List.foldl_cons]
      apply ih
      split
      · exact Equipment.set_nonneg e entry.1 item hq he
      · exact he
  exact key w.shared w.player.equipment h

theorem InventorySystem.removeItem_capacity (w : World) (k : Nat) (q : Int)
    (h : w.withinCapacity) : (InventorySystem.removeItem w k q).2.withinCapacity := by
  unfold InventorySystem.removeItem
  split
  · simp only
    split
    · show (w.inventorySystem.inventory.set k none).length ≤ w.inventorySystem.maxSlots
      rw [List.length_set]; exact h
    · show (w.inventorySystem.inventory.set k (some _)).length ≤ w.inventorySystem.maxSlots
      rw [List.length_set]; exact h
  · exact h

theorem InventorySystem.removeItem_quantities (w : World) (k : Nat) (q : Int)
    (h : w.quantitiesPositive) : (InventorySystem.removeItem w k q).2.quantitiesPositive := by
  unfold InventorySystem.removeItem
  split
  · rename_i item0 _
    simp only
    split
    · intro slot hslot x hx
      have hslot1 : slot ∈ w.inventorySystem.inventory.set k none := hslot
      rcases List.mem_or_eq_of_mem_set hslot1 with h1 | h1
      · exact h slot h1 x hx
      · rw [hx] at h1; simp at h1
    · rename_i hpos
      intro slot hslot x hx
      have hslot1 : slot ∈ w.inventorySystem.inventory.set k
          (some { item0 with quantity := item0.quantity - q }) := hslot
      rcases List.mem_or_eq_of_mem_set hslot1 with h1 | h1
      · exact h slot h1 x hx
      · rw [hx] at h1
        simp only [Option.some.injEq] at h1
        rw [h1]
        have hpos1 : ¬ (item0.quantity - q ≤ 0) := hpos
        show 1 ≤ item0.quantity - q
        omega
  · exact h

theorem InventorySystem.removeItem_equipped (w : World) (k : Nat) (q : Int)
    (hq : ∀ item, w.inventorySystem.slot k = some item → q ≤ item.quantity)
    (h : w.equippedNonneg) : (InventorySystem.removeItem w k q).2.equippedNonneg := by
  unfold InventorySystem.removeItem
  split
  · rename_i item0 hslot
    have h1 := World.writeShared_equippedNonneg w k { item0 with quantity := item0.quantity - q }
      (by
        show 0 ≤ item0.quantity - q
        have := hq item0 hslot
        omega) h
    simp only
    split
    · exact h1
    · exact h1
  · exact h

theorem InventorySystem.removeItem_invariant (w : World) (k : Nat) (q : Int)
    (hq : ∀ item, w.inventorySystem.slot k = some item → q ≤ item.quantity)
    (h : w.inventoryInvariant) : (InventorySystem.removeItem w k q).2.inventoryInvariant :=
  ⟨InventorySystem.removeItem_capacity w k q h.1, InventorySystem.removeItem_quantities w k q h.2.1,
    InventorySystem.removeItem_equipped w k q hq h.2.2⟩

theorem InventorySystem.removeOne_invariant (w : World) (k : Nat)
    (h : w.inventoryInvariant) : (InventorySystem.removeItem w k 1).2.inventoryInvariant :=
  InventorySystem.removeItem_invariant w k 1
    (fun item hitem => h.2.1 _ (InventorySystem.slot_mem _ k item hitem) item rfl) h

theorem InventorySystem.useItem_capacity (w : World) (k : Nat) (h : w.withinCapacity) :
    (InventorySystem.useItem w k).2.withinCapacity := by
  unfold InventorySystem.useItem
  split
  · exact h
  · split
    · exact h
    · apply InventorySystem.removeItem_capacity
      split
      · exact h
      · split <;> exact h

theorem InventorySystem.useItem_invariant (w : World) (k : Nat) (h : w.inventoryInvariant) :
    (InventorySystem.useItem w k).2.inventoryInvariant := by
  unfold InventorySystem.useItem
  split
  · exact h
  · split
    · exact h
    · apply InventorySystem.removeOne_invariant
      split
      · exact h
      · split <;> exact h

theorem Player.equipItem_equipment (p : Player) (item : Item) :
    (Player.equipItem p item).equipment = p.equipment ∨
      (Player.equipItem p item).equipment = p.equipment.set item.type item := by
  unfold Player.equipItem
  split
  · exact Or.inr rfl
  · exact Or.inl rfl

theorem InventorySystem.equipItem_capacity (w : World) (k : Nat) (h : w.withinCapacity) :
    (InventorySystem.equipItem w k).2.withinCapacity := by
  unfold InventorySystem.equipItem
  split
  · exact h
  · split
    · exact h
    · apply InventorySystem.removeItem_capacity
      show (_ : World).inventorySystem.inventory.length ≤ (_ : World).inventorySystem.maxSlots
      simp only
      split
      · rw [InventorySystem.addItem_maxSlots]
        exact InventorySystem.addItem_length _ _ h
      · exact h

theorem InventorySystem.equipItem_invariant (w : World) (k : Nat) (h : w.inventoryInvariant) :
    (InventorySystem.equipItem w k).2.inventoryInvariant := by
  unfold InventorySystem.equipItem
  split
  · exact h
  · rename_i item hitem
    split
    · exact h
    · apply InventorySystem.removeOne_invariant
      have hitemq : 1 ≤ item.quantity :=
        h.2.1 _ (InventorySystem.slot_mem _ k item hitem) item rfl
      have hequip : ∀ x ∈ (Player.equipItem w.player item).equipment.items, 0 ≤ x.quantity := by
        rcases Player.equipItem_equipment w.player item with he | he
        · rw [he]; exact h.2.2
        · rw [he]; exact Equipment.set_nonneg _ _ _ (by omega) h.2.2
      cases hget : w.player.equipment.get item.type with
      | none => exact ⟨h.1, h.2.1, hequip⟩
      | some current =>
        refine ⟨?_, ?_, hequip⟩
        · show (w.inventorySystem.addItem current).2.inventory.length
            ≤ (w.inventorySystem.addItem current).2.maxSlots
          rw [InventorySystem.addItem_maxSlots]
          exact InventorySystem.addItem_length _ _ h.1
        · exact InventorySystem.addItem_quantities _ _
            (h.2.2 current (Equipment.get_mem_items _ _ _ hget)) h.2.1

theorem InventorySystem.call_capacity (w : World) (call : InventoryCall)
    (h : w.withinCapacity) : (InventorySystem.call w call).withinCapacity := by
  cases call with
  | addItem item =>
    show (w.inventorySystem.addItem item).2.inventory.length
      ≤ (w.inventorySystem.addItem item).2.maxSlots
    rw [InventorySystem.addItem_maxSlots]
    exact InventorySystem.addItem_length _ _ h
  | removeItem k q => exact InventorySystem.removeItem_capacity w k q h
  | useItem k => exact InventorySystem.useItem_capacity w k h
  | equipItem k => exact InventorySystem.equipItem_capacity w k h

theorem InventorySystem.call_invariant (w : World) (call : InventoryCall)
    (hcall : call.withinStock w) (h : w.inventoryInvariant) :
    (InventorySystem.call w call).inventoryInvariant := by
  cases call with
  | addItem item =>
    refine ⟨InventorySystem.call_capacity w _ h.1, ?_, h.2.2⟩
    exact InventorySystem.addItem_quantities _ _ hcall h.2.1
  | removeItem k q => exact InventorySystem.removeItem_invariant w k q hcall.2 h
  | useItem k => exact InventorySystem.useItem_invariant w k h
  | equipItem k => exact InventorySystem.equipItem_invariant w k h

theorem InventorySystem.callAll_capacity (calls : List InventoryCall) :
    ∀ w : World, w.withinCapacity → (InventorySystem.callAll w calls).withinCapacity := by
  induction calls with
  | nil => intro w h; exact h
  | cons call rest ih =>
    intro w h
    exact ih _ (InventorySystem.call_capacity w call h)

theorem InventorySystem.callAll_invariant (calls : List InventoryCall) :
    ∀ w : World, InventorySystem.callsWithinStock w calls → w.inventoryInvariant →
      (InventorySystem.callAll w calls).inventoryInvariant := by
  induction calls with
  | nil => intro w _ h; exact h
  | cons call rest ih =>
    intro w hcalls h
    exact ih _ hcalls.2 (InventorySystem.call_invariant w call hcalls.1 h)

theorem World.occupiedSlots_le (w : World) (h : w.withinCapacity) :
    w.occupiedSlots ≤ w.inventorySystem.maxSlots :=
  le_trans (List.countP_le_length _) h

theorem InventorySystem.call_maxSlots (w : World) (call : InventoryCall) :
    (InventorySystem.call w call).inventorySystem.maxSlots = w.inventorySystem.maxSlots := by
  have hremove : ∀ (w0 : World) (k : Nat) (q : Int),
      (InventorySystem.removeItem w0 k q).2.inventorySystem.maxSlots
        = w0.inventorySystem.maxSlots := by
    intro w0 k q
    unfold InventorySystem.removeItem
    split
    · simp only
      split <;> rfl
    · rfl
  cases call with
  | addItem item => exact InventorySystem.addItem_maxSlots _ _
  | removeItem k q => exact hremove w k q
  | useItem k =>
    show (InventorySystem.useItem w k).2.inventorySystem.maxSlots = _
    unfold InventorySystem.useItem
    split
    · rfl
    · split
      · rfl
      · rw [hremove]
        split
        · rfl
        · split <;> rfl
  | equipItem k =>
    show (InventorySystem.equipItem w k).2.inventorySystem.maxSlots = _
    unfold InventorySystem.equipItem
    split
    · rfl
    · split
      · rfl
      · rw [hremove]
        simp only
        split
        · exact InventorySystem.addItem_maxSlots _ _
        · rfl

theorem InventorySystem.callAll_maxSlots (calls : List InventoryCall) :
    ∀ w : World, (InventorySystem.callAll w calls).inventorySystem.maxSlots
      = w.inventorySystem.maxSlots := by
  induction calls with
  | nil => intro w; rfl
  | cons call rest ih =>
    intro w
    exact (ih _).trans (InventorySystem.call_maxSlots w call)

theorem InventorySystem.slot_eq_some (inv : InventorySystem) (k : Nat) (item : Item) :
    inv.slot k = some item ↔ inv.inventory[k]? = some (some item) := by
  unfold InventorySystem.slot
  cases inv.inventory[k]? with
  | none => simp [Option.join]
  | some slot => cases slot <;> simp [Option.join]

theorem InventorySystem.removeItem_cleared (w : World) (k : Nat) (q : Int) (item : Item)
    (hslot : w.inventorySystem.slot k = some item) (hq : item.quantity - q ≤ 0) :
    (InventorySystem.removeItem w k q).2.inventorySystem.slot k = none := by
  have hk := (InventorySystem.slot_eq_some _ k item).mp hslot
  unfold InventorySystem.removeItem
  rw [hslot]
  simp only
  rw [if_pos hq]
  show ((w.inventorySystem.inventory.set k none)[k]?).join = none
  rw [List.getElem?_set_self', hk]
  rfl

theorem InventorySystem.rollLoot_gold (w : World) (loot : LootData) :
    (InventorySystem.rollLoot w loot).inventorySystem.gold = w.inventorySystem.gold := by
  unfold InventorySystem.rollLoot
  simp only
  split
  · obtain ⟨pos, hpos⟩ := InventorySystem.generateItem_world w.nextRandom.2 loot
    show (_ : InventorySystem).gold = _
    rw [InventorySystem.addItem_gold, hpos]
    rfl
  · rfl

theorem InventorySystem.foldl_rollLoot_gold (table : List LootData) :
    ∀ w : World, (table.foldl InventorySystem.rollLoot w).inventorySystem.gold
      = w.inventorySystem.gold := by
  induction table with
  | nil => intro w; rfl
  | cons loot rest ih =>
    intro w
    rw [List.foldl_cons, ih, InventorySystem.rollLoot_gold]

theorem InventorySystem.handleEnemyLoot_gold (w : World) (enemy : Enemy) :
    (InventorySystem.handleEnemyLoot w enemy).inventorySystem.gold
      = w.inventorySystem.gold + enemy.stats.goldReward := by
  unfold InventorySystem.handleEnemyLoot
  show (_ : World).inventorySystem.gold + _ = _
  rw [InventorySystem.foldl_rollLoot_gold]

theorem InventorySystem.findIdx?_some_get {α : Type} (p : α → Bool) (l : List α) (i : Nat)
    (h : l.findIdx? p = some i) : ∃ a, l[i]? = some a ∧ p a = true := by
  obtain ⟨hi, hp, _⟩ := List.findIdx?_eq_some_iff_getElem.mp h
  exact ⟨l[i], List.getElem?_eq_getElem hi, hp⟩

theorem InventorySystem.stacksOnto_iff (item : Item) (slot : Option Item) :
    InventorySystem.stacksOnto item slot = true ↔
      ∃ existing, slot = some existing ∧ existing.id = item.id ∧ existing.type = "consumable" := by
  cases slot with
  | none => simp [InventorySystem.stacksOnto]
  | some x => simp [InventorySystem.stacksOnto]

theorem InventorySystem.isEmptySlot_iff (slot : Option Item) :
    InventorySystem.isEmptySlot slot = true ↔ slot = none := by
  cases slot <;> simp [InventorySystem.isEmptySlot]

/-! ### The accounts of experience, levels and gold -/

theorem Player.thresholds_add (t : Int) (m n : Nat) :
    Player.thresholds t (m + n)
      = Player.thresholds t m ++ Player.thresholds (Player.thresholdAfter t m) n := by
  induction m generalizing t with
  | zero => simp [Player.thresholds, Player.thresholdAfter]
  | succ m ih =>
    rw [Nat.succ_add]
    simp only [Player.thresholds, Player.thresholdAfter, List.cons_append]
    rw [ih]

theorem Player.thresholdAfter_add (t : Int) (m n : Nat) :
    Player.thresholdAfter t (m + n) = Player.thresholdAfter (Player.thresholdAfter t m) n := by
  induction m generalizing t with
  | zero => simp [Player.thresholdAfter]
  | succ m ih =>
    rw [Nat.succ_add]
    simp only [Player.thresholdAfter]
    rw [ih]

theorem Player.levelsAfter_add (level : Int) (m n : Nat) :
    Player.levelsAfter level (m + n)
      = Player.levelsAfter level m ++ Player.levelsAfter (level + (m : Int)) n := by
  unfold Player.levelsAfter
  rw [List.range_add, List.map_append, List.map_map]
  congr 1
  apply List.map_congr_left
  intro k _
  simp only [Function.comp_apply, Nat.cast_add]
  omega

theorem Ledger.unchanged (w : World) : Ledger 0 0 w w :=
  ⟨0, by simp, by simp [Player.levelsAfter], rfl, by simp [Player.thresholds], by simp⟩

theorem Ledger.compose {a b g h : Int} {w w1 w2 : World} (h1 : Ledger a g w w1)
    (h2 : Ledger b h w1 w2) : Ledger (a + b) (g + h) w w2 := by
  obtain ⟨m, hl1, he1, ht1, hx1, hg1⟩ := h1
  obtain ⟨n, hl2, he2, ht2, hx2, hg2⟩ := h2
  refine ⟨m + n, ?_, ?_, ?_, ?_, ?_⟩
  · rw [hl2, hl1, Nat.cast_add]; omega
  · rw [he2, he1, hl1, Player.levelsAfter_add, List.append_assoc]
  · rw [ht2, ht1, Player.thresholdAfter_add]
  · rw [Player.thresholds_add, List.sum_append, ← ht1]
    omega
  · omega

theorem Ledger.of_same {w w1 : World} (h : SameAccounts w w1) : Ledger 0 0 w w1 := by
  obtain ⟨hl, hx, ht, he, hc, hg⟩ := h
  refine ⟨0, by simp [hl], by simp [Player.levelsAfter, he], by simp [Player.thresholdAfter, ht],
    ?_, ?_⟩
  · simp [Player.thresholds, World.rewardXP, hc, hx]
  · simp [World.rewardGold, hc, hg]

theorem Ledger.then_same {a g : Int} {w w1 w2 : World} (h1 : Ledger a g w w1)
    (h2 : SameAccounts w1 w2) : Ledger a g w w2 := by
  have := Ledger.compose h1 (Ledger.of_same h2)
  simpa using this

theorem Ledger.same_then {a g : Int} {w w1 w2 : World} (h1 : SameAccounts w w1)
    (h2 : Ledger a g w1 w2) : Ledger a g w w2 := by
  have := Ledger.compose (Ledger.of_same h1) h2
  simpa using this

theorem SameAccounts.self (w : World) : SameAccounts w w := ⟨rfl, rfl, rfl, rfl, rfl, rfl⟩

theorem Ledger.addXP (w : World) (a : Int) : Ledger a 0 w (w.addXP a) :=
  ⟨0, by simp [World.addXP], by simp [Player.levelsAfter, World.addXP, World.levelUps], rfl,
    by simp [Player.thresholds, World.addXP, World.rewardXP],
    by simp [World.addXP, World.rewardGold]⟩

theorem Ledger.levelUpStep (w : World) : Ledger 0 0 w w.levelUpStep := by
  refine ⟨1, rfl, ?_, rfl, ?_, ?_⟩
  · simp [World.levelUpStep, World.emit, World.levelUps, Player.levelUpStats,
      Player.levelsAfter, List.range_succ, List.filterMap_append, Event.levelUpValue]
  · simp [World.levelUpStep, World.emit, Player.levelUpStats, Player.thresholds, World.rewardXP]
  · simp [World.levelUpStep, World.emit, World.rewardGold]

theorem Ledger.moveToCompleted (w : World) (k : Nat) (quest : Quest) :
    Ledger (-quest.rewards.xp) (-quest.rewards.gold) w
      ((QuestSystem.moveToCompleted w k quest).emit (Event.giveRewards quest.id)) := by
  refine ⟨0, by simp [QuestSystem.moveToCompleted, World.emit], ?_, rfl, ?_, ?_⟩
  · simp [QuestSystem.moveToCompleted, World.emit, World.levelUps, Player.levelsAfter,
      List.filterMap_append, Event.levelUpValue]
  · simp [QuestSystem.moveToCompleted, World.emit, Player.thresholds, World.rewardXP,
      Quest.markCompleted]
  · simp [QuestSystem.moveToCompleted, World.emit, World.rewardGold, Quest.markCompleted]

theorem QuestSystem.giveGoldAndItems_gold (rewards : Rewards) (w : World) :
    (QuestSystem.giveGoldAndItems rewards w).inventorySystem.gold
      = w.inventorySystem.gold + rewards.gold := by
  unfold QuestSystem.giveGoldAndItems
  have key : ∀ (items : List String) (w0 : World),
      (items.foldl
        (fun (acc : World) (itemId : String) =>
          { acc with inventorySystem :=
              (acc.inventorySystem.addItem (QuestSystem.createRewardItem itemId)).2 })
        w0).inventorySystem.gold = w0.inventorySystem.gold := by
    intro items
    induction items with
    | nil => intro w0; rfl
    | cons x xs ih =>
      intro w0
      rw [List.foldl_cons, ih]
      exact InventorySystem.addItem_gold _ _
  rw [key]
  split
  · rfl
  · rename_i h
    have h0 : rewards.gold = 0 := by
      by_contra hne
      exact h hne
    rw [h0]; simp

theorem Ledger.giveGoldAndItems (rewards : Rewards) (w : World) :
    Ledger 0 rewards.gold w (QuestSystem.giveGoldAndItems rewards w) := by
  have hgold := QuestSystem.giveGoldAndItems_gold rewards w
  obtain ⟨inv, hinv⟩ := QuestSystem.giveGoldAndItems_eq rewards w
  rw [hinv] at hgold ⊢
  refine ⟨0, by simp, by simp [Player.levelsAfter, World.levelUps], rfl, ?_, ?_⟩
  · simp [Player.thresholds, World.rewardXP]
  · simp only [World.rewardGold] at hgold ⊢
    simpa using hgold

theorem QuestSystem.followUp_same (w : World) (quest : Quest) (event : Event)
    (he : event.levelUpValue = none) :
    SameAccounts w (QuestSystem.checkForFollowUpQuests (w.emit event) quest) := by
  have hlog : (w.emit event).levelUps = w.levelUps := by
    simp [World.emit, World.levelUps, List.filterMap_append, he]
  unfold QuestSystem.checkForFollowUpQuests
  simp only
  split <;> split <;> exact ⟨rfl, rfl, rfl, hlog, rfl, rfl⟩

theorem QuestSystem.giveRewards_ledger {gainXP : Int → World → Option World}
    (hg : KeepsLedger gainXP) (rewards : Rewards) (w w1 : World)
    (h : QuestSystem.giveRewards gainXP rewards w = some w1) :
    Ledger rewards.xp rewards.gold w w1 := by
  unfold QuestSystem.giveRewards at h
  by_cases hx : rewards.xp ≠ 0
  · rw [if_pos hx] at h
    cases hgx : gainXP rewards.xp w with
    | none => rw [hgx] at h; simp at h
    | some w2 =>
      rw [hgx] at h
      simp only [Option.some_bind, Option.some.injEq] at h
      rw [← h]
      have := Ledger.compose (hg _ w w2 hgx) (Ledger.giveGoldAndItems rewards w2)
      simpa using this
  · rw [if_neg hx] at h
    simp only [Option.some_bind, Option.some.injEq] at h
    rw [← h]
    have h0 : rewards.xp = 0 := by
      by_contra hne
      exact hx hne
    rw [h0]
    exact Ledger.giveGoldAndItems rewards w

theorem QuestSystem.completeQuest_ledger {gainXP : Int → World → Option World}
    (hg : KeepsLedger gainXP) (k : Nat) (w w1 : World)
    (h : QuestSystem.completeQuest gainXP k w = some w1) : Ledger 0 0 w w1 := by
  unfold QuestSystem.completeQuest at h
  cases hq : w.questSystem.activeQuests[k]? with
  | none =>
    rw [hq] at h
    simp only [Option.some.injEq] at h
    rw [← h]; exact Ledger.unchanged w
  | some quest =>
    rw [hq] at h
    simp only at h
    cases hgr : QuestSystem.giveRewards gainXP quest.rewards
        ((QuestSystem.moveToCompleted w k quest).emit (Event.giveRewards quest.id)) with
    | none => rw [hgr] at h; simp at h
    | some w2 =>
      rw [hgr] at h
      simp only [Option.some_bind, Option.some.injEq] at h
      rw [← h]
      have h1 := Ledger.compose (Ledger.moveToCompleted w k quest)
        (QuestSystem.giveRewards_ledger hg quest.rewards _ w2 hgr)
      have h2 := Ledger.then_same h1
        (QuestSystem.followUp_same w2 quest.markCompleted (Event.questCompleted quest.id) rfl)
      simpa using h2

theorem World.setActiveQuest_same (w : World) (k : Nat) (quest : Quest) :
    SameAccounts w (w.setActiveQuest k quest) := ⟨rfl, rfl, rfl, rfl, rfl, rfl⟩

theorem QuestSystem.visitQuest_ledger {gainXP : Int → World → Option World}
    (hg : KeepsLedger gainXP) (type : String) (value : Value) (k : Nat) (w w1 : World)
    (h : QuestSystem.visitQuest gainXP type value k w = some w1) : Ledger 0 0 w w1 := by
  unfold QuestSystem.visitQuest at h
  cases hq : w.questSystem.activeQuests[k]? with
  | none =>
    rw [hq] at h
    simp only [Option.some.injEq] at h
    rw [← h]; exact Ledger.unchanged w
  | some quest =>
    rw [hq] at h
    simp only at h
    split at h
    · split at h
      · split at h
        · exact Ledger.same_then (World.setActiveQuest_same w k _)
            (QuestSystem.completeQuest_ledger hg k _ w1 h)
        · simp only [Option.some.injEq] at h
          rw [← h]
          exact Ledger.of_same (World.setActiveQuest_same w k _)
      · split at h
        · exact Ledger.same_then (World.setActiveQuest_same w k _)
            (QuestSystem.completeQuest_ledger hg k _ w1 h)
        · simp only [Option.some.injEq] at h
          rw [← h]; exact Ledger.unchanged w
    · simp only [Option.some.injEq] at h
      rw [← h]; exact Ledger.unchanged w

theorem QuestSystem.forEachActive_ledger {gainXP : Int → World → Option World}
    (hg : KeepsLedger gainXP) (type : String) (value : Value) (remaining : Nat) :
    ∀ (k : Nat) (w w1 : World),
      QuestSystem.forEachActive gainXP type value k remaining w = some w1 → Ledger 0 0 w w1 := by
  induction remaining with
  | zero =>
    intro k w w1 h
    simp only [QuestSystem.forEachActive, Option.some.injEq] at h
    rw [← h]; exact Ledger.unchanged w
  | succ r ih =>
    intro k w w1 h
    simp only [QuestSystem.forEachActive] at h
    cases hv : QuestSystem.visitQuest gainXP type value k w with
    | none => rw [hv] at h; simp at h
    | some w2 =>
      rw [hv] at h
      simp only [Option.some_bind] at h
      have := Ledger.compose (QuestSystem.visitQuest_ledger hg type value k w w2 hv)
        (ih (k + 1) w2 w1 h)
      simpa using this

theorem QuestSystem.checkQuestProgress_ledger {gainXP : Int → World → Option World}
    (hg : KeepsLedger gainXP) (type : String) (value : Value) (w w1 : World)
    (h : QuestSystem.checkQuestProgress gainXP type value w = some w1) : Ledger 0 0 w w1 :=
  QuestSystem.forEachActive_ledger hg type value _ 0 w w1 h

theorem Player.gainXPLoop_ledger {onLevelUp : Int → World → Option World}
    (hl : ∀ n w w1, onLevelUp n w = some w1 → Ledger 0 0 w w1) (k : Nat) :
    ∀ (w w1 : World), Player.gainXPLoop onLevelUp k w = some w1 → Ledger 0 0 w w1 := by
  induction k with
  | zero =>
    intro w w1 h
    simp only [Player.gainXPLoop] at h
    split at h
    · simp at h
    · simp only [Option.some.injEq] at h
      rw [← h]; exact Ledger.unchanged w
  | succ k ih =>
    intro w w1 h
    simp only [Player.gainXPLoop] at h
    split at h
    · cases hv : Player.levelUp onLevelUp w with
      | none => rw [hv] at h; simp at h
      | some w2 =>
        rw [hv] at h
        simp only [Option.some_bind] at h
        have h1 := Ledger.compose (Ledger.levelUpStep w) (hl _ _ w2 hv)
        have h2 := Ledger.compose h1 (ih w2 w1 h)
        simpa using h2
    · simp only [Option.some.injEq] at h
      rw [← h]; exact Ledger.unchanged w

theorem Player.gainXPWith_ledger {onLevelUp : Int → World → Option World}
    (hl : ∀ n w w1, onLevelUp n w = some w1 → Ledger 0 0 w w1) (k : Nat) (amount : Int)
    (w w1 : World) (h : Player.gainXPWith onLevelUp k amount w = some w1) :
    Ledger amount 0 w w1 := by
  have := Ledger.compose (Ledger.addXP w amount) (Player.gainXPLoop_ledger hl k _ w1 h)
  simpa using this

theorem Player.gainXP_ledger (fuel : Nat) : KeepsLedger (Player.gainXP fuel) := by
  induction fuel with
  | zero =>
    intro a w w1 h
    simp [Player.gainXP] at h
  | succ fuel ih =>
    intro a w w1 h
    simp only [Player.gainXP] at h
    exact Player.gainXPWith_ledger
      (fun n w2 w3 h2 => QuestSystem.checkQuestProgress_ledger ih "level" _ w2 w3 h2)
      _ a w w1 h

/-- With no listener attached the loop of `gainXP` changes the player only. -/
theorem Player.gainXPLoop_alone_frame (k : Nat) :
    ∀ (w w1 : World), Player.gainXPLoop (fun _ w0 => some w0) k w = some w1 →
      w1.questSystem = w.questSystem ∧ w1.inventorySystem = w.inventorySystem := by
  induction k with
  | zero =>
    intro w w1 h
    simp only [Player.gainXPLoop] at h
    split at h
    · simp at h
    · simp only [Option.some.injEq] at h
      rw [← h]; exact ⟨rfl, rfl⟩
  | succ k ih =>
    intro w w1 h
    simp only [Player.gainXPLoop, Player.levelUp, Option.some_bind] at h
    split at h
    · exact ih w.levelUpStep w1 h
    · simp only [Option.some.injEq] at h
      rw [← h]; exact ⟨rfl, rfl⟩

/-- With no listener attached the loop of `gainXP` returns within `xp`
iterations when the threshold is at least 1. -/
theorem Player.gainXPLoop_alone_returns (k : Nat) :
    ∀ (w : World), 1 ≤ w.player.stats.xpToNext → w.player.stats.xp ≤ (k : Int) →
      ∃ w1, Player.gainXPLoop (fun _ w0 => some w0) k w = some w1 := by
  induction k with
  | zero =>
    intro w h1 hk
    refine ⟨w, ?_⟩
    simp only [Player.gainXPLoop]
    rw [if_neg (by simp at hk; omega)]
  | succ k ih =>
    intro w h1 hk
    simp only [Player.gainXPLoop, Player.levelUp, Option.some_bind]
    split
    · rename_i hx
      apply ih
      · show 1 ≤ w.player.stats.xpToNext * 6 / 5
        omega
      · show w.player.stats.xp - w.player.stats.xpToNext ≤ (k : Int)
        push_cast at hk
        omega
    · exact ⟨w, rfl⟩

theorem GameScene.onEnemyKilled_ledger (fuel : Nat) (enemy : Enemy) (w w1 : World)
    (h : GameScene.onEnemyKilled fuel enemy w = some w1) :
    Ledger 0 enemy.stats.goldReward w w1 := by
  unfold GameScene.onEnemyKilled at h
  cases hc : QuestSystem.checkQuestProgress (Player.gainXP fuel) "kill"
      (Value.str enemy.enemyType) w with
  | none => rw [hc] at h; simp at h
  | some w2 =>
    rw [hc] at h
    simp only [Option.some_bind, Option.some.injEq] at h
    rw [← h]
    have h1 := QuestSystem.checkQuestProgress_ledger (Player.gainXP_ledger fuel) _ _ w w2 hc
    have hgold := InventorySystem.handleEnemyLoot_gold w2 enemy
    obtain ⟨inv, pos, hinv⟩ := InventorySystem.handleEnemyLoot_world w2 enemy
    have h2 : Ledger 0 enemy.stats.goldReward w2 (InventorySystem.handleEnemyLoot w2 enemy) := by
      rw [hinv] at hgold ⊢
      refine ⟨0, by simp, by simp [Player.levelsAfter, World.levelUps], rfl, ?_, ?_⟩
      · simp [Player.thresholds, World.rewardXP]
      · simp only [World.rewardGold] at hgold ⊢
        simpa using hgold
    have := Ledger.compose h1 h2
    simpa using this

theorem World.setEnemy_same (w : World) (i : Nat) (e : Enemy) :
    SameAccounts w (w.setEnemy i e) := ⟨rfl, rfl, rfl, rfl, rfl, rfl⟩

theorem EnemyManager.removeEnemy_same (w : World) (i : Nat) :
    SameAccounts w (EnemyManager.removeEnemy w i) := by
  unfold EnemyManager.removeEnemy
  split
  · exact SameAccounts.self w
  · exact World.setEnemy_same w i _

theorem Enemy.die_ledger (fuel i : Nat) (e : Enemy) (w w1 : World)
    (he : w.enemyManager.enemies[i]? = some e) (hs : e.hasScene = true)
    (h : Enemy.die fuel i w = some w1) :
    Ledger e.stats.xpReward e.stats.goldReward w w1 := by
  unfold Enemy.die at h
  rw [he] at h
  simp only at h
  rw [if_pos hs] at h
  cases hg : Player.gainXP fuel e.stats.xpReward w with
  | none => rw [hg] at h; simp at h
  | some w2 =>
    rw [hg] at h
    simp only [Option.some_bind] at h
    cases hk : GameScene.onEnemyKilled fuel e (w2.emit (Event.enemyKilled i)) with
    | none => rw [hk] at h; simp at h
    | some w3 =>
      rw [hk] at h
      simp only [Option.some_bind, Option.some.injEq] at h
      rw [← h]
      have h1 := Player.gainXP_ledger fuel _ w w2 hg
      have hsame : SameAccounts w2 (w2.emit (Event.enemyKilled i)) := by
        refine ⟨rfl, rfl, rfl, ?_, rfl, rfl⟩
        simp [World.emit, World.levelUps, List.filterMap_append, Event.levelUpValue]
      have h2 := Ledger.same_then hsame (GameScene.onEnemyKilled_ledger fuel e _ w3 hk)
      have h3 := Ledger.then_same (Ledger.compose h1 h2) (EnemyManager.removeEnemy_same w3 i)
      simpa using h3

/-! ### Kills, level quests and quest progress -/

theorem killEvents_rule (kills : List Nat) :
    QuestRule (fun _ w => w.killEvents = kills) (fun _ => True) where
  addXP := fun _ _ _ _ h => h
  levelUp := by
    intro p w h _
    simpa [World.levelUpStep, World.emit, World.killEvents, List.filterMap_append,
      Event.killedEnemy] using h
  progress := fun _ _ _ _ h _ _ => h
  force := fun _ _ _ _ h _ _ => h
  complete := by
    intro p w k quest h _ _ _
    refine ⟨?_, fun _ => trivial⟩
    simpa [QuestSystem.moveToCompleted, World.emit, World.killEvents, List.filterMap_append,
      Event.killedEnemy] using h
  rewards := by
    intro p w rewards h
    obtain ⟨inv, hinv⟩ := QuestSystem.giveGoldAndItems_eq rewards w
    rw [hinv]
    exact h
  finish := by
    intro p w quest h
    have hf : ∀ w0 : World, (QuestSystem.checkForFollowUpQuests w0 quest).log = w0.log := by
      intro w0
      unfold QuestSystem.checkForFollowUpQuests
      simp only
      split <;> split <;> rfl
    show (QuestSystem.checkForFollowUpQuests _ quest).log.filterMap Event.killedEnemy = kills
    rw [hf]
    simpa [World.emit, World.killEvents, List.filterMap_append, Event.killedEnemy] using h

theorem Enemy.die_killEvents (fuel i : Nat) (e : Enemy) (w w1 : World)
    (he : w.enemyManager.enemies[i]? = some e) (hs : e.hasScene = true)
    (h : Enemy.die fuel i w = some w1) :
    w1.killEvents = w.killEvents ++ [i] := by
  unfold Enemy.die at h
  rw [he] at h
  simp only at h
  rw [if_pos hs] at h
  cases hg : Player.gainXP fuel e.stats.xpReward w with
  | none => rw [hg] at h; simp at h
  | some w2 =>
    rw [hg] at h
    simp only [Option.some_bind] at h
    have h2 : w2.killEvents = w.killEvents :=
      Player.gainXP_rule (killEvents_rule w.killEvents) fuel [] _ w w2 trivial rfl hg
    unfold GameScene.onEnemyKilled at h
    cases hc : QuestSystem.checkQuestProgress (Player.gainXP fuel) "kill" (Value.str e.enemyType)
        (w2.emit (Event.enemyKilled i)) with
    | none => rw [hc] at h; simp at h
    | some w3 =>
      rw [hc] at h
      simp only [Option.some_bind, Option.some.injEq] at h
      have hI : (w2.emit (Event.enemyKilled i)).killEvents = w.killEvents ++ [i] := by
        simp [World.emit, World.killEvents, List.filterMap_append, Event.killedEnemy] at h2 ⊢
        rw [h2]
      have h3 : w3.killEvents = w.killEvents ++ [i] :=
        QuestSystem.checkQuestProgress_rule (killEvents_rule _)
          (Player.gainXP_rule (killEvents_rule _) fuel) [] _ _ _ w3 hI hc
      obtain ⟨inv, pos, hl⟩ := InventorySystem.handleEnemyLoot_world w3 e
      rw [hl] at h
      rw [← h, ← h3]
      unfold EnemyManager.removeEnemy
      split <;> rfl

/-- A hit with at least the health of the enemy runs the death transition: the
XP award, the `enemyKilled` event, the quest check, the loot and the removal,
each once and in this order. -/
theorem Enemy.takeDamage_lethal (fuel i : Nat) (e : Enemy) (damage : ℚ) (w : World)
    (he : w.enemyManager.enemies[i]? = some e) (hs : e.hasScene = true)
    (hd : e.stats.hp ≤ damage) :
    Enemy.takeDamage fuel i damage w =
      (Player.gainXP fuel e.stats.xpReward
          (w.setEnemy i { e with stats := { e.stats with hp := 0 } })).bind fun w2 =>
        (QuestSystem.checkQuestProgress (Player.gainXP fuel) "kill" (Value.str e.enemyType)
            (w2.emit (Event.enemyKilled i))).bind fun w3 =>
          some (EnemyManager.removeEnemy
            (InventorySystem.handleEnemyLoot w3 { e with stats := { e.stats with hp := 0 } }) i) := by
  have hi : i < w.enemyManager.enemies.length := by
    rcases List.getElem?_eq_some_iff.mp he with ⟨hi, _⟩
    exact hi
  have hmax : max 0 (e.stats.hp - damage) = 0 := max_eq_left (by linarith)
  unfold Enemy.takeDamage
  rw [he]
  simp only [hmax, le_refl, if_true]
  unfold Enemy.die
  have hget : (w.setEnemy i { e with stats := { e.stats with hp := 0 } }).enemyManager.enemies[i]?
      = some { e with stats := { e.stats with hp := 0 } } := by
    simp [World.setEnemy, hi]
  rw [hget]
  simp only [hs, if_true, GameScene.onEnemyKilled, Option.bind_assoc, Option.some_bind]

theorem Enemy.takeDamage_lethalEffects (fuel i : Nat) (e : Enemy) (damage : ℚ) (w w1 : World)
    (he : w.enemyManager.enemies[i]? = some e) (hs : e.hasScene = true)
    (hd : e.stats.hp ≤ damage)
    (h : Enemy.takeDamage fuel i damage w = some w1) : LethalHitEffects i e w w1 := by
  have hle : e.stats.hp - damage ≤ 0 := by linarith
  have hmax : max 0 (e.stats.hp - damage) = 0 := max_eq_left hle
  obtain ⟨e1, he1, hst, hg, _, _⟩ := Enemy.takeDamage_effect fuel i e damage w w1 he h
  obtain ⟨hdie, hget⟩ := Enemy.takeDamage_dies fuel i e damage w he hle
  rw [hdie] at h
  refine ⟨⟨e1, he1, ?_, ?_⟩, ?_, ?_⟩
  · rw [hst]; exact hmax
  · rw [hg]
    simp [hle, hs]
  · exact Enemy.die_killEvents fuel i { e with stats := { e.stats with hp := 0 } }
      (w.setEnemy i { e with stats := { e.stats with hp := 0 } }) w1 hget hs h
  · exact Ledger.same_then
      (World.setEnemy_same w i { e with stats := { e.stats with hp := 0 } })
      (Enemy.die_ledger fuel i { e with stats := { e.stats with hp := 0 } }
        (w.setEnemy i { e with stats := { e.stats with hp := 0 } }) w1 hget hs h)

/-- A scan for a type no open quest has leaves the state as it is. -/
theorem QuestSystem.checkQuestProgress_noMatch (gainXP : Int → World → Option World)
    (type : String) (value : Value) (w : World)
    (hno : ∀ q ∈ w.questSystem.activeQuests, ¬ (q.type = type ∧ q.isCompleted = false)) :
    QuestSystem.checkQuestProgress gainXP type value w = some w := by
  have hvisit : ∀ k, QuestSystem.visitQuest gainXP type value k w = some w := by
    intro k
    unfold QuestSystem.visitQuest
    cases hq : w.questSystem.activeQuests[k]? with
    | none => rfl
    | some quest =>
      simp only
      rw [if_neg (hno quest (List.getElem?_mem hq))]
  have hloop : ∀ remaining k,
      QuestSystem.forEachActive gainXP type value k remaining w = some w := by
    intro remaining
    induction remaining with
    | zero => intro k; rfl
    | succ r ih =>
      intro k
      simp only [QuestSystem.forEachActive, hvisit k, Option.some_bind]
      exact ih (k + 1)
  exact hloop _ 0

theorem World.openLevelQuests_zero (w : World) (h : w.openLevelQuests = 0) :
    ∀ q ∈ w.questSystem.activeQuests, ¬ (q.type = "level" ∧ q.isCompleted = false) := by
  intro q hq hboth
  unfold World.openLevelQuests at h
  rw [List.countP_eq_zero] at h
  have := h q hq
  simp [hboth.1, hboth.2] at this

theorem QuestSystem.mem_removeActive (active : List Quest) (id : Nat) (q : Quest)
    (h : q ∈ QuestSystem.removeActive active id) : q ∈ active := by
  rw [QuestSystem.removeActive_eq_eraseP] at h
  exact List.mem_of_mem_eraseP h

theorem questsBounded_rule :
    QuestRule (fun _ w => w.questsBounded) (fun _ => True) where
  addXP := fun _ _ _ _ h => h
  levelUp := fun _ _ h _ => h
  progress := by
    intro p w k quest h hq _ q hmem
    have hb := h quest (List.mem_append_left _ (List.getElem?_mem hq))
    simp only [World.setActiveQuest, List.mem_append] at hmem
    rcases hmem with hmem | hmem
    · rcases List.mem_or_eq_of_mem_set hmem with h1 | h1
      · exact h q (List.mem_append_left _ h1)
      · rw [h1]
        obtain ⟨h0, h2⟩ := hb
        exact ⟨le_min (by omega) (by omega), min_le_right _ _⟩
    · exact h q (List.mem_append_right _ hmem)
  force := by
    intro p w k quest h hq _ q hmem
    have hb := h quest (List.mem_append_left _ (List.getElem?_mem hq))
    simp only [World.setActiveQuest, List.mem_append] at hmem
    rcases hmem with hmem | hmem
    · rcases List.mem_or_eq_of_mem_set hmem with h1 | h1
      · exact h q (List.mem_append_left _ h1)
      · rw [h1]
        obtain ⟨h0, h2⟩ := hb
        exact ⟨le_trans h0 h2, le_refl _⟩
    · exact h q (List.mem_append_right _ hmem)
  complete := by
    intro p w k quest h hq _ _
    refine ⟨?_, fun _ => trivial⟩
    have hb := h quest (List.mem_append_left _ (List.getElem?_mem hq))
    intro q hmem
    simp only [QuestSystem.moveToCompleted, World.emit, List.mem_append,
      List.mem_singleton] at hmem
    rcases hmem with hmem | hmem | hmem
    · rcases List.mem_or_eq_of_mem_set (QuestSystem.mem_removeActive _ _ _ hmem) with h1 | h1
      · exact h q (List.mem_append_left _ h1)
      · rw [h1]; exact hb
    · exact h q (List.mem_append_right _ hmem)
    · rw [hmem]; exact hb
  rewards := by
    intro p w rewards h
    obtain ⟨inv, hinv⟩ := QuestSystem.giveGoldAndItems_eq rewards w
    rw [hinv]
    exact h
  finish := by
    intro p w quest h
    have hadd : ∀ (w0 : World) (d : QuestData), 0 ≤ d.current → d.current ≤ d.required →
        w0.questsBounded → (QuestSystem.addQuest w0 d).questsBounded := by
      intro w0 d h0 h1 hw q hq
      simp only [QuestSystem.addQuest, List.mem_append, List.mem_singleton] at hq
      rcases hq with (hq | hq) | hq
      · exact hw q (List.mem_append_left _ hq)
      · rw [hq]; exact ⟨h0, h1⟩
      · exact hw q (List.mem_append_right _ hq)
    have h1 : (w.emit (Event.questCompleted quest.id)).questsBounded := h
    unfold QuestSystem.checkForFollowUpQuests
    simp only
    split <;> split
    · exact hadd _ _ (by decide) (by decide) (hadd _ _ (by decide) (by decide) h1)
    · exact hadd _ _ (by decide) (by decide) h1
    · exact hadd _ _ (by decide) (by decide) h1
    · exact h1

theorem questsKept_rule (ids : List Nat) :
    QuestRule (fun _ w => ∀ id ∈ ids, id ∈ w.activeIds ++ w.completedIds) (fun _ => True) where
  addXP := fun _ _ _ _ h => h
  levelUp := fun _ _ h _ => h
  progress := by
    intro p w k quest h hq _ id hid
    have := h id hid
    simp only [World.activeIds, World.completedIds, World.setActiveQuest] at this ⊢
    rw [List.map_id_set_same w.questSystem.activeQuests k quest
      { quest with current := min (quest.current + 1) quest.required } hq rfl]
    exact this
  force := by
    intro p w k quest h hq _ id hid
    have := h id hid
    simp only [World.activeIds, World.completedIds, World.setActiveQuest] at this ⊢
    rw [List.map_id_set_same w.questSystem.activeQuests k quest
      { quest with current := quest.required } hq rfl]
    exact this
  complete := by
    intro p w k quest h hq _ _
    refine ⟨?_, fun _ => trivial⟩
    intro id hid
    have := h id hid
    simp only [World.activeIds, World.completedIds, QuestSystem.moveToCompleted, World.emit,
      List.map_append, List.map_cons, List.map_nil, List.mem_append, List.mem_singleton]
      at this ⊢
    rw [QuestSystem.removeActive_ids,
      List.map_id_set_same w.questSystem.activeQuests k quest quest.markCompleted hq rfl]
    by_cases heq : id = quest.id
    · exact Or.inr (Or.inr (by rw [heq]; rfl))
    · rcases this with h1 | h1
      · exact Or.inl ((List.mem_erase_of_ne heq).mpr h1)
      · exact Or.inr (Or.inl h1)
  rewards := by
    intro p w rewards h
    obtain ⟨inv, hinv⟩ := QuestSystem.giveGoldAndItems_eq rewards w
    rw [hinv]
    exact h
  finish := by
    intro p w quest h id hid
    have h1 := h id hid
    have hadd : ∀ (w0 : World) (d : QuestData), id ∈ w0.activeIds ++ w0.completedIds →
        id ∈ (QuestSystem.addQuest w0 d).activeIds ++ (QuestSystem.addQuest w0 d).completedIds := by
      intro w0 d h0
      simp only [World.activeIds, World.completedIds, QuestSystem.addQuest, List.map_append,
        List.mem_append] at h0 ⊢
      rcases h0 with h0 | h0
      · exact Or.inl (Or.inl h0)
      · exact Or.inr h0
    have h2 : id ∈ (w.emit (Event.questCompleted quest.id)).activeIds
        ++ (w.emit (Event.questCompleted quest.id)).completedIds := h1
    unfold QuestSystem.checkForFollowUpQuests
    simp only
    split <;> split
    · exact hadd _ _ (hadd _ _ h2)
    · exact hadd _ _ h2
    · exact hadd _ _ h2
    · exact h2

theorem GameScene.handle_keeps {I : List Nat → World → Prop} (hr : QuestRule I (fun _ => True))
    (hloot : ∀ w enemy, I [] w → I [] (InventorySystem.handleEnemyLoot w enemy))
    (fuel : Nat) (event : GameEvent) (w w1 : World) (hI : I [] w)
    (h : GameScene.handle fuel event w = some w1) : I [] w1 := by
  cases event with
  | enemyKilled enemy =>
    simp only [GameScene.handle, GameScene.onEnemyKilled] at h
    cases hc : QuestSystem.checkQuestProgress (Player.gainXP fuel) "kill"
        (Value.str enemy.enemyType) w with
    | none => rw [hc] at h; simp at h
    | some w2 =>
      rw [hc] at h
      simp only [Option.some_bind, Option.some.injEq] at h
      rw [← h]
      exact hloot w2 enemy
        (QuestSystem.checkQuestProgress_rule hr (Player.gainXP_rule hr fuel) [] _ _ w w2 hI hc)
  | levelUp newLevel =>
    exact QuestSystem.checkQuestProgress_rule hr (Player.gainXP_rule hr fuel) [] _ _ w w1 hI h
  | gainXP amount => exact Player.gainXP_rule hr fuel [] amount w w1 trivial hI h
  | questEvent type value =>
    exact QuestSystem.checkQuestProgress_rule hr (Player.gainXP_rule hr fuel) [] _ _ w w1 hI h

theorem GameScene.handleAll_keeps {I : List Nat → World → Prop} (hr : QuestRule I (fun _ => True))
    (hloot : ∀ w enemy, I [] w → I [] (InventorySystem.handleEnemyLoot w enemy))
    (fuel : Nat) (events : List GameEvent) :
    ∀ (w w1 : World), I [] w → GameScene.handleAll fuel events w = some w1 → I [] w1 := by
  induction events with
  | nil =>
    intro w w1 hI h
    simp only [GameScene.handleAll, Option.some.injEq] at h
    rw [← h]; exact hI
  | cons event rest ih =>
    intro w w1 hI h
    simp only [GameScene.handleAll] at h
    cases hv : GameScene.handle fuel event w with
    | none => rw [hv] at h; simp at h
    | some w2 =>
      rw [hv] at h
      simp only [Option.some_bind] at h
      exact ih w2 w1 (GameScene.handle_keeps hr hloot fuel event w w2 hI hv) h

/-! ### The mana abilities -/

/-- An invariant of the XP and quest cycle that the enemy bookkeeping and the
loot do not touch is kept by `Enemy.takeDamage`, provided a throw keeps it when
the enemy is a destroyed one. -/
theorem Enemy.takeDamage_keepsCore {I : List Nat → World → Prop}
    (hr : QuestRule I (fun _ => True))
    (hset : ∀ w i e, I [] w → I [] (w.setEnemy i e))
    (hemit : ∀ w i, I [] w → I [] (w.emit (Event.enemyKilled i)))
    (hloot : ∀ w enemy, I [] w → I [] (InventorySystem.handleEnemyLoot w enemy))
    (fuel i : Nat) (damage : ℚ) (w w1 : World)
    (hthrow : ∀ e, w.enemyManager.enemies[i]? = some e → e.hasScene = false →
      ∀ w0, I [] w0 → I [] w0.throwTypeError)
    (hI : I [] w)
    (h : Enemy.takeDamage fuel i damage w = some w1) : I [] w1 := by
  unfold Enemy.takeDamage at h
  split at h
  · simp only [Option.some.injEq] at h
    rw [← h]; exact hI
  · rename_i e he
    have hi : i < w.enemyManager.enemies.length := by
      rcases List.getElem?_eq_some_iff.mp he with ⟨hi, _⟩
      exact hi
    dsimp only at h
    split at h
    · unfold Enemy.die at h
      split at h
      · simp only [Option.some.injEq] at h
        rw [← h]; exact hset w i _ hI
      · rename_i e0 he0
        have he0eq : e0 = { e with stats := { e.stats with hp := max 0 (e.stats.hp - damage) } } := by
          simp [World.setEnemy, hi] at he0
          exact he0.symm
        try dsimp only at h
        by_cases hs0 : e0.hasScene = true
        swap
        · rw [if_neg hs0] at h
          simp only [Option.some.injEq] at h
          rw [← h]
          refine hthrow e he ?_ _ (hset w i _ hI)
          rw [he0eq] at hs0
          simpa using hs0
        rw [if_pos hs0] at h
        cases hg : Player.gainXP fuel e0.stats.xpReward
            (w.setEnemy i { e with stats := { e.stats with hp := max 0 (e.stats.hp - damage) } })
          with
        | none => rw [hg] at h; simp at h
        | some w2 =>
          rw [hg] at h
          simp only [Option.some_bind] at h
          have h2 := Player.gainXP_rule hr fuel [] _ _ w2 trivial (hset w i _ hI) hg
          cases hk : GameScene.onEnemyKilled fuel e0 (w2.emit (Event.enemyKilled i)) with
          | none => rw [hk] at h; simp at h
          | some w3 =>
            rw [hk] at h
            simp only [Option.some_bind, Option.some.injEq] at h
            have h3 := GameScene.handle_keeps hr hloot fuel (GameEvent.enemyKilled e0)
              (w2.emit (Event.enemyKilled i)) w3 (hemit w2 i h2) hk
            rw [← h]
            unfold EnemyManager.removeEnemy
            split
            · exact h3
            · exact hset w3 i _ h3
    · simp only [Option.some.injEq] at h
      rw [← h]; exact hset w i _ hI

/-- An invariant of the XP and quest cycle that the enemy bookkeeping, the loot
and a throw do not touch is kept by `Enemy.takeDamage`. -/
theorem Enemy.takeDamage_keeps {I : List Nat → World → Prop}
    (hr : QuestRule I (fun _ => True))
    (hset : ∀ w i e, I [] w → I [] (w.setEnemy i e))
    (hemit : ∀ w i, I [] w → I [] (w.emit (Event.enemyKilled i)))
    (hloot : ∀ w enemy, I [] w → I [] (InventorySystem.handleEnemyLoot w enemy))
    (hthrow : ∀ w, I [] w → I [] w.throwTypeError)
    (fuel i : Nat) (damage : ℚ) (w w1 : World) (hI : I [] w)
    (h : Enemy.takeDamage fuel i damage w = some w1) : I [] w1 :=
  Enemy.takeDamage_keepsCore hr hset hemit hloot fuel i damage w w1
    (fun _ _ _ w0 h0 => hthrow w0 h0) hI h

/-- On a live enemy `Enemy.takeDamage` keeps every invariant of the XP and quest
cycle that the enemy bookkeeping and the loot do not touch. -/
theorem Enemy.takeDamage_keepsLive {I : List Nat → World → Prop}
    (hr : QuestRule I (fun _ => True))
    (hset : ∀ w i e, I [] w → I [] (w.setEnemy i e))
    (hemit : ∀ w i, I [] w → I [] (w.emit (Event.enemyKilled i)))
    (hloot : ∀ w enemy, I [] w → I [] (InventorySystem.handleEnemyLoot w enemy))
    (fuel i : Nat) (e : Enemy) (damage : ℚ) (w w1 : World)
    (he : w.enemyManager.enemies[i]? = some e) (hs : e.hasScene = true) (hI : I [] w)
    (h : Enemy.takeDamage fuel i damage w = some w1) : I [] w1 := by
  refine Enemy.takeDamage_keepsCore hr hset hemit hloot fuel i damage w w1 ?_ hI h
  intro e0 he0 hs0
  rw [he] at he0
  simp only [Option.some.injEq] at he0
  rw [← he0, hs] at hs0
  exact absurd hs0 (by decide)

theorem InputManager.areaHits_keeps {I : List Nat → World → Prop}
    (hr : QuestRule I (fun _ => True))
    (hset : ∀ w i e, I [] w → I [] (w.setEnemy i e))
    (hemit : ∀ w i, I [] w → I [] (w.emit (Event.enemyKilled i)))
    (hloot : ∀ w enemy, I [] w → I [] (InventorySystem.handleEnemyLoot w enemy))
    (hthrow : ∀ w, I [] w → I [] w.throwTypeError)
    (fuel : Nat) (targets : List Nat) :
    ∀ (w w1 : World), I [] w → InputManager.areaHits fuel targets w = some w1 → I [] w1 := by
  induction targets with
  | nil =>
    intro w w1 hI h
    simp only [InputManager.areaHits, Option.some.injEq] at h
    rw [← h]; exact hI
  | cons i rest ih =>
    intro w w1 hI h
    simp only [InputManager.areaHits] at h
    cases ht : Enemy.takeDamage fuel i ((w.player.stats.strength : ℚ) * (4 / 5)) w with
    | none => rw [ht] at h; simp at h
    | some w2 =>
      rw [ht] at h
      simp only [Option.some_bind] at h
      have h2 := Enemy.takeDamage_keeps hr hset hemit hloot hthrow fuel i _ w w2 hI ht
      split at h
      · exact ih w2 w1 h2 h
      · simp only [Option.some.injEq] at h
        rw [← h]; exact h2

theorem InputManager.areaHits_total (targets : List Nat) :
    ∀ (w : World), w.thresholdPositive →
      Settles (fun fuel => InputManager.areaHits fuel targets w) World.thresholdPositive := by
  induction targets with
  | nil => intro w hx; exact Settles.pure w _ hx
  | cons i rest ih =>
    intro w hx
    simp only [InputManager.areaHits]
    refine Settles.bind (Enemy.takeDamage_total i _ w hx) (fun w1 h1 => ?_)
    by_cases hc : w1.typeErrors = w.typeErrors
    · simp only [if_pos hc]
      exact ih w1 h1
    · simp only [if_neg hc]
      exact Settles.pure _ _ h1

theorem InputManager.useAbility_total (distance : Nat → ℚ) (abilityIndex : Int) (w : World)
    (hx : w.thresholdPositive) :
    Settles (fun fuel => InputManager.useAbility fuel distance abilityIndex w)
      World.thresholdPositive := by
  unfold InputManager.useAbility
  split
  · exact Settles.pure w _ hx
  · split
    · exact Settles.pure _ _ hx
    · split
      · exact Settles.pure _ _ hx
      · split
        · exact InputManager.areaHits_total _ (InputManager.payMana w) hx
        · exact Settles.pure _ _ hx

theorem manaBounded_rule : QuestRule (fun _ w => w.manaBounded) (fun _ => True) where
  addXP := fun _ _ _ _ h => h
  levelUp := by
    intro p w h _
    obtain ⟨h0, h1⟩ := h
    refine ⟨?_, ?_⟩
    · show 0 ≤ w.player.stats.maxMp + 5
      omega
    · show w.player.stats.maxMp + 5 ≤ w.player.stats.maxMp + 5
      omega
  progress := fun _ _ _ _ h _ _ => h
  force := fun _ _ _ _ h _ _ => h
  complete := fun _ _ _ _ h _ _ _ => ⟨h, fun _ => trivial⟩
  rewards := by
    intro p w rewards h
    obtain ⟨inv, hinv⟩ := QuestSystem.giveGoldAndItems_eq rewards w
    rw [hinv]
    exact h
  finish := by
    intro p w quest h
    show (QuestSystem.checkForFollowUpQuests _ quest).manaBounded
    unfold World.manaBounded
    rw [QuestSystem.followUp_player]
    exact h

theorem manaPaid_rule (level mp : Int) :
    QuestRule
      (fun _ w => (w.player.stats.level = level ∧ w.player.stats.mp = mp) ∨
        (level < w.player.stats.level ∧ w.player.stats.mp = w.player.stats.maxMp))
      (fun _ => True) where
  addXP := fun _ _ _ _ h => h
  levelUp := by
    intro p w h _
    refine Or.inr ⟨?_, rfl⟩
    show level < w.player.stats.level + 1
    rcases h with h | h <;> omega
  progress := fun _ _ _ _ h _ _ => h
  force := fun _ _ _ _ h _ _ => h
  complete := fun _ _ _ _ h _ _ _ => ⟨h, fun _ => trivial⟩
  rewards := by
    intro p w rewards h
    obtain ⟨inv, hinv⟩ := QuestSystem.giveGoldAndItems_eq rewards w
    rw [hinv]
    exact h
  finish := by
    intro p w quest h
    rw [QuestSystem.followUp_player]
    exact h

/-- An invariant that reads the player only is kept by the ability calls. -/
theorem InputManager.areaHits_player {P : Player → Prop}
    (hr : QuestRule (fun _ w => P w.player) (fun _ => True))
    (fuel : Nat) (targets : List Nat) (w w1 : World) (hP : P w.player)
    (h : InputManager.areaHits fuel targets w = some w1) : P w1.player := by
  refine InputManager.areaHits_keeps hr (fun _ _ _ h0 => h0) (fun _ _ h0 => h0) ?_
    (fun _ h0 => h0) fuel targets w w1 hP h
  intro w0 enemy h0
  obtain ⟨inv, pos, hl⟩ := InventorySystem.handleEnemyLoot_world w0 enemy
  rw [hl]; exact h0

/-! ### The AI state under a constant distance -/

theorem Enemy.attackPlayer_ranges (w : World) (i : Nat) (e : Enemy)
    (h : w.enemyManager.enemies[i]? = some e) :
    ∃ e1, (Enemy.attackPlayer w i).enemyManager.enemies[i]? = some e1 ∧ e1.state = e.state ∧
      e1.detectionRange = e.detectionRange ∧ e1.attackRange = e.attackRange := by
  have hi : i < w.enemyManager.enemies.length := by
    rcases List.getElem?_eq_some_iff.mp h with ⟨hi, _⟩
    exact hi
  unfold Enemy.attackPlayer
  rw [h]
  simp only
  split
  · refine ⟨{ e with lastAttackTime := (Player.takeDamage w.dateNow.2 e.stats.damage).dateNow.1 },
      ?_, rfl, rfl, rfl⟩
    simp [Player.takeDamage_enemyManager, hi]
  · exact ⟨e, by simpa using h, rfl, rfl, rfl⟩

theorem Enemy.attack_ranges (w : World) (i : Nat) (e : Enemy)
    (h : w.enemyManager.enemies[i]? = some e) :
    ∃ e1, (Enemy.attack w i).enemyManager.enemies[i]? = some e1 ∧ e1.state = e.state ∧
      e1.detectionRange = e.detectionRange ∧ e1.attackRange = e.attackRange := by
  have hi : i < w.enemyManager.enemies.length := by
    rcases List.getElem?_eq_some_iff.mp h with ⟨hi, _⟩
    exact hi
  unfold Enemy.attack
  rw [h]
  simp only
  have := Enemy.attackPlayer_ranges
    (w.dateNow.2.setEnemy i { e with lastAttackTime := w.dateNow.1 }) i
    { e with lastAttackTime := w.dateNow.1 } (by simp [hi])
  simpa using this

theorem Enemy.updateAI_ranges (w : World) (i : Nat) (e : Enemy) (d : ℚ)
    (h : w.enemyManager.enemies[i]? = some e) :
    ∃ e1, (Enemy.updateAI w i d).enemyManager.enemies[i]? = some e1 ∧
      e1.state = aiTransitionTable e.state d e.detectionRange e.attackRange ∧
      e1.detectionRange = e.detectionRange ∧ e1.attackRange = e.attackRange := by
  have hi : i < w.enemyManager.enemies.length := by
    rcases List.getElem?_eq_some_iff.mp h with ⟨hi, _⟩
    exact hi
  unfold Enemy.updateAI
  rw [h]
  cases hs : e.state with
  | patrol =>
    simp only [hs, aiTransitionTable, Enemy.patrol]
    split <;> simp [hi]
  | chase =>
    simp only [hs, aiTransitionTable, Enemy.chasePlayer]
    have hc : e.detectionRange * (3 / 2) = 3 / 2 * e.detectionRange := mul_comm _ _
    rw [hc]
    split
    · simp [hi]
    · split <;> simp [hi, hs]
  | attack =>
    simp only [hs, aiTransitionTable]
    split
    · simp [hi]
    · split
      · have := Enemy.attack_ranges (w.setEnemy i { e with velocityX := 0 }).dateNow.2 i
          { e with velocityX := 0 } (by simp [hi])
        simpa [hs] using this
      · simp [hi, hs]

theorem Enemy.updateAIs_state (i : Nat) (d : ℚ) (count : Nat) :
    ∀ (w : World) (e : Enemy), w.enemyManager.enemies[i]? = some e →
      (Enemy.updateAIs i d count w).aiState i
        = some (aiTransitions d e.detectionRange e.attackRange count e.state) := by
  induction count with
  | zero =>
    intro w e h
    simp [Enemy.updateAIs, World.aiState, aiTransitions, h]
  | succ n ih =>
    intro w e h
    obtain ⟨e1, h1, hs, hd, ha⟩ := Enemy.updateAI_ranges w i e d h
    simp only [Enemy.updateAIs, aiTransitions]
    rw [ih _ e1 h1, hs, hd, ha]

/-- With the default ranges the table reaches a fixed point within two steps. -/
theorem aiTransitionTable_fixed (state : AIState) (d : ℚ) :
    aiTransitionTable (aiTransitions d 120 35 2 state) d 120 35
      = aiTransitions d 120 35 2 state := by
  have h180 : (3 / 2 : ℚ) * 120 = 180 := by norm_num
  simp only [aiTransitions, aiTransitionTable, h180]
  by_cases h1 : d ≤ 35
  · have h2 : d ≤ 120 := by linarith
    have h3 : ¬ (180 < d) := by linarith
    have h4 : ¬ (35 < d) := by linarith
    cases state <;> simp [h1, h2, h3, h4]
  · have h4 : 35 < d := by linarith
    by_cases h2 : d ≤ 120
    · have h3 : ¬ (180 < d) := by linarith
      cases state <;> simp [h1, h2, h3, h4]
    · by_cases h3 : 180 < d
      · cases state <;> simp [h1, h2, h3, h4]
      · cases state <;> simp [h1, h2, h3, h4]

theorem aiTransitions_succ (d detectionRange attackRange : ℚ) (count : Nat) (state : AIState) :
    aiTransitions d detectionRange attackRange (count + 1) state
      = aiTransitionTable (aiTransitions d detectionRange attackRange count state) d
          detectionRange attackRange := by
  induction count generalizing state with
  | zero => rfl
  | succ n ih =>
    rw [aiTransitions, ih]
    rfl

theorem aiTransitions_settled (state : AIState) (d : ℚ) (count : Nat) (h : 2 ≤ count) :
    aiTransitions d 120 35 count state = aiTransitions d 120 35 2 state := by
  induction count with
  | zero => omega
  | succ n ih =>
    by_cases hn : 2 ≤ n
    · rw [aiTransitions_succ, ih hn, aiTransitionTable_fixed]
    · have : n = 1 := by omega
      rw [this]

theorem aiTransitions_add (d detectionRange attackRange : ℚ) (m n : Nat) (state : AIState) :
    aiTransitions d detectionRange attackRange (m + n) state
      = aiTransitions d detectionRange attackRange n
          (aiTransitions d detectionRange attackRange m state) := by
  induction m generalizing state with
  | zero => simp [aiTransitions]
  | succ m ih =>
    rw [Nat.succ_add]
    simp only [aiTransitions]
    rw [ih]

/-- With the default ranges a state that the table leaves is not reached again
two steps later. -/
theorem aiTransitionTable_noReturn (state : AIState) (d : ℚ)
    (h : aiTransitions d 120 35 2 state = state) : aiTransitionTable state d 120 35 = state := by
  have h180 : (3 / 2 : ℚ) * 120 = 180 := by norm_num
  simp only [aiTransitions, aiTransitionTable, h180] at h ⊢
  by_cases h1 : d ≤ 35
  · have h2 : d ≤ 120 := by linarith
    have h3 : ¬ (180 < d) := by linarith
    have h4 : ¬ (35 < d) := by linarith
    cases state <;> simp [h1, h2, h3, h4] at h ⊢
  · have h4 : 35 < d := by linarith
    by_cases h2 : d ≤ 120
    · have h3 : ¬ (180 < d) := by linarith
      cases state <;> simp [h1, h2, h3, h4] at h ⊢
    · by_cases h3 : 180 < d
      · cases state <;> simp [h1, h2, h3, h4] at h ⊢
      · cases state <;> simp [h1, h2, h3, h4] at h ⊢

theorem aiTransitions_noReturn (state : AIState) (d : ℚ) (count : Nat) (hc : 1 ≤ count)
    (h : aiTransitions d 120 35 count state = state) : aiTransitionTable state d 120 35 = state := by
  by_cases h2 : 2 ≤ count
  · rw [aiTransitions_settled state d count h2] at h
    exact aiTransitionTable_noReturn state d h
  · have : count = 1 := by omega
    rw [this] at h
    exact h

/-! ### Loot and reward items -/

theorem InventorySystem.generateItem_given (w : World) (loot : LootData) (rarity : String)
    (h : loot.rarity = some rarity) :
    (InventorySystem.generateItem w loot).2 = w ∧
    (loot.type = "weapon" →
      (InventorySystem.generateItem w loot).1 =
        { id := some (rarity ++ "-" ++ loot.subtype.getD "undefined"), type := "weapon",
          rarity := some rarity,
          damage := InventorySystem.scaled 15 (InventorySystem.rarityMultiplier rarity),
          attackSpeed := some { num := 1, den := 1 } }) ∧
    (loot.type = "armor" →
      (InventorySystem.generateItem w loot).1 =
        { id := some (rarity ++ "-" ++ loot.subtype.getD "undefined"), type := "armor",
          rarity := some rarity,
          defense := InventorySystem.scaled 5 (InventorySystem.rarityMultiplier rarity) }) := by
  unfold InventorySystem.generateItem
  rw [h]
  refine ⟨rfl, fun ht => ?_, fun ht => ?_⟩
  · simp only [ht, if_true]
  · have hne : ¬ ("armor" = "weapon") := by decide
    simp only [ht, hne, if_false, if_true]

theorem InventorySystem.getRandomRarity_mem (r : Frac) (h : r.isDraw) :
    InventorySystem.getRandomRarity r ∈ InventorySystem.rarities := by
  unfold InventorySystem.getRandomRarity
  have hlen : InventorySystem.rarities.length = 5 := rfl
  have hden : 0 < r.den := Nat.lt_of_le_of_lt (Nat.zero_le _) h
  have hidx : r.num * InventorySystem.rarities.length / r.den < InventorySystem.rarities.length := by
    rw [hlen, Nat.div_lt_iff_lt_mul hden]
    unfold Frac.isDraw at h
    nlinarith
  rw [List.getD_eq_getElem _ _ hidx]
  exact List.getElem_mem _

theorem InventorySystem.generateItem_drawn (w : World) (loot : LootData)
    (h : loot.rarity = none) :
    (InventorySystem.generateItem w loot).2 = w.nextRandom.2 ∧
    (InventorySystem.generateItem w loot).1
      = (InventorySystem.generateItem w
          { loot with rarity := some (InventorySystem.getRandomRarity (w.random w.randomPos)) }).1 := by
  unfold InventorySystem.generateItem
  rw [h]
  exact ⟨rfl, rfl⟩

/-- An element of a list is still in the list after `modify`, as it was or
modified. -/
theorem List.mem_modify_keeps {α : Type} (f : α → α) (l : List α) (i : Nat) (x : α)
    (h : x ∈ l) : x ∈ l.modify f i ∨ f x ∈ l.modify f i := by
  induction l generalizing i with
  | nil => simp at h
  | cons a l ih =>
    cases i with
    | zero =>
      simp only [List.modify_zero_cons, List.mem_cons]
      rcases List.mem_cons.mp h with h | h
      · exact Or.inr (Or.inl (by rw [h]))
      · exact Or.inl (Or.inr h)
    | succ i =>
      simp only [List.modify_succ_cons, List.mem_cons]
      rcases List.mem_cons.mp h with h | h
      · exact Or.inl (Or.inl h)
      · rcases ih i h with h1 | h1
        · exact Or.inl (Or.inr h1)
        · exact Or.inr (Or.inr h1)

/-- A `'gold'` item in the inventory stays there under `addItem`. -/
theorem InventorySystem.addItem_keepsGold (inv : InventorySystem) (item : Item)
    (h : inv.holdsGoldItem) : (inv.addItem item).2.holdsGoldItem := by
  obtain ⟨x, hx, hid, hty⟩ := h
  unfold InventorySystem.holdsGoldItem InventorySystem.addItem
  split
  · rcases List.mem_modify_keeps (InventorySystem.addQuantity item.quantityOrOne) _ _ _ hx
      with h1 | h1
    · exact ⟨x, h1, hid, hty⟩
    · exact ⟨{ x with quantity := x.quantity + item.quantityOrOne }, h1, hid, hty⟩
  · split
    · rename_i emptySlot hempty
      obtain ⟨slot, hslot, hp⟩ := InventorySystem.findIdx?_some_get _ _ _ hempty
      rw [InventorySystem.isEmptySlot_iff] at hp
      obtain ⟨j, hj⟩ := List.getElem?_of_mem hx
      have hne : emptySlot ≠ j := by
        intro he
        rw [he, hj, hp] at hslot
        simp at hslot
      refine ⟨x, ?_, hid, hty⟩
      apply List.getElem?_mem (n := j)
      show (inv.inventory.set emptySlot _)[j]? = some (some x)
      rw [List.getElem?_set_ne hne]
      exact hj
    · split
      · exact ⟨x, List.mem_append_left _ hx, hid, hty⟩
      · exact ⟨x, hx, hid, hty⟩

/-- An accepted `addItem` of a consumable with id `'gold'` leaves such an item in
the inventory. -/
theorem InventorySystem.addItem_holdsGold (inv : InventorySystem) (item : Item)
    (hid : item.id = some "gold") (hty : item.type = "consumable")
    (h : (inv.addItem item).1 = true) : (inv.addItem item).2.holdsGoldItem := by
  cases hstack : inv.inventory.findIdx? (InventorySystem.stacksOnto item) with
  | some i =>
    obtain ⟨slot, hslot, hp⟩ := InventorySystem.findIdx?_some_get _ _ _ hstack
    obtain ⟨existing, he, hid1, hty1⟩ := (InventorySystem.stacksOnto_iff item slot).mp hp
    rw [he] at hslot
    exact InventorySystem.addItem_keepsGold inv item
      ⟨existing, List.getElem?_mem hslot, hid1.trans hid, hty1⟩
  | none =>
    revert h
    unfold InventorySystem.holdsGoldItem InventorySystem.addItem
    rw [hstack]
    simp only
    cases hempty : inv.inventory.findIdx? InventorySystem.isEmptySlot with
    | some emptySlot =>
      intro _
      obtain ⟨hlt, _, _⟩ := List.findIdx?_eq_some_iff_getElem.mp hempty
      refine ⟨{ item with quantity := item.quantityOrOne }, ?_, hid, hty⟩
      apply List.getElem?_mem (n := emptySlot)
      simp [List.getElem?_set, hlt]
    | none =>
      simp only
      split
      · intro _
        exact ⟨{ item with quantity := item.quantityOrOne },
          List.mem_append_right _ (List.mem_singleton.mpr rfl), hid, hty⟩
      · intro h
        exact absurd h (by simp)

theorem InventorySystem.generateItem_draws (w : World) (loot : LootData) :
    w.randomPos ≤ (InventorySystem.generateItem w loot).2.randomPos ∧
    (InventorySystem.generateItem w loot).2.random = w.random ∧
    (InventorySystem.generateItem w loot).2.inventorySystem = w.inventorySystem := by
  unfold InventorySystem.generateItem
  cases loot.rarity with
  | some r => exact ⟨le_refl _, rfl, rfl⟩
  | none => exact ⟨Nat.le_succ _, rfl, rfl⟩

theorem InventorySystem.rollLoot_draws (w : World) (loot : LootData) :
    w.randomPos + 1 ≤ (InventorySystem.rollLoot w loot).randomPos ∧
    (InventorySystem.rollLoot w loot).random = w.random := by
  unfold InventorySystem.rollLoot
  simp only
  split
  · have h := InventorySystem.generateItem_draws w.nextRandom.2 loot
    exact ⟨h.1, h.2.1⟩
  · exact ⟨le_refl _, rfl⟩

theorem InventorySystem.foldl_rollLoot_draws (table : List LootData) :
    ∀ w : World, w.randomPos ≤ (table.foldl InventorySystem.rollLoot w).randomPos ∧
      (table.foldl InventorySystem.rollLoot w).random = w.random := by
  induction table with
  | nil => intro w; exact ⟨le_refl _, rfl⟩
  | cons loot rest ih =>
    intro w
    rw [List.foldl_cons]
    have h1 := InventorySystem.rollLoot_draws w loot
    have h2 := ih (InventorySystem.rollLoot w loot)
    exact ⟨by omega, h2.2.trans h1.2⟩

theorem InventorySystem.handleEnemyLoot_draws (w : World) (enemy : Enemy) :
    w.randomPos ≤ (InventorySystem.handleEnemyLoot w enemy).randomPos ∧
    (InventorySystem.handleEnemyLoot w enemy).random = w.random := by
  unfold InventorySystem.handleEnemyLoot
  exact InventorySystem.foldl_rollLoot_draws _ w

theorem InventorySystem.rollLoot_keepsGold (w : World) (loot : LootData)
    (h : w.inventorySystem.holdsGoldItem) :
    (InventorySystem.rollLoot w loot).inventorySystem.holdsGoldItem := by
  unfold InventorySystem.rollLoot
  simp only
  split
  · have hg := (InventorySystem.generateItem_draws w.nextRandom.2 loot).2.2
    show ((InventorySystem.generateItem w.nextRandom.2 loot).2.inventorySystem.addItem _).2.holdsGoldItem
    apply InventorySystem.addItem_keepsGold
    rw [hg]
    exact h
  · exact h

theorem InventorySystem.foldl_rollLoot_keepsGold (table : List LootData) :
    ∀ w : World, w.inventorySystem.holdsGoldItem →
      (table.foldl InventorySystem.rollLoot w).inventorySystem.holdsGoldItem := by
  induction table with
  | nil => intro w h; exact h
  | cons loot rest ih =>
    intro w h
    rw [List.foldl_cons]
    exact ih _ (InventorySystem.rollLoot_keepsGold w loot h)

/-- The draws of `Math.random ()` are only consumed, never rewound, by the XP
and quest cycle. -/
theorem randomFrame_rule (c : Nat) (r : Nat → Frac) :
    QuestRule (fun _ w => c ≤ w.randomPos ∧ w.random = r) (fun _ => True) where
  addXP := fun _ _ _ _ h => h
  levelUp := fun _ _ h _ => h
  progress := fun _ _ _ _ h _ _ => h
  force := fun _ _ _ _ h _ _ => h
  complete := fun _ _ _ _ h _ _ _ => ⟨h, fun _ => trivial⟩
  rewards := by
    intro p w rewards h
    obtain ⟨inv, hinv⟩ := QuestSystem.giveGoldAndItems_eq rewards w
    rw [hinv]
    exact h
  finish := by
    intro p w quest h
    unfold QuestSystem.checkForFollowUpQuests
    simp only
    split <;> split <;> exact h

theorem CombatSystem.hitTarget_draws (fuel : Nat) (baseDamage : Int) (w w1 : World) (i : Nat)
    (h : CombatSystem.hitTarget fuel baseDamage w i = some w1) :
    w.randomPos + 2 ≤ w1.randomPos ∧ w1.random = w.random := by
  unfold CombatSystem.hitTarget at h
  simp only at h
  cases ht : Enemy.takeDamage fuel i ((CombatSystem.calculateDamage w baseDamage).1 : ℚ)
      (CombatSystem.calculateDamage w baseDamage).2 with
  | none => rw [ht] at h; simp at h
  | some w2 =>
    rw [ht] at h
    simp only [Option.some_bind] at h
    have h2 : w.randomPos + 2 ≤ w2.randomPos ∧ w2.random = w.random := by
      refine Enemy.takeDamage_keeps (randomFrame_rule (w.randomPos + 2) w.random)
        (fun _ _ _ h0 => h0) (fun _ _ h0 => h0) ?_ (fun _ h0 => h0) fuel i
        ((CombatSystem.calculateDamage w baseDamage).1 : ℚ)
        (CombatSystem.calculateDamage w baseDamage).2 w2 ⟨le_refl _, rfl⟩ ht
      intro w0 enemy h0
      have hl := InventorySystem.handleEnemyLoot_draws w0 enemy
      exact ⟨le_trans h0.1 hl.1, hl.2.trans h0.2⟩
    split at h
    · simp only [Option.some.injEq] at h
      rw [← h]
      unfold CombatSystem.applyKnockback
      split
      · exact h2
      · split
        · exact h2
        · exact h2
    · simp only [Option.some.injEq] at h
      rw [← h]; exact h2

theorem Int.ediv_le_ediv_of_divisor_le (a T T1 : Int) (ha : 0 ≤ a) (hT : 1 ≤ T)
    (hTT : T ≤ T1) : a / T1 ≤ a / T := by
  apply Int.le_ediv_of_mul_le (by omega)
  have h1 : a / T1 * T1 ≤ a := Int.ediv_mul_le a (by omega)
  have h2 : 0 ≤ a / T1 := Int.ediv_nonneg ha (by omega)
  nlinarith

/-- With no listener attached the loop of `gainXP` returns within
`Math.floor (xp / xpToNext)` iterations, which also bounds the levels gained. -/
theorem Player.gainXPLoop_alone_bound (k : Nat) :
    ∀ (w : World), 1 ≤ w.player.stats.xpToNext → 0 ≤ w.player.stats.xp →
      w.player.stats.xp / w.player.stats.xpToNext ≤ (k : Int) →
      ∃ w1, Player.gainXPLoop (fun _ w0 => some w0) k w = some w1 ∧
        0 ≤ w1.player.stats.level - w.player.stats.level ∧
        w1.player.stats.level - w.player.stats.level
          ≤ w.player.stats.xp / w.player.stats.xpToNext ∧
        w.player.stats.xpToNext ≤ w1.player.stats.xpToNext := by
  induction k with
  | zero =>
    intro w h1 h0 hk
    have hlt : ¬ (w.player.stats.xpToNext ≤ w.player.stats.xp) := by
      intro hge
      have : 1 ≤ w.player.stats.xp / w.player.stats.xpToNext :=
        Int.le_ediv_of_mul_le (by omega) (by omega)
      simp at hk
      omega
    refine ⟨w, ?_, by omega, ?_, le_refl _⟩
    · simp only [Player.gainXPLoop]
      rw [if_neg hlt]
    · have := Int.ediv_nonneg h0 (by omega : (0 : Int) ≤ w.player.stats.xpToNext)
      omega
  | succ k ih =>
    intro w h1 h0 hk
    simp only [Player.gainXPLoop, Player.levelUp, Option.some_bind]
    split
    · rename_i hx
      have hstep : (w.player.stats.xp - w.player.stats.xpToNext) / w.player.stats.xpToNext
          = w.player.stats.xp / w.player.stats.xpToNext - 1 := by
        have := Int.add_mul_ediv_right w.player.stats.xp (-1)
          (by omega : w.player.stats.xpToNext ≠ 0)
        have harg : w.player.stats.xp - w.player.stats.xpToNext
            = w.player.stats.xp + -1 * w.player.stats.xpToNext := by ring
        rw [harg, this]
        ring
      have hmono := Int.ediv_le_ediv_of_divisor_le
        (w.player.stats.xp - w.player.stats.xpToNext) w.player.stats.xpToNext
        (w.player.stats.xpToNext * 6 / 5) (by omega) h1 (by omega)
      have hT : 1 ≤ w.levelUpStep.player.stats.xpToNext := by
        show 1 ≤ w.player.stats.xpToNext * 6 / 5
        omega
      have hX : 0 ≤ w.levelUpStep.player.stats.xp := by
        show 0 ≤ w.player.stats.xp - w.player.stats.xpToNext
        omega
      have hK : w.levelUpStep.player.stats.xp / w.levelUpStep.player.stats.xpToNext
          ≤ (k : Int) := by
        show (w.player.stats.xp - w.player.stats.xpToNext) / (w.player.stats.xpToNext * 6 / 5)
          ≤ (k : Int)
        push_cast at hk
        omega
      obtain ⟨w1, hrun, hl0, hl1, ht⟩ := ih w.levelUpStep hT hX hK
      refine ⟨w1, hrun, ?_, ?_, ?_⟩
      · have : w.levelUpStep.player.stats.level = w.player.stats.level + 1 := rfl
        omega
      · have hlev : w.levelUpStep.player.stats.level = w.player.stats.level + 1 := rfl
        have hq : w.levelUpStep.player.stats.xp / w.levelUpStep.player.stats.xpToNext
            = (w.player.stats.xp - w.player.stats.xpToNext) / (w.player.stats.xpToNext * 6 / 5) :=
          rfl
        omega
      · have hthr : w.levelUpStep.player.stats.xpToNext = w.player.stats.xpToNext * 6 / 5 := rfl
        omega
    · rename_i hx
      refine ⟨w, rfl, by omega, ?_, le_refl _⟩
      have := Int.ediv_nonneg h0 (by omega : (0 : Int) ≤ w.player.stats.xpToNext)
      omega

theorem InventorySystem.addItem_accepts (inv : InventorySystem) (item : Item)
    (h : inv.inventory.length < inv.maxSlots) : (inv.addItem item).1 = true := by
  unfold InventorySystem.addItem
  split
  · rfl
  · split
    · rfl
    · rw [if_pos h]
/-! ### The death transition over a sequence of hits -/

theorem typeErrors_rule (c : Nat) :
    QuestRule (fun _ w => w.typeErrors = c) (fun _ => True) where
  addXP := fun _ _ _ _ h => h
  levelUp := fun _ _ h _ => h
  progress := fun _ _ _ _ h _ _ => h
  force := fun _ _ _ _ h _ _ => h
  complete := fun _ _ _ _ h _ _ _ => ⟨h, fun _ => trivial⟩
  rewards := by
    intro p w rewards h
    obtain ⟨inv, hinv⟩ := QuestSystem.giveGoldAndItems_eq rewards w
    rw [hinv]
    exact h
  finish := by
    intro p w quest h
    unfold QuestSystem.checkForFollowUpQuests
    simp only
    split <;> split <;> exact h

/-- A hit on a live enemy does not throw. -/
theorem Enemy.takeDamage_noThrow (fuel i : Nat) (e : Enemy) (damage : ℚ) (w w1 : World)
    (he : w.enemyManager.enemies[i]? = some e) (hs : e.hasScene = true)
    (h : Enemy.takeDamage fuel i damage w = some w1) : w1.typeErrors = w.typeErrors := by
  refine Enemy.takeDamage_keepsLive (typeErrors_rule w.typeErrors) (fun _ _ _ h0 => h0)
    (fun _ _ h0 => h0) ?_ fuel i e damage w w1 he hs rfl h
  intro w0 enemy h0
  obtain ⟨inv, pos, hl⟩ := InventorySystem.handleEnemyLoot_world w0 enemy
  rw [hl]; exact h0

theorem SameAccounts.andThen {w w1 w2 : World} (h1 : SameAccounts w w1)
    (h2 : SameAccounts w1 w2) : SameAccounts w w2 :=
  ⟨h2.1.trans h1.1, h2.2.1.trans h1.2.1, h2.2.2.1.trans h1.2.2.1,
    h2.2.2.2.1.trans h1.2.2.2.1, h2.2.2.2.2.1.trans h1.2.2.2.2.1,
    h2.2.2.2.2.2.trans h1.2.2.2.2.2⟩

/-- Hits on a destroyed enemy only set its health and throw when they leave it
at 0: no event, no XP, no gold, and the enemy stays as it is otherwise. -/
theorem Enemy.takeDamageAll_destroyed (fuel i : Nat) (damages : List ℚ) :
    ∀ (e : Enemy) (w : World), w.enemyManager.enemies[i]? = some e → e.hasScene = false →
      ∃ w1 e1, Enemy.takeDamageAll fuel i damages w = some w1 ∧
        w1.enemyManager.enemies[i]? = some e1 ∧ e1.hasScene = false ∧
        e1.inGroup = e.inGroup ∧ e1.active = e.active ∧
        w1.log = w.log ∧ SameAccounts w w1 ∧
        w1.typeErrors = w.typeErrors + Enemy.throwingHits e.stats.hp damages := by
  induction damages with
  | nil =>
    intro e w he hs
    exact ⟨w, e, rfl, he, hs, rfl, rfl, rfl, SameAccounts.self w, rfl⟩
  | cons d rest ih =>
    intro e w he hs
    have hi : i < w.enemyManager.enemies.length := by
      rcases List.getElem?_eq_some_iff.mp he with ⟨hi, _⟩
      exact hi
    simp only [Enemy.takeDamageAll]
    by_cases hd : e.stats.hp - d ≤ 0
    · rw [Enemy.takeDamage_throws fuel i e d w he hd hs, Option.some_bind]
      obtain ⟨w1, e1, hrun, he1, hs1, hg1, ha1, hlog, hsame, herr⟩ :=
        ih { e with stats := { e.stats with hp := max 0 (e.stats.hp - d) } }
          (w.setEnemy i
            { e with stats := { e.stats with hp := max 0 (e.stats.hp - d) } }).throwTypeError
          (by simp [World.setEnemy, World.throwTypeError, hi]) hs
      refine ⟨w1, e1, hrun, he1, hs1, hg1, ha1, hlog, ?_, ?_⟩
      · exact SameAccounts.andThen ⟨rfl, rfl, rfl, rfl, rfl, rfl⟩ hsame
      · rw [herr]
        simp only [Enemy.throwingHits, if_pos hd]
        show w.typeErrors + 1 + _ = _
        omega
    · rw [Enemy.takeDamage_survives fuel i e d w he hd, Option.some_bind]
      obtain ⟨w1, e1, hrun, he1, hs1, hg1, ha1, hlog, hsame, herr⟩ :=
        ih { e with stats := { e.stats with hp := max 0 (e.stats.hp - d) } }
          (w.setEnemy i { e with stats := { e.stats with hp := max 0 (e.stats.hp - d) } })
          (by simp [World.setEnemy, hi]) hs
      refine ⟨w1, e1, hrun, he1, hs1, hg1, ha1, hlog, ?_, ?_⟩
      · exact SameAccounts.andThen ⟨rfl, rfl, rfl, rfl, rfl, rfl⟩ hsame
      · rw [herr]
        simp only [Enemy.throwingHits, if_neg hd]
        show w.typeErrors + _ = _
        omega

theorem World.count_enemyKilled (w : World) (i : Nat) :
    w.log.count (Event.enemyKilled i) = w.killEvents.count i := by
  unfold World.killEvents
  induction w.log with
  | nil => rfl
  | cons x xs ih =>
    cases x <;> simp [List.count_cons, List.filterMap_cons, Event.killedEnemy, ih]

/-- A sequence of hits on a live enemy runs the death transition once if the
health reaches 0 and not at all otherwise. -/
theorem Enemy.takeDamageAll_diesOnce (fuel i : Nat) (damages : List ℚ) :
    ∀ (e : Enemy) (w w1 : World), w.enemyManager.enemies[i]? = some e → e.hasScene = true →
      Enemy.takeDamageAll fuel i damages w = some w1 → DiesOnce i e damages w w1 := by
  induction damages with
  | nil =>
    intro e w w1 he hs h
    simp only [Enemy.takeDamageAll, Option.some.injEq] at h
    rw [← h]
    refine ⟨by simp [Enemy.reachesZero], by simp [Enemy.reachesZero], ?_, rfl,
      ⟨e, he, by simp [Enemy.reachesZero, hs], by simp [Enemy.reachesZero]⟩,
      by simp [Enemy.reachesZero]⟩
    simp only [Enemy.reachesZero]
    exact Ledger.unchanged w
  | cons d rest ih =>
    intro e w w1 he hs h
    have hi : i < w.enemyManager.enemies.length := by
      rcases List.getElem?_eq_some_iff.mp he with ⟨hi, _⟩
      exact hi
    simp only [Enemy.takeDamageAll] at h
    by_cases hd : e.stats.hp - d ≤ 0
    · cases ht : Enemy.takeDamage fuel i d w with
      | none => rw [ht] at h; simp at h
      | some w2 =>
        rw [ht] at h
        simp only [Option.some_bind] at h
        have hle : e.stats.hp ≤ d := by linarith
        obtain ⟨_, hkill, hledger⟩ :=
          Enemy.takeDamage_lethalEffects fuel i e d w w2 he hs hle ht
        have herr2 := Enemy.takeDamage_noThrow fuel i e d w w2 he hs ht
        obtain ⟨e2, he2, hst2, hg2, hs2, _⟩ := Enemy.takeDamage_effect fuel i e d w w2 he ht
        have hs2f : e2.hasScene = false := by rw [hs2]; simp [hd]
        have hg2f : e2.inGroup = false := by rw [hg2]; simp [hd, hs]
        have hhp2 : e2.stats.hp = 0 := by rw [hst2]; exact max_eq_left hd
        have ha2f : e2.active = false := by
          have hb := Enemy.takeDamage_dies fuel i e d w he hd
          have ht2 := ht
          rw [hb.1] at ht2
          have hlist := (Enemy.die_effect fuel i _ _ w2 hb.2 hs ht2).1
          rw [hlist] at he2
          simp [World.setEnemy, hi] at he2
          rw [← he2]
        obtain ⟨w3, e3, hrun, he3, hs3, hg3, ha3, hlog, hsame, herr⟩ :=
          Enemy.takeDamageAll_destroyed fuel i rest e2 w2 he2 hs2f
        rw [hrun] at h
        simp only [Option.some.injEq] at h
        rw [← h]
        have hreach : Enemy.reachesZero e.stats.hp (d :: rest) = true := by
          simp [Enemy.reachesZero, hd]
        have hkills3 : w3.killEvents = w.killEvents ++ [i] := by
          unfold World.killEvents at hkill ⊢
          rw [hlog, hkill]
        have hg3f : e3.inGroup = false := by rw [hg3]; exact hg2f
        have ha3f : e3.active = false := by rw [ha3]; exact ha2f
        have hs3r : e3.hasScene = !Enemy.reachesZero e.stats.hp (d :: rest) := by
          rw [hreach, hs3]; rfl
        have hcount : w3.log.count (Event.enemyKilled i)
            = w.log.count (Event.enemyKilled i)
              + (if Enemy.reachesZero e.stats.hp (d :: rest) then 1 else 0) := by
          rw [hreach, World.count_enemyKilled, World.count_enemyKilled, hkills3]
          simp
        have hthrows : w3.typeErrors
            = w.typeErrors + Enemy.expectedThrows e.stats.hp (d :: rest) := by
          rw [herr, herr2, hhp2]
          simp [Enemy.expectedThrows, hd]
        refine ⟨?_, hcount, ?_, hthrows, ⟨e3, he3, hs3r, fun _ => ⟨hg3f, ha3f⟩⟩,
          fun _ distance range =>
            EnemyManager.not_inRange_of_removed w3 i e3 he3 hg3f distance range⟩
        · rw [hreach]; exact hkills3
        · rw [hreach]
          exact Ledger.then_same hledger hsame
    · rw [Enemy.takeDamage_survives fuel i e d w he hd, Option.some_bind] at h
      have hmax : max 0 (e.stats.hp - d) = e.stats.hp - d := max_eq_right (by linarith)
      have hrec := ih { e with stats := { e.stats with hp := max 0 (e.stats.hp - d) } }
        (w.setEnemy i { e with stats := { e.stats with hp := max 0 (e.stats.hp - d) } }) w1
        (by simp [World.setEnemy, hi]) hs h
      have hreach : Enemy.reachesZero e.stats.hp (d :: rest)
          = Enemy.reachesZero (e.stats.hp - d) rest := by
        simp [Enemy.reachesZero, hd]
      have hthrows : Enemy.expectedThrows e.stats.hp (d :: rest)
          = Enemy.expectedThrows (e.stats.hp - d) rest := by
        simp [Enemy.expectedThrows, hd]
      unfold DiesOnce at hrec ⊢
      simp only [hmax] at hrec
      rw [hreach, hthrows]
      obtain ⟨h1, h2, h3, h4, h5, h6⟩ := hrec
      exact ⟨h1, h2, Ledger.same_then (World.setEnemy_same w i _) h3, h4, h5, h6⟩

/-- After the death of the enemy every hit with damage `≥ 0` throws. -/
theorem Enemy.throwingHits_zero (damages : List ℚ) (hd : ∀ d ∈ damages, 0 ≤ d) :
    Enemy.throwingHits 0 damages = damages.length := by
  induction damages with
  | nil => rfl
  | cons d rest ih =>
    have hd0 : 0 ≤ d := hd d (List.mem_cons_self _ _)
    have hle : (0 : ℚ) - d ≤ 0 := by linarith
    have hmax : max 0 ((0 : ℚ) - d) = 0 := max_eq_left hle
    simp only [Enemy.throwingHits, if_pos hle, hmax, List.length_cons]
    rw [ih (fun x hx => hd x (List.mem_cons_of_mem _ hx))]
    omega

/-- With damage `≥ 0` throughout, the health reaches 0 exactly when the damage
adds up to the health. -/
theorem Enemy.reachesZero_iff (damages : List ℚ) :
    ∀ (hp : ℚ), (∀ d ∈ damages, 0 ≤ d) → 0 < hp →
      (Enemy.reachesZero hp damages = true ↔ hp ≤ damages.sum) := by
  induction damages with
  | nil =>
    intro hp _ hpos
    simp [Enemy.reachesZero]
    exact hpos
  | cons d rest ih =>
    intro hp hd hpos
    have hd0 : 0 ≤ d := hd d (List.mem_cons_self _ _)
    have hrest : ∀ x ∈ rest, 0 ≤ x := fun x hx => hd x (List.mem_cons_of_mem _ hx)
    have hr0 : 0 ≤ rest.sum := List.sum_nonneg hrest
    simp only [Enemy.reachesZero, List.sum_cons]
    by_cases hle : hp - d ≤ 0
    · simp only [if_pos hle, true_iff]
      linarith
    · simp only [if_neg hle]
      rw [ih (hp - d) hrest (by linarith)]
      constructor <;> intro h <;> linarith
/-! ### Hits on live enemies do not throw -/

theorem CombatSystem.applyKnockback_typeErrors (w : World) (i : Nat) :
    (CombatSystem.applyKnockback w i).typeErrors = w.typeErrors := by
  unfold CombatSystem.applyKnockback
  split
  · rfl
  · split <;> rfl

/-- A sword hit on a live enemy does not throw. -/
theorem CombatSystem.hitTarget_noThrow (fuel : Nat) (baseDamage : Int) (w w1 : World) (i : Nat)
    (e : Enemy) (he : w.enemyManager.enemies[i]? = some e) (hs : e.hasScene = true)
    (h : CombatSystem.hitTarget fuel baseDamage w i = some w1) :
    w1.typeErrors = w.typeErrors := by
  unfold CombatSystem.hitTarget at h
  simp only at h
  cases ht : Enemy.takeDamage fuel i ((CombatSystem.calculateDamage w baseDamage).1 : ℚ)
      (CombatSystem.calculateDamage w baseDamage).2 with
  | none => rw [ht] at h; simp at h
  | some w2 =>
    rw [ht] at h
    simp only [Option.some_bind] at h
    have h2 : w2.typeErrors = (CombatSystem.calculateDamage w baseDamage).2.typeErrors :=
      Enemy.takeDamage_noThrow fuel i e _ _ w2 he hs ht
    rw [if_pos h2] at h
    cases h
    rw [CombatSystem.applyKnockback_typeErrors, h2]
    rfl

/-- After a hit on a live enemy the loop of `playerAttack` goes on with the other
targets. -/
theorem CombatSystem.hitTargets_live (fuel : Nat) (baseDamage : Int) (w : World) (i : Nat)
    (rest : List Nat) (e : Enemy) (he : w.enemyManager.enemies[i]? = some e)
    (hs : e.hasScene = true) :
    CombatSystem.hitTargets fuel baseDamage (i :: rest) w
      = (CombatSystem.hitTarget fuel baseDamage w i).bind
          (CombatSystem.hitTargets fuel baseDamage rest) := by
  show ((CombatSystem.hitTarget fuel baseDamage w i).bind fun w1 =>
      if w1.typeErrors = w.typeErrors then CombatSystem.hitTargets fuel baseDamage rest w1
      else some w1) = _
  cases ht : CombatSystem.hitTarget fuel baseDamage w i with
  | none => rfl
  | some w1 =>
    simp only [Option.some_bind]
    rw [if_pos (CombatSystem.hitTarget_noThrow fuel baseDamage w w1 i e he hs ht)]

/-! ### The iterations of the loop of `gainXP` in the scene -/

theorem ExitOrSame.ofSamePlayer {w w1 : World} (h : w1.player = w.player) : ExitOrSame w w1 :=
  Or.inl (by rw [h])

theorem ExitOrSame.chain {w w1 w2 : World} (h1 : ExitOrSame w w1) (h2 : ExitOrSame w1 w2) :
    ExitOrSame w w2 := by
  rcases h2 with h2 | h2
  · rcases h1 with h1 | h1
    · exact Or.inl (h2.trans h1)
    · exact Or.inr (by rw [h2]; exact h1)
  · exact Or.inr h2

theorem QuestSystem.giveRewards_exitOrSame {gainXP : Int → World → Option World}
    (hg : ∀ a w w1, gainXP a w = some w1 → w1.player.stats.xp < w1.player.stats.xpToNext)
    (rewards : Rewards) (w w1 : World)
    (h : QuestSystem.giveRewards gainXP rewards w = some w1) : ExitOrSame w w1 := by
  unfold QuestSystem.giveRewards at h
  split at h
  · cases hv : gainXP rewards.xp w with
    | none => rw [hv] at h; simp at h
    | some w2 =>
      rw [hv] at h
      simp only [Option.some_bind, Option.some.injEq] at h
      obtain ⟨inv, hinv⟩ := QuestSystem.giveGoldAndItems_eq rewards w2
      rw [← h, hinv]
      exact Or.inr (hg _ _ w2 hv)
  · simp only [Option.some_bind, Option.some.injEq] at h
    obtain ⟨inv, hinv⟩ := QuestSystem.giveGoldAndItems_eq rewards w
    rw [← h, hinv]
    exact Or.inl rfl

theorem QuestSystem.completeQuest_exitOrSame {gainXP : Int → World → Option World}
    (hg : ∀ a w w1, gainXP a w = some w1 → w1.player.stats.xp < w1.player.stats.xpToNext)
    (k : Nat) (w w1 : World)
    (h : QuestSystem.completeQuest gainXP k w = some w1) : ExitOrSame w w1 := by
  unfold QuestSystem.completeQuest at h
  split at h
  · simp only [Option.some.injEq] at h
    rw [← h]; exact Or.inl rfl
  · rename_i quest hq
    cases hv : QuestSystem.giveRewards gainXP quest.rewards
        ((QuestSystem.moveToCompleted w k quest).emit (Event.giveRewards quest.id)) with
    | none => rw [hv] at h; simp at h
    | some w2 =>
      rw [hv] at h
      simp only [Option.some_bind, Option.some.injEq] at h
      have h2 := QuestSystem.giveRewards_exitOrSame hg _ _ _ hv
      have h3 : ExitOrSame w2 w1 := by
        apply ExitOrSame.ofSamePlayer
        rw [← h, QuestSystem.followUp_player]
        rfl
      have h1 : ExitOrSame w
          ((QuestSystem.moveToCompleted w k quest).emit (Event.giveRewards quest.id)) :=
        Or.inl rfl
      exact (h1.chain h2).chain h3

theorem QuestSystem.visitQuest_exitOrSame {gainXP : Int → World → Option World}
    (hg : ∀ a w w1, gainXP a w = some w1 → w1.player.stats.xp < w1.player.stats.xpToNext)
    (type : String) (value : Value) (k : Nat) (w w1 : World)
    (h : QuestSystem.visitQuest gainXP type value k w = some w1) : ExitOrSame w w1 := by
  unfold QuestSystem.visitQuest at h
  split at h
  · simp only [Option.some.injEq] at h
    rw [← h]; exact Or.inl rfl
  · rename_i quest hq
    simp only at h
    split at h
    · split at h
      · split at h
        · have h1 : ExitOrSame w (w.setActiveQuest k
              { quest with current := min (quest.current + 1) quest.required }) := Or.inl rfl
          exact h1.chain (QuestSystem.completeQuest_exitOrSame hg k _ w1 h)
        · simp only [Option.some.injEq] at h
          rw [← h]; exact Or.inl rfl
      · split at h
        · have h1 : ExitOrSame w (w.setActiveQuest k
              { quest with current := quest.required }) := Or.inl rfl
          exact h1.chain (QuestSystem.completeQuest_exitOrSame hg k _ w1 h)
        · simp only [Option.some.injEq] at h
          rw [← h]; exact Or.inl rfl
    · simp only [Option.some.injEq] at h
      rw [← h]; exact Or.inl rfl

theorem QuestSystem.forEachActive_exitOrSame {gainXP : Int → World → Option World}
    (hg : ∀ a w w1, gainXP a w = some w1 → w1.player.stats.xp < w1.player.stats.xpToNext)
    (type : String) (value : Value) (remaining : Nat) :
    ∀ (k : Nat) (w w1 : World),
      QuestSystem.forEachActive gainXP type value k remaining w = some w1 → ExitOrSame w w1 := by
  induction remaining with
  | zero =>
    intro k w w1 h
    simp only [QuestSystem.forEachActive, Option.some.injEq] at h
    rw [← h]; exact Or.inl rfl
  | succ r ih =>
    intro k w w1 h
    simp only [QuestSystem.forEachActive] at h
    cases hv : QuestSystem.visitQuest gainXP type value k w with
    | none => rw [hv] at h; simp at h
    | some w2 =>
      rw [hv] at h
      simp only [Option.some_bind] at h
      exact (QuestSystem.visitQuest_exitOrSame hg type value k w w2 hv).chain
        (ih (k + 1) w2 w1 h)

/-- The listener of `levelUp` in the scene leaves the stats of the player as they
are or leaves `xp < xpToNext`. -/
theorem GameScene.onLevelUp_exitOrSame (fuel : Nat) (newLevel : Int) (w w1 : World)
    (h : GameScene.onLevelUp fuel newLevel w = some w1) : ExitOrSame w w1 :=
  QuestSystem.forEachActive_exitOrSame (fun a w0 w2 h0 => Player.gainXP_exit fuel a w0 w2 h0)
    "level" (Value.num newLevel) _ 0 w w1 h

theorem threshold_rule :
    QuestRule (fun _ w => 1 ≤ w.player.stats.xpToNext) (fun _ => True) where
  addXP := fun _ _ _ _ h => h
  levelUp := by
    intro p w h _
    show 1 ≤ w.player.stats.xpToNext * 6 / 5
    omega
  progress := fun _ _ _ _ h _ _ => h
  force := fun _ _ _ _ h _ _ => h
  complete := fun _ _ _ _ h _ _ _ => ⟨h, fun _ => trivial⟩
  rewards := by
    intro p w rewards h
    obtain ⟨inv, hinv⟩ := QuestSystem.giveGoldAndItems_eq rewards w
    rw [hinv]
    exact h
  finish := by
    intro p w quest h
    rw [QuestSystem.followUp_player]
    exact h

theorem GameScene.onLevelUp_threshold (fuel : Nat) (newLevel : Int) (w w1 : World)
    (hx : 1 ≤ w.player.stats.xpToNext)
    (h : GameScene.onLevelUp fuel newLevel w = some w1) : 1 ≤ w1.player.stats.xpToNext :=
  QuestSystem.checkQuestProgress_rule threshold_rule
    (Player.gainXP_rule threshold_rule fuel) [] "level" (Value.num newLevel) w w1 hx h

/-- The loop of `gainXP` in the scene needs no more iterations than the
thresholds that fit into the XP: a run that returns with some bound on the
iterations returns the same state with the bound `k0` whenever
`xp < (k0 + 1) * xpToNext`. -/
theorem Player.gainXPLoop_trim {onLevelUp : Int → World → Option World}
    (hl : ∀ n w w1, onLevelUp n w = some w1 →
      ExitOrSame w w1 ∧ (1 ≤ w.player.stats.xpToNext → 1 ≤ w1.player.stats.xpToNext))
    (k : Nat) :
    ∀ (k0 : Nat) (w w1 : World), 1 ≤ w.player.stats.xpToNext →
      w.player.stats.xp < ((k0 : Int) + 1) * w.player.stats.xpToNext →
      Player.gainXPLoop onLevelUp k w = some w1 →
      Player.gainXPLoop onLevelUp k0 w = some w1 := by
  induction k with
  | zero =>
    intro k0 w w1 hx hb h
    simp only [Player.gainXPLoop] at h
    split at h
    · simp at h
    · rename_i hexit
      cases k0 with
      | zero => simp only [Player.gainXPLoop, if_neg hexit]; exact h
      | succ k0 => simp only [Player.gainXPLoop, if_neg hexit]; exact h
  | succ k ih =>
    intro k0 w w1 hx hb h
    simp only [Player.gainXPLoop] at h
    split at h
    · rename_i hent
      cases hv : Player.levelUp onLevelUp w with
      | none => rw [hv] at h; simp at h
      | some w2 =>
        rw [hv] at h
        simp only [Option.some_bind] at h
        obtain ⟨hes, hthr⟩ := hl _ _ _ hv
        have hT : 1 ≤ w.levelUpStep.player.stats.xpToNext := by
          show 1 ≤ w.player.stats.xpToNext * 6 / 5
          omega
        have hT2 := hthr hT
        cases k0 with
        | zero =>
          exfalso
          simp only [Nat.cast_zero, zero_add, one_mul] at hb
          omega
        | succ k0 =>
          simp only [Player.gainXPLoop, if_pos hent, hv, Option.some_bind]
          apply ih k0 w2 w1 hT2 ?_ h
          rcases hes with hsame | hexit
          · have hxp : w2.player.stats.xp = w.player.stats.xp - w.player.stats.xpToNext := by
              rw [hsame]; rfl
            have hthr2 : w2.player.stats.xpToNext = w.player.stats.xpToNext * 6 / 5 := by
              rw [hsame]; rfl
            have hmono : w.player.stats.xpToNext ≤ w2.player.stats.xpToNext := by
              rw [hthr2]; omega
            have hk : (0 : Int) ≤ (k0 : Int) + 1 := by positivity
            have := mul_le_mul_of_nonneg_left hmono hk
            push_cast at hb
            rw [hxp]
            nlinarith
          · have hk : (0 : Int) ≤ (k0 : Int) := Int.ofNat_nonneg _
            nlinarith
    · rename_i hexit
      cases k0 with
      | zero => simp only [Player.gainXPLoop, if_neg hexit]; exact h
      | succ k0 => simp only [Player.gainXPLoop, if_neg hexit]; exact h

/-- In the scene the loop of `gainXP (amount)` returns within
`Math.floor ((xp + amount) / xpToNext)` iterations, with the state `gainXP`
returns. -/
theorem Player.gainXP_sceneBound (w : World) (amount : Int)
    (hx : 1 ≤ w.player.stats.xpToNext) (h0 : 0 ≤ w.player.stats.xp + amount) :
    ∃ N w1, ∀ fuel, N ≤ fuel →
      Player.gainXP fuel amount w = some w1 ∧
      Player.gainXPWith (GameScene.onLevelUp fuel)
        ((w.player.stats.xp + amount) / w.player.stats.xpToNext).toNat amount w = some w1 := by
  obtain ⟨N, w1, hrun⟩ := Player.gainXP_total w amount hx
  refine ⟨N + 1, w1, fun fuel hf => ⟨hrun fuel (by omega), ?_⟩⟩
  have hfull : Player.gainXP (fuel + 1) amount w = some w1 := hrun (fuel + 1) (by omega)
  have hloop : Player.gainXPLoop (GameScene.onLevelUp fuel) (fuel + 1) (w.addXP amount)
      = some w1 := hfull
  have hq : 0 ≤ (w.player.stats.xp + amount) / w.player.stats.xpToNext :=
    Int.ediv_nonneg h0 (by omega)
  refine Player.gainXPLoop_trim
    (fun n w2 w3 h => ⟨GameScene.onLevelUp_exitOrSame fuel n w2 w3 h,
      fun hx2 => GameScene.onLevelUp_threshold fuel n w2 w3 hx2 h⟩)
    (fuel + 1) _ (w.addXP amount) w1 hx ?_ hloop
  show w.player.stats.xp + amount < _ * w.player.stats.xpToNext
  rw [Int.toNat_of_nonneg hq]
  have := Int.lt_ediv_add_one_mul_self (w.player.stats.xp + amount)
    (by omega : (0 : Int) < w.player.stats.xpToNext)
  linarith
/-! ### The scene with no open level quest -/

/-- With no open level quest the listener of `levelUp` changes nothing, so the
loop of `gainXP` in the scene is the loop of `Player` on its own. -/
theorem Player.gainXPLoop_quiet (fuel k : Nat) :
    ∀ (w : World), w.openLevelQuests = 0 →
      Player.gainXPLoop (GameScene.onLevelUp fuel) k w
        = Player.gainXPLoop (fun _ w0 => some w0) k w := by
  induction k with
  | zero => intro w _; rfl
  | succ k ih =>
    intro w h0
    simp only [Player.gainXPLoop]
    split
    · have hstep : Player.levelUp (GameScene.onLevelUp fuel) w = some w.levelUpStep := by
        unfold Player.levelUp GameScene.onLevelUp
        exact QuestSystem.checkQuestProgress_noMatch _ _ _ _
          (World.openLevelQuests_zero w.levelUpStep h0)
      rw [hstep]
      simp only [Player.levelUp, Option.some_bind]
      exact ih w.levelUpStep h0
    · rfl

theorem Player.gainXP_quiet (fuel : Nat) (amount : Int) (w : World)
    (h0 : w.openLevelQuests = 0) :
    Player.gainXP (fuel + 1) amount w
      = Player.gainXPWith (fun _ w0 => some w0) (fuel + 1) amount w :=
  Player.gainXPLoop_quiet fuel (fuel + 1) (w.addXP amount) h0

/-! ### Level quests reached by the scan -/

theorem QuestSystem.followUp_completedQuests (w : World) (quest : Quest) :
    (QuestSystem.checkForFollowUpQuests w quest).questSystem.completedQuests
      = w.questSystem.completedQuests := by
  unfold QuestSystem.checkForFollowUpQuests
  simp only
  split <;> split <;> rfl

theorem completedQuestsKept_rule (S : List Quest) :
    QuestRule (fun _ w => ∀ q ∈ S, q ∈ w.questSystem.completedQuests) (fun _ => True) where
  addXP := fun _ _ _ _ h => h
  levelUp := fun _ _ h _ => h
  progress := fun _ _ _ _ h _ _ => h
  force := fun _ _ _ _ h _ _ => h
  complete := by
    intro p w k quest h _ _ _
    refine ⟨fun q hq => ?_, fun _ => trivial⟩
    have := h q hq
    simp only [World.emit, QuestSystem.moveToCompleted, List.mem_append]
    exact Or.inl this
  rewards := by
    intro p w rewards h
    obtain ⟨inv, hinv⟩ := QuestSystem.giveGoldAndItems_eq rewards w
    rw [hinv]
    exact h
  finish := by
    intro p w quest h q hq
    rw [QuestSystem.followUp_completedQuests]
    exact h q hq

/-- A quest that `completeQuest` handles is in `completedQuests` afterwards, with
the two flags set and the progress it had. -/
theorem QuestSystem.completeQuest_completed (fuel : Nat) (k : Nat) (quest : Quest)
    (w w1 : World) (hq : w.questSystem.activeQuests[k]? = some quest)
    (h : QuestSystem.completeQuest (Player.gainXP fuel) k w = some w1) :
    quest.markCompleted ∈ w1.questSystem.completedQuests := by
  unfold QuestSystem.completeQuest at h
  rw [hq] at h
  simp only at h
  cases hgr : QuestSystem.giveRewards (Player.gainXP fuel) quest.rewards
      ((QuestSystem.moveToCompleted w k quest).emit (Event.giveRewards quest.id)) with
  | none => rw [hgr] at h; simp at h
  | some w2 =>
    rw [hgr] at h
    simp only [Option.some_bind, Option.some.injEq] at h
    have h2 := QuestSystem.giveRewards_rule (completedQuestsKept_rule [quest.markCompleted])
      (Player.gainXP_rule (completedQuestsKept_rule [quest.markCompleted]) fuel) []
      quest.rewards _ w2 (fun _ => trivial)
      (by
        intro q hqm
        simp only [List.mem_singleton] at hqm
        simp only [World.emit, QuestSystem.moveToCompleted, List.mem_append,
          List.mem_singleton]
        exact Or.inr hqm)
      hgr
    rw [← h, QuestSystem.followUp_completedQuests]
    exact h2 _ (List.mem_singleton.mpr rfl)

/-- The scan passes over the quests it does not match without a change. -/
theorem QuestSystem.forEachActive_skip (gainXP : Int → World → Option World) (type : String)
    (value : Value) (w : World) (j : Nat) :
    ∀ (k remaining : Nat),
      (∀ i q, k ≤ i → i < k + j → w.questSystem.activeQuests[i]? = some q →
        ¬ (q.type = type ∧ q.isCompleted = false)) →
      QuestSystem.forEachActive gainXP type value k (j + remaining) w
        = QuestSystem.forEachActive gainXP type value (k + j) remaining w := by
  induction j with
  | zero =>
    intro k remaining _
    simp
  | succ j ih =>
    intro k remaining hno
    have hvisit : QuestSystem.visitQuest gainXP type value k w = some w := by
      unfold QuestSystem.visitQuest
      cases hq : w.questSystem.activeQuests[k]? with
      | none => rfl
      | some quest =>
        simp only
        rw [if_neg (hno k quest (le_refl _) (by omega) hq)]
    have harg : j + 1 + remaining = (j + remaining) + 1 := by omega
    rw [harg]
    simp only [QuestSystem.forEachActive, hvisit, Option.some_bind]
    rw [ih (k + 1) remaining (fun i q h1 h2 hq => hno i q (by omega) (by omega) hq)]
    congr 1
    omega

/-- The scan of `checkQuestProgress` reaches the first quest it matches in the
state the call started in. -/
theorem QuestSystem.checkQuestProgress_first (gainXP : Int → World → Option World)
    (type : String) (value : Value) (w : World) (k : Nat) (quest : Quest)
    (hq : w.questSystem.activeQuests[k]? = some quest)
    (hfirst : ∀ i q, i < k → w.questSystem.activeQuests[i]? = some q →
      ¬ (q.type = type ∧ q.isCompleted = false)) :
    QuestSystem.checkQuestProgress gainXP type value w
      = (QuestSystem.visitQuest gainXP type value k w).bind
          (QuestSystem.forEachActive gainXP type value (k + 1)
            (w.questSystem.activeQuests.length - (k + 1))) := by
  have hk : k < w.questSystem.activeQuests.length := by
    rcases List.getElem?_eq_some_iff.mp hq with ⟨hk, _⟩
    exact hk
  unfold QuestSystem.checkQuestProgress
  obtain ⟨r, hr⟩ : ∃ r, w.questSystem.activeQuests.length = k + (r + 1) :=
    ⟨w.questSystem.activeQuests.length - (k + 1), by omega⟩
  have hsub : k + (r + 1) - (k + 1) = r := by omega
  rw [hr, hsub, QuestSystem.forEachActive_skip gainXP type value w k 0 (r + 1)
    (fun i q _ h2 hqi => hfirst i q (by omega) hqi)]
  simp only [zero_add, QuestSystem.forEachActive]

/-! ### What `addItem` stores -/

theorem InventorySystem.addItem_rejected (inv : InventorySystem) (item : Item)
    (h : (inv.addItem item).1 = false) :
    (inv.addItem item).2 = inv ∧ inv.maxSlots ≤ inv.inventory.length := by
  unfold InventorySystem.addItem at h ⊢
  cases hstack : inv.inventory.findIdx? (InventorySystem.stacksOnto item) with
  | some i => rw [hstack] at h; simp at h
  | none =>
    rw [hstack] at h
    simp only at h ⊢
    cases hempty : inv.inventory.findIdx? InventorySystem.isEmptySlot with
    | some e => rw [hempty] at h; simp at h
    | none =>
      rw [hempty] at h
      simp only at h ⊢
      split at h
      · simp at h
      · rename_i hfull
        rw [if_neg hfull]
        exact ⟨rfl, by omega⟩

/-- An accepted `addItem` leaves an item with the id of the argument in a slot:
the consumable the quantity was added to, or the copy of the argument. -/
theorem InventorySystem.addItem_stored (inv : InventorySystem) (item : Item)
    (h : (inv.addItem item).1 = true) :
    ∃ (i : Nat) (stored : Item), (inv.addItem item).2.inventory[i]? = some (some stored) ∧
      stored.id = item.id ∧ (stored.type = "consumable" ∨ stored.type = item.type) ∧
      (stored.quantity = item.quantityOrOne ∨
        ∃ existing, inv.inventory[i]? = some (some existing) ∧
          stored.quantity = existing.quantity + item.quantityOrOne) := by
  unfold InventorySystem.addItem at h ⊢
  cases hstack : inv.inventory.findIdx? (InventorySystem.stacksOnto item) with
  | some i =>
    obtain ⟨slot, hslot, hp⟩ := InventorySystem.findIdx?_some_get _ _ _ hstack
    obtain ⟨existing, he, hid, htype⟩ := (InventorySystem.stacksOnto_iff item slot).mp hp
    refine ⟨i, { existing with quantity := existing.quantity + item.quantityOrOne }, ?_, hid,
      Or.inl htype, Or.inr ⟨existing, by rw [hslot, he], rfl⟩⟩
    simp only
    rw [List.getElem?_modify_eq, hslot, he]
    rfl
  | none =>
    rw [hstack] at h
    simp only at h ⊢
    cases hempty : inv.inventory.findIdx? InventorySystem.isEmptySlot with
    | some e =>
      obtain ⟨slot, hslot, _⟩ := InventorySystem.findIdx?_some_get _ _ _ hempty
      have he : e < inv.inventory.length := by
        rcases List.getElem?_eq_some_iff.mp hslot with ⟨he, _⟩
        exact he
      refine ⟨e, { item with quantity := item.quantityOrOne }, ?_, rfl, Or.inr rfl,
        Or.inl rfl⟩
      simp only
      rw [List.getElem?_set_self he]
    | none =>
      rw [hempty] at h
      simp only at h ⊢
      split at h
      · rename_i hroom
        refine ⟨inv.inventory.length, { item with quantity := item.quantityOrOne }, ?_, rfl,
          Or.inr rfl, Or.inl rfl⟩
        rw [if_pos hroom]
        simp
      · simp at h

/-! ## The claims -/

/-- C1: `Player.gainXP (amount)` with `amount ≥ 0`, called on a state with
`xpToNext ≥ 1` and `0 ≤ xp`, returns and leaves `0 ≤ xp < xpToNext` (the bound
`xp < xpToNext` before the call is not needed).  First for the player on its
own, with no listener attached to `levelUp`: the loop ends within `xp + amount`
iterations.  Then in the scene, where the `levelUp` listener completes level
quests whose XP rewards re-enter `gainXP`: when the rewards of the active quests
are non-negative, as all rewards of the source are, the call returns the same
state for every sufficient amount of fuel and that state satisfies the bound. -/
theorem C1_gainXP_xp_bounded (w : World) (amount : Int)
    (hx : 1 ≤ w.player.stats.xpToNext) (h0 : 0 ≤ w.player.stats.xp) (ha : 0 ≤ amount) :
    (∃ w1, Player.gainXPWith (fun _ w0 => some w0) (w.player.stats.xp + amount).toNat amount w
        = some w1 ∧ w1.xpBounded) ∧
    (w.rewardsNonneg →
      ∃ N w1, w1.xpBounded ∧ ∀ fuel, N ≤ fuel → Player.gainXP fuel amount w = some w1) := by
  refine ⟨?_, fun hr => ?_⟩
  · exact Player.gainXPLoop_alone _ (w.addXP amount) hx
      (by show 0 ≤ w.player.stats.xp + amount; omega)
      (by
        show w.player.stats.xp + amount ≤ ((w.player.stats.xp + amount).toNat : Int)
        omega)
  · obtain ⟨N, w1, hrun⟩ := Player.gainXP_total w amount hx
    have hN := hrun N (le_refl _)
    have hinv := Player.gainXP_rule xp_rule N [] amount w w1 ha ⟨h0, hx, hr⟩ hN
    exact ⟨N, w1, ⟨hinv.1, Player.gainXP_exit N amount w w1 hN⟩, hrun⟩

/-- C1, at the initial scene with 130 XP gained: the level-up completes the
Level Up quest, whose reward re-enters `gainXP`. -/
theorem C1_gainXP_xp_bounded_witness :
    (∃ w1, Player.gainXPWith (fun _ w0 => some w0) 130 130
        (World.initial (fun _ => { num := 1, den := 2 }) (fun _ => 0)) = some w1 ∧
      w1.xpBounded) ∧
    (∃ N w1, w1.xpBounded ∧ ∀ fuel, N ≤ fuel →
      Player.gainXP fuel 130 (World.initial (fun _ => { num := 1, den := 2 }) (fun _ => 0))
        = some w1) := by
  have h := C1_gainXP_xp_bounded (World.initial (fun _ => { num := 1, den := 2 }) (fun _ => 0))
    130 (by decide) (by decide) (by decide)
  exact ⟨h.1, h.2 (by decide)⟩

/-- C2: each quest is completed at most once.  For every state whose quest books
are consistent (as in the initial scene and every state reached from it) and
every sequence of events (`enemyKilled` emissions, `levelUp` emissions, `gainXP`
calls with the level-ups and quest completions they trigger re-entrantly, direct
`checkQuestProgress` calls), the state the sequence returns is consistent again,
`questCompleted` was emitted at most once and `giveRewards` called at most once
for every quest id, and every quest that was in `completedQuests` is still
there and not in `activeQuests`; with a positive threshold the sequence does
return, for every sufficient amount of fuel.  In particular the lone active
quest `{type: 'kill', target: 'goblin', required: 5, current: 4}` receiving a
`kill ('goblin')` event ends in `completedQuests`, with one `questCompleted`
event, one `giveRewards` call and its 100 gold granted once. -/
theorem C2_quest_completed_once (events : List GameEvent) (w : World)
    (hw : QuestsConsistent [] w) :
    (∀ fuel w1, GameScene.handleAll fuel events w = some w1 → CompletedOnce w w1) ∧
    (w.thresholdPositive →
      Settles (fun fuel => GameScene.handleAll fuel events w) (CompletedOnce w)) ∧
    (loneQuestScene.questSystem.activeQuests.map
        (fun q => (q.id, q.type, q.target, q.required, q.current))
        = [(0, "kill", Value.str "goblin", 5, 4)] ∧
      (GameScene.handle 3 (GameEvent.questEvent "kill" (Value.str "goblin")) loneQuestScene).map
        (fun w2 => (w2.completedIds, w2.activeIds.contains 0,
          w2.log.count (Event.questCompleted 0), w2.log.count (Event.giveRewards 0),
          w2.inventorySystem.gold - loneQuestScene.inventorySystem.gold))
        = some ([0], false, 1, 1, 100)) := by
  have hsafe : ∀ fuel w1, GameScene.handleAll fuel events w = some w1 →
      CompletedOnce w w1 := by
    intro fuel w1 h
    obtain ⟨h1, h2⟩ := GameScene.handleAll_consistent fuel events w w1 hw h
    obtain ⟨h3, h4, h5, _⟩ := QuestsConsistent.once w1 h1
    exact ⟨h1, h3, h4, fun id hid => ⟨h2 id hid, h5 id (h2 id hid)⟩⟩
  exact ⟨hsafe, fun hx => (GameScene.handleAll_total events w hx).strengthen hsafe,
    by decide⟩

/-- C2, at the initial scene with two goblin kills: the run returns, First Blood
is completed by the first kill and stays completed. -/
theorem C2_quest_completed_once_witness :
    QuestsConsistent [] (World.initial (fun _ => { num := 1, den := 2 }) (fun _ => 0)) ∧
    Settles
      (fun fuel => GameScene.handleAll fuel
        [GameEvent.enemyKilled (Enemy.create 0 0 "goblin" 1),
         GameEvent.enemyKilled (Enemy.create 0 0 "goblin" 1)]
        (World.initial (fun _ => { num := 1, den := 2 }) (fun _ => 0)))
      (CompletedOnce (World.initial (fun _ => { num := 1, den := 2 }) (fun _ => 0))) ∧
    (GameScene.handleAll 3
        [GameEvent.enemyKilled (Enemy.create 0 0 "goblin" 1),
         GameEvent.enemyKilled (Enemy.create 0 0 "goblin" 1)]
        (World.initial (fun _ => { num := 1, den := 2 }) (fun _ => 0))).map World.completedIds
      = some [0] := by
  have hc := World.initial_consistent (fun _ => { num := 1, den := 2 }) (fun _ => 0)
  exact ⟨hc, (C2_quest_completed_once _ _ hc).2.1 (by decide), by decide⟩

/-- C3: the code at the failing input.  With Goblin Hunter (4 of 5) and Veteran
Fighter (5 of 10, target `'any'`) as the active quests, a `kill ('goblin')`
event completes Goblin Hunter, whose removal from `activeQuests` shifts Veteran
Fighter to the index `forEach` has just visited: Veteran Fighter matches the
event and was active when it arrived, yet its progress stays 5. -/
theorem C3_scan_skips_quest_after_removal :
    twoKillQuestsScene.questSystem.activeQuests.map (fun q => (q.title, q.type, q.target, q.current))
      = [("Goblin Hunter", "kill", Value.str "goblin", 4),
         ("Veteran Fighter", "kill", Value.str "any", 5)] ∧
    (QuestSystem.checkQuestProgress (Player.gainXP 5) "kill" (Value.str "goblin")
        twoKillQuestsScene).map
      (fun w => (w.questSystem.activeQuests.map (fun q => (q.title, q.current)),
                 w.questSystem.completedQuests.map (fun q => (q.title, q.current))))
      = some ([("Veteran Fighter", 5), ("Wolf Pack", 0)], [("Goblin Hunter", 5)]) := by
  decide

/-- C4: for every live enemy and every sequence of `Enemy.takeDamage` calls on it,
the death transition (the XP award, the `enemyKilled` emission with the scene
listener, the removal from the registry) runs once if the health reaches 0 and
not at all otherwise.  The call that brings the health to 0 runs it and
`removeEnemy` destroys the enemy, which clears `this.scene`; a call made after
that sets the health and, when it leaves the health at 0, throws a `TypeError`
at `this.scene.player` before any XP is awarded or any event emitted.  So the
state after the calls has one `enemyKilled` event for the enemy, its XP reward
and gold reward once in the accounts, and the enemy out of the registry.  With
damage `≥ 0` the health reaches 0 exactly when the damage adds up to the
health, and every call made after that throws.  With a positive threshold the
calls return, for every sufficient amount of fuel. -/
theorem C4_death_transition_once (i : Nat) (damages : List ℚ) (e : Enemy) (w : World)
    (he : w.enemyManager.enemies[i]? = some e) (hs : e.hasScene = true) :
    (∀ fuel w1, Enemy.takeDamageAll fuel i damages w = some w1 → DiesOnce i e damages w w1) ∧
    (w.thresholdPositive →
      Settles (fun fuel => Enemy.takeDamageAll fuel i damages w) (DiesOnce i e damages w)) ∧
    ((∀ d ∈ damages, 0 ≤ d) → 0 < e.stats.hp →
      (Enemy.reachesZero e.stats.hp damages = true ↔ e.stats.hp ≤ damages.sum)) ∧
    ((∀ d ∈ damages, 0 ≤ d) → Enemy.throwingHits 0 damages = damages.length) ∧
    (∀ (fuel : Nat) (e0 : Enemy) (w0 : World) (damage : ℚ),
      w0.enemyManager.enemies[i]? = some e0 → e0.hasScene = false →
      e0.stats.hp - damage ≤ 0 →
      Enemy.takeDamage fuel i damage w0
        = some (w0.setEnemy i
            { e0 with stats :=
              { e0.stats with hp := max 0 (e0.stats.hp - damage) } }).throwTypeError) := by
  have hsafe : ∀ fuel w1, Enemy.takeDamageAll fuel i damages w = some w1 →
      DiesOnce i e damages w w1 :=
    fun fuel w1 h => Enemy.takeDamageAll_diesOnce fuel i damages e w w1 he hs h
  exact ⟨hsafe, fun hx => (Enemy.takeDamageAll_total i damages w hx).strengthen hsafe,
    fun hd hpos => Enemy.reachesZero_iff damages e.stats.hp hd hpos,
    fun hd => Enemy.throwingHits_zero damages hd,
    fun fuel e0 w0 damage he0 hs0 hd0 => Enemy.takeDamage_throws fuel i e0 damage w0 he0 hd0 hs0⟩

/-- C4, at the goblin of `goblinScene` (30 health) hit for 10, 25 and 1: the calls
return; the second hit kills the goblin (one `enemyKilled`, 65 XP and 130 gold
with the rewards of First Blood), the third throws and changes nothing else. -/
theorem C4_death_transition_once_witness :
    Settles (fun fuel => Enemy.takeDamageAll fuel 0 [10, 25, 1] goblinScene)
      (fun w1 => w1.killEvents = [0] ∧ w1.typeErrors = 1) ∧
    (Enemy.takeDamageAll 3 0 [10, 25] goblinScene).map
      (fun w1 => (w1.enemyManager.enemies.map (fun e1 => (e1.stats.hp, e1.hasScene)),
        w1.killEvents, w1.player.stats.xp, w1.inventorySystem.gold, w1.typeErrors))
      = some ([(0, false)], [0], 65, 130, 0) ∧
    (Enemy.takeDamageAll 3 0 [10, 25, 1] goblinScene).map
      (fun w1 => (w1.enemyManager.enemies.map (fun e1 => (e1.stats.hp, e1.hasScene)),
        w1.killEvents, w1.player.stats.xp, w1.inventorySystem.gold, w1.typeErrors))
      = some ([(0, false)], [0], 65, 130, 1) := by
  have h := (C4_death_transition_once 0 [10, 25, 1] (Enemy.create 410 300 "goblin" 1)
    goblinScene rfl rfl).2.1 (by decide)
  refine ⟨h.weaken (fun w1 h1 => ⟨?_, ?_⟩), by decide!, by decide!⟩
  · rw [h1.1]; decide!
  · rw [h1.2.2.2.1]; decide!

/-- C5: the code at the failing input, and why.  `Enemy.attack` stores
`Date.now ()` in `lastAttackTime` before it calls `attackPlayer`, whose own
`canAttack` test then fails: for every enemy in the attack state within attack
range, `updateAI` leaves the player and the event log unchanged unless 1500 ms
pass between those two clock readings.  At the goblin of `attackScene` (attack
state, distance 10, last attack 10000 ms ago, player not invulnerable) the
update does not change the health of the player and emits no `takeDamage`,
while `player.takeDamage (8)` would. -/
theorem C5_ai_attack_never_damages :
    (∀ (w : World) (i : Nat) (e : Enemy) (d : ℚ), w.enemyManager.enemies[i]? = some e →
      e.state = AIState.attack → d ≤ e.attackRange →
      w.clock (w.clockPos + 2) - w.clock (w.clockPos + 1) < 1500 →
      (Enemy.updateAI w i d).player = w.player ∧ (Enemy.updateAI w i d).log = w.log) ∧
    (attackScene.enemyManager.enemies[0]? = some attackingGoblin ∧
      attackingGoblin.state = AIState.attack ∧
      (10 : ℚ) ≤ attackingGoblin.attackRange ∧
      1500 ≤ attackScene.dateNow.1 - attackingGoblin.lastAttackTime ∧
      attackingGoblin.stats.damage = 8 ∧
      attackScene.player.invulnerable = false ∧
      (Enemy.updateAI attackScene 0 10).player.stats.hp = attackScene.player.stats.hp ∧
      (Enemy.updateAI attackScene 0 10).log = attackScene.log ∧
      (Player.takeDamage attackScene 8).player.stats.hp = attackScene.player.stats.hp - 3 ∧
      (Player.takeDamage attackScene 8).log = attackScene.log ++ [Event.takeDamage 3]) :=
  ⟨Enemy.updateAI_attack_blocked, by decide⟩

/-- C6: the state of an enemy after `updateAI` is the entry of the transition
table for its state before and the distance `d` to the player: patrol goes to
chase iff `d ≤ detectionRange` (so `d = detectionRange` enters chase); chase
goes to patrol iff `d > 1.5 * detectionRange`, otherwise to attack iff
`d ≤ attackRange`, otherwise stays; attack goes to chase iff `d > attackRange`.
No update moves patrol to attack or attack to patrol. -/
theorem C6_updateAI_transition_table (w : World) (i : Nat) (e : Enemy) (d : ℚ)
    (h : w.enemyManager.enemies[i]? = some e) :
    (∃ e1, (Enemy.updateAI w i d).enemyManager.enemies[i]? = some e1 ∧
      e1.state = aiTransitionTable e.state d e.detectionRange e.attackRange ∧
      ¬ (e.state = AIState.patrol ∧ e1.state = AIState.attack) ∧
      ¬ (e.state = AIState.attack ∧ e1.state = AIState.patrol)) ∧
    aiTransitionTable AIState.patrol e.detectionRange e.detectionRange e.attackRange
      = AIState.chase := by
  refine ⟨?_, by simp [aiTransitionTable]⟩
  obtain ⟨e1, h1, h2⟩ := Enemy.updateAI_state w i e d h
  refine ⟨e1, h1, h2, ?_, ?_⟩
  · rintro ⟨hs, hs1⟩
    rw [h2, hs] at hs1
    simp only [aiTransitionTable] at hs1
    split at hs1 <;> exact absurd hs1 (by decide)
  · rintro ⟨hs, hs1⟩
    rw [h2, hs] at hs1
    simp only [aiTransitionTable] at hs1
    split at hs1 <;> exact absurd hs1 (by decide)

/-- C6, at the patrolling goblin of `goblinScene` with the player exactly at the
detection range: it enters chase. -/
theorem C6_updateAI_transition_table_witness :
    ∃ e1, (Enemy.updateAI goblinScene 0 120).enemyManager.enemies[0]? = some e1 ∧
      e1.state = AIState.chase := by
  obtain ⟨e1, h1, h2, _⟩ :=
    (C6_updateAI_transition_table goblinScene 0 (Enemy.create 410 300 "goblin" 1) 120 rfl).1
  exact ⟨e1, h1, by rw [h2]; decide⟩

/-- C7: the bound `0 ≤ hp ≤ maxHp` is an invariant.  From a state where it holds
for the player it holds again after `takeDamage` (damage `≥ 0`), `heal` and
`restoreMana` (amount `≥ 0`), the stat changes of `levelUp`, `levelUp` with its
scene listener, and `die`; and for every enemy satisfying the bound,
`Enemy.takeDamage` (damage `≥ 0`) leaves that enemy with health
`max (0, hp - damage)` within the bound, and the player within the bound as
well.  With a positive threshold `levelUp` and `Enemy.takeDamage` return, for
every sufficient amount of fuel. -/
theorem C7_hp_bound_invariant (w : World) (hw : w.playerHpBounded) :
    (∀ damage, 0 ≤ damage → (Player.takeDamage w damage).playerHpBounded) ∧
    (∀ amount, 0 ≤ amount → (Player.heal w amount).playerHpBounded) ∧
    (∀ amount, 0 ≤ amount → (Player.restoreMana w amount).playerHpBounded) ∧
    w.levelUpStep.playerHpBounded ∧
    (∀ fuel w1, Player.levelUp (GameScene.onLevelUp fuel) w = some w1 → w1.playerHpBounded) ∧
    (w.thresholdPositive →
      Settles (fun fuel => Player.levelUp (GameScene.onLevelUp fuel) w)
        World.playerHpBounded) ∧
    (Player.die w).playerHpBounded ∧
    (∀ i e damage, w.enemyManager.enemies[i]? = some e → e.hpBounded → 0 ≤ damage →
      (∀ fuel w1, Enemy.takeDamage fuel i damage w = some w1 → HitKeepsBound i e damage w1) ∧
      (w.thresholdPositive →
        Settles (fun fuel => Enemy.takeDamage fuel i damage w) (HitKeepsBound i e damage))) := by
  have hlevel : ∀ fuel w1, Player.levelUp (GameScene.onLevelUp fuel) w = some w1 →
      w1.playerHpBounded := by
    intro fuel w1 h
    exact QuestSystem.checkQuestProgress_rule playerHp_rule
      (Player.gainXP_rule playerHp_rule fuel) [] _ _ w.levelUpStep w1
      (World.levelUpStep_hpBounded w hw) h
  refine ⟨fun damage _ => Player.takeDamage_hpBounded w damage hw,
    fun amount ha => Player.heal_hpBounded w amount ha hw,
    fun _ _ => hw, World.levelUpStep_hpBounded w hw, hlevel, ?_, ?_, ?_⟩
  · intro hx
    have hstep : w.levelUpStep.thresholdPositive := by
      show 1 ≤ w.player.stats.xpToNext * 6 / 5
      have : 1 ≤ w.player.stats.xpToNext := hx
      omega
    exact (QuestSystem.checkQuestProgress_total "level"
      (Value.num w.levelUpStep.player.stats.level) w.levelUpStep hstep).strengthen hlevel
  · exact ⟨le_trans hw.1 hw.2, le_refl _⟩
  · intro i e damage he hb hd
    have hsafe : ∀ fuel w1, Enemy.takeDamage fuel i damage w = some w1 →
        HitKeepsBound i e damage w1 := by
      intro fuel w1 h
      refine ⟨Enemy.takeDamage_playerHpBounded fuel i damage w w1 hw h, ?_⟩
      obtain ⟨e1, he1, hs, _, _, _⟩ := Enemy.takeDamage_effect fuel i e damage w w1 he h
      refine ⟨e1, he1, ?_, by rw [hs], by rw [hs]⟩
      unfold Enemy.hpBounded
      rw [hs]
      refine ⟨le_max_left _ _, ?_⟩
      show max 0 (e.stats.hp - damage) ≤ e.stats.maxHp
      apply max_le (le_trans hb.1 hb.2)
      have := hb.2
      linarith
    exact ⟨hsafe, fun hx => (Enemy.takeDamage_total i damage w hx).strengthen hsafe⟩

/-- C7, at `goblinScene`: the player hit for 8 and healed by 30, and the goblin
hit for 35 (it dies, the player gains XP). -/
theorem C7_hp_bound_invariant_witness :
    goblinScene.playerHpBounded ∧
    (Player.takeDamage goblinScene 8).playerHpBounded ∧
    (Player.heal goblinScene 30).playerHpBounded ∧
    Settles (fun fuel => Enemy.takeDamage fuel 0 35 goblinScene)
      (HitKeepsBound 0 (Enemy.create 410 300 "goblin" 1) 35) := by
  have hw : goblinScene.playerHpBounded := by decide
  have hall := C7_hp_bound_invariant goblinScene hw
  exact ⟨hw, hall.1 8 (by decide), hall.2.1 30 (by decide),
    (hall.2.2.2.2.2.2.2 0 (Enemy.create 410 300 "goblin" 1) 35 rfl (by decide!) (by decide!)).2
      (by decide)⟩

/-- C8, refuted as stated: with weapon damage 0 and strength 1 (base damage 1)
and a first draw of 0, `calculateDamage` returns 0, and the attack leaves the
goblin in range at its 30 health. -/
theorem C8_zero_damage_counterexample :
    (weakAttackScene.random 0).isDraw ∧ (weakAttackScene.random 1).isDraw ∧
    (weakAttackScene.player.equipment.weapon.map (fun weapon => weapon.damage) = some 0) ∧
    weakAttackScene.player.stats.strength = 1 ∧
    (CombatSystem.calculateDamage weakAttackScene (0 + 1)).1 = 0 ∧
    (CombatSystem.playerAttack 5 (fun _ => 10) weakAttackScene).map
      (fun w => w.enemyManager.enemies.map (fun e => e.stats.hp)) = some [30] := by
  decide!

/-- C8, amended: for every player attack whose base damage, weapon damage plus
strength, is at least 2 (it is at least 25 in every state the game reaches),
whatever the two draws, the value `calculateDamage` returns is at least
`Math.floor (0.8 * base)` and so at least 1, and it is the value
`Enemy.takeDamage` subtracts from the health of each enemy hit.  (With a base
damage of 0 or 1 the value can be 0: `calculateDamage` has no floor of 1.) -/
theorem C8_damage_at_least_one (w : World) (baseDamage : Int) (hbase : 2 ≤ baseDamage) :
    1 ≤ (CombatSystem.calculateDamage w baseDamage).1 ∧
    baseDamage * 4 / 5 ≤ (CombatSystem.calculateDamage w baseDamage).1 ∧
    (∀ i e, w.enemyManager.enemies[i]? = some e →
      (∀ fuel w1, CombatSystem.hitTarget fuel baseDamage w i = some w1 →
        ∃ e1, w1.enemyManager.enemies[i]? = some e1 ∧
          e1.stats.hp = max 0 (e.stats.hp - ((CombatSystem.calculateDamage w baseDamage).1 : ℚ))) ∧
      (w.thresholdPositive →
        Settles (fun fuel => CombatSystem.hitTarget fuel baseDamage w i)
          (fun w1 => ∃ e1, w1.enemyManager.enemies[i]? = some e1 ∧
            e1.stats.hp
              = max 0 (e.stats.hp - ((CombatSystem.calculateDamage w baseDamage).1 : ℚ))))) := by
  have h := CombatSystem.rollDamage_ge baseDamage w.nextRandom.1 w.nextRandom.2.nextRandom.1
    (by omega)
  have h1 : 1 ≤ baseDamage * 4 / 5 := by omega
  refine ⟨le_trans h1 h, h, fun i e he => ?_⟩
  have hsafe : ∀ fuel w1, CombatSystem.hitTarget fuel baseDamage w i = some w1 →
      ∃ e1, w1.enemyManager.enemies[i]? = some e1 ∧
        e1.stats.hp = max 0 (e.stats.hp - ((CombatSystem.calculateDamage w baseDamage).1 : ℚ)) :=
    fun fuel w1 hrun => CombatSystem.hitTarget_effect fuel baseDamage w w1 i e he hrun
  exact ⟨hsafe, fun hx => (CombatSystem.hitTarget_total baseDamage w i hx).strengthen hsafe⟩

/-- C8 amended, at the starting weapon and strength (base damage 25, first draw
1/2): the hit returns and the goblin of `goblinScene` loses 25 of its 30
health. -/
theorem C8_damage_at_least_one_witness :
    1 ≤ (CombatSystem.calculateDamage goblinScene (15 + 10)).1 ∧
    Settles (fun fuel => CombatSystem.hitTarget fuel (15 + 10) goblinScene 0)
      (fun w1 => ∃ e1, w1.enemyManager.enemies[0]? = some e1 ∧
        e1.stats.hp = max 0 ((Enemy.create 410 300 "goblin" 1).stats.hp
          - ((CombatSystem.calculateDamage goblinScene (15 + 10)).1 : ℚ))) ∧
    (CombatSystem.hitTarget 1 (15 + 10) goblinScene 0).map
      (fun w1 => w1.enemyManager.enemies.map (fun e => e.stats.hp)) = some [5] := by
  have h := C8_damage_at_least_one goblinScene (15 + 10) (by decide)
  exact ⟨h.1, (h.2.2 0 (Enemy.create 410 300 "goblin" 1) rfl).2 (by decide), by decide!⟩

/-- C9: `Player.takeDamage (damage)` on an invulnerable player changes nothing;
on a player that is not invulnerable it applies
`actualDamage = max (1, damage - defense)`, which is at least 1 whatever the
damage and the defense: `takeDamage` is emitted with that value as payload, the
health drops by it when more health is left, and otherwise the player dies and
respawns with full health; the player is invulnerable afterwards. -/
theorem C9_player_takeDamage_floor (w : World) (damage : Int) :
    (w.player.invulnerable = true → Player.takeDamage w damage = w) ∧
    (w.player.invulnerable = false →
      1 ≤ max 1 (damage - w.player.stats.defense) ∧
      (Player.takeDamage w damage).log
        = w.log ++ [Event.takeDamage (max 1 (damage - w.player.stats.defense))] ∧
      (max 1 (damage - w.player.stats.defense) < w.player.stats.hp →
        (Player.takeDamage w damage).player.stats.hp
          = w.player.stats.hp - max 1 (damage - w.player.stats.defense)) ∧
      (w.player.stats.hp ≤ max 1 (damage - w.player.stats.defense) →
        (Player.takeDamage w damage).player.stats.hp = w.player.stats.maxHp) ∧
      (Player.takeDamage w damage).player.invulnerable = true) := by
  refine ⟨Player.takeDamage_invulnerable w damage, fun h => ?_⟩
  rw [Player.takeDamage_vulnerable w damage h]
  refine ⟨le_max_left _ _, ?_, ?_, ?_, ?_⟩
  · split <;> rfl
  · intro hlt
    have h1 : ¬ max 0 (w.player.stats.hp - max 1 (damage - w.player.stats.defense)) ≤ 0 := by
      rw [not_le]; exact lt_max_of_lt_right (by omega)
    rw [if_neg h1]
    exact max_eq_right (by omega)
  · intro hle
    have h1 : max 0 (w.player.stats.hp - max 1 (damage - w.player.stats.defense)) ≤ 0 := by
      apply max_le (le_refl _); omega
    rw [if_pos h1]
  · split <;> rfl

/-- C9, at the initial player (defense 5) hit for 3 and for 8: the applied damage
is 1 and 3. -/
theorem C9_player_takeDamage_floor_witness :
    (Player.takeDamage goblinScene 3).log = [Event.takeDamage 1] ∧
    (Player.takeDamage goblinScene 8).log = [Event.takeDamage 3] ∧
    (Player.takeDamage goblinScene 8).player.stats.hp = 97 :=
  ⟨((C9_player_takeDamage_floor goblinScene 3).2 rfl).2.1,
    ((C9_player_takeDamage_floor goblinScene 8).2 rfl).2.1,
    ((C9_player_takeDamage_floor goblinScene 8).2 rfl).2.2.1 (by decide)⟩

/-- C10: the code at two failing inputs.  A helmet in slot 2 with the helmet slot
of the player empty: `equipItem (2)` returns true, the helmet slot is still
empty, and the helmet is gone from the inventory, `Player.equipItem` assigning
only to a slot that already holds an item.  A sword in slot 0 of a full
inventory: `equipItem (0)` returns true and equips it, but `addItem` could not
take the sword equipped before, which is in no slot afterwards. -/
theorem C10_equip_loses_item :
    helmetScene.inventorySystem.slot 2 = some boneHelmet ∧
    helmetScene.player.equipment.helmet = none ∧
    (InventorySystem.equipItem helmetScene 2).1 = true ∧
    (InventorySystem.equipItem helmetScene 2).2.player.equipment.helmet = none ∧
    (InventorySystem.equipItem helmetScene 2).2.inventorySystem.slot 2 = none ∧
    (∀ slot ∈ (InventorySystem.equipItem helmetScene 2).2.inventorySystem.inventory,
      ∀ item, slot = some item → item.type ≠ "helmet") ∧
    fullInventoryScene.inventorySystem.slot 0 = some sharpSword ∧
    (InventorySystem.equipItem fullInventoryScene 0).1 = true ∧
    (InventorySystem.equipItem fullInventoryScene 0).2.player.equipment.weapon
      = some { sharpSword with quantity := 0 } ∧
    (InventorySystem.equipItem fullInventoryScene 0).2.inventorySystem.inventory
      = none :: List.replicate 47 (some sharpSword) := by
  decide

/-- C11, refuted as stated: five calls, all with non-negative quantities, on the
initial scene leave an item with quantity `-2` in a slot.  `equipItem` of an
item that stays in its slot (a stack of two swords) leaves one item object in
the inventory slot and in the equipment slot; `removeItem (2, 3)` takes three
from the stack of one that is left, which sets the quantity of that object to
`-2` and clears the slot; the next `equipItem` hands the equipped sword back to
`addItem`, and slot 4 of the inventory holds it with quantity `-2`. -/
theorem C11_overdrawn_stack_counterexample :
    (World.initial (fun _ => { num := 1, den := 2 }) (fun _ => 0)).inventoryInvariant ∧
    (World.initial (fun _ => { num := 1, den := 2 }) (fun _ => 0)).inventorySystem.maxSlots = 48 ∧
    (∀ call ∈ overdrawnCalls, call.nonneg) ∧
    (InventorySystem.callAll (World.initial (fun _ => { num := 1, den := 2 }) (fun _ => 0))
        (overdrawnCalls.take 3)).player.equipment.weapon.map (fun item => item.quantity)
      = some (-2) ∧
    (InventorySystem.callAll (World.initial (fun _ => { num := 1, den := 2 }) (fun _ => 0))
        overdrawnCalls).inventorySystem.inventory.map
          (fun slot => slot.map (fun item => (item.id, item.quantity)))
      = [some (some "health-potion", 3), some (some "mana-potion", 2), none,
         some (none, 1), some (some "uncommon-sword", -2)] ∧
    ¬ (InventorySystem.callAll (World.initial (fun _ => { num := 1, den := 2 }) (fun _ => 0))
        overdrawnCalls).quantitiesPositive := by
  decide

/-- C11, amended: the inventory invariant (at most `maxSlots` slots, every item
present with quantity at least 1, no equipped item with a negative quantity) is
preserved by every sequence of `addItem`, `removeItem`, `useItem` and
`equipItem` calls with non-negative quantities whose `removeItem` calls take no
more than the slot holds at the time of the call.  `maxSlots` does not change,
so the inventory never has more than `maxSlots` slots, hence never more than
`maxSlots` occupied slots, and that part holds for every sequence of calls
whatever the quantities; and `removeItem` clears a slot whose quantity reaches
0 or less in the same operation. -/
theorem C11_inventory_invariant_within_stock (w : World) (calls : List InventoryCall)
    (hw : w.inventoryInvariant) (hcalls : InventorySystem.callsWithinStock w calls) :
    (InventorySystem.callAll w calls).inventoryInvariant ∧
    (InventorySystem.callAll w calls).inventorySystem.maxSlots = w.inventorySystem.maxSlots ∧
    (InventorySystem.callAll w calls).inventorySystem.inventory.length
      ≤ w.inventorySystem.maxSlots ∧
    (InventorySystem.callAll w calls).occupiedSlots ≤ w.inventorySystem.maxSlots ∧
    (∀ slot ∈ (InventorySystem.callAll w calls).inventorySystem.inventory,
      ∀ item, slot = some item → 1 ≤ item.quantity) ∧
    (∀ others : List InventoryCall,
      (InventorySystem.callAll w others).inventorySystem.inventory.length
        ≤ w.inventorySystem.maxSlots ∧
      (InventorySystem.callAll w others).occupiedSlots ≤ w.inventorySystem.maxSlots) ∧
    (∀ (w0 : World) (k : Nat) (q : Int) (item : Item), w0.inventorySystem.slot k = some item →
      item.quantity - q ≤ 0 →
      (InventorySystem.removeItem w0 k q).2.inventorySystem.slot k = none) := by
  have hcap : ∀ others : List InventoryCall,
      (InventorySystem.callAll w others).inventorySystem.inventory.length
        ≤ w.inventorySystem.maxSlots ∧
      (InventorySystem.callAll w others).occupiedSlots ≤ w.inventorySystem.maxSlots := by
    intro others
    have h1 := InventorySystem.callAll_capacity others w hw.1
    have h2 := InventorySystem.callAll_maxSlots others w
    have h3 := World.occupiedSlots_le _ h1
    unfold World.withinCapacity at h1
    rw [h2] at h1 h3
    exact ⟨h1, h3⟩
  have hinv := InventorySystem.callAll_invariant calls w hcalls hw
  exact ⟨hinv, InventorySystem.callAll_maxSlots calls w, (hcap calls).1, (hcap calls).2,
    hinv.2.1, hcap, InventorySystem.removeItem_cleared⟩

/-- C11 amended, at the initial scene: two swords are added and equipped, one
health potion of the three is removed, a mana potion is used and the one sword
left in slot 2 is removed; every item present has quantity at least 1. -/
theorem C11_inventory_invariant_within_stock_witness :
    (InventorySystem.callAll (World.initial (fun _ => { num := 1, den := 2 }) (fun _ => 0))
      [InventoryCall.addItem twoSwords, InventoryCall.equipItem 2,
       InventoryCall.removeItem 0 1, InventoryCall.useItem 1,
       InventoryCall.removeItem 2 1]).inventoryInvariant ∧
    (InventorySystem.callAll (World.initial (fun _ => { num := 1, den := 2 }) (fun _ => 0))
      [InventoryCall.addItem twoSwords, InventoryCall.equipItem 2,
       InventoryCall.removeItem 0 1, InventoryCall.useItem 1,
       InventoryCall.removeItem 2 1]).inventorySystem.inventory.map
        (fun slot => slot.map (fun item => (item.id, item.quantity)))
      = [some (some "health-potion", 2), some (some "mana-potion", 1), none, some (none, 1)] :=
  ⟨(C11_inventory_invariant_within_stock
      (World.initial (fun _ => { num := 1, den := 2 }) (fun _ => 0))
      [InventoryCall.addItem twoSwords, InventoryCall.equipItem 2,
       InventoryCall.removeItem 0 1, InventoryCall.useItem 1,
       InventoryCall.removeItem 2 1] (by decide)
      ⟨by show (0 : Int) ≤ twoSwords.quantity; decide, trivial,
        ⟨by decide, fun item h => by cases h; decide⟩, trivial,
        ⟨by decide, fun item h => by cases h; decide⟩, trivial⟩).1, by decide⟩

/-- C12: `addItem` returns false exactly when no slot is empty, the inventory has
`maxSlots` entries or more, and no slot holds a consumable with the id of the
item; it then leaves the inventory system, gold included, as it was.  In every
other case it returns true, the gold and the capacity are unchanged, and either
the quantity `item.quantity || 1` was added to the first consumable with that
id, or a copy of the item with that quantity is in a slot that was empty or is
new.  The full inventories at the end show both outcomes. -/
theorem C12_addItem_fails_iff_full (inv : InventorySystem) (item : Item) :
    ((inv.addItem item).1 = false ↔
      ((∀ slot ∈ inv.inventory, slot ≠ none) ∧ inv.maxSlots ≤ inv.inventory.length ∧
        ∀ existing, some existing ∈ inv.inventory →
          ¬ (existing.id = item.id ∧ existing.type = "consumable"))) ∧
    ((inv.addItem item).1 = false → (inv.addItem item).2 = inv) ∧
    ((inv.addItem item).1 = true →
      (inv.addItem item).2.gold = inv.gold ∧ (inv.addItem item).2.maxSlots = inv.maxSlots ∧
      ((∃ (i : Nat) (existing : Item), inv.inventory[i]? = some (some existing) ∧ existing.id = item.id ∧
          existing.type = "consumable" ∧
          (inv.addItem item).2.inventory[i]?
            = some (some { existing with quantity := existing.quantity + item.quantityOrOne })) ∨
        (∃ i : Nat, (inv.inventory[i]? = some none ∨ inv.inventory[i]? = none) ∧
          (inv.addItem item).2.inventory[i]?
            = some (some { item with quantity := item.quantityOrOne })))) ∧
    ((fullWithPotion.addItem sharpSword) = (false, fullWithPotion) ∧
      (fullWithPotion.addItem (QuestSystem.createRewardItem "health-potion")).1 = true ∧
      ((fullWithPotion.addItem (QuestSystem.createRewardItem "health-potion")).2.slot 0).map
        (fun existing => existing.quantity) = some 4) := by
  refine ⟨?_, ?_, ?_, by decide⟩
  · unfold InventorySystem.addItem
    cases hstack : inv.inventory.findIdx? (InventorySystem.stacksOnto item) with
    | some i =>
      obtain ⟨slot, hslot, hp⟩ := InventorySystem.findIdx?_some_get _ _ _ hstack
      obtain ⟨existing, he, hid, htype⟩ := (InventorySystem.stacksOnto_iff item slot).mp hp
      simp only [Bool.true_eq_false, false_iff, not_and]
      intro _ _ hno
      rw [he] at hslot
      exact hno existing (List.getElem?_mem hslot) hid htype
    | none =>
      have hnone := List.findIdx?_eq_none_iff.mp hstack
      have hno : ∀ existing, some existing ∈ inv.inventory →
          ¬ (existing.id = item.id ∧ existing.type = "consumable") := by
        intro existing hmem hboth
        have := hnone _ hmem
        rw [(InventorySystem.stacksOnto_iff item (some existing)).mpr ⟨existing, rfl, hboth⟩]
          at this
        exact absurd this (by decide)
      cases hempty : inv.inventory.findIdx? InventorySystem.isEmptySlot with
      | some e =>
        obtain ⟨slot, hslot, hp⟩ := InventorySystem.findIdx?_some_get _ _ _ hempty
        have hslotnone := (InventorySystem.isEmptySlot_iff slot).mp hp
        simp only [Bool.true_eq_false, false_iff, not_and]
        intro hall
        rw [hslotnone] at hslot
        exact absurd rfl (hall none (List.getElem?_mem hslot))
      | none =>
        have hfull := List.findIdx?_eq_none_iff.mp hempty
        have hall : ∀ slot ∈ inv.inventory, slot ≠ none := by
          intro slot hmem hslot
          have := hfull slot hmem
          rw [(InventorySystem.isEmptySlot_iff slot).mpr hslot] at this
          exact absurd this (by decide)
        simp only
        by_cases hlen : inv.inventory.length < inv.maxSlots
        · simp only [if_pos hlen, Bool.true_eq_false, false_iff, not_and]
          intro _ hle
          omega
        · simp only [if_neg hlen, true_iff]
          exact ⟨hall, by omega, hno⟩
  · unfold InventorySystem.addItem
    split
    · intro h; exact absurd h (by simp)
    · split
      · intro h; exact absurd h (by simp)
      · split
        · intro h; exact absurd h (by simp)
        · intro _; rfl
  · intro _
    refine ⟨InventorySystem.addItem_gold inv item, InventorySystem.addItem_maxSlots inv item, ?_⟩
    unfold InventorySystem.addItem
    cases hstack : inv.inventory.findIdx? (InventorySystem.stacksOnto item) with
    | some i =>
      obtain ⟨slot, hslot, hp⟩ := InventorySystem.findIdx?_some_get _ _ _ hstack
      obtain ⟨existing, he, hid, htype⟩ := (InventorySystem.stacksOnto_iff item slot).mp hp
      rw [he] at hslot
      refine Or.inl ⟨i, existing, hslot, hid, htype, ?_⟩
      show (inv.inventory.modify (InventorySystem.addQuantity item.quantityOrOne) i)[i]? = _
      rw [List.getElem?_modify_eq, hslot]
      rfl
    | none =>
      cases hempty : inv.inventory.findIdx? InventorySystem.isEmptySlot with
      | some e =>
        obtain ⟨slot, hslot, hp⟩ := InventorySystem.findIdx?_some_get _ _ _ hempty
        have hslotnone := (InventorySystem.isEmptySlot_iff slot).mp hp
        rw [hslotnone] at hslot
        refine Or.inr ⟨e, Or.inl hslot, ?_⟩
        show (inv.inventory.set e _)[e]? = _
        rw [List.getElem?_set_self', hslot]
        rfl
      | none =>
        simp only
        by_cases hlen : inv.inventory.length < inv.maxSlots
        · simp only [if_pos hlen]
          refine Or.inr ⟨inv.inventory.length, Or.inr ?_, ?_⟩
          · exact List.getElem?_eq_none (le_refl _)
          · simp
        · simp only [if_neg hlen]
          rename_i htrue
          simp [InventorySystem.addItem, hstack, hempty, hlen] at htrue

/-- C13: on a slot index that is empty or out of range, and on a slot holding an
item that is not a consumable, `useItem` returns false and leaves the whole
state as it was, and so does a second call; on a slot index that is empty or out
of range, and on a slot holding an item whose type is none of weapon, armor,
helmet and boots, `equipItem` returns false and leaves the whole state as it
was, and so does a second call. -/
theorem C13_invalid_slot_is_noop (w : World) (slotIndex : Nat) :
    (w.inventorySystem.inventory.length ≤ slotIndex → w.inventorySystem.slot slotIndex = none) ∧
    (w.inventorySystem.inventory[slotIndex]? = some none →
      w.inventorySystem.slot slotIndex = none) ∧
    ((w.inventorySystem.slot slotIndex = none ∨
        ∃ item, w.inventorySystem.slot slotIndex = some item ∧ item.type ≠ "consumable") →
      InventorySystem.useItem w slotIndex = (false, w) ∧
      InventorySystem.useItem (InventorySystem.useItem w slotIndex).2 slotIndex = (false, w)) ∧
    ((w.inventorySystem.slot slotIndex = none ∨
        ∃ item, w.inventorySystem.slot slotIndex = some item ∧ item.type ≠ "weapon" ∧
          item.type ≠ "armor" ∧ item.type ≠ "helmet" ∧ item.type ≠ "boots") →
      InventorySystem.equipItem w slotIndex = (false, w) ∧
      InventorySystem.equipItem (InventorySystem.equipItem w slotIndex).2 slotIndex
        = (false, w)) := by
  have huse : (w.inventorySystem.slot slotIndex = none ∨
        ∃ item, w.inventorySystem.slot slotIndex = some item ∧ item.type ≠ "consumable") →
      InventorySystem.useItem w slotIndex = (false, w) := by
    intro h
    unfold InventorySystem.useItem
    rcases h with h | ⟨item, h, htype⟩
    · rw [h]
    · rw [h]
      simp only [if_pos htype]
  have hequip : (w.inventorySystem.slot slotIndex = none ∨
        ∃ item, w.inventorySystem.slot slotIndex = some item ∧ item.type ≠ "weapon" ∧
          item.type ≠ "armor" ∧ item.type ≠ "helmet" ∧ item.type ≠ "boots") →
      InventorySystem.equipItem w slotIndex = (false, w) := by
    intro h
    unfold InventorySystem.equipItem
    rcases h with h | ⟨item, h, h1, h2, h3, h4⟩
    · rw [h]
    · rw [h]
      have : InventorySystem.isEquippable item.type = false := by
        simp [InventorySystem.isEquippable, h1, h2, h3, h4]
      simp only [this, Bool.not_false, if_true]
  refine ⟨fun h => ?_, fun h => ?_, fun h => ?_, fun h => ?_⟩
  · unfold InventorySystem.slot
    rw [List.getElem?_eq_none h]
    rfl
  · unfold InventorySystem.slot
    rw [h]
    rfl
  · have h1 := huse h
    refine ⟨h1, ?_⟩
    rw [h1]
    exact h1
  · have h1 := hequip h
    refine ⟨h1, ?_⟩
    rw [h1]
    exact h1

/-- C13, at the initial inventory (two potions in slots 0 and 1): slot 7 is out
of range, and `useItem (7)` and `equipItem (7)` return false and change
nothing. -/
theorem C13_invalid_slot_is_noop_witness :
    InventorySystem.useItem (World.initial (fun _ => { num := 1, den := 2 }) (fun _ => 0)) 7
      = (false, World.initial (fun _ => { num := 1, den := 2 }) (fun _ => 0)) ∧
    InventorySystem.equipItem (World.initial (fun _ => { num := 1, den := 2 }) (fun _ => 0)) 7
      = (false, World.initial (fun _ => { num := 1, den := 2 }) (fun _ => 0)) :=
  ⟨((C13_invalid_slot_is_noop _ 7).2.2.1 (Or.inl (by decide))).1,
    ((C13_invalid_slot_is_noop _ 7).2.2.2 (Or.inl (by decide))).1⟩

/-- C14: `Player.gainXP (amount)` on a state with `xpToNext ≥ 1` returns, the
level does not decrease, and the `levelUp` events emitted are as many as levels
were gained, the `k`-th carrying the initial level plus `k`.  First for the
player on its own, with no listener attached to `levelUp`; then in the scene,
where the listener may complete level quests whose XP rewards re-enter `gainXP`:
the level-ups of the nested calls are counted and logged in the same way, and
the call returns the same state for every sufficient amount of fuel. -/
theorem C14_levelUp_events_match_levels (w : World) (amount : Int)
    (hx : 1 ≤ w.player.stats.xpToNext) :
    (∃ w1, Player.gainXPWith (fun _ w0 => some w0) (w.player.stats.xp + amount).toNat amount w
        = some w1 ∧ LevelsLogged w w1) ∧
    (∀ fuel w1, Player.gainXP fuel amount w = some w1 → LevelsLogged w w1) ∧
    Settles (fun fuel => Player.gainXP fuel amount w) (LevelsLogged w) := by
  have hscene : ∀ fuel w1, Player.gainXP fuel amount w = some w1 → LevelsLogged w w1 := by
    intro fuel w1 h
    obtain ⟨count, hl, he, _⟩ := Player.gainXP_ledger fuel amount w w1 h
    exact ⟨count, hl, he⟩
  refine ⟨?_, hscene, (Player.gainXP_settles w amount hx).strengthen hscene⟩
  obtain ⟨w1, h1⟩ := Player.gainXPLoop_alone_returns (w.player.stats.xp + amount).toNat
    (w.addXP amount) hx (Int.self_le_toNat _)
  obtain ⟨count, hl, he, _⟩ := @Player.gainXPWith_ledger (fun _ w0 => some w0)
    (fun _ w2 w3 h => by
      simp only [Option.some.injEq] at h
      rw [← h]; exact Ledger.unchanged w2)
    _ amount w w1 h1
  exact ⟨w1, h1, count, hl, he⟩

/-- C14, at the initial scene with 130 XP gained: the player reaches level 3 (the
Level Up quest completed at level 2 rewards 100 XP), and the two `levelUp`
events carry 2 and 3. -/
theorem C14_levelUp_events_match_levels_witness :
    Settles
      (fun fuel => Player.gainXP fuel 130 (World.initial (fun _ => { num := 1, den := 2 }) (fun _ => 0)))
      (LevelsLogged (World.initial (fun _ => { num := 1, den := 2 }) (fun _ => 0))) ∧
    (Player.gainXP 3 130 (World.initial (fun _ => { num := 1, den := 2 }) (fun _ => 0))).map
      (fun w1 => (w1.player.stats.level, w1.levelUps)) = some (3, [2, 3]) :=
  ⟨(C14_levelUp_events_match_levels _ 130 (by decide)).2.2, by decide⟩

/-- C15, refuted as stated: in the initial scene (`xp = 0`, `xpToNext = 100`, the
quest Level Up open) `gainXP (130)` ends at level 3 with `xp = 10`: the first
level-up leaves `xp = 30`, the listener of `levelUp` completes Level Up, whose
reward of 100 XP goes through `gainXP` and pays the second level-up.  The
thresholds consumed are 100 and 120, and `0 + 130` is not `10 + 220`. -/
theorem C15_quest_reward_counterexample :
    ((World.initial (fun _ => { num := 1, den := 2 }) (fun _ => 0)).player.stats.level,
      (World.initial (fun _ => { num := 1, den := 2 }) (fun _ => 0)).player.stats.xp,
      (World.initial (fun _ => { num := 1, den := 2 }) (fun _ => 0)).player.stats.xpToNext)
      = (1, 0, 100) ∧
    (Player.gainXP 3 130 (World.initial (fun _ => { num := 1, den := 2 }) (fun _ => 0))).map
      (fun w1 => (w1.player.stats.level, w1.player.stats.xp, w1.player.stats.xpToNext,
        w1.questSystem.completedQuests.map (fun q => (q.title, q.rewards.xp))))
      = some (3, 10, 144, [("Level Up", 100)]) ∧
    Player.thresholds 100 2 = [100, 120] ∧
    ¬ ((0 : Int) + 130 = 10 + (Player.thresholds 100 2).sum) := by
  decide

/-- C15, amended: no XP is lost by `Player.gainXP (amount)` on a state with
`xpToNext ≥ 1` once the XP rewards of the quests completed during the call are
counted.  In the scene the call returns, and the initial XP plus the amount
plus the XP rewards of the quests the `levelUp` listener completed during the
call is the final XP plus the sum of the thresholds consumed by the levels
gained, the thresholds being `xpToNext`, `Math.floor (1.2 * xpToNext)` and so
on.  When no quest is completed during the call, as in every state with no open
level quest, the equation is the one with the amount alone; so it is for the
loop of `Player` with no listener attached. -/
theorem C15_xp_conserved_with_rewards (w : World) (amount : Int)
    (hx : 1 ≤ w.player.stats.xpToNext) :
    (∀ fuel w1, Player.gainXP fuel amount w = some w1 → XPConserved amount w w1) ∧
    Settles (fun fuel => Player.gainXP fuel amount w) (XPConserved amount w) ∧
    (w.openLevelQuests = 0 →
      Settles (fun fuel => Player.gainXP fuel amount w)
        (fun w1 => w1.rewardXP = w.rewardXP ∧
          ∃ count : Nat, w1.player.stats.level = w.player.stats.level + (count : Int) ∧
            w1.player.stats.xpToNext = Player.thresholdAfter w.player.stats.xpToNext count ∧
            w.player.stats.xp + amount
              = w1.player.stats.xp + (Player.thresholds w.player.stats.xpToNext count).sum)) ∧
    (∃ (w1 : World) (count : Nat),
      Player.gainXPWith (fun _ w0 => some w0) (w.player.stats.xp + amount).toNat
        amount w = some w1 ∧
      w1.player.stats.level = w.player.stats.level + (count : Int) ∧
      w1.player.stats.xpToNext = Player.thresholdAfter w.player.stats.xpToNext count ∧
      w.player.stats.xp + amount
        = w1.player.stats.xp + (Player.thresholds w.player.stats.xpToNext count).sum) := by
  have hscene : ∀ fuel w1, Player.gainXP fuel amount w = some w1 → XPConserved amount w w1 := by
    intro fuel w1 h
    obtain ⟨count, hl, _, ht, hxp, _⟩ := Player.gainXP_ledger fuel amount w w1 h
    exact ⟨count, hl, ht, hxp⟩
  have hsettles := (Player.gainXP_settles w amount hx).strengthen hscene
  refine ⟨hscene, hsettles, fun hquiet => ?_, ?_⟩
  · refine ((Player.gainXP_settles w amount hx).strengthen
      (fun fuel w1 h => (⟨hscene fuel w1 h, ?_⟩ :
        XPConserved amount w w1 ∧ w1.rewardXP = w.rewardXP))).weaken ?_
    · cases fuel with
      | zero => simp [Player.gainXP] at h
      | succ fuel =>
        rw [Player.gainXP_quiet fuel amount w hquiet] at h
        have hframe := (Player.gainXPLoop_alone_frame _ (w.addXP amount) w1 h).1
        unfold World.rewardXP
        rw [hframe]
        rfl
    · rintro w1 ⟨⟨count, hl, ht, hxp⟩, hr⟩
      refine ⟨hr, count, hl, ht, ?_⟩
      rw [hr] at hxp
      omega
  · obtain ⟨w1, h1⟩ := Player.gainXPLoop_alone_returns (w.player.stats.xp + amount).toNat
      (w.addXP amount) hx (Int.self_le_toNat _)
    obtain ⟨count, hl, _, ht, hxp, _⟩ := @Player.gainXPWith_ledger (fun _ w0 => some w0)
      (fun _ w2 w3 h => by
        simp only [Option.some.injEq] at h
        rw [← h]; exact Ledger.unchanged w2)
      _ amount w w1 h1
    have hframe := (Player.gainXPLoop_alone_frame _ (w.addXP amount) w1 h1).1
    have hreward : w1.rewardXP = w.rewardXP := by
      unfold World.rewardXP
      rw [hframe]
      rfl
    refine ⟨w1, count, h1, hl, ht, ?_⟩
    rw [hreward] at hxp
    omega

/-- C15 amended, at the initial scene and the amount 130: the call returns, two
levels are gained, the thresholds 100 and 120 are consumed, the reward of Level
Up is 100 XP, and `0 + 130 + 100 = 10 + (100 + 120)`. -/
theorem C15_xp_conserved_with_rewards_witness :
    Settles (fun fuel => Player.gainXP fuel 130
        (World.initial (fun _ => { num := 1, den := 2 }) (fun _ => 0)))
      (XPConserved 130 (World.initial (fun _ => { num := 1, den := 2 }) (fun _ => 0))) ∧
    (Player.gainXP 3 130 (World.initial (fun _ => { num := 1, den := 2 }) (fun _ => 0))).map
      (fun w1 => (w1.player.stats.level, w1.player.stats.xp, w1.player.stats.xpToNext,
        w1.rewardXP))
      = some (3, 10, 144, 100) ∧
    (World.initial (fun _ => { num := 1, den := 2 }) (fun _ => 0)).rewardXP = 0 ∧
    (0 : Int) + 130 + (100 - 0) = 10 + (Player.thresholds 100 2).sum :=
  ⟨(C15_xp_conserved_with_rewards
      (World.initial (fun _ => { num := 1, den := 2 }) (fun _ => 0)) 130 (by decide)).2.1,
    by decide, by decide, by decide⟩

/-- C16, refuted as stated: in the scene a player with `xp = 90` and
`xpToNext = 100` who gains 30 XP need not end with `xp = 20` and
`xpToNext = 120`.  After a wolf and a goblin were killed in `fourEnemiesScene`
the player has `xp = 90` of 100 at level 1 and the quest Level Up is open;
`gainXP (30)` levels up to 2 with `xp = 20`, the `levelUp` listener completes
Level Up, whose 100 XP reward goes through `gainXP` and pays a second level-up:
the player ends at level 3 with `xp = 0` and `xpToNext = 144`. -/
theorem C16_level_quest_reward_counterexample :
    (afterTwoKills 3).map
      (fun w => (w.player.stats.level, w.player.stats.xp, w.player.stats.xpToNext,
        w.questSystem.activeQuests.map (fun q => q.title)))
      = some (1, 90, 100, ["Level Up", "Goblin Hunter", "Veteran Fighter"]) ∧
    ((afterTwoKills 3).bind (Player.gainXP 3 30)).map
      (fun w => (w.player.stats.level, w.player.stats.xp, w.player.stats.xpToNext, w.levelUps))
      = some (3, 0, 144, [2, 3]) ∧
    ((afterTwoKills 3).bind (Player.gainXP 3 30)).map
      (fun w => w.questSystem.completedQuests.map (fun q => (q.title, q.rewards.xp)))
      = some [("First Blood", 50), ("Level Up", 100)] := by
  decide!

/-- C16, amended: one `levelUp` increments the level by 1, subtracts the old
`xpToNext` from the XP, sets `xpToNext` to `Math.floor (1.2 * xpToNext)`, raises
`maxHp` by 10, `maxMp` by 5, strength by 2 and dexterity, intelligence and
defense by 1, sets `hp` and `mp` to the new maxima and emits `levelUp` with the
new level, on which the listener of the scene runs.  For a player with
`xp = 90` and `xpToNext = 100` who gains 30 XP the loop of the call runs once:
the level-up leaves `xp = 20` and `xpToNext = 120`, and the call returns what
the listener makes of that state.  The listener leaves the stats as they are or
leaves `xp < xpToNext`; with no open level quest it changes nothing and the
player ends with `xp = 20` and `xpToNext = 120`, and with an open level quest
the XP reward of the quest is added and can pay further level-ups. -/
theorem C16_levelUp_stat_changes (w : World) :
    (w.levelUpStep.player.stats =
      { level := w.player.stats.level + 1
        xp := w.player.stats.xp - w.player.stats.xpToNext
        xpToNext := w.player.stats.xpToNext * 6 / 5
        maxHp := w.player.stats.maxHp + 10
        maxMp := w.player.stats.maxMp + 5
        hp := w.player.stats.maxHp + 10
        mp := w.player.stats.maxMp + 5
        strength := w.player.stats.strength + 2
        dexterity := w.player.stats.dexterity + 1
        intelligence := w.player.stats.intelligence + 1
        defense := w.player.stats.defense + 1 }) ∧
    w.levelUpStep.log = w.log ++ [Event.levelUp (w.player.stats.level + 1)] ∧
    (∀ fuel, Player.levelUp (GameScene.onLevelUp fuel) w
      = GameScene.onLevelUp fuel (w.player.stats.level + 1) w.levelUpStep) ∧
    Player.levelUp (fun _ w0 => some w0) w = some w.levelUpStep ∧
    (w.openLevelQuests = 0 →
      ∀ fuel, Player.levelUp (GameScene.onLevelUp fuel) w = some w.levelUpStep) ∧
    (w.player.stats.xp = 90 → w.player.stats.xpToNext = 100 →
      (w.addXP 30).levelUpStep.player.stats.level = w.player.stats.level + 1 ∧
      (w.addXP 30).levelUpStep.player.stats.xp = 20 ∧
      (w.addXP 30).levelUpStep.player.stats.xpToNext = 120 ∧
      (w.addXP 30).levelUpStep.levelUps = w.levelUps ++ [w.player.stats.level + 1] ∧
      (∀ fuel, Player.gainXP (fuel + 1) 30 w
        = GameScene.onLevelUp fuel (w.player.stats.level + 1) (w.addXP 30).levelUpStep) ∧
      (∀ fuel w1, Player.gainXP fuel 30 w = some w1 →
        ExitOrSame (w.addXP 30).levelUpStep w1 ∧ w.player.stats.level + 1 ≤ w1.player.stats.level) ∧
      Settles (fun fuel => Player.gainXP fuel 30 w)
        (fun w1 => ExitOrSame (w.addXP 30).levelUpStep w1 ∧
          w.player.stats.level + 1 ≤ w1.player.stats.level) ∧
      (w.openLevelQuests = 0 →
        ∀ fuel, Player.gainXP (fuel + 1) 30 w = some (w.addXP 30).levelUpStep) ∧
      (∀ k, Player.gainXPWith (fun _ w0 => some w0) (k + 1) 30 w
        = some (w.addXP 30).levelUpStep)) := by
  have hquiet : ∀ (w0 : World), w0.openLevelQuests = 0 →
      ∀ fuel, Player.levelUp (GameScene.onLevelUp fuel) w0 = some w0.levelUpStep := by
    intro w0 h0 fuel
    unfold Player.levelUp GameScene.onLevelUp
    exact QuestSystem.checkQuestProgress_noMatch _ _ _ _
      (World.openLevelQuests_zero w0.levelUpStep h0)
  refine ⟨rfl, rfl, fun fuel => rfl, rfl, hquiet w, fun h90 h100 => ?_⟩
  have henter : (w.addXP 30).player.stats.xpToNext ≤ (w.addXP 30).player.stats.xp := by
    show w.player.stats.xpToNext ≤ w.player.stats.xp + 30
    omega
  have hxp : (w.addXP 30).levelUpStep.player.stats.xp = 20 := by
    show w.player.stats.xp + 30 - w.player.stats.xpToNext = 20
    omega
  have hthr : (w.addXP 30).levelUpStep.player.stats.xpToNext = 120 := by
    show w.player.stats.xpToNext * 6 / 5 = 120
    omega
  have hdone : ∀ (onLevelUp : Int → World → Option World) (k : Nat) (w2 : World),
      w2.player.stats.xp < w2.player.stats.xpToNext →
      Player.gainXPLoop onLevelUp k w2 = some w2 := by
    intro onLevelUp k w2 hlt
    have hexit : ¬ w2.player.stats.xpToNext ≤ w2.player.stats.xp := by omega
    cases k with
    | zero => simp only [Player.gainXPLoop, if_neg hexit]
    | succ k => simp only [Player.gainXPLoop, if_neg hexit]
  have hexit : ∀ fuel w2,
      GameScene.onLevelUp fuel (w.player.stats.level + 1) (w.addXP 30).levelUpStep = some w2 →
      w2.player.stats.xp < w2.player.stats.xpToNext := by
    intro fuel w2 h2
    rcases GameScene.onLevelUp_exitOrSame fuel _ _ w2 h2 with hsame | hlt
    · rw [hsame, hxp, hthr]; decide
    · exact hlt
  have hcall : ∀ fuel, Player.gainXP (fuel + 1) 30 w
      = GameScene.onLevelUp fuel (w.player.stats.level + 1) (w.addXP 30).levelUpStep := by
    intro fuel
    have hunfold : Player.gainXP (fuel + 1) 30 w
        = (GameScene.onLevelUp fuel (w.player.stats.level + 1) (w.addXP 30).levelUpStep).bind
            (Player.gainXPLoop (GameScene.onLevelUp fuel) fuel) := by
      show Player.gainXPLoop (GameScene.onLevelUp fuel) (fuel + 1) (w.addXP 30) = _
      simp only [Player.gainXPLoop, if_pos henter]
      rfl
    rw [hunfold]
    cases h2 : GameScene.onLevelUp fuel (w.player.stats.level + 1) (w.addXP 30).levelUpStep with
    | none => rfl
    | some w2 =>
      simp only [Option.some_bind]
      exact hdone _ fuel w2 (hexit fuel w2 h2)
  have hsafe : ∀ fuel w1, Player.gainXP fuel 30 w = some w1 →
      ExitOrSame (w.addXP 30).levelUpStep w1 ∧
        w.player.stats.level + 1 ≤ w1.player.stats.level := by
    intro fuel w1 h
    cases fuel with
    | zero => simp [Player.gainXP] at h
    | succ fuel =>
      rw [hcall fuel] at h
      refine ⟨GameScene.onLevelUp_exitOrSame fuel _ _ w1 h, ?_⟩
      obtain ⟨count, hl, _⟩ := QuestSystem.checkQuestProgress_ledger
        (Player.gainXP_ledger fuel) "level" _ (w.addXP 30).levelUpStep w1 h
      have hstep : (w.addXP 30).levelUpStep.player.stats.level = w.player.stats.level + 1 := rfl
      omega
  refine ⟨rfl, hxp, hthr, ?_, hcall, hsafe,
    (Player.gainXP_settles w 30 (by show 1 ≤ w.player.stats.xpToNext; omega)).strengthen hsafe,
    fun h0 fuel => ?_, fun k => ?_⟩
  · simp [World.levelUpStep, World.addXP, World.emit, World.levelUps, Player.levelUpStats,
      List.filterMap_append, Event.levelUpValue]
  · rw [hcall fuel]
    exact hquiet (w.addXP 30) h0 fuel
  · simp only [Player.gainXPWith, Player.gainXPLoop, if_pos henter, Player.levelUp,
      Option.some_bind]
    exact hdone _ k _ (by rw [hxp, hthr]; decide)

/-- C16 amended, at the player of `twoKillsScene` (`xp = 90`, `xpToNext = 100`,
level 1, Level Up open): the level-up on 30 XP gives level 2, `xp = 20`,
`xpToNext = 120`, full health 110 and mana 55; the call returns what the
listener makes of that state, which is level 3 with `xp = 0` and
`xpToNext = 144`. -/
theorem C16_levelUp_stat_changes_witness :
    (twoKillsScene.player.stats.level, twoKillsScene.player.stats.xp,
      twoKillsScene.player.stats.xpToNext) = (1, 90, 100) ∧
    Player.gainXP 3 30 twoKillsScene
      = GameScene.onLevelUp 2 (twoKillsScene.player.stats.level + 1)
          (twoKillsScene.addXP 30).levelUpStep ∧
    ((twoKillsScene.addXP 30).levelUpStep.player.stats.level,
      (twoKillsScene.addXP 30).levelUpStep.player.stats.xp,
      (twoKillsScene.addXP 30).levelUpStep.player.stats.xpToNext) = (2, 20, 120) ∧
    ((twoKillsScene.addXP 30).levelUpStep.player.stats.hp,
      (twoKillsScene.addXP 30).levelUpStep.player.stats.maxHp,
      (twoKillsScene.addXP 30).levelUpStep.player.stats.mp,
      (twoKillsScene.addXP 30).levelUpStep.player.stats.maxMp) = (110, 110, 55, 55) ∧
    (Player.gainXP 3 30 twoKillsScene).map
      (fun w1 => (w1.player.stats.level, w1.player.stats.xp, w1.player.stats.xpToNext,
        w1.levelUps)) = some (3, 0, 144, [2, 3]) :=
  ⟨by decide!,
    ((C16_levelUp_stat_changes twoKillsScene).2.2.2.2.2 (by decide!) (by decide!)).2.2.2.2.1 2,
    by decide!, by decide!, by decide!⟩

/-- C17: one hit on a live enemy (one not yet destroyed by `removeEnemy`, which
every enemy with health above 0 in the game is) with damage at least the health
of the enemy leaves the health at 0 and runs the death transition once: `Enemy.takeDamage` is, in this order,
one `gainXP (xpReward)`, one `enemyKilled` emission, one
`checkQuestProgress ('kill', enemyType)` and one `handleEnemyLoot` of the scene
listener, and the removal of the enemy.  In the state it returns the enemy is
out of the group, the only new `enemyKilled` event is the one for this enemy,
and the XP account and the gold total show the XP reward and the gold reward of
the enemy coming in once, next to the rewards of the quests the kill completed.
With a positive threshold the call returns, for every sufficient amount of
fuel. -/
theorem C17_lethal_hit_effects_once (i : Nat) (damage : ℚ) (e : Enemy) (w : World)
    (he : w.enemyManager.enemies[i]? = some e) (hs : e.hasScene = true)
    (hd : e.stats.hp ≤ damage) :
    (∀ fuel, Enemy.takeDamage fuel i damage w =
      (Player.gainXP fuel e.stats.xpReward
          (w.setEnemy i { e with stats := { e.stats with hp := 0 } })).bind fun w2 =>
        (QuestSystem.checkQuestProgress (Player.gainXP fuel) "kill" (Value.str e.enemyType)
            (w2.emit (Event.enemyKilled i))).bind fun w3 =>
          some (EnemyManager.removeEnemy
            (InventorySystem.handleEnemyLoot w3 { e with stats := { e.stats with hp := 0 } })
            i)) ∧
    (∀ fuel w1, Enemy.takeDamage fuel i damage w = some w1 → LethalHitEffects i e w w1) ∧
    (w.thresholdPositive →
      Settles (fun fuel => Enemy.takeDamage fuel i damage w) (LethalHitEffects i e w)) := by
  have hsafe : ∀ fuel w1, Enemy.takeDamage fuel i damage w = some w1 →
      LethalHitEffects i e w w1 :=
    fun fuel w1 h => Enemy.takeDamage_lethalEffects fuel i e damage w w1 he hs hd h
  exact ⟨fun fuel => Enemy.takeDamage_lethal fuel i e damage w he hs hd, hsafe,
    fun hx => (Enemy.takeDamage_total i damage w hx).strengthen hsafe⟩

/-- C17, at the goblin of `goblinScene` (health 30, XP reward 15, gold reward 5)
hit for 35: the call returns, the health is 0, one `enemyKilled` event, the XP
goes from 0 to 65 (15 and the 50 of First Blood), the gold from 100 to 130 (5
and the 25 of First Blood), and the kill quests First Blood and Goblin Hunter
are advanced by one. -/
theorem C17_lethal_hit_effects_once_witness :
    Settles (fun fuel => Enemy.takeDamage fuel 0 35 goblinScene)
      (LethalHitEffects 0 (Enemy.create 410 300 "goblin" 1) goblinScene) ∧
    (Enemy.takeDamage 3 0 35 goblinScene).map
      (fun w1 => (w1.enemyManager.enemies.map (fun e1 => e1.stats.hp), w1.killEvents,
        w1.player.stats.xp, w1.inventorySystem.gold))
      = some ([0], [0], 65, 130) ∧
    (Enemy.takeDamage 3 0 35 goblinScene).map
      (fun w1 => (w1.questSystem.completedQuests.map (fun q => (q.title, q.current)),
        w1.questSystem.activeQuests.map (fun q => (q.title, q.current))))
      = some ([("First Blood", 1)],
          [("Level Up", 0), ("Goblin Hunter", 1), ("Veteran Fighter", 2)]) :=
  ⟨(C17_lethal_hit_effects_once 0 35 (Enemy.create 410 300 "goblin" 1) goblinScene rfl rfl
      (by decide!)).2.2 (by decide), by decide!, by decide!⟩

/-- C18, refuted as stated: a level quest whose target equals the value of the
event is advanced by 1 like any other quest and completed only if that reaches
`required`.  In `slowLevelQuestScene` the level quest with target 3 and
`required = 2` has progress 1 after the level event 3, whose value is at least
the target, and is still active. -/
theorem C18_level_quest_advanced_counterexample :
    slowLevelQuestScene.questSystem.activeQuests.map
      (fun q => (q.type, q.target, q.required, q.current, q.isCompleted))
      = [("level", Value.num 3, 2, 0, false)] ∧
    (Value.num 3).ge (Value.num 3) = true ∧
    (QuestSystem.checkQuestProgress (Player.gainXP 3) "level" (Value.num 3)
        slowLevelQuestScene).map
      (fun w => (w.questSystem.activeQuests.map (fun q => (q.title, q.current, q.isCompleted)),
        w.questSystem.completedQuests.map (fun q => q.title)))
      = some ([("Seasoned", 1, false)], []) := by
  decide

/-- C18, amended: for the first open level quest of `activeQuests` (the scan
reaches it in the state the call started in) with a numeric target and every
level event with a numeric value, `checkQuestProgress` does the following.  If
the value is above the target, the progress is forced to `required` and the
quest completed on that event, whatever its required count and progress: it is
in `completedQuests` afterwards with the progress `required` and the flag set.
If the value equals the target, the quest is advanced by 1 like any other
quest; it is completed on that event exactly when `current + 1` reaches
`required`, as for a quest with `required = 1`, and otherwise it stays active
with the progress `current + 1`.  If the value is below the target the quest
is not touched.  With a positive threshold the call returns, for every
sufficient amount of fuel.  For any target and value, a level quest the scan
visits whose target differs from the value and from `'any'` is forced and
completed exactly when `value >= target` holds. -/
theorem C18_level_quest_forced_above_target (w : World) (k : Nat) (quest : Quest) (t v : Int)
    (hq : w.questSystem.activeQuests[k]? = some quest) (ht : quest.type = "level")
    (hc : quest.isCompleted = false) (htarget : quest.target = Value.num t)
    (hfirst : ∀ i q, i < k → w.questSystem.activeQuests[i]? = some q →
      ¬ (q.type = "level" ∧ q.isCompleted = false)) :
    (∀ gainXP : Int → World → Option World,
      QuestSystem.checkQuestProgress gainXP "level" (Value.num v) w
        = (QuestSystem.visitQuest gainXP "level" (Value.num v) k w).bind
            (QuestSystem.forEachActive gainXP "level" (Value.num v) (k + 1)
              (w.questSystem.activeQuests.length - (k + 1)))) ∧
    (t < v ∨ (t = v ∧ quest.required ≤ quest.current + 1) →
      (∀ gainXP : Int → World → Option World,
        QuestSystem.visitQuest gainXP "level" (Value.num v) k w
          = QuestSystem.completeQuest gainXP k
              (w.setActiveQuest k { quest with current := quest.required })) ∧
      (∀ fuel w1,
        QuestSystem.checkQuestProgress (Player.gainXP fuel) "level" (Value.num v) w = some w1 →
        ({ quest with current := quest.required } : Quest).markCompleted
          ∈ w1.questSystem.completedQuests) ∧
      (w.thresholdPositive →
        Settles
          (fun fuel =>
            QuestSystem.checkQuestProgress (Player.gainXP fuel) "level" (Value.num v) w)
          (fun w1 => ({ quest with current := quest.required } : Quest).markCompleted
            ∈ w1.questSystem.completedQuests))) ∧
    (t = v → quest.current + 1 < quest.required →
      ∀ gainXP : Int → World → Option World,
        QuestSystem.visitQuest gainXP "level" (Value.num v) k w
          = some (w.setActiveQuest k { quest with current := quest.current + 1 })) ∧
    (v < t →
      ∀ gainXP : Int → World → Option World,
        QuestSystem.visitQuest gainXP "level" (Value.num v) k w = some w) ∧
    (∀ (gainXP : Int → World → Option World) (w0 : World) (k0 : Nat) (quest0 : Quest)
        (value : Value),
      w0.questSystem.activeQuests[k0]? = some quest0 → quest0.type = "level" →
      quest0.isCompleted = false → quest0.target ≠ value → quest0.target ≠ Value.str "any" →
      QuestSystem.visitQuest gainXP "level" value k0 w0
        = if value.ge quest0.target = true then
            QuestSystem.completeQuest gainXP k0
              (w0.setActiveQuest k0 { quest0 with current := quest0.required })
          else some w0) := by
  have hany : quest.target ≠ Value.str "any" := by rw [htarget]; simp
  have hvisit : t < v ∨ (t = v ∧ quest.required ≤ quest.current + 1) →
      ∀ gainXP : Int → World → Option World,
        QuestSystem.visitQuest gainXP "level" (Value.num v) k w
          = QuestSystem.completeQuest gainXP k
              (w.setActiveQuest k { quest with current := quest.required }) := by
    intro hcase gainXP
    unfold QuestSystem.visitQuest
    rw [hq]
    rcases hcase with hlt | ⟨heq, hreq⟩
    · have hne : quest.target ≠ Value.num v := by
        rw [htarget]
        intro h
        injection h with h
        omega
      have hge : (Value.num v).ge quest.target = true := by
        rw [htarget]
        show decide (t ≤ v) = true
        exact decide_eq_true (le_of_lt hlt)
      simp only [ht, hc, and_self, if_true, hne, hany, or_self, if_false, true_and, hge]
    · have htv : quest.target = Value.num v := by rw [htarget, heq]
      have hmin : min (quest.current + 1) quest.required = quest.required :=
        min_eq_right hreq
      simp only [ht, hc, and_self, if_true, htv, true_or, hmin, le_refl]
  have hdone : t < v ∨ (t = v ∧ quest.required ≤ quest.current + 1) →
      ∀ fuel w1,
        QuestSystem.checkQuestProgress (Player.gainXP fuel) "level" (Value.num v) w = some w1 →
        ({ quest with current := quest.required } : Quest).markCompleted
          ∈ w1.questSystem.completedQuests := by
    intro hcase fuel w1 h
    rw [QuestSystem.checkQuestProgress_first _ "level" (Value.num v) w k quest hq hfirst,
      hvisit hcase] at h
    cases hv : QuestSystem.completeQuest (Player.gainXP fuel) k
        (w.setActiveQuest k { quest with current := quest.required }) with
    | none => rw [hv] at h; simp at h
    | some w2 =>
      rw [hv] at h
      simp only [Option.some_bind] at h
      have h2 := QuestSystem.completeQuest_completed fuel k
        { quest with current := quest.required } _ w2
        (World.setActiveQuest_get w k quest _ hq) hv
      exact QuestSystem.forEachActive_rule
        (completedQuestsKept_rule [({ quest with current := quest.required } : Quest).markCompleted])
        (Player.gainXP_rule (completedQuestsKept_rule _) fuel) [] "level" (Value.num v) _
        (k + 1) w2 w1
        (by
          intro q hqm
          simp only [List.mem_singleton] at hqm
          rw [hqm]; exact h2)
        h _ (List.mem_singleton.mpr rfl)
  refine ⟨fun gainXP =>
      QuestSystem.checkQuestProgress_first gainXP "level" (Value.num v) w k quest hq hfirst,
    fun hcase => ⟨hvisit hcase, hdone hcase,
      fun hx => (QuestSystem.checkQuestProgress_total "level" (Value.num v) w hx).strengthen
        (hdone hcase)⟩,
    fun heq hlt gainXP => ?_, fun hlt gainXP => ?_,
    fun gainXP w0 k0 quest0 value hq0 ht0 hc0 hne0 hany0 => ?_⟩
  · have htv : quest.target = Value.num v := by rw [htarget, heq]
    unfold QuestSystem.visitQuest
    rw [hq]
    have hmin : min (quest.current + 1) quest.required = quest.current + 1 :=
      min_eq_left (le_of_lt hlt)
    have hnot : ¬ quest.required ≤ quest.current + 1 := not_le.mpr hlt
    simp only [ht, hc, and_self, if_true, htv, true_or, hmin, if_neg hnot]
  · have hne : quest.target ≠ Value.num v := by
      rw [htarget]
      intro h
      injection h with h
      omega
    have hge : (Value.num v).ge quest.target = false := by
      rw [htarget]
      show decide (t ≤ v) = false
      exact decide_eq_false (not_le.mpr hlt)
    unfold QuestSystem.visitQuest
    rw [hq]
    simp [ht, hc, hne, hany, hge]
  · unfold QuestSystem.visitQuest
    rw [hq0]
    simp only [ht0, hc0, and_self, if_true, hne0, hany0, or_self, if_false, true_and]

/-- C18 amended, at the initial scene, where Level Up (target 2, `required = 1`)
is the only level quest, second in `activeQuests` after the kill quest First
Blood: the level event 2 completes it, and so does the level event 3.  A level
quest with the target `'2.5'` would be forced by the level event 3, as
`3 >= '2.5'` holds. -/
theorem C18_level_quest_forced_above_target_witness :
    Settles
      (fun fuel => QuestSystem.checkQuestProgress (Player.gainXP fuel) "level" (Value.num 2)
        goblinScene)
      (fun w1 =>
        { id := 1, title := "Level Up", type := "level", target := Value.num 2, required := 1,
          current := 1, rewards := { xp := 100, gold := 50 }, isActive := false,
          isCompleted := true } ∈ w1.questSystem.completedQuests) ∧
    (QuestSystem.checkQuestProgress (Player.gainXP 3) "level" (Value.num 2) goblinScene).map
      (fun w => (w.questSystem.activeQuests.map (fun q => q.title),
        w.questSystem.completedQuests.map (fun q => (q.title, q.current, q.isCompleted))))
      = some (["First Blood", "Goblin Hunter"], [("Level Up", 1, true)]) ∧
    (QuestSystem.checkQuestProgress (Player.gainXP 3) "level" (Value.num 3) goblinScene).map
      (fun w => (w.questSystem.activeQuests.map (fun q => q.title),
        w.questSystem.completedQuests.map (fun q => (q.title, q.current, q.isCompleted))))
      = some (["First Blood", "Goblin Hunter"], [("Level Up", 1, true)]) ∧
    (Value.num 3).ge (Value.str "2.5") = true ∧
    (Value.num 2).ge (Value.str "2.5") = false :=
  ⟨((C18_level_quest_forced_above_target goblinScene 1
        { id := 1, title := "Level Up", type := "level", target := Value.num 2, required := 1,
          current := 0, rewards := { xp := 100, gold := 50 }, isActive := true,
          isCompleted := false } 2 2 rfl rfl rfl rfl
        (by
          intro i q hi hqi
          have hi0 : i = 0 := by omega
          subst hi0
          have h0 : goblinScene.questSystem.activeQuests[0]? =
              some
                { id := 0, title := "First Blood", type := "kill",
                  target := Value.str "any", required := 1, current := 0,
                  rewards := { xp := 50, gold := 25, items := ["health-potion"] },
                  isActive := true, isCompleted := false } := by decide
          rw [h0] at hqi
          have hq0 := (Option.some.inj hqi).symm
          rw [hq0]
          decide)).2.1 (Or.inr ⟨rfl, by decide⟩)).2.2 (by decide),
    by decide, by decide, by decide!, by decide!⟩

/-- C19: when every quest, active or completed, has `0 ≤ current ≤ required`, as
every quest has that `addQuest` adds with such a progress, then after every
sequence of `checkQuestProgress` events (and of `enemyKilled` and `levelUp`
emissions and `gainXP` calls, with the quest completions and follow-up quests
they bring) every quest still has `0 ≤ current ≤ required`, and every quest of
the state before is still there, active or completed.  With a positive
threshold the sequence returns, for every sufficient amount of fuel. -/
theorem C19_quest_progress_bounded (events : List GameEvent) (w : World)
    (hw : w.questsBounded) :
    (∀ fuel w1, GameScene.handleAll fuel events w = some w1 → QuestsKeptBounded w w1) ∧
    (w.thresholdPositive →
      Settles (fun fuel => GameScene.handleAll fuel events w) (QuestsKeptBounded w)) ∧
    (∀ questData : QuestData, 0 ≤ questData.current → questData.current ≤ questData.required →
      (QuestSystem.addQuest w questData).questsBounded ∧
      w.questSystem.questId ∈ (QuestSystem.addQuest w questData).activeIds) := by
  have hsafe : ∀ fuel w1, GameScene.handleAll fuel events w = some w1 →
      QuestsKeptBounded w w1 := by
    intro fuel w1 h
    refine ⟨?_, ?_⟩
    · refine GameScene.handleAll_keeps questsBounded_rule ?_ fuel events w w1 hw h
      intro w0 enemy h0
      obtain ⟨inv, pos, hl⟩ := InventorySystem.handleEnemyLoot_world w0 enemy
      rw [hl]; exact h0
    · refine GameScene.handleAll_keeps (questsKept_rule (w.activeIds ++ w.completedIds)) ?_
        fuel events w w1 (fun id hid => hid) h
      intro w0 enemy h0
      obtain ⟨inv, pos, hl⟩ := InventorySystem.handleEnemyLoot_world w0 enemy
      rw [hl]; exact h0
  refine ⟨hsafe, fun hx => (GameScene.handleAll_total events w hx).strengthen hsafe, ?_⟩
  intro questData h0 h1
  refine ⟨?_, by simp [QuestSystem.addQuest, World.activeIds]⟩
  intro q hq
  simp only [QuestSystem.addQuest, List.mem_append, List.mem_singleton] at hq
  rcases hq with (hq | hq) | hq
  · exact hw q (List.mem_append_left _ hq)
  · rw [hq]; exact ⟨h0, h1⟩
  · exact hw q (List.mem_append_right _ hq)

/-- C19, at the initial scene with six `kill ('goblin')` events: the run returns,
Goblin Hunter ends completed at 5 of 5 and Veteran Fighter active at 6 of 10. -/
theorem C19_quest_progress_bounded_witness :
    Settles
      (fun fuel => GameScene.handleAll fuel
        (List.replicate 6 (GameEvent.questEvent "kill" (Value.str "goblin")))
        (World.initial (fun _ => { num := 1, den := 2 }) (fun _ => 0)))
      (QuestsKeptBounded (World.initial (fun _ => { num := 1, den := 2 }) (fun _ => 0))) ∧
    (GameScene.handleAll 4
        (List.replicate 6 (GameEvent.questEvent "kill" (Value.str "goblin")))
        (World.initial (fun _ => { num := 1, den := 2 }) (fun _ => 0))).map
      (fun w1 => (w1.questSystem.activeQuests.map (fun q => (q.title, q.current, q.required)),
        w1.questSystem.completedQuests.map (fun q => (q.title, q.current, q.required))))
      = some ([("Veteran Fighter", 6, 10), ("Wolf Pack", 0, 3)],
          [("First Blood", 1, 1), ("Goblin Hunter", 5, 5), ("Level Up", 1, 1)]) :=
  ⟨(C19_quest_progress_bounded _ _ (by decide)).2.1 (by decide), by decide⟩

/-- C20: `handleEnemyLoot (enemy)` increases the gold total by exactly
`enemy.stats.goldReward`, whatever the inventory holds and whatever the drop
rolls give.  With the full inventory of `fullInventoryScene` and draws that
make every entry of the loot table drop, the gold goes from 100 to 105 and the
inventory is unchanged. -/
theorem C20_loot_gold_exact :
    (∀ (w : World) (enemy : Enemy),
      (InventorySystem.handleEnemyLoot w enemy).inventorySystem.gold
        = w.inventorySystem.gold + enemy.stats.goldReward) ∧
    ((InventorySystem.handleEnemyLoot { fullInventoryScene with random := fun _ => { num := 0, den := 1 } }
        (Enemy.create 410 300 "goblin" 1)).inventorySystem
      = { fullInventoryScene.inventorySystem with gold := 105 }) := by
  refine ⟨InventorySystem.handleEnemyLoot_gold, by decide⟩

/-- C21, refuted as stated: an area attack paid for with `mp >= 10` need not
leave the mana 10 lower.  In `twoKillsScene` (reached from `fourEnemiesScene` by
two kills and a hit) the player has 50 mana and `xp = 90` of 100, a goblin has 5
health left and another 30; the area attack (ability 3) deducts 10 mana and
hits the first goblin for `10 * 0.8 = 8`, which kills it, its 15 XP make the
player level up, and `levelUp` sets the mana to the new maximum 55.  The second
goblin is then hit for `12 * 0.8 = 9.6`. -/
theorem C21_area_attack_level_up_counterexample :
    (afterTwoKills 3).isSome = true ∧
    (twoKillsScene.player.stats.level, twoKillsScene.player.stats.xp,
      twoKillsScene.player.stats.xpToNext, twoKillsScene.player.stats.mp,
      twoKillsScene.player.stats.maxMp, twoKillsScene.player.stats.strength)
      = (1, 90, 100, 50, 50, 10) ∧
    twoKillsScene.enemyManager.enemies.map (fun e => (e.stats.hp, e.active))
      = [(0, false), (0, false), (5, true), (30, true)] ∧
    (InputManager.useAbility 3 (fun _ => 10) 3 twoKillsScene).map
      (fun w1 => (w1.player.stats.level, w1.player.stats.mp, w1.player.stats.maxMp,
        w1.player.stats.strength)) = some (2, 55, 55, 12) ∧
    (InputManager.useAbility 3 (fun _ => 10) 3 twoKillsScene).map
      (fun w1 => w1.enemyManager.enemies.map (fun e => e.stats.hp))
      = some [0, 0, 0, 102 / 5] ∧
    ¬ ((55 : Int) = twoKillsScene.player.stats.mp - 10) := by
  decide!

/-- C21, amended: `InputManager.useAbility (abilityIndex)` with `mp < 10` returns
without changing anything; with `mp ≥ 10` it deducts exactly 10 mana and runs
the ability of the index, if any, from the state that leaves.  For every index
but 3 the mana is 10 less afterwards; the area attack of index 3 leaves it 10
less as well when the player gains no level during it, and when it kills an
enemy whose XP makes the player level up the mana is the new maximum, to which
`levelUp` restores it.  In both cases the bound `0 ≤ mp ≤ maxMp` is kept, so the
mana never becomes negative through ability use, and with a positive threshold
the call returns, for every sufficient amount of fuel. -/
theorem C21_useAbility_mana (w : World) (abilityIndex : Int) (distance : Nat → ℚ) :
    (w.player.stats.mp < 10 →
      ∀ fuel, InputManager.useAbility fuel distance abilityIndex w = some w) ∧
    (10 ≤ w.player.stats.mp →
      (InputManager.payMana w).player.stats.mp = w.player.stats.mp - 10 ∧
      ∀ fuel, InputManager.useAbility fuel distance abilityIndex w
        = if abilityIndex = 1 then some (InputManager.dashAttack (InputManager.payMana w))
          else if abilityIndex = 2 then some (InputManager.healAbility (InputManager.payMana w))
          else if abilityIndex = 3 then
            InputManager.areaAttack fuel distance (InputManager.payMana w)
          else some (InputManager.payMana w)) ∧
    (10 ≤ w.player.stats.mp → abilityIndex ≠ 3 →
      ∀ fuel, ∃ w1, InputManager.useAbility fuel distance abilityIndex w = some w1 ∧
        w1.player.stats.mp = w.player.stats.mp - 10 ∧
        w1.enemyManager = w.enemyManager) ∧
    (10 ≤ w.player.stats.mp →
      ∀ fuel w1, InputManager.useAbility fuel distance abilityIndex w = some w1 →
        ManaPaid w w1) ∧
    (w.manaBounded →
      ∀ fuel w1, InputManager.useAbility fuel distance abilityIndex w = some w1 →
        w1.manaBounded) ∧
    (w.thresholdPositive →
      Settles (fun fuel => InputManager.useAbility fuel distance abilityIndex w)
        (fun w1 => 10 ≤ w.player.stats.mp → ManaPaid w w1)) := by
  have hpaid : 10 ≤ w.player.stats.mp →
      ∀ fuel w1, InputManager.useAbility fuel distance abilityIndex w = some w1 →
        ManaPaid w w1 := by
    intro hmp fuel w1 h
    unfold InputManager.useAbility at h
    rw [if_neg (by omega)] at h
    split at h
    · simp only [Option.some.injEq] at h
      rw [← h]; exact Or.inl ⟨rfl, rfl⟩
    · split at h
      · simp only [Option.some.injEq] at h
        rw [← h]; exact Or.inl ⟨rfl, rfl⟩
      · split at h
        · exact InputManager.areaHits_player (P := fun p =>
              (p.stats.level = w.player.stats.level ∧ p.stats.mp = w.player.stats.mp - 10) ∨
                (w.player.stats.level < p.stats.level ∧ p.stats.mp = p.stats.maxMp))
            (manaPaid_rule w.player.stats.level (w.player.stats.mp - 10)) fuel _
            (InputManager.payMana w) w1 (Or.inl ⟨rfl, rfl⟩) h
        · simp only [Option.some.injEq] at h
          rw [← h]; exact Or.inl ⟨rfl, rfl⟩
  refine ⟨fun hmp fuel => ?_, fun hmp => ⟨rfl, fun fuel => ?_⟩, fun hmp hidx fuel => ?_, hpaid,
    fun hb fuel w1 h => ?_,
    fun hx => (InputManager.useAbility_total distance abilityIndex w hx).strengthen
      (fun fuel w1 h hmp => hpaid hmp fuel w1 h)⟩
  · unfold InputManager.useAbility
    rw [if_pos hmp]
  · unfold InputManager.useAbility
    rw [if_neg (by omega)]
  · unfold InputManager.useAbility
    rw [if_neg (by omega)]
    split
    · exact ⟨_, rfl, rfl, rfl⟩
    · split
      · exact ⟨_, rfl, rfl, rfl⟩
      · exact ⟨_, rfl, rfl, rfl⟩
  · unfold InputManager.useAbility at h
    split at h
    · simp only [Option.some.injEq] at h
      rw [← h]; exact hb
    · rename_i hmp
      have hpay : (InputManager.payMana w).manaBounded := by
        obtain ⟨h0, h1⟩ := hb
        refine ⟨?_, ?_⟩
        · show 0 ≤ w.player.stats.mp - 10
          omega
        · show w.player.stats.mp - 10 ≤ w.player.stats.maxMp
          omega
      split at h
      · simp only [Option.some.injEq] at h
        rw [← h]; exact hpay
      · split at h
        · simp only [Option.some.injEq] at h
          rw [← h]; exact hpay
        · split at h
          · exact InputManager.areaHits_player (P := fun p =>
              0 ≤ p.stats.mp ∧ p.stats.mp ≤ p.stats.maxMp) manaBounded_rule fuel _
              (InputManager.payMana w) w1 hpay h
          · simp only [Option.some.injEq] at h
            rw [← h]; exact hpay

/-- C21 amended, at `goblinScene` (mana 50, strength 10, a goblin with 30 health
ten units away) and `twoKillsScene`: the heal ability leaves 40 mana; four area
attacks, 8 damage each, kill the goblin and leave 10 mana; in `twoKillsScene`
the area attack levels the player up (mana 55), and a second one, now with
strength 12, takes 9.6 from the goblin left and leaves 45 mana. -/
theorem C21_useAbility_mana_witness :
    Settles (fun fuel => InputManager.useAbility fuel (fun _ => 10) 3 goblinScene)
      (fun w1 => 10 ≤ goblinScene.player.stats.mp → ManaPaid goblinScene w1) ∧
    Settles (fun fuel => InputManager.useAbility fuel (fun _ => 10) 3 twoKillsScene)
      (fun w1 => 10 ≤ twoKillsScene.player.stats.mp → ManaPaid twoKillsScene w1) ∧
    (InputManager.useAbility 3 (fun _ => 10) 2 goblinScene).map
      (fun w1 => (w1.player.stats.mp, w1.player.stats.hp)) = some (40, 100) ∧
    ((((InputManager.useAbility 3 (fun _ => 10) 3 goblinScene).bind
        (InputManager.useAbility 3 (fun _ => 10) 3)).bind
        (InputManager.useAbility 3 (fun _ => 10) 3)).bind
        (InputManager.useAbility 3 (fun _ => 10) 3)).map
      (fun w1 => (w1.player.stats.mp, w1.enemyManager.enemies.map (fun e => e.stats.hp),
        w1.killEvents)) = some (10, [0], [0]) ∧
    ((InputManager.useAbility 3 (fun _ => 10) 3 twoKillsScene).bind
        (InputManager.useAbility 3 (fun _ => 10) 3)).map
      (fun w1 => (w1.player.stats.level, w1.player.stats.mp,
        w1.enemyManager.enemies.map (fun e => e.stats.hp)))
      = some (2, 45, [0, 0, 0, 54 / 5]) :=
  ⟨(C21_useAbility_mana goblinScene 3 (fun _ => 10)).2.2.2.2.2 (by decide),
    (C21_useAbility_mana twoKillsScene 3 (fun _ => 10)).2.2.2.2.2 (by decide!),
    by decide!, by decide!, by decide!⟩

/-- C22: with the default ranges (`detectionRange = 120`, `attackRange = 35`) and
the player at the same distance `d` at every update, the AI state of an enemy
after two updates is its state after every later update, and a state the enemy
has left is never entered again.  For `120 < d ≤ 180` a chasing enemy keeps
chasing and a patrolling enemy keeps patrolling. -/
theorem C22_ai_state_settles (w : World) (i : Nat) (e : Enemy) (d : ℚ)
    (he : w.enemyManager.enemies[i]? = some e) (hd : e.detectionRange = 120)
    (ha : e.attackRange = 35) :
    (∀ count, 2 ≤ count →
      (Enemy.updateAIs i d count w).aiState i = (Enemy.updateAIs i d 2 w).aiState i) ∧
    (∀ m n, m < n →
      (Enemy.updateAIs i d n w).aiState i = (Enemy.updateAIs i d m w).aiState i →
      (Enemy.updateAIs i d (m + 1) w).aiState i = (Enemy.updateAIs i d m w).aiState i) ∧
    (120 < d → d ≤ 180 → e.state = AIState.chase →
      ∀ count, (Enemy.updateAIs i d count w).aiState i = some AIState.chase) ∧
    (120 < d → d ≤ 180 → e.state = AIState.patrol →
      ∀ count, (Enemy.updateAIs i d count w).aiState i = some AIState.patrol) := by
  have hstate : ∀ count, (Enemy.updateAIs i d count w).aiState i
      = some (aiTransitions d 120 35 count e.state) := by
    intro count
    rw [Enemy.updateAIs_state i d count w e he, hd, ha]
  have hkeep : ∀ (state : AIState), aiTransitionTable state d 120 35 = state →
      ∀ count, aiTransitions d 120 35 count state = state := by
    intro state hfix count
    induction count with
    | zero => rfl
    | succ n ih => rw [aiTransitions_succ, ih, hfix]
  refine ⟨fun count hc => ?_, fun m n hmn h => ?_, fun h1 h2 hs count => ?_,
    fun h1 h2 hs count => ?_⟩
  · rw [hstate, hstate, aiTransitions_settled _ d count hc]
  · rw [hstate, hstate] at h
    rw [hstate, hstate, aiTransitions_succ]
    simp only [Option.some.injEq] at h ⊢
    have hsplit : n = m + (n - m) := by omega
    rw [hsplit, aiTransitions_add] at h
    exact aiTransitions_noReturn _ d (n - m) (by omega) h
  · rw [hstate, hs]
    refine congrArg some (hkeep AIState.chase ?_ count)
    have h180 : (3 / 2 : ℚ) * 120 = 180 := by norm_num
    have h3 : ¬ (180 < d) := by linarith
    have h4 : ¬ (d ≤ 35) := by linarith
    simp [aiTransitionTable, h180, h3, h4]
  · rw [hstate, hs]
    refine congrArg some (hkeep AIState.patrol ?_ count)
    have h2 : ¬ (d ≤ 120) := by linarith
    simp [aiTransitionTable, h2]

/-- C22, at the goblin of `attackScene` (attack state) with the player at
distance 200: chase after one update, patrol after two, and patrol from then
on. -/
theorem C22_ai_state_settles_witness :
    (∀ count, 2 ≤ count →
      (Enemy.updateAIs 0 200 count attackScene).aiState 0
        = (Enemy.updateAIs 0 200 2 attackScene).aiState 0) ∧
    (Enemy.updateAIs 0 200 2 attackScene).aiState 0
      = some (aiTransitions 200 120 35 2 AIState.attack) ∧
    aiTransitionTable AIState.attack 200 120 35 = AIState.chase ∧
    aiTransitionTable AIState.chase 200 120 35 = AIState.patrol :=
  ⟨(C22_ai_state_settles attackScene 0 attackingGoblin 200 rfl rfl rfl).1,
    Enemy.updateAIs_state 0 200 2 attackScene attackingGoblin rfl,
    by simp only [aiTransitionTable]; norm_num,
    by simp only [aiTransitionTable]; norm_num⟩

/-- C23: for a weapon entry with a rarity `generateItem` returns a weapon with
`damage = Math.floor (15 * m)` and for an armor entry an armor with
`defense = Math.floor (5 * m)`, `m` being the multiplier of the rarity; over the
rarities common, uncommon, rare, epic, legendary these are 15, 18, 22, 30, 45 and
5, 6, 7, 10, 15, which do not decrease.  An entry without a rarity gets one of
the five at random and is treated as an entry with that rarity. -/
theorem C23_rarity_scaling :
    (∀ (w : World) (loot : LootData) (rarity : String), loot.rarity = some rarity →
      (loot.type = "weapon" →
        (InventorySystem.generateItem w loot).1.type = "weapon" ∧
        (InventorySystem.generateItem w loot).1.rarity = some rarity ∧
        (InventorySystem.generateItem w loot).1.damage
          = InventorySystem.scaled 15 (InventorySystem.rarityMultiplier rarity)) ∧
      (loot.type = "armor" →
        (InventorySystem.generateItem w loot).1.type = "armor" ∧
        (InventorySystem.generateItem w loot).1.rarity = some rarity ∧
        (InventorySystem.generateItem w loot).1.defense
          = InventorySystem.scaled 5 (InventorySystem.rarityMultiplier rarity))) ∧
    (∀ (w : World) (loot : LootData), loot.rarity = none → (w.random w.randomPos).isDraw →
      InventorySystem.getRandomRarity (w.random w.randomPos) ∈ InventorySystem.rarities ∧
      (InventorySystem.generateItem w loot).1
        = (InventorySystem.generateItem w
            { loot with
              rarity := some (InventorySystem.getRandomRarity (w.random w.randomPos)) }).1) ∧
    InventorySystem.rarities = ["common", "uncommon", "rare", "epic", "legendary"] ∧
    InventorySystem.rarities.map InventorySystem.rarityMultiplier
      = [some { num := 1, den := 1 }, some { num := 6, den := 5 }, some { num := 3, den := 2 },
         some { num := 2, den := 1 }, some { num := 3, den := 1 }] ∧
    InventorySystem.rarities.map
        (fun rarity => InventorySystem.scaled 15 (InventorySystem.rarityMultiplier rarity))
      = [15, 18, 22, 30, 45] ∧
    InventorySystem.rarities.map
        (fun rarity => InventorySystem.scaled 5 (InventorySystem.rarityMultiplier rarity))
      = [5, 6, 7, 10, 15] ∧
    List.Pairwise (fun a b : Int => a ≤ b) [15, 18, 22, 30, 45] ∧
    List.Pairwise (fun a b : Int => a ≤ b) [5, 6, 7, 10, 15] := by
  refine ⟨fun w loot rarity h => ⟨fun ht => ?_, fun ht => ?_⟩, fun w loot h hdraw => ?_,
    rfl, by decide, by decide, by decide, by decide, by decide⟩
  · rw [(InventorySystem.generateItem_given w loot rarity h).2.1 ht]
    exact ⟨rfl, rfl, rfl⟩
  · rw [(InventorySystem.generateItem_given w loot rarity h).2.2 ht]
    exact ⟨rfl, rfl, rfl⟩
  · exact ⟨InventorySystem.getRandomRarity_mem _ hdraw,
      (InventorySystem.generateItem_drawn w loot h).2⟩

/-- C24, refuted as stated, in two ways.  The id `'constructor'` is neither
`'health-potion'` nor `'uncommon-sword'`, and `itemTemplates['constructor']` is
the member inherited from `Object.prototype`, which is truthy, so
`createRewardItem` returns it and not the Health Potion template.  And
`giveRewards` does not always add an item: with all 48 slots holding a sword,
`addItem` returns false for the potion made for `'rare-armor'`, and completing
Wolf Pack leaves the inventory as it was while the gold reward is paid. -/
theorem C24_reward_item_counterexample :
    "constructor" ≠ "health-potion" ∧ "constructor" ≠ "uncommon-sword" ∧
    QuestSystem.createRewardItem "constructor" = QuestSystem.inheritedMember ∧
    QuestSystem.createRewardItem "constructor" ≠ QuestSystem.createRewardItem "health-potion" ∧
    (fullWolfPackScene.inventorySystem.inventory.length,
      fullWolfPackScene.inventorySystem.maxSlots) = (48, 48) ∧
    (fullWolfPackScene.inventorySystem.addItem (QuestSystem.createRewardItem "rare-armor")).1
      = false ∧
    (QuestSystem.giveGoldAndItems { items := ["rare-armor"] }
        fullWolfPackScene).inventorySystem.inventory
      = fullWolfPackScene.inventorySystem.inventory ∧
    (QuestSystem.checkQuestProgress (Player.gainXP 5) "kill" (Value.str "wolf")
        fullWolfPackScene).map
      (fun w => (w.questSystem.completedQuests.map Quest.title, w.inventorySystem.gold,
        decide (w.inventorySystem.inventory = fullWolfPackScene.inventorySystem.inventory)))
      = some (["Wolf Pack"], 300, true) := by
  decide

/-- C24, amended: for every reward item id other than `'uncommon-sword'` that is
not the name of a property `itemTemplates` inherits from `Object.prototype`
(the id `'rare-armor'` of the Wolf Pack reward is such an id, and so is
`'health-potion'`), `createRewardItem` returns the Health Potion template; for
the inherited names it returns the inherited member.  `giveRewards` calls
`addItem` once for each listed id with the item made for it.  The call is
accepted whenever the inventory has fewer than `maxSlots` entries, and an
accepted call leaves a health potion in a slot (one more in the stack, or a new
stack of one); a rejected call, which takes an inventory with `maxSlots`
entries or more, leaves the inventory as it was.  Completing Wolf Pack in the
initial scene raises the potion stack from 3 to 4 and adds no armor. -/
theorem C24_unknown_reward_id_defaults (itemId : String)
    (hsword : itemId ≠ "uncommon-sword") (hown : itemId ∉ QuestSystem.inheritedKeys) :
    QuestSystem.createRewardItem itemId = QuestSystem.createRewardItem "health-potion" ∧
    QuestSystem.createRewardItem "health-potion"
      = { id := some "health-potion", type := "consumable", rarity := some "common",
          effect := some "heal", value := 30 } ∧
    (∀ key ∈ QuestSystem.inheritedKeys,
      QuestSystem.createRewardItem key = QuestSystem.inheritedMember) ∧
    (∀ (rewards : Rewards) (w : World),
      (QuestSystem.giveGoldAndItems rewards w).inventorySystem.inventory
        = (rewards.items.foldl
            (fun (inv : InventorySystem) (itemId : String) =>
              (inv.addItem (QuestSystem.createRewardItem itemId)).2)
            w.inventorySystem).inventory) ∧
    (∀ inv : InventorySystem, inv.inventory.length < inv.maxSlots →
      (inv.addItem (QuestSystem.createRewardItem itemId)).1 = true) ∧
    (∀ inv : InventorySystem, (inv.addItem (QuestSystem.createRewardItem itemId)).1 = true →
      ∃ (i : Nat) (stored : Item),
        (inv.addItem (QuestSystem.createRewardItem itemId)).2.inventory[i]? = some (some stored) ∧
        stored.id = some "health-potion" ∧ stored.type = "consumable" ∧
        (stored.quantity = 1 ∨
          ∃ existing, inv.inventory[i]? = some (some existing) ∧
            stored.quantity = existing.quantity + 1)) ∧
    (∀ inv : InventorySystem, (inv.addItem (QuestSystem.createRewardItem itemId)).1 = false →
      (inv.addItem (QuestSystem.createRewardItem itemId)).2 = inv ∧
      inv.maxSlots ≤ inv.inventory.length) ∧
    (wolfPackScene.inventorySystem.inventory.map (Option.map fun item => (item.id, item.quantity))
      = [some (some "health-potion", 3), some (some "mana-potion", 2)]) ∧
    ((QuestSystem.checkQuestProgress (Player.gainXP 5) "kill" (Value.str "wolf")
        wolfPackScene).map
      (fun w => w.inventorySystem.inventory.map (Option.map fun item => (item.id, item.quantity)))
      = some [some (some "health-potion", 4), some (some "mana-potion", 2)]) ∧
    ((QuestSystem.checkQuestProgress (Player.gainXP 5) "kill" (Value.str "wolf")
        wolfPackScene).map
      (fun w => (w.questSystem.completedQuests.map Quest.title, w.inventorySystem.gold))
      = some (["Wolf Pack"], 300)) := by
  have hpotion : QuestSystem.createRewardItem itemId
      = { id := some "health-potion", type := "consumable", rarity := some "common",
          effect := some "heal", value := 30 } := by
    unfold QuestSystem.createRewardItem
    rw [if_neg hsword, if_neg hown]
  refine ⟨?_, by decide, by decide, fun rewards w => ?_,
    fun inv h => InventorySystem.addItem_accepts inv _ h, fun inv h => ?_,
    fun inv h => InventorySystem.addItem_rejected inv _ h, by decide, by decide, by decide⟩
  · rw [hpotion]
    decide
  · unfold QuestSystem.giveGoldAndItems
    have key : ∀ (items : List String) (w0 : World) (inv0 : InventorySystem),
        w0.inventorySystem.inventory = inv0.inventory →
        w0.inventorySystem.maxSlots = inv0.maxSlots →
        (items.foldl
          (fun (acc : World) (itemId : String) =>
            { acc with inventorySystem :=
                (acc.inventorySystem.addItem (QuestSystem.createRewardItem itemId)).2 })
          w0).inventorySystem.inventory
          = (items.foldl
              (fun (inv : InventorySystem) (itemId : String) =>
                (inv.addItem (QuestSystem.createRewardItem itemId)).2) inv0).inventory := by
      intro items
      induction items with
      | nil => intro w0 inv0 h _; exact h
      | cons x xs ih =>
        intro w0 inv0 h hm
        simp only [List.foldl_cons]
        apply ih
        · show (w0.inventorySystem.addItem _).2.inventory = (inv0.addItem _).2.inventory
          unfold InventorySystem.addItem
          rw [h, hm]
          split
          · rfl
          · split
            · rfl
            · split
              · rfl
              · exact h
        · show (w0.inventorySystem.addItem _).2.maxSlots = (inv0.addItem _).2.maxSlots
          rw [InventorySystem.addItem_maxSlots, InventorySystem.addItem_maxSlots]
          exact hm
    apply key
    · split <;> rfl
    · split <;> rfl
  · obtain ⟨i, stored, hget, hid, htype, hq⟩ := InventorySystem.addItem_stored inv _ h
    rw [hpotion] at hid htype hq
    refine ⟨i, stored, hget, hid, ?_, ?_⟩
    · rcases htype with htype | htype <;> exact htype
    · have hone : (QuestSystem.createRewardItem "health-potion").quantityOrOne = 1 := by decide
      have hsame : QuestSystem.createRewardItem itemId
          = QuestSystem.createRewardItem "health-potion" := by rw [hpotion]; decide
      rw [← hpotion, hsame, hone] at hq
      exact hq

/-- C24 amended, at the id `'rare-armor'` of the Wolf Pack reward: it is made
into the Health Potion template, which the initial inventory accepts. -/
theorem C24_unknown_reward_id_defaults_witness :
    QuestSystem.createRewardItem "rare-armor" = QuestSystem.createRewardItem "health-potion" ∧
    (InventorySystem.initial.addItem (QuestSystem.createRewardItem "rare-armor")).1 = true ∧
    (InventorySystem.initial.addItem (QuestSystem.createRewardItem "rare-armor")).2.inventory.map
      (Option.map fun item => (item.id, item.quantity))
      = [some (some "health-potion", 4), some (some "mana-potion", 2)] :=
  ⟨(C24_unknown_reward_id_defaults "rare-armor" (by decide) (by decide)).1,
    (C24_unknown_reward_id_defaults "rare-armor" (by decide) (by decide)).2.2.2.2.1
      InventorySystem.initial (by decide),
    by decide⟩

/-- C25: the code at the failing input.  In the initial scene (First Blood, Level
Up, Goblin Hunter) the first kill completes First Blood; its `splice` moves the
later quests one position down and the follow-up Veteran Fighter, added with
`current: 1`, lands at position 2, below the length the array had when
`forEach` started.  The same scan visits it and counts the kill again: Veteran
Fighter is active with progress 2, for a goblin, a wolf or a skeleton, also
through `Enemy.takeDamage` with a lethal hit. -/
theorem C25_followUp_counted_twice :
    goblinScene.questSystem.activeQuests.map (fun q => (q.title, q.current))
      = [("First Blood", 0), ("Level Up", 0), ("Goblin Hunter", 0)] ∧
    QuestSystem.veteranFighter.current = 1 ∧
    (QuestSystem.checkQuestProgress (Player.gainXP 3) "kill" (Value.str "goblin")
        goblinScene).map
      (fun w => (w.questSystem.completedQuests.map Quest.title,
        w.questSystem.activeQuests.map (fun q => (q.title, q.current))))
      = some (["First Blood"],
          [("Level Up", 0), ("Goblin Hunter", 1), ("Veteran Fighter", 2)]) ∧
    (QuestSystem.checkQuestProgress (Player.gainXP 3) "kill" (Value.str "wolf")
        goblinScene).map
      (fun w => (w.questSystem.completedQuests.map Quest.title,
        w.questSystem.activeQuests.map (fun q => (q.title, q.current))))
      = some (["First Blood"],
          [("Level Up", 0), ("Goblin Hunter", 0), ("Veteran Fighter", 2)]) ∧
    (QuestSystem.checkQuestProgress (Player.gainXP 3) "kill" (Value.str "skeleton")
        goblinScene).map
      (fun w => (w.questSystem.completedQuests.map Quest.title,
        w.questSystem.activeQuests.map (fun q => (q.title, q.current))))
      = some (["First Blood"],
          [("Level Up", 0), ("Goblin Hunter", 0), ("Veteran Fighter", 2)]) ∧
    (Enemy.takeDamage 3 0 30 goblinScene).map
      (fun w => (w.killEvents, w.questSystem.completedQuests.map Quest.title,
        w.questSystem.activeQuests.map (fun q => (q.title, q.current))))
      = some ([0], ["First Blood"],
          [("Level Up", 0), ("Goblin Hunter", 1), ("Veteran Fighter", 2)]) := by
  decide!

/-- C26, refuted as stated: in `twoSkeletonsScene` one sword attack hits both
skeletons (base damage 25, each at 60 health).  The draws are 1/2, 0, 1/2, 1/2:
the first target gets 25 with the critical test passed, `Math.floor (25 * 1.5)
= 37`, the second gets 25 with the test failed, so the healths are 23 and
35. -/
theorem C26_critical_roll_differs_between_targets :
    (∀ k, k < 4 → (twoSkeletonsScene.random k).isDraw) ∧
    EnemyManager.getEnemiesInRange twoSkeletonsScene (fun _ => 10) 50 = [0, 1] ∧
    twoSkeletonsScene.enemyManager.enemies.map (fun e => e.stats.hp) = [60, 60] ∧
    CombatSystem.rollDamage 25 { num := 1, den := 2 } { num := 0, den := 1 } = 37 ∧
    CombatSystem.rollDamage 25 { num := 1, den := 2 } { num := 1, den := 2 } = 25 ∧
    (CombatSystem.playerAttack 1 (fun _ => 10) twoSkeletonsScene).map
      (fun w => (w.enemyManager.enemies.map (fun e => e.stats.hp), w.randomPos))
      = some ([23, 35], 4) := by
  decide!

/-- C26, amended: `playerAttack` runs `calculateDamage` once for each target.  The
loop handles the first target and then, unless that call threw, the rest from
the state that leaves; a hit on a live enemy (one not yet destroyed, as every
enemy `getEnemiesInRange` returns is) does not throw, so the loop is the hit on
the first target followed by the loop over the rest; the damage of a target is made of the next two draws of `Math.random ()`, the
second of which decides the critical multiplier for that target alone; the
call returns, its damage is what the target loses, and it leaves the draw
position at least two further, so every target has draws of its own. -/
theorem C26_damage_rolled_per_target (w : World) (baseDamage : Int) (i : Nat)
    (rest : List Nat) (e : Enemy) (he : w.enemyManager.enemies[i]? = some e) :
    (∀ fuel, CombatSystem.hitTargets fuel baseDamage (i :: rest) w
      = (CombatSystem.hitTarget fuel baseDamage w i).bind fun w1 =>
          if w1.typeErrors = w.typeErrors then CombatSystem.hitTargets fuel baseDamage rest w1
          else some w1) ∧
    (e.hasScene = true →
      (∀ fuel w1, CombatSystem.hitTarget fuel baseDamage w i = some w1 →
        w1.typeErrors = w.typeErrors) ∧
      (∀ fuel, CombatSystem.hitTargets fuel baseDamage (i :: rest) w
        = (CombatSystem.hitTarget fuel baseDamage w i).bind
            (CombatSystem.hitTargets fuel baseDamage rest))) ∧
    (CombatSystem.calculateDamage w baseDamage).1
      = CombatSystem.rollDamage baseDamage (w.random w.randomPos) (w.random (w.randomPos + 1)) ∧
    (∀ r1 r2 : Frac, CombatSystem.rollDamage baseDamage r1 r2
      = if r2.lt { num := 1, den := 10 } then
          CombatSystem.rollDamage baseDamage r1 { num := 1, den := 1 } * 3 / 2
        else CombatSystem.rollDamage baseDamage r1 { num := 1, den := 1 }) ∧
    (∀ fuel w1, CombatSystem.hitTarget fuel baseDamage w i = some w1 →
      (∃ e1, w1.enemyManager.enemies[i]? = some e1 ∧
        e1.stats.hp = max 0 (e.stats.hp
          - ((CombatSystem.rollDamage baseDamage (w.random w.randomPos)
              (w.random (w.randomPos + 1)) : Int) : ℚ))) ∧
      w.randomPos + 2 ≤ w1.randomPos ∧ w1.random = w.random) ∧
    (w.thresholdPositive →
      Settles (fun fuel => CombatSystem.hitTarget fuel baseDamage w i)
        (fun w1 => w.randomPos + 2 ≤ w1.randomPos ∧ w1.random = w.random)) := by
  have hsafe : ∀ fuel w1, CombatSystem.hitTarget fuel baseDamage w i = some w1 →
      (∃ e1, w1.enemyManager.enemies[i]? = some e1 ∧
        e1.stats.hp = max 0 (e.stats.hp
          - ((CombatSystem.rollDamage baseDamage (w.random w.randomPos)
              (w.random (w.randomPos + 1)) : Int) : ℚ))) ∧
      w.randomPos + 2 ≤ w1.randomPos ∧ w1.random = w.random :=
    fun fuel w1 hrun =>
      ⟨CombatSystem.hitTarget_effect fuel baseDamage w w1 i e he hrun,
        CombatSystem.hitTarget_draws fuel baseDamage w w1 i hrun⟩
  refine ⟨fun fuel => rfl,
    fun hs => ⟨fun fuel w1 hrun => CombatSystem.hitTarget_noThrow fuel baseDamage w w1 i e he hs hrun,
      fun fuel => CombatSystem.hitTargets_live fuel baseDamage w i rest e he hs⟩,
    rfl, fun r1 r2 => ?_, hsafe, fun hx => ?_⟩
  · unfold CombatSystem.rollDamage
    simp only
    have hno : Frac.lt { num := 1, den := 1 } { num := 1, den := 10 } = false := by decide
    rw [hno]
    simp
  · exact (CombatSystem.hitTarget_total baseDamage w i hx).strengthen
      (fun fuel w1 hrun => (hsafe fuel w1 hrun).2)

/-- C26 amended, at `twoSkeletonsScene`: the first target is hit with the draws
at positions 0 and 1 and the second with those at positions 2 and 3. -/
theorem C26_damage_rolled_per_target_witness :
    Settles (fun fuel => CombatSystem.hitTarget fuel 25 twoSkeletonsScene 0)
      (fun w1 => twoSkeletonsScene.randomPos + 2 ≤ w1.randomPos ∧
        w1.random = twoSkeletonsScene.random) ∧
    (CombatSystem.hitTarget 1 25 twoSkeletonsScene 0).map
      (fun w1 => (w1.enemyManager.enemies.map (fun e => e.stats.hp), w1.randomPos))
      = some ([23, 60], 2) ∧
    ((CombatSystem.hitTarget 1 25 twoSkeletonsScene 0).bind
        (fun w1 => CombatSystem.hitTarget 1 25 w1 1)).map
      (fun w1 => (w1.enemyManager.enemies.map (fun e => e.stats.hp), w1.randomPos))
      = some ([23, 35], 4) :=
  ⟨(C26_damage_rolled_per_target twoSkeletonsScene 25 0 [1]
      (Enemy.create 410 300 "skeleton" 1) rfl).2.2.2.2.2 (by decide), by decide!, by decide!⟩

/-- C27: the code at the failing input.  The loot table of the skeleton has the
entry `{type: 'helmet', subtype: 'bone', rarity: 'uncommon'}`; `generateItem` has
cases for weapon and armor only, so the entry falls to the default case and
comes back as a consumable with id `'helmet'`, effect `'mana'` and value 20,
with no defense, which `equipItem` rejects. -/
theorem C27_helmet_entry_becomes_consumable :
    helmetLootEntry ∈ InventorySystem.generateLootTable "skeleton" ∧
    (∀ w : World, (InventorySystem.generateItem w helmetLootEntry).1 =
      { id := some "helmet", type := "consumable", rarity := some "common",
        effect := some "mana", value := 20, quantity := 1 }) ∧
    (∀ w : World, (InventorySystem.generateItem w helmetLootEntry).1.type ≠ "helmet" ∧
      (InventorySystem.generateItem w helmetLootEntry).1.defense = 0 ∧
      InventorySystem.isEquippable (InventorySystem.generateItem w helmetLootEntry).1.type
        = false) ∧
    ((InventorySystem.equipItem
        { helmetScene with inventorySystem :=
            (helmetScene.inventorySystem.addItem
              (InventorySystem.generateItem helmetScene helmetLootEntry).1).2 } 3).1 = false) := by
  have hitem : ∀ w : World, (InventorySystem.generateItem w helmetLootEntry).1 =
      { id := some "helmet", type := "consumable", rarity := some "common",
        effect := some "mana", value := 20, quantity := 1 } := by
    intro w
    unfold InventorySystem.generateItem helmetLootEntry
    have h1 : ¬ ("helmet" = "weapon") := by decide
    have h2 : ¬ ("helmet" = "armor") := by decide
    have h3 : ¬ ("helmet" = "health-potion") := by decide
    simp only [h1, h2, h3, if_false]
  refine ⟨by decide, hitem, fun w => ?_, by decide⟩
  rw [hitem w]
  exact ⟨by decide, rfl, by decide⟩

/-- C28: when the draw of the chance test is a value of `Math.random ()`, the first
entry of the loot table of every enemy type is `{type: 'gold', chance: 1.0}`
and it hits; `generateItem` makes of it a consumable with id `'gold'`, effect
`'mana'` and value 20 (after drawing a rarity it does not use), which `addItem`
receives; the rest of the table is rolled from there and the gold counter then
grows by `goldReward`.  When `addItem` accepts the item, a consumable with id
`'gold'` is in the inventory after `handleEnemyLoot`. -/
theorem C28_gold_entry_becomes_item (w : World) (enemy : Enemy)
    (hdraw : (w.random w.randomPos).isDraw) :
    (∃ rareLoot, InventorySystem.generateLootTable enemy.enemyType = goldLootEntry :: rareLoot) ∧
    (w.random w.randomPos).lt goldLootEntry.chance = true ∧
    (∀ w0 : World, (InventorySystem.generateItem w0 goldLootEntry).1 = goldLootItem) ∧
    InventorySystem.rollLoot w goldLootEntry
      = { w with
          randomPos := w.randomPos + 2
          inventorySystem := (w.inventorySystem.addItem goldLootItem).2 } ∧
    InventorySystem.handleEnemyLoot w enemy
      = { (InventorySystem.generateLootTable enemy.enemyType).tail.foldl InventorySystem.rollLoot
            (InventorySystem.rollLoot w goldLootEntry) with
          inventorySystem :=
            { ((InventorySystem.generateLootTable enemy.enemyType).tail.foldl
                  InventorySystem.rollLoot
                  (InventorySystem.rollLoot w goldLootEntry)).inventorySystem with
              gold := ((InventorySystem.generateLootTable enemy.enemyType).tail.foldl
                  InventorySystem.rollLoot
                  (InventorySystem.rollLoot w goldLootEntry)).inventorySystem.gold
                + enemy.stats.goldReward } } ∧
    ((w.inventorySystem.addItem goldLootItem).1 = true →
      (InventorySystem.handleEnemyLoot w enemy).inventorySystem.holdsGoldItem) ∧
    (InventorySystem.handleEnemyLoot w enemy).inventorySystem.gold
      = w.inventorySystem.gold + enemy.stats.goldReward := by
  have htable : ∃ rareLoot,
      InventorySystem.generateLootTable enemy.enemyType = goldLootEntry :: rareLoot := by
    unfold InventorySystem.generateLootTable
    exact ⟨_, rfl⟩
  have hhit : (w.random w.randomPos).lt goldLootEntry.chance = true := by
    unfold Frac.isDraw at hdraw
    simp only [Frac.lt, goldLootEntry, decide_eq_true_eq]
    omega
  have hitem : ∀ w0 : World, (InventorySystem.generateItem w0 goldLootEntry).1 = goldLootItem := by
    intro w0
    unfold InventorySystem.generateItem goldLootEntry goldLootItem
    have h1 : ¬ ("gold" = "weapon") := by decide
    have h2 : ¬ ("gold" = "armor") := by decide
    have h3 : ¬ ("gold" = "health-potion") := by decide
    simp only [h1, h2, h3, if_false]
  have hroll : InventorySystem.rollLoot w goldLootEntry
      = { w with
          randomPos := w.randomPos + 2
          inventorySystem := (w.inventorySystem.addItem goldLootItem).2 } := by
    unfold InventorySystem.rollLoot
    simp only
    have hhit1 : w.nextRandom.1.lt goldLootEntry.chance = true := hhit
    rw [if_pos hhit1, hitem]
    rfl
  have hall : InventorySystem.handleEnemyLoot w enemy
      = { (InventorySystem.generateLootTable enemy.enemyType).tail.foldl InventorySystem.rollLoot
            (InventorySystem.rollLoot w goldLootEntry) with
          inventorySystem :=
            { ((InventorySystem.generateLootTable enemy.enemyType).tail.foldl
                  InventorySystem.rollLoot
                  (InventorySystem.rollLoot w goldLootEntry)).inventorySystem with
              gold := ((InventorySystem.generateLootTable enemy.enemyType).tail.foldl
                  InventorySystem.rollLoot
                  (InventorySystem.rollLoot w goldLootEntry)).inventorySystem.gold
                + enemy.stats.goldReward } } := by
    obtain ⟨rareLoot, hrare⟩ := htable
    unfold InventorySystem.handleEnemyLoot
    rw [hrare]
    rfl
  refine ⟨htable, hhit, hitem, hroll, hall, fun hacc => ?_,
    InventorySystem.handleEnemyLoot_gold w enemy⟩
  rw [hall]
  show ((InventorySystem.generateLootTable enemy.enemyType).tail.foldl InventorySystem.rollLoot
    (InventorySystem.rollLoot w goldLootEntry)).inventorySystem.holdsGoldItem
  apply InventorySystem.foldl_rollLoot_keepsGold
  rw [hroll]
  exact InventorySystem.addItem_holdsGold w.inventorySystem goldLootItem rfl rfl hacc

/-- C28, at the kill of the goblin of `goblinScene`: the gold entry hits on the
draw 1/2, the inventory gets a third slot with one `'gold'` consumable, and the
gold counter goes from 100 to 105. -/
theorem C28_gold_entry_becomes_item_witness :
    (goblinScene.random goblinScene.randomPos).isDraw ∧
    (InventorySystem.handleEnemyLoot goblinScene
        (Enemy.create 410 300 "goblin" 1)).inventorySystem.holdsGoldItem ∧
    ((InventorySystem.handleEnemyLoot goblinScene
        (Enemy.create 410 300 "goblin" 1)).inventorySystem.inventory.map
      (Option.map fun item => (item.id, item.type, item.effect, item.value, item.quantity))
      = [some (some "health-potion", "consumable", some "heal", 30, 3),
         some (some "mana-potion", "consumable", some "mana", 20, 2),
         some (some "gold", "consumable", some "mana", 20, 1)]) ∧
    (goblinScene.inventorySystem.gold,
      (InventorySystem.handleEnemyLoot goblinScene
        (Enemy.create 410 300 "goblin" 1)).inventorySystem.gold) = (100, 105) :=
  ⟨by decide,
    (C28_gold_entry_becomes_item goblinScene (Enemy.create 410 300 "goblin" 1)
      (by decide)).2.2.2.2.2.1 (by decide),
    by decide, by decide⟩

/-- C29, refuted as stated: with `xp = 0`, `xpToNext = 100` and the amount -50 the
call returns without entering the loop (0 iterations, `xp = -50`), while
`Math.floor ((0 + -50) / 100)` is -1, so the stated bound does not hold. -/
theorem C29_loop_bound_fails_for_negative_sum :
    (goblinScene.player.stats.level, goblinScene.player.stats.xp,
      goblinScene.player.stats.xpToNext) = (1, 0, 100) ∧
    (Player.gainXPWith (fun _ w0 => some w0) 0 (-50) goblinScene).map
      (fun w1 => (w1.player.stats.level, w1.player.stats.xp, w1.player.stats.xpToNext))
      = some (1, -50, 100) ∧
    (Player.gainXP 1 (-50) goblinScene).map
      (fun w1 => (w1.player.stats.level, w1.player.stats.xp, w1.player.stats.xpToNext,
        w1.levelUps))
      = some (1, -50, 100, []) ∧
    (goblinScene.player.stats.xp + -50) / goblinScene.player.stats.xpToNext = -1 ∧
    ¬ ((0 : Int) ≤ (goblinScene.player.stats.xp + -50) / goblinScene.player.stats.xpToNext) := by
  decide

/-- C29, amended: for every state with `xpToNext >= 1` and every integer amount,
`Player.gainXP` returns in the scene.  A level-up does not lower `xpToNext` and
lowers `xp` by at least 1.  The loop of the call runs 0 times when
`xp + amount < xpToNext` (a negative sum included), and for `xp + amount >= 0`
it runs at most `Math.floor ((xp + amount) / xpToNext)` times: with the
listener of the scene attached, the loop given that many iterations returns
the state `gainXP` returns.  The bound counts the iterations of the loop of the
call itself; a quest the listener completes hands its XP reward to a nested
`gainXP` call with a loop of its own, so the levels gained can exceed the
bound.  With no listener attached the bound is a bound on the levels gained as
well. -/
theorem C29_gainXP_loop_bound (w : World) (amount : Int)
    (hx : 1 ≤ w.player.stats.xpToNext) :
    Settles (fun fuel => Player.gainXP fuel amount w) World.thresholdPositive ∧
    (w.player.stats.xpToNext ≤ (Player.levelUpStats w.player.stats).xpToNext ∧
      (Player.levelUpStats w.player.stats).xp ≤ w.player.stats.xp - 1) ∧
    (w.player.stats.xp + amount < w.player.stats.xpToNext →
      ∀ fuel, Player.gainXPWith (GameScene.onLevelUp fuel) 0 amount w = some (w.addXP amount) ∧
        Player.gainXP (fuel + 1) amount w = some (w.addXP amount)) ∧
    (0 ≤ w.player.stats.xp + amount →
      ∃ N w1, ∀ fuel, N ≤ fuel →
        Player.gainXP fuel amount w = some w1 ∧
        Player.gainXPWith (GameScene.onLevelUp fuel)
          ((w.player.stats.xp + amount) / w.player.stats.xpToNext).toNat amount w = some w1) ∧
    (w.player.stats.xp + amount < w.player.stats.xpToNext →
      Player.gainXPWith (fun _ w0 => some w0) 0 amount w = some (w.addXP amount)) ∧
    (0 ≤ w.player.stats.xp + amount →
      ∃ w1, Player.gainXPWith (fun _ w0 => some w0)
          ((w.player.stats.xp + amount) / w.player.stats.xpToNext).toNat amount w = some w1 ∧
        0 ≤ w1.player.stats.level - w.player.stats.level ∧
        w1.player.stats.level - w.player.stats.level
          ≤ (w.player.stats.xp + amount) / w.player.stats.xpToNext ∧
        w.player.stats.xpToNext ≤ w1.player.stats.xpToNext ∧
        w1.player.stats.xp < w1.player.stats.xpToNext) := by
  have hnone : w.player.stats.xp + amount < w.player.stats.xpToNext →
      ∀ (onLevelUp : Int → World → Option World) (k : Nat),
        Player.gainXPWith onLevelUp k amount w = some (w.addXP amount) := by
    intro hlt onLevelUp k
    have hexit : ¬ (w.addXP amount).player.stats.xpToNext ≤ (w.addXP amount).player.stats.xp := by
      show ¬ (w.player.stats.xpToNext ≤ w.player.stats.xp + amount)
      omega
    unfold Player.gainXPWith
    cases k with
    | zero => simp only [Player.gainXPLoop, if_neg hexit]
    | succ k => simp only [Player.gainXPLoop, if_neg hexit]
  refine ⟨Player.gainXP_settles w amount hx, ⟨?_, ?_⟩,
    fun hlt fuel => ⟨hnone hlt _ 0, hnone hlt _ (fuel + 1)⟩,
    fun h0 => Player.gainXP_sceneBound w amount hx h0,
    fun hlt => hnone hlt _ 0, fun h0 => ?_⟩
  · show w.player.stats.xpToNext ≤ w.player.stats.xpToNext * 6 / 5
    omega
  · show w.player.stats.xp - w.player.stats.xpToNext ≤ w.player.stats.xp - 1
    omega
  · have hq : 0 ≤ (w.player.stats.xp + amount) / w.player.stats.xpToNext :=
      Int.ediv_nonneg h0 (by omega)
    obtain ⟨w1, hrun, hl0, hl1, ht⟩ := Player.gainXPLoop_alone_bound
      ((w.player.stats.xp + amount) / w.player.stats.xpToNext).toNat (w.addXP amount) hx h0
      (by
        show (w.player.stats.xp + amount) / w.player.stats.xpToNext ≤ _
        rw [Int.toNat_of_nonneg hq])
    exact ⟨w1, hrun, hl0, hl1, ht, Player.gainXPLoop_exit _ _ _ w1 hrun⟩

/-- C29 amended, at the initial scene (`xp = 0`, `xpToNext = 100`, Level Up open)
and the amount 130: the bound is 1, and the loop of the call, given 1
iteration and the listener of the scene, returns the state `gainXP` returns,
level 3 with `xp = 10` and `xpToNext = 144` (the second level is gained in the
nested call for the reward of Level Up); given 0 iterations it does not
return.  At the amount 250 the bound is 2. -/
theorem C29_gainXP_loop_bound_witness :
    Settles (fun fuel => Player.gainXP fuel 130 goblinScene) World.thresholdPositive ∧
    (∃ N w1, ∀ fuel, N ≤ fuel →
      Player.gainXP fuel 130 goblinScene = some w1 ∧
      Player.gainXPWith (GameScene.onLevelUp fuel)
        ((goblinScene.player.stats.xp + 130) / goblinScene.player.stats.xpToNext).toNat
        130 goblinScene = some w1) ∧
    (goblinScene.player.stats.xp + 130) / goblinScene.player.stats.xpToNext = 1 ∧
    (Player.gainXPWith (GameScene.onLevelUp 2) 1 130 goblinScene).map
      (fun w1 => (w1.player.stats.level, w1.player.stats.xp, w1.player.stats.xpToNext))
      = some (3, 10, 144) ∧
    (Player.gainXP 3 130 goblinScene).map
      (fun w1 => (w1.player.stats.level, w1.player.stats.xp, w1.player.stats.xpToNext))
      = some (3, 10, 144) ∧
    (Player.gainXPWith (GameScene.onLevelUp 2) 0 130 goblinScene).map
      (fun w1 => w1.player.stats.level) = none ∧
    (goblinScene.player.stats.xp + 250) / goblinScene.player.stats.xpToNext = 2 ∧
    (Player.gainXPWith (fun _ w0 => some w0) 2 250 goblinScene).map
      (fun w1 => (w1.player.stats.level, w1.player.stats.xp, w1.player.stats.xpToNext))
      = some (3, 30, 144) :=
  ⟨(C29_gainXP_loop_bound goblinScene 130 (by decide)).1,
    (C29_gainXP_loop_bound goblinScene 130 (by decide)).2.2.2.1 (by decide),
    by decide, by decide, by decide, by decide, by decide, by decide⟩

/-- C30: a `Player.equipItem` that replaces an occupied equipment slot puts the
item in the slot and sets `stats.defense` to 5 plus the defense values of the
items then equipped; the result does not depend on the stats before, so the
defense gained at level-ups is not retained.  The starting player has defense 5,
and 6, 7 after one and two level-ups; equipping the reward sword gives
defense 10 (5 and the 5 of the starting armor) in each case. -/
theorem C30_defense_recomputed (p : Player) (item current : Item)
    (h : p.equipment.get item.type = some current) :
    (Player.equipItem p item).equipment = p.equipment.set item.type item ∧
    (Player.equipItem p item).equipment.get item.type = some item ∧
    (Player.equipItem p item).stats.defense
      = 5 + Equipment.slotDefense (Player.equipItem p item).equipment.weapon
          + Equipment.slotDefense (Player.equipItem p item).equipment.armor
          + Equipment.slotDefense (Player.equipItem p item).equipment.helmet
          + Equipment.slotDefense (Player.equipItem p item).equipment.boots ∧
    (∀ stats : Stats, (Player.equipItem { p with stats := stats } item).stats.defense
      = (Player.equipItem p item).stats.defense) := by
  have hequip : ∀ q : Player, q.equipment = p.equipment →
      Player.equipItem q item
        = Player.updateStats { q with equipment := q.equipment.set item.type item } := by
    intro q hq
    unfold Player.equipItem
    rw [hq, h]
  rw [hequip p rfl]
  refine ⟨rfl, ?_, rfl, fun stats => ?_⟩
  · show (p.equipment.set item.type item).get item.type = some item
    unfold Equipment.get at h
    unfold Equipment.set Equipment.get
    split
    · rename_i hk; simp [hk]
    · split
      · rename_i hk1 hk2; simp [hk1, hk2]
      · split
        · rename_i hk1 hk2 hk3; simp [hk1, hk2, hk3]
        · split
          · rename_i hk1 hk2 hk3 hk4; simp [hk1, hk2, hk3, hk4]
          · rename_i hk1 hk2 hk3 hk4
            simp [hk1, hk2, hk3, hk4] at h
  · rw [hequip { p with stats := stats } rfl]
    rfl

/-- C30, at the starting player, also after one and two level-ups: the defense
is 5, 6, 7 before and 10 after equipping the reward sword. -/
theorem C30_defense_recomputed_witness :
    (Player.equipItem Player.initial sharpSword).equipment.weapon = some sharpSword ∧
    (Player.initial.stats.defense, (Player.levelUpStats Player.initial.stats).defense,
      (Player.levelUpStats (Player.levelUpStats Player.initial.stats)).defense) = (5, 6, 7) ∧
    (Player.equipItem Player.initial sharpSword).stats.defense = 10 ∧
    (Player.equipItem
      { Player.initial with stats := Player.levelUpStats Player.initial.stats }
      sharpSword).stats.defense = 10 ∧
    (Player.equipItem
      { Player.initial with
        stats := Player.levelUpStats (Player.levelUpStats Player.initial.stats) }
      sharpSword).stats.defense = 10 := by
  have h := C30_defense_recomputed Player.initial sharpSword
    { id := none, type := "sword", damage := 15, attackSpeed := some { num := 1, den := 1 } } rfl
  refine ⟨?_, by decide, by decide, ?_, ?_⟩
  · rw [h.1]; rfl
  · rw [h.2.2.2]; decide
  · rw [h.2.2.2]; decide


end PixelGame
